import Mathlib

/-!
ctkLayoutManager: a shallow embedding of `Libs/Widgets/ctkLayoutManager.cpp`

The layout manager reads an XML description of nested containers and views and
builds the matching Qt widget hierarchy inside one or more viewports; a refresh
tears the previous hierarchy down and builds it again.

Modelling conventions.

* The XML document is a tree of `QDomNode`s accessed, as in the source, through
  `firstChild()` / `nextSibling()`.
* A `QWidget*` is a `QWidgetPtr`; a null pointer is `none`.  Widgets made by the
  application (viewports, views) and widgets made by the manager with `new` live
  in two disjoint address ranges.
* The hierarchy hanging below a viewport is a tree of `QLayoutItem`s.  Toolkit
  containers are ordered lists of children; Qt's special handling of a widget that
  is inserted twice into one container is not modelled.
* Every function takes the private state (`ctkLayoutManagerPrivate` together with
  the toolkit state it reads and writes) and returns the new one.
* Dereferencing a null pointer ends the run: `Result.crash`.
* `Q_ASSERT` is compiled out of release builds; the model records a violated
  assertion (its source line) in `failedAsserts` and continues, so a run that
  records no violation is a run of both build kinds.
* `while` loops of the teardown run on fuel: `none` means that the fuel did not
  suffice.
* `viewFromXML` has no implementation in the class and `viewsFromXML` is
  virtual: both are parameters (`Hooks`).  `createViewport` is the base
  implementation of the source.
-/

namespace CTK

/-! ## The XML document (`QDomNode`, `QDomElement`) -/

/-- A DOM node with its first child and its next sibling.  `null` is the null node (and
the null element); `other` is any node that is not an element (text, comment). -/
inductive QDomNode where
  | null
  | other (nextSibling : QDomNode)
  | element (tagName : String) (attributes : List (String × String))
      (firstChild nextSibling : QDomNode)
  deriving DecidableEq

namespace QDomNode

/-- Models `QDomNode::isNull()`. -/
def isNull : QDomNode → Bool
  | null => true
  | _ => false

/-- Models `QDomNode::toElement()`: the node itself when it is an element, the null element
otherwise. -/
def toElement : QDomNode → QDomNode
  | element t a c n => element t a c n
  | _ => null

/-- Models `QDomElement::tagName()`; empty for the null element. -/
def tagName : QDomNode → String
  | element t _ _ _ => t
  | _ => ""

/-- Models `QDomElement::attribute(name, defValue)` (`attribute` is a reserved word). -/
def attr : QDomNode → String → String → String
  | element _ a _ _, name, defValue => (a.lookup name).getD defValue
  | _, _, defValue => defValue

/-- Models `QDomNode::firstChild()`. -/
def firstChild : QDomNode → QDomNode
  | element _ _ c _ => c
  | _ => null

/-- Models `QDomNode::nextSibling()`. -/
def nextSibling : QDomNode → QDomNode
  | element _ _ _ n => n
  | other n => n
  | null => null

/-- Length of the sibling chain that starts at a node. -/
def chainLength : QDomNode → Nat
  | null => 0
  | other n => n.chainLength + 1
  | element _ _ _ n => n.chainLength + 1

/-- Models `QDomNode::childNodes().count()`. -/
def childCount (n : QDomNode) : Nat := n.firstChild.chainLength

end QDomNode

/-! ## `QString::toInt` -/

/-- Value of a decimal digit. -/
def digitValue (c : Char) : Option Nat :=
  if '0' ≤ c ∧ c ≤ '9' then some (c.toNat - '0'.toNat) else none

/-- Value of a non-empty run of decimal digits read after the accumulator `acc`. -/
def parseDigits : List Char → Nat → Option Nat
  | [], acc => some acc
  | c :: cs, acc =>
    match digitValue c with
    | some d => parseDigits cs (10 * acc + d)
    | none => none

/-- Drops leading white space. -/
def dropSpaces : List Char → List Char
  | c :: cs => if c = ' ' ∨ c = '\t' ∨ c = '\n' ∨ c = '\r' then dropSpaces cs else c :: cs
  | [] => []

/-- Models `QString::toInt()` in base 10: an optionally signed decimal numeral with
surrounding white space ignored; 0 when the text is no such numeral or the value does not
fit a 32-bit `int`. -/
def toInt (s : String) : Int :=
  let body := (dropSpaces (dropSpaces s.data).reverse).reverse
  let inRange (v : Int) : Int := if -2147483648 ≤ v ∧ v ≤ 2147483647 then v else 0
  match body with
  | '-' :: d :: ds =>
    match parseDigits (d :: ds) 0 with
    | some n => inRange (-(n : Int))
    | none => 0
  | '+' :: d :: ds =>
    match parseDigits (d :: ds) 0 with
    | some n => inRange (n : Int)
    | none => 0
  | d :: ds =>
    match parseDigits (d :: ds) 0 with
    | some n => inRange (n : Int)
    | none => 0
  | [] => 0

/-! ## Widgets and layout items -/

/-- Identity of a `QWidget`. -/
inductive QWidgetPtr where
  /-- Widget made outside the manager: a viewport or a view. -/
  | external (id : Nat)
  /-- Widget made by the manager with `new`; `id` counts the allocations. -/
  | created (id : Nat)
  deriving DecidableEq

/-- Models `Qt::Orientation`. -/
inductive Orientation where
  | Horizontal
  | Vertical
  deriving DecidableEq

/-- Arguments of `QGridLayout::addItem(item, row, column, rowSpan, columnSpan)`. -/
structure GridCell where
  row : Int
  column : Int
  rowSpan : Int
  columnSpan : Int
  deriving DecidableEq

/-- What a `QLayoutItem*` of the manager points to, with everything below it.

* `widgetItem wid`: `new QWidgetItem(wid)` around a widget the manager did not create
  (`wid` may be null);
* `boxLayout`: a `QHBoxLayout` / `QVBoxLayout` with contents margins, spacing (`none`: never
  set) and items;
* `gridLayout`: a `QGridLayout`; `cells` holds the cell of each item, in the same order;
* `splitter`: `new QWidgetItem(new QSplitter(o))` with its panes and the argument of
  `setSizes`, if it was called;
* `tabWidget`: `new QWidgetItem(new QTabWidget())` with its pages and their labels;
* `widget` / `widgetWithLayout`: a plain `new QWidget()`, without and with a layout.

In a list of panes or pages an entry stands for the widget itself. -/
inductive QLayoutItem where
  | widgetItem (wid : Option QWidgetPtr)
  | boxLayout (o : Orientation) (margins spacing : Option Int) (items : List QLayoutItem)
  | gridLayout (margins spacing : Option Int) (items : List QLayoutItem)
      (cells : List GridCell)
  | splitter (ptr : QWidgetPtr) (o : Orientation) (pages : List QLayoutItem)
      (sizes : Option (List Int))
  | tabWidget (ptr : QWidgetPtr) (pages : List QLayoutItem) (labels : List String)
  | widget (ptr : QWidgetPtr)
  | widgetWithLayout (ptr : QWidgetPtr) (layout : QLayoutItem)

namespace QLayoutItem

/-- Models `QLayoutItem::widget()`. -/
def widget? : QLayoutItem → Option QWidgetPtr
  | widgetItem wid => wid
  | splitter p _ _ _ => some p
  | tabWidget p _ _ => some p
  | widget p => some p
  | widgetWithLayout p _ => some p
  | _ => none

/-- Models `QLayoutItem::layout()` as a test: the item is a `QLayout`. -/
def isLayout : QLayoutItem → Bool
  | boxLayout _ _ _ _ => true
  | gridLayout _ _ _ _ => true
  | _ => false

/-- Items of a layout (`QLayout::itemAt(0)`, `itemAt(1)`, ...); empty for anything else. -/
def items : QLayoutItem → List QLayoutItem
  | boxLayout _ _ _ l => l
  | gridLayout _ _ l _ => l
  | _ => []

/-- Models `layout->setContentsMargins(m, m, m, m)`. -/
def setContentsMargins : QLayoutItem → Int → QLayoutItem
  | boxLayout o _ sp l, m => boxLayout o (some m) sp l
  | gridLayout _ sp l c, m => gridLayout (some m) sp l c
  | item, _ => item

/-- Models `layout->setSpacing(sp)`. -/
def setSpacing : QLayoutItem → Int → QLayoutItem
  | boxLayout o m _ l, sp => boxLayout o m (some sp) l
  | gridLayout m _ l c, sp => gridLayout m (some sp) l c
  | item, _ => item

/-- Argument of the `QSplitter::setSizes` call made on the item, if any. -/
def appliedSizes : QLayoutItem → Option (List Int)
  | splitter _ _ _ sizes => sizes
  | _ => none

end QLayoutItem

mutual
/-- Widgets that a layout manages directly or through nested layouts: the widgets that
`QWidget::setLayout` reparents. -/
def QLayoutItem.childWidgets : QLayoutItem → List QWidgetPtr
  | .widgetItem wid => wid.toList
  | .boxLayout _ _ _ l => childWidgetsOfItems l
  | .gridLayout _ _ l _ => childWidgetsOfItems l
  | .splitter p _ _ _ => [p]
  | .tabWidget p _ _ => [p]
  | .widget p => [p]
  | .widgetWithLayout p _ => [p]
/-- Child widgets of a list of items. -/
def childWidgetsOfItems : List QLayoutItem → List QWidgetPtr
  | [] => []
  | x :: xs => x.childWidgets ++ childWidgetsOfItems xs
end


/-! ## The private state -/

/-- Models `QDomDocument`: `impl` is the identity of the shared document data, `none` for a
null document. -/
structure QDomDocument where
  impl : Option Nat
  root : QDomNode
  deriving DecidableEq

/-- Models `QDomDocument::isNull()`. -/
def QDomDocument.isNull (doc : QDomDocument) : Bool := doc.impl.isNone

/-- Models `QDomDocument::documentElement()`. -/
def QDomDocument.documentElement (doc : QDomDocument) : QDomNode :=
  if doc.isNull then QDomNode.null else doc.root.toElement

/-- Calls of virtual member functions that the model keeps track of. -/
inductive Call where
  | setupViewport (layoutElement : QDomNode) (viewportName : String)
  | onViewportUsageChanged (viewportName : String)
  | onViewportChanged
  deriving DecidableEq

/-- The members of `ctkLayoutManagerPrivate` followed by the toolkit state. -/
structure ManagerState where
  /-- Member `int Spacing`. -/
  Spacing : Int
  /-- Member `QDomDocument Layout`. -/
  Layout : QDomDocument
  /-- Member `QMap<QString, QWidget*> Viewports`, in key order. -/
  Viewports : List (String × Option QWidgetPtr)
  /-- Member `QSet<QWidget*> Views`. -/
  Views : List QWidgetPtr
  /-- Member `QSet<QWidget*> LayoutWidgets`. -/
  LayoutWidgets : List QWidgetPtr
  /-- Last value given to `QWidget::setVisible`. -/
  visible : QWidgetPtr → Bool
  /-- Value of `QWidget::parent()`. -/
  parent : QWidgetPtr → Option QWidgetPtr
  /-- Value of `QWidget::layout()` for a widget that is not part of a tree: a viewport. -/
  layout : QWidgetPtr → Option QLayoutItem
  /-- Dynamic property `LayoutManagerUsedInLayout`. -/
  usedInLayout : QWidgetPtr → Bool
  /-- Dynamic property `LayoutManagerViewportName` of the widgets of the application. -/
  viewportName : QWidgetPtr → String
  /-- Value of `QWidget::windowTitle()` for the widgets of the application. -/
  windowTitle : QWidgetPtr → String
  /-- Value of `QWidget::updatesEnabled()`. -/
  updatesEnabled : QWidgetPtr → Bool
  /-- Number of widgets made with `new` so far. -/
  allocated : Nat
  /-- Operands of `delete widget`, oldest first. -/
  deleted : List QWidgetPtr
  /-- Tracked calls, oldest first. -/
  calls : List Call
  /-- Source lines of the `qWarning()`s issued, oldest first. -/
  warnings : List Nat
  /-- Source lines of the violated `Q_ASSERT`s, oldest first. -/
  failedAsserts : List Nat

namespace ManagerState

/-- Models `Q_ASSERT(cond)` at source line `line`. -/
def Q_ASSERT (s : ManagerState) (cond : Bool) (line : Nat) : ManagerState :=
  if cond then s else { s with failedAsserts := s.failedAsserts ++ [line] }

/-- Models `qWarning() << ...` at source line `line`. -/
def qWarning (s : ManagerState) (line : Nat) : ManagerState :=
  { s with warnings := s.warnings ++ [line] }

/-- Records a tracked call. -/
def call (s : ManagerState) (c : Call) : ManagerState :=
  { s with calls := s.calls ++ [c] }

/-- Models `new QWidget()`, `new QSplitter(o)`, `new QTabWidget()`: a widget that did not exist
before. -/
def newWidget (s : ManagerState) : QWidgetPtr × ManagerState :=
  (QWidgetPtr.created s.allocated, { s with allocated := s.allocated + 1 })

/-- Models `widget->setVisible(v)`. -/
def setVisible (s : ManagerState) (w : QWidgetPtr) (v : Bool) : ManagerState :=
  { s with visible := Function.update s.visible w v }

/-- Models `widget->setParent(p)`. -/
def setParent (s : ManagerState) (w : QWidgetPtr) (p : Option QWidgetPtr) : ManagerState :=
  { s with parent := Function.update s.parent w p }

/-- Models `widget->setLayout(l)` with `l` not null: refused by Qt when the widget already
has a layout; otherwise the layout is installed and the widgets it manages become children
of the widget. -/
def setLayout (s : ManagerState) (w : QWidgetPtr) (l : QLayoutItem) : ManagerState :=
  match s.layout w with
  | some _ => s
  | none =>
    { s with
      layout := Function.update s.layout w (some l)
      parent := fun x => if x ∈ l.childWidgets then some w else s.parent x }

/-- Models `delete widget`.  The manager deletes a container only after its loops have
emptied it, so no child goes with it. -/
def deleteWidget (s : ManagerState) (w : QWidgetPtr) : ManagerState :=
  { s with deleted := s.deleted ++ [w] }

/-- Models `ctkLayoutManagerPrivate::viewport(viewportName)` (l.66): null when the name is
not in the map. -/
def viewport (s : ManagerState) (viewportName : String) : Option QWidgetPtr :=
  match s.Viewports.lookup viewportName with
  | some v => v
  | none => none

/-- Models `ctkLayoutManagerPrivate::viewportNameForWidget` (l.77) for a widget that is
not null.  Nothing gives the property to a widget made by the manager. -/
def viewportNameForWidget (s : ManagerState) (widget : QWidgetPtr) : String :=
  match widget with
  | .external _ => s.viewportName widget
  | .created _ => ""

/-- Models `widget->windowTitle()`.  Nothing gives a title to a widget made by the manager. -/
def windowTitleOf (s : ManagerState) (widget : QWidgetPtr) : String :=
  match widget with
  | .external _ => s.windowTitle widget
  | .created _ => ""

/-- Models `ctkLayoutManagerPrivate::viewportForWidget` (l.55) for a widget that is not null. -/
def viewportForWidget (s : ManagerState) (widget : QWidgetPtr) : Option QWidgetPtr :=
  s.viewport (s.viewportNameForWidget widget)

/-- Models `ctkLayoutManagerPrivate::isViewportUsedInLayout(QWidget*)` (l.97). -/
def isViewportUsedInLayoutWidget (s : ManagerState) (viewport : Option QWidgetPtr) : Bool :=
  match viewport with
  | none => false
  | some v => s.usedInLayout v

/-- Models `ctkLayoutManagerPrivate::setViewportUsedInLayout` (l.107). -/
def setViewportUsedInLayout (s : ManagerState) (viewport : Option QWidgetPtr) (owned : Bool) :
    ManagerState :=
  match viewport with
  | none => s
  | some v => { s with usedInLayout := Function.update s.usedInLayout v owned }

/-- Models `ctkLayoutManager::viewportNames()` (l.706): `d->Viewports.keys()`. -/
def viewportNames (s : ManagerState) : List String := s.Viewports.map Prod.fst

/-- Models `ctkLayoutManager::isViewportUsedInLayout(const QString&)` (l.713). -/
def isViewportUsedInLayout (s : ManagerState) (viewportName : String) : Bool :=
  match s.viewport viewportName with
  | none => false
  | some v => s.isViewportUsedInLayoutWidget (some v)

end ManagerState

/-- Outcome of a run that may dereference a null pointer: the value returned and the state
reached, or the state in which the null pointer was dereferenced. -/
inductive Result (α : Type) where
  | ok (value : α) (s : ManagerState)
  | crash (s : ManagerState)

/-- State at the end of a run, completed or not. -/
def Result.state {α : Type} : Result α → ManagerState
  | .ok _ s => s
  | .crash s => s

/-- The run completed. -/
def Result.isOk {α : Type} : Result α → Bool
  | .ok _ _ => true
  | .crash _ => false

/-- Applies a function to the value returned. -/
def Result.map {α β : Type} (f : α → β) : Result α → Result β
  | .ok a s => .ok (f a) s
  | .crash s => .crash s

/-- The virtual member functions supplied by a derived class.  A view is a widget of the
application, named by the number of its `QWidgetPtr.external`. -/
structure Hooks where
  /-- Models `viewFromXML(viewElement)`: the view of an element, or null. -/
  viewFromXML : QDomNode → Option Nat
  /-- Models `viewsFromXML(viewElement)`: the views of an element, some possibly null. -/
  viewsFromXML : QDomNode → List (Option Nat)

/-- Models `ctkLayoutManager::viewsFromXML` (l.698), the base implementation. -/
def viewsFromXML (viewFromXML : QDomNode → Option Nat) (viewElement : QDomNode) :
    List (Option Nat) :=
  [] ++ [viewFromXML viewElement]

/-- A derived class that implements `viewFromXML` only. -/
def Hooks.base (viewFromXML : QDomNode → Option Nat) : Hooks :=
  ⟨viewFromXML, CTK.viewsFromXML viewFromXML⟩

/-! ## Build engine -/

/-- Models `ctkLayoutManager::layoutFromXML` (l.552). -/
def layoutFromXML (layoutElement : QDomNode) (s : ManagerState) :
    Option QLayoutItem × ManagerState :=
  let s := s.Q_ASSERT (layoutElement.tagName = "layout") 554
  let type := layoutElement.attr "type" "horizontal"
  let split := layoutElement.attr "split" "false" = "true"
  if type = "vertical" then
    if split then
      (some (.splitter s.newWidget.1 .Vertical [] none), s.newWidget.2)
    else
      (some (.boxLayout .Vertical none none []), s)
  else if type = "horizontal" then
    if split then
      (some (.splitter s.newWidget.1 .Horizontal [] none), s.newWidget.2)
    else
      (some (.boxLayout .Horizontal none none []), s)
  else if type = "grid" then
    (some (.gridLayout none none [] []), s)
  else if type = "tab" then
    (some (.tabWidget s.newWidget.1 [] []), s.newWidget.2)
  else
    (none, s)

/-- Models `ctkLayoutManager::setupView` (l.670). -/
def setupView (_viewElement : QDomNode) (view : Option QWidgetPtr) (s : ManagerState) :
    ManagerState :=
  match view with
  | none => s
  | some v => { s.setVisible v true with Views := (s.setVisible v true).Views.insert v }

/-- Models `ctkLayoutManager::widgetItemFromXML` (l.657). -/
def widgetItemFromXML (H : Hooks) (viewElement : QDomNode) (s : ManagerState) :
    Option QLayoutItem × ManagerState :=
  let view := (H.viewFromXML viewElement).map QWidgetPtr.external
  match view with
  | none => (none, s)
  | some v => (some (.widgetItem (some v)), setupView viewElement (some v) s)

/-- The `foreach` of `widgetItemsFromXML` (l.689). -/
def widgetItemsLoop (viewElement : QDomNode) :
    List (Option QWidgetPtr) → List QLayoutItem → ManagerState → List QLayoutItem × ManagerState
  | [], res, s => (res, s)
  | view :: views, res, s =>
    widgetItemsLoop viewElement views (res ++ [.widgetItem view]) (setupView viewElement view s)

/-- Models `ctkLayoutManager::widgetItemsFromXML` (l.683). -/
def widgetItemsFromXML (H : Hooks) (viewElement : QDomNode) (s : ManagerState) :
    List QLayoutItem × ManagerState :=
  let views := (H.viewsFromXML viewElement).map (Option.map QWidgetPtr.external)
  let s := s.Q_ASSERT (views.length ≠ 0) 688
  widgetItemsLoop viewElement views [] s

/-- The widget that becomes a page of a tab widget or a pane of a splitter (l.638-644): the
widget of the child item or, when it has none, a new `QWidget` that takes the layout of the
child item. -/
def pageWidget (childItem : QLayoutItem) (s : ManagerState) : QLayoutItem × ManagerState :=
  match childItem.widget? with
  | some _ => (childItem, s)
  | none =>
    let childWidget := s.newWidget.1
    let s := s.newWidget.2
    let s := { s with LayoutWidgets := s.LayoutWidgets.insert childWidget }
    if childItem.isLayout then
      (.widgetWithLayout childWidget childItem,
        { s with parent := fun x => if x ∈ childItem.childWidgets then some childWidget
                                    else s.parent x })
    else
      (.widget childWidget, s)

/-- Makes every widget of `page` a child of `container` (`addTab`, `addWidget`). -/
def adopt (container : QWidgetPtr) (page : QLayoutItem) (s : ManagerState) : ManagerState :=
  match page.widget? with
  | some w => s.setParent w (some container)
  | none => s

/-- Models `ctkLayoutManager::addChildItemToLayout` (l.610); returns the container with the
child in it. -/
def addChildItemToLayout (itemElement : QDomNode) (childItem layoutItem : QLayoutItem)
    (s : ManagerState) : QLayoutItem × ManagerState :=
  let itemName := itemElement.attr "name" ""
  let itemName :=
    match childItem.widget? with
    | some w => if itemName.isEmpty then s.windowTitleOf w else itemName
    | none => itemName
  match layoutItem with
  | .gridLayout m sp items cells =>
    let row := toInt (itemElement.attr "row" "0")
    let col := toInt (itemElement.attr "column" "0")
    let rowSpan := toInt (itemElement.attr "rowspan" "1")
    let colSpan := toInt (itemElement.attr "colspan" "1")
    (.gridLayout m sp (items ++ [childItem]) (cells ++ [⟨row, col, rowSpan, colSpan⟩]), s)
  | .boxLayout o m sp items =>
    (.boxLayout o m sp (items ++ [childItem]), s)
  | .tabWidget tab pages labels =>
    let page := pageWidget childItem s
    (.tabWidget tab (pages ++ [page.1]) (labels ++ [itemName]), adopt tab page.1 page.2)
  | .splitter splitter o pages sizes =>
    let page := pageWidget childItem s
    (.splitter splitter o (pages ++ [page.1]) sizes, adopt splitter page.1 page.2)
  | other => (other, s)

/-- The `foreach` of `processItemElement` (l.603). -/
def addChildItems (itemElement : QDomNode) :
    List QLayoutItem → QLayoutItem → ManagerState → QLayoutItem × ManagerState
  | [], layoutItem, s => (layoutItem, s)
  | item :: rest, layoutItem, s =>
    addChildItems itemElement rest (addChildItemToLayout itemElement item layoutItem s).1
      (addChildItemToLayout itemElement item layoutItem s).2

/-- Body of `ctkLayoutManager::processItemElement` (l.585) with
`this->processElement(itemElement.firstChild().toElement())` passed as `processInner`;
returns the container with the children in it. -/
def processItemElementWith (H : Hooks)
    (processInner : ManagerState → Result (Option QLayoutItem))
    (itemElement : QDomNode) (layoutItem : QLayoutItem) (s : ManagerState) :
    Result QLayoutItem :=
  let s := s.Q_ASSERT (itemElement.tagName = "item") 587
  let s := s.Q_ASSERT (itemElement.childCount = 1) 588
  let multiple := itemElement.attr "multiple" "false" = "true"
  if multiple then
    let r := widgetItemsFromXML H itemElement.firstChild.toElement s
    let r := addChildItems itemElement r.1 layoutItem r.2
    .ok r.1 r.2
  else
    match processInner s with
    | .crash s => .crash s
    | .ok none s => .ok layoutItem s
    | .ok (some item) s =>
      let r := addChildItems itemElement ([] ++ [item]) layoutItem s
      .ok r.1 r.2

/-- Body of `ctkLayoutManager::processElement` (l.479) with `this->processLayoutElement`
passed as `processLayout`. -/
def processElementWith (H : Hooks) (processLayout : QDomNode → ManagerState → Result QLayoutItem)
    (element : QDomNode) (s : ManagerState) : Result (Option QLayoutItem) :=
  let s := s.Q_ASSERT (!element.isNull) 481
  if element.tagName = "layout" then
    (processLayout element s).map some
  else
    Result.ok (widgetItemFromXML H element s).1 (widgetItemFromXML H element s).2

/-- The end of `processLayoutElement` (l.530-546): the sizes are given to a splitter when one
of them is positive. -/
def applySplitSizes (layoutItem : QLayoutItem) (splitSizes : List Int) : QLayoutItem :=
  match layoutItem with
  | .splitter p o pages sizes =>
    if splitSizes.any (fun i => decide (i > 0)) then .splitter p o pages (some splitSizes)
    else .splitter p o pages sizes
  | other => other

mutual
/-- Models `ctkLayoutManager::processLayoutElement` (l.494). -/
def processLayoutElement (H : Hooks) (layoutElement : QDomNode) (s : ManagerState) :
    Result QLayoutItem :=
  let s := s.Q_ASSERT (layoutElement.tagName = "layout") 497
  match layoutFromXML layoutElement s with
  | (none, s) => .crash s
  | (some layoutItem, s) =>
    let s :=
      if layoutItem.isLayout then s
      else
        match layoutItem.widget? with
        | some widget => { s with LayoutWidgets := s.LayoutWidgets.insert widget }
        | none => s
    let layoutItem :=
      if layoutItem.isLayout then (layoutItem.setContentsMargins 0).setSpacing s.Spacing
      else layoutItem
    let r :=
      match layoutElement with
      | .element _ _ firstChild _ => processChildren H firstChild layoutItem [] s
      | _ => .ok (layoutItem, []) s
    match r with
    | .crash s => .crash s
    | .ok (layoutItem, splitSizes) s => .ok (applySplitSizes layoutItem splitSizes) s
/-- The `for` loop of `processLayoutElement` (l.515-527) from the node `child` on; returns the
container and the split sizes collected. -/
def processChildren (H : Hooks) (child : QDomNode) (layoutItem : QLayoutItem)
    (splitSizes : List Int) (s : ManagerState) : Result (QLayoutItem × List Int) :=
  match child with
  | .null => .ok (layoutItem, splitSizes) s
  | .other next => processChildren H next layoutItem splitSizes s
  | .element tag attrs firstChild next =>
    let itemElement := QDomNode.element tag attrs firstChild next
    let splitSize := toInt (itemElement.attr "splitSize" "0")
    let splitSizes := splitSizes ++ [splitSize]
    let processInner :=
      processElementWith H (fun _ s => processLayoutElement H firstChild s) firstChild.toElement
    match processItemElementWith H processInner itemElement layoutItem s with
    | .crash s => .crash s
    | .ok layoutItem s => processChildren H next layoutItem splitSizes s
end

/-- Models `ctkLayoutManager::processElement` (l.479). -/
def processElement (H : Hooks) (element : QDomNode) (s : ManagerState) :
    Result (Option QLayoutItem) :=
  processElementWith H (processLayoutElement H) element s

/-- Models `ctkLayoutManager::processItemElement` (l.585); returns the container with the
children in it. -/
def processItemElement (H : Hooks) (itemElement : QDomNode) (layoutItem : QLayoutItem)
    (s : ManagerState) : Result QLayoutItem :=
  processItemElementWith H (processElement H itemElement.firstChild.toElement)
    itemElement layoutItem s


/-- Models `ctkLayoutManager::createViewport` (l.356), the base implementation: no viewport is
made. -/
def createViewport (_layoutElement : QDomNode) (_viewportName : String) : Option QWidgetPtr :=
  none

/-- Models `d->Viewports[viewportName] = viewport` on the map kept in key order. -/
def insertViewport (viewportName : String) (viewport : Option QWidgetPtr) :
    List (String × Option QWidgetPtr) → List (String × Option QWidgetPtr)
  | [] => [(viewportName, viewport)]
  | (k, v) :: rest =>
    if viewportName = k then (viewportName, viewport) :: rest
    else if viewportName.data < k.data then (viewportName, viewport) :: (k, v) :: rest
    else (k, v) :: insertViewport viewportName viewport rest

/-- The layout that `setupViewport` gives to the viewport (l.387-394): the item itself when it
is a layout, otherwise a new `QHBoxLayout` without margins that holds the item. -/
def viewportLayout (layoutItem : QLayoutItem) : QLayoutItem :=
  if layoutItem.isLayout then layoutItem
  else .boxLayout .Horizontal (some 0) none ([] ++ [layoutItem])

/-- Models `ctkLayoutManager::setupViewport` (l.366). -/
def setupViewport (H : Hooks) (layoutElement : QDomNode) (viewportName : String)
    (s : ManagerState) : Result Unit :=
  let s := s.call (.setupViewport layoutElement viewportName)
  if layoutElement.isNull then .ok () s
  else
    let found :=
      match s.viewport viewportName with
      | some viewport => (some viewport, s)
      | none =>
        match createViewport layoutElement viewportName with
        | none => (none, s.qWarning 379)
        | some viewport =>
          (some viewport,
            { s with Viewports := insertViewport viewportName (some viewport) s.Viewports })
    match found with
    | (none, s) => .ok () s
    | (some viewport, s) =>
      let s := s.Q_ASSERT (s.layout viewport).isNone 384
      match processElement H layoutElement s with
      | .crash s => .crash s
      | .ok layoutItem s =>
        let s := s.Q_ASSERT layoutItem.isSome 386
        match layoutItem with
        | none => .crash s
        | some layoutItem => .ok () (s.setLayout viewport (viewportLayout layoutItem))

/-- The `for` loop of `setupLayout` over the children of `viewports` (l.307-329) from the node
`child` on; returns `viewportNamesUsedInLayout`. -/
def setupViewports (H : Hooks) (child : QDomNode) (viewportNamesUsedInLayout : List String)
    (s : ManagerState) : Result (List String) :=
  match child with
  | .null => .ok viewportNamesUsedInLayout s
  | .other next => setupViewports H next viewportNamesUsedInLayout s
  | .element tag attrs firstChild next =>
    let element := QDomNode.element tag attrs firstChild next
    if element.tagName ≠ "layout" then
      setupViewports H next viewportNamesUsedInLayout (s.qWarning 318)
    else
      let viewportName := element.attr "name" ""
      if viewportName ∈ viewportNamesUsedInLayout then
        setupViewports H next viewportNamesUsedInLayout (s.qWarning 324)
      else
        match setupViewport H element viewportName s with
        | .crash s => .crash s
        | .ok _ s => setupViewports H next (viewportNamesUsedInLayout ++ [viewportName]) s

/-- The `foreach` at the end of `setupLayout` (l.341-352) over the viewport names. -/
def updateViewportUsage (viewportNamesUsedInLayout : List String) :
    List String → ManagerState → ManagerState
  | [], s => s
  | viewportName :: rest, s =>
    let usedInLayout := decide (viewportName ∈ viewportNamesUsedInLayout)
    let viewport := s.viewport viewportName
    if s.isViewportUsedInLayoutWidget viewport = usedInLayout then
      updateViewportUsage viewportNamesUsedInLayout rest s
    else
      updateViewportUsage viewportNamesUsedInLayout rest
        ((s.setViewportUsedInLayout viewport usedInLayout).call
          (.onViewportUsageChanged viewportName))

/-- The middle of `setupLayout` (l.304-340): the content of the viewports is built; returns
`viewportNamesUsedInLayout`. -/
def setupDocument (H : Hooks) (s : ManagerState) : Result (List String) :=
  let root := s.Layout.documentElement
  if root.tagName = "viewports" then
    setupViewports H root.firstChild [] s
  else if root.tagName = "layout" then
    let viewportName := root.attr "name" ""
    match setupViewport H root viewportName s with
    | .crash s => .crash s
    | .ok _ s => .ok ([] ++ [viewportName]) s
  else
    .ok [] (s.qWarning 339)

/-- Models `ctkLayoutManager::setupLayout` (l.294). -/
def setupLayout (H : Hooks) (s : ManagerState) : Result Unit :=
  if s.Layout.isNull ∨ s.Layout.documentElement.isNull then .ok () s
  else
    match setupDocument H { s with Views := [], LayoutWidgets := [] } with
    | .crash s => .crash s
    | .ok viewportNamesUsedInLayout s =>
      .ok () (updateViewportUsage viewportNamesUsedInLayout s.viewportNames s)

/-! ## Teardown engine -/

mutual
/-- Models `ctkLayoutManagerPrivate::clearWidget` (l.117) on the widget of `node`; the caller
takes the widget out of its container (`removeWidget`, or the effect of `setParent` and
`delete` on a tab widget or splitter). -/
def clearWidget : Nat → QLayoutItem → ManagerState → Option ManagerState
  | 0, _, _ => none
  | fuel + 1, node, s =>
    match node.widget? with
    | none => some s
    | some widget =>
      if widget ∉ s.LayoutWidgets then
        some ((s.setVisible widget false).setParent widget (s.viewportForWidget widget))
      else
        let cleared :=
          match node with
          | .widgetWithLayout _ layout => clearItems fuel layout.items s
          | .tabWidget _ pages _ => clearPages fuel pages s
          | .splitter _ _ pages _ => clearPages fuel pages (s.setVisible widget false)
          | _ => some s
        match cleared with
        | none => none
        | some s =>
          some ({ s with LayoutWidgets := s.LayoutWidgets.erase widget }.deleteWidget widget)
/-- The `while` loop of `ctkLayoutManagerPrivate::clearLayout` (l.176-190) on the items that
the layout holds. -/
def clearItems : Nat → List QLayoutItem → ManagerState → Option ManagerState
  | 0, _, _ => none
  | _ + 1, [], s => some s
  | fuel + 1, layoutItem :: rest, s =>
    match layoutItem.widget? with
    | some widget =>
      match clearWidget fuel layoutItem s with
      | none => none
      | some s =>
        clearItems fuel ((layoutItem :: rest).filter (fun i => decide (i.widget? ≠ some widget))) s
    | none =>
      if layoutItem.isLayout then
        match clearItems fuel layoutItem.items s with
        | none => none
        | some s => clearItems fuel rest s
      else
        clearItems fuel (layoutItem :: rest) s
/-- The `while` loops of `clearWidget` over the pages of a tab widget (l.137) and the panes of
a splitter (l.152). -/
def clearPages : Nat → List QLayoutItem → ManagerState → Option ManagerState
  | 0, _, _ => none
  | _ + 1, [], s => some s
  | fuel + 1, page :: rest, s =>
    match clearWidget fuel page s with
    | none => none
    | some s =>
      clearPages fuel ((page :: rest).filter (fun i => decide (i.widget? ≠ page.widget?))) s
end

/-- Models `ctkLayoutManagerPrivate::clearLayout` (l.168) called on the layout of the widget
`owner` (`layout->parentWidget()`), which the call deletes at the end (l.191). -/
def clearLayoutOf (fuel : Nat) (owner : QWidgetPtr) (s : ManagerState) : Option ManagerState :=
  match s.layout owner with
  | none => some s
  | some layout =>
    match clearItems fuel layout.items s with
    | none => none
    | some s => some { s with layout := Function.update s.layout owner none }

/-- The `foreach` of `ctkLayoutManager::clearLayout` (l.281-290). -/
def clearViewports (fuel : Nat) :
    List (Option QWidgetPtr) → ManagerState → Option ManagerState
  | [], s => some s
  | none :: rest, s => clearViewports fuel rest s
  | some viewport :: rest, s =>
    match clearLayoutOf fuel viewport s with
    | none => none
    | some s => clearViewports fuel rest (s.Q_ASSERT (s.LayoutWidgets.length = 0) 289)

/-- Models `ctkLayoutManager::clearLayout()` (l.278). -/
def clearLayout (fuel : Nat) (s : ManagerState) : Option ManagerState :=
  clearViewports fuel (s.Viewports.map Prod.snd) s

/-! ## Public operations -/

/-- The first `foreach` of `refresh` (l.254-262); returns the local map `updatesEnabled`, newest
entry first. -/
def disableUpdates :
    List (Option QWidgetPtr) → List (QWidgetPtr × Bool) → ManagerState →
      List (QWidgetPtr × Bool) × ManagerState
  | [], saved, s => (saved, s)
  | none :: rest, saved, s => disableUpdates rest saved s
  | some viewport :: rest, saved, s =>
    disableUpdates rest ((viewport, s.updatesEnabled viewport) :: saved)
      { s with updatesEnabled := Function.update s.updatesEnabled viewport false }

/-- The second `foreach` of `refresh` (l.266-274). -/
def restoreUpdates (saved : List (QWidgetPtr × Bool)) :
    List (Option QWidgetPtr) → ManagerState → ManagerState
  | [], s => s
  | none :: rest, s => restoreUpdates saved rest s
  | some viewport :: rest, s =>
    match saved.lookup viewport with
    | none => restoreUpdates saved rest s
    | some enabled =>
      restoreUpdates saved rest
        { s with updatesEnabled := Function.update s.updatesEnabled viewport enabled }

/-- Models `ctkLayoutManager::refresh` (l.250); `none` when the teardown does not return
within the fuel. -/
def refresh (fuel : Nat) (H : Hooks) (s : ManagerState) : Option (Result Unit) :=
  let saved := disableUpdates (s.Viewports.map Prod.snd) [] s
  match clearLayout fuel saved.2 with
  | none => none
  | some s =>
    match setupLayout H s with
    | .crash s => some (.crash s)
    | .ok _ s => some (.ok () (restoreUpdates saved.1 (s.Viewports.map Prod.snd) s))

/-- Models `ctkLayoutManager::setSpacing` (l.242). -/
def setSpacing (fuel : Nat) (H : Hooks) (spacing : Int) (s : ManagerState) :
    Option (Result Unit) :=
  refresh fuel H { s with Spacing := spacing }

/-- Models `ctkLayoutManager::setLayout` (l.460). -/
def setLayout (fuel : Nat) (H : Hooks) (newLayout : QDomDocument) (s : ManagerState) :
    Option (Result Unit) :=
  if newLayout.impl = s.Layout.impl then some (.ok () s)
  else refresh fuel H { s with Layout := newLayout }

/-- The `foreach` of `setViewport` (l.425-433). -/
def detachViews (oldViewport : QWidgetPtr) : List QWidgetPtr → ManagerState → ManagerState
  | [], s => s
  | view :: rest, s =>
    if s.parent view = some oldViewport then
      detachViews oldViewport rest ((s.setParent view none).setVisible view false)
    else
      detachViews oldViewport rest s

/-- Models `ctkLayoutManager::setViewport(viewport, viewportName)` (l.411) followed by
`onViewportChanged` (l.447). -/
def setViewport (fuel : Nat) (H : Hooks) (viewport : Option QWidgetPtr) (viewportName : String)
    (s : ManagerState) : Option (Result Unit) :=
  let oldViewport := s.viewport viewportName
  if viewport = oldViewport then some (.ok () s)
  else
    let cleared :=
      match oldViewport with
      | none => some s
      | some old =>
        match clearLayoutOf fuel old s with
        | none => none
        | some s => some (detachViews old s.Views s)
    match cleared with
    | none => none
    | some s =>
      refresh fuel H
        ({ s with Viewports := insertViewport viewportName viewport s.Viewports }.call
          .onViewportChanged)

/-! ## Relations between states -/

/-- The part of the state that the build engine never writes below `setupViewport`: two
states agree on the members and properties that only the manager-level functions change. -/
structure SameOutside (s s' : ManagerState) : Prop where
  Spacing : s'.Spacing = s.Spacing
  Layout : s'.Layout = s.Layout
  Viewports : s'.Viewports = s.Viewports
  layout : s'.layout = s.layout
  usedInLayout : s'.usedInLayout = s.usedInLayout
  viewportName : s'.viewportName = s.viewportName
  windowTitle : s'.windowTitle = s.windowTitle
  updatesEnabled : s'.updatesEnabled = s.updatesEnabled
  deleted : s'.deleted = s.deleted
  calls : s'.calls = s.calls
  warnings : s'.warnings = s.warnings

/-! ## Concrete states and documents -/

/-- State of a manager that was just constructed (l.37, l.200): spacing 0, null document,
nothing registered; the widgets of the application are hidden and have no parent, layout,
property or title. -/
def ManagerState.initial : ManagerState :=
  { Spacing := 0
    Layout := ⟨none, .null⟩
    Viewports := []
    Views := []
    LayoutWidgets := []
    visible := fun _ => false
    parent := fun _ => none
    layout := fun _ => none
    usedInLayout := fun _ => false
    viewportName := fun _ => ""
    windowTitle := fun _ => ""
    updatesEnabled := fun _ => true
    allocated := 0
    deleted := []
    calls := []
    warnings := []
    failedAsserts := [] }

/-- A manager whose default viewport is the widget `external 0` and whose document has the
root `root`. -/
def ManagerState.withDocument (root : QDomNode) : ManagerState :=
  { ManagerState.initial with
    Layout := ⟨some 1, root⟩
    Viewports := [("", some (.external 0))] }

/-- A derived class whose `viewFromXML` resolves no element. -/
def noViews : Hooks := Hooks.base (fun _ => none)

/-- A derived class whose `viewFromXML` resolves `<view id="n"/>` to the widget `external n`
and nothing else. -/
def viewsById : Hooks :=
  Hooks.base (fun e => if e.tagName = "view" then some (toInt (e.attr "id" "0")).toNat else none)

/-- The element `<view id="id"/>` followed by `next`. -/
def viewElement (id : String) (next : QDomNode) : QDomNode :=
  .element "view" [("id", id)] .null next

/-- The element `<item attrs>inner</item>` followed by `next`. -/
def itemElement (attrs : List (String × String)) (inner next : QDomNode) : QDomNode :=
  .element "item" attrs inner next

/-! ## Notions used to state the properties -/

/-- The element nodes of the sibling chain that starts at a node, in document order. -/
def QDomNode.elementsFrom : QDomNode → List QDomNode
  | .null => []
  | .other next => next.elementsFrom
  | .element tag attrs firstChild next =>
    .element tag attrs firstChild next :: next.elementsFrom

/-- The child elements of an element, in document order. -/
def QDomNode.childElements (e : QDomNode) : List QDomNode := e.firstChild.elementsFrom

/-- The `splitSize` values of the child elements of a container element, in document order:
one entry per child, 0 (the value of the default `"0"`) for a child without the attribute. -/
def splitSizesOf (layoutElement : QDomNode) : List Int :=
  layoutElement.childElements.map (fun child => toInt (child.attr "splitSize" "0"))

/-- The item wraps a `QSplitter`. -/
def QLayoutItem.isSplitter : QLayoutItem → Bool
  | .splitter _ _ _ _ => true
  | _ => false

/-- The `type` attribute of the element has one of the four values that `layoutFromXML`
knows. -/
def recognizedType (layoutElement : QDomNode) : Bool :=
  layoutElement.attr "type" "horizontal" = "vertical" ∨
  layoutElement.attr "type" "horizontal" = "horizontal" ∨
  layoutElement.attr "type" "horizontal" = "grid" ∨
  layoutElement.attr "type" "horizontal" = "tab"

mutual
/-- The `layout` element and every `layout` element that `processLayoutElement` reaches from
it have a recognized type. -/
def typesRecognized : QDomNode → Bool
  | .element tag attrs firstChild next =>
    recognizedType (.element tag attrs firstChild next) && itemsRecognized firstChild
  | _ => true
/-- The same for the items of the sibling chain that starts at a node: the content of an item
counts when the item is not `multiple` and the content is a `layout` element. -/
def itemsRecognized : QDomNode → Bool
  | .null => true
  | .other next => itemsRecognized next
  | .element tag attrs firstChild next =>
    (if (QDomNode.element tag attrs firstChild next).attr "multiple" "false" = "true" then true
      else if firstChild.toElement.tagName = "layout" then typesRecognized firstChild
      else true) && itemsRecognized next
end


/-- The `layout` children of the root element, in document order. -/
def layoutChildren (root : QDomNode) : List QDomNode :=
  root.childElements.filter (fun e => decide (e.tagName = "layout"))

/-- Of the elements that carry the same `name`, only the first; the order is kept. -/
def firstPerName : List QDomNode → List QDomNode
  | [] => []
  | x :: xs => x :: (firstPerName xs).filter (fun y => decide (y.attr "name" "" ≠ x.attr "name" ""))

/-- The arguments of the calls of `setupViewport` among the tracked calls, in order. -/
def setupViewportCalls (calls : List Call) : List (QDomNode × String) :=
  calls.filterMap fun c =>
    match c with
    | .setupViewport e name => some (e, name)
    | _ => none

/-- The number of calls `onViewportUsageChanged(viewportName)` among the tracked calls. -/
def usageChangedCount (viewportName : String) (calls : List Call) : Nat :=
  calls.count (.onViewportUsageChanged viewportName)

/-- Members and properties that neither the build nor the teardown writes. -/
structure SameRegistry (s s' : ManagerState) : Prop where
  Spacing : s'.Spacing = s.Spacing
  Layout : s'.Layout = s.Layout
  Viewports : s'.Viewports = s.Viewports
  usedInLayout : s'.usedInLayout = s.usedInLayout
  viewportName : s'.viewportName = s.viewportName
  windowTitle : s'.windowTitle = s.windowTitle

/-- The `layout` elements that `setupLayout` passes to `setupViewport` when it starts at the
node `child` with the names `names` already used: of each name that is not in `names`, the
first `layout` element of the sibling chain that carries it. -/
def viewportElements (names : List String) (child : QDomNode) : List QDomNode :=
  (firstPerName (child.elementsFrom.filter (fun e => decide (e.tagName = "layout")))).filter
    (fun e => decide (e.attr "name" "" ∉ names))

/-- Every registered name has a viewport that is not null, and no viewport is registered under
two names. -/
def ManagerState.viewportsDistinct (s : ManagerState) : Prop :=
  (s.Viewports.map Prod.fst).Nodup ∧ (∀ p ∈ s.Viewports, p.2 ≠ none) ∧
    (s.Viewports.map Prod.snd).Nodup

instance (s : ManagerState) : Decidable s.viewportsDistinct := by
  unfold ManagerState.viewportsDistinct
  infer_instance

/-- Everything but the property `LayoutManagerUsedInLayout` and the tracked calls is the
same. -/
structure SameButUsage (s s' : ManagerState) : Prop where
  Spacing : s'.Spacing = s.Spacing
  Layout : s'.Layout = s.Layout
  Viewports : s'.Viewports = s.Viewports
  Views : s'.Views = s.Views
  LayoutWidgets : s'.LayoutWidgets = s.LayoutWidgets
  visible : s'.visible = s.visible
  parent : s'.parent = s.parent
  layout : s'.layout = s.layout
  viewportName : s'.viewportName = s.viewportName
  windowTitle : s'.windowTitle = s.windowTitle
  updatesEnabled : s'.updatesEnabled = s.updatesEnabled
  allocated : s'.allocated = s.allocated
  deleted : s'.deleted = s.deleted
  warnings : s'.warnings = s.warnings
  failedAsserts : s'.failedAsserts = s.failedAsserts

/-- A manager with the viewports `external 0` and `external 1` registered under the names `a`
and `b`, and a document with the root `root`. -/
def ManagerState.withTwoViewports (root : QDomNode) : ManagerState :=
  { ManagerState.initial with
    Layout := ⟨some 1, root⟩
    Viewports := [("a", some (.external 0)), ("b", some (.external 1))] }

/-- The document
`<viewports><layout name="a"/><layout name="b" type="tab"/><layout name="a" type="grid"/></viewports>`. -/
def duplicateNameDocument : QDomNode :=
  .element "viewports" []
    (.element "layout" [("name", "a")] .null
      (.element "layout" [("name", "b"), ("type", "tab")] .null
        (.element "layout" [("name", "a"), ("type", "grid")] .null .null)))
    .null

/-- Members and properties that the teardown engine does not write. -/
structure SameOutsideTeardown (s s' : ManagerState) : Prop where
  Spacing : s'.Spacing = s.Spacing
  Layout : s'.Layout = s.Layout
  Viewports : s'.Viewports = s.Viewports
  Views : s'.Views = s.Views
  usedInLayout : s'.usedInLayout = s.usedInLayout
  viewportName : s'.viewportName = s.viewportName
  windowTitle : s'.windowTitle = s.windowTitle
  updatesEnabled : s'.updatesEnabled = s.updatesEnabled
  allocated : s'.allocated = s.allocated
  calls : s'.calls = s.calls
  warnings : s'.warnings = s.warnings

/-- The viewport names that a document with the root `root` uses: `viewportNamesUsedInLayout`
at the end of a `setupLayout` that completes. -/
def usedNames (root : QDomNode) : List String :=
  if root.tagName = "viewports" then
    (viewportElements [] root.firstChild).map (fun e => e.attr "name" "")
  else if root.tagName = "layout" then [root.attr "name" ""]
  else []

/-- A manager whose widget `external 0` is registered under the names `a` and `b`, with the
document `<layout name="a"/>`. -/
def ManagerState.withSharedViewport : ManagerState :=
  { ManagerState.initial with
    Layout := ⟨some 1, .element "layout" [("name", "a")] .null .null⟩
    Viewports := [("a", some (.external 0)), ("b", some (.external 0))] }

/-- A manager with the document `<layout name="x"/>` whose viewport named `x` is the widget
`external 0`. -/
def ManagerState.withViewportX : ManagerState :=
  { ManagerState.initial with
    Layout := ⟨some 1, .element "layout" [("name", "x")] .null .null⟩
    Viewports := [("x", some (.external 0))] }

/-- A manager with the document `<layout name="x"/>` whose viewport named `x` was replaced by
a null pointer (`setViewport(0, "x")`). -/
def ManagerState.withNullViewport : ManagerState :=
  { ManagerState.initial with
    Layout := ⟨some 1, .element "layout" [("name", "x")] .null .null⟩
    Viewports := [("x", none)] }

/-- The document `<layout type="vertical"><item><view id="5"/></item></layout>`. -/
def singleLayoutDocument : QDomNode :=
  .element "layout" [("type", "vertical")] (itemElement [] (viewElement "5" .null) .null) .null

/-- The document
`<layout><item multiple="true"><view/></item><item><layout type="tab"/></item></layout>`:
a horizontal box with an item that asks for the views of `<view/>` and an item that holds a
tab widget. -/
def nullViewDocument : QDomNode :=
  .element "layout" []
    (itemElement [("multiple", "true")] (.element "view" [] .null .null)
      (itemElement [] (.element "layout" [("type", "tab")] .null .null) .null))
    .null


/-! ## Notions used to state the properties of the teardown -/

mutual
/-- The widgets of a tree that the manager made: splitters, tab widgets and plain `QWidget`s,
parents before children. -/
def QLayoutItem.containers : QLayoutItem → List QWidgetPtr
  | .widgetItem _ => []
  | .boxLayout _ _ _ l => containersOfItems l
  | .gridLayout _ _ l _ => containersOfItems l
  | .splitter p _ pages _ => p :: containersOfItems pages
  | .tabWidget p pages _ => p :: containersOfItems pages
  | .widget p => [p]
  | .widgetWithLayout p layout => p :: layout.containers
/-- The widgets that the manager made in a list of items. -/
def containersOfItems : List QLayoutItem → List QWidgetPtr
  | [] => []
  | x :: xs => x.containers ++ containersOfItems xs
end

mutual
/-- The widgets of a tree that the manager did not make: the widgets of its `QWidgetItem`s,
which are the views placed in it. -/
def QLayoutItem.views : QLayoutItem → List QWidgetPtr
  | .widgetItem wid => wid.toList
  | .boxLayout _ _ _ l => viewsOfItems l
  | .gridLayout _ _ l _ => viewsOfItems l
  | .splitter _ _ pages _ => viewsOfItems pages
  | .tabWidget _ pages _ => viewsOfItems pages
  | .widget _ => []
  | .widgetWithLayout _ layout => layout.views
/-- The views placed in a list of items. -/
def viewsOfItems : List QLayoutItem → List QWidgetPtr
  | [] => []
  | x :: xs => x.views ++ viewsOfItems xs
end

mutual
/-- The shape of a tree in which every item was placed with a widget or a layout: no
`QWidgetItem` holds a null widget, the pages of a tab widget and the panes of a splitter are
widgets, and the layout of a `QWidget` is a box or a grid. -/
def QLayoutItem.wellFormed : QLayoutItem → Bool
  | .widgetItem wid => wid.isSome
  | .boxLayout _ _ _ l => wellFormedItems l
  | .gridLayout _ _ l _ => wellFormedItems l
  | .splitter _ _ pages _ => wellFormedItems pages && pages.all (fun i => !i.isLayout)
  | .tabWidget _ pages _ => wellFormedItems pages && pages.all (fun i => !i.isLayout)
  | .widget _ => true
  | .widgetWithLayout _ layout => layout.isLayout && layout.wellFormed
/-- Every item of the list is well formed. -/
def wellFormedItems : List QLayoutItem → Bool
  | [] => true
  | x :: xs => x.wellFormed && wellFormedItems xs
end

mutual
/-- A number of nested calls that is enough for the teardown of a tree. -/
def QLayoutItem.clearCost : QLayoutItem → Nat
  | .widgetItem _ => 1
  | .boxLayout _ _ _ l => 1 + clearCostOfItems l
  | .gridLayout _ _ l _ => 1 + clearCostOfItems l
  | .splitter _ _ pages _ => 1 + clearCostOfItems pages
  | .tabWidget _ pages _ => 1 + clearCostOfItems pages
  | .widget _ => 1
  | .widgetWithLayout _ layout => 1 + layout.clearCost
/-- A number of nested calls that is enough for the teardown of a list of items. -/
def clearCostOfItems : List QLayoutItem → Nat
  | [] => 1
  | x :: xs => 1 + x.clearCost + clearCostOfItems xs
end

/-- The items of the layout of a widget, none when it has no layout: what
`ctkLayoutManagerPrivate::clearLayout` takes down when called on `viewport->layout()`. -/
def ManagerState.layoutItems (s : ManagerState) (viewport : QWidgetPtr) : List QLayoutItem :=
  match s.layout viewport with
  | none => []
  | some layout => layout.items

/-- The items of the layouts that the widgets `viewports` have, in the order of the list. -/
def ManagerState.itemsOf (s : ManagerState) : List (Option QWidgetPtr) → List QLayoutItem
  | [] => []
  | none :: rest => s.itemsOf rest
  | some viewport :: rest => s.layoutItems viewport ++ s.itemsOf rest

/-- The items of the layouts of the registered viewports: what `clearLayout()` takes down. -/
def ManagerState.installedItems (s : ManagerState) : List QLayoutItem :=
  s.itemsOf (s.Viewports.map Prod.snd)

/-- What the teardown engine does to the widgets between `s` and `s'`: it hides widgets, makes
a widget the child of the viewport of its name, and forgets and deletes owned widgets. -/
structure TeardownStep (s s' : ManagerState) : Prop where
  same : SameOutsideTeardown s s'
  visible : ∀ w, s.visible w = false → s'.visible w = false
  parent : ∀ w, s'.parent w = s.parent w ∨ s'.parent w = s.viewportForWidget w
  owned : ∀ w, w ∈ s'.LayoutWidgets → w ∈ s.LayoutWidgets
  deleted : ∀ w, w ∈ s'.deleted → w ∈ s.deleted ∨ w ∈ s.LayoutWidgets

/-- A list of items is ready for the teardown in the state `s`: the items are well formed,
the widgets that the manager made in them are owned and pairwise distinct, and no view placed
in them is owned. -/
structure ReadyToClear (s : ManagerState) (items : List QLayoutItem) : Prop where
  wellFormed : wellFormedItems items = true
  nodup : (containersOfItems items).Nodup
  owned : ∀ p ∈ containersOfItems items, p ∈ s.LayoutWidgets
  views : ∀ v ∈ viewsOfItems items, v ∉ s.LayoutWidgets

/-- Between `s` and `s'` the views placed in `items` were hidden and made children of the
viewport of their name, and no owned widget outside `items` was forgotten. -/
structure ViewsDetached (s s' : ManagerState) (items : List QLayoutItem) : Prop where
  views : ∀ v ∈ viewsOfItems items, s'.visible v = false ∧ s'.parent v = s.viewportForWidget v
  kept : ∀ w ∈ s.LayoutWidgets, w ∉ containersOfItems items → w ∈ s'.LayoutWidgets

/-- The document
`<layout type="vertical"><item><view id="1"/></item>
<item><layout type="tab"><item><view id="3"/></item></layout></item></layout>`:
a view in a box and a view in a tab widget. -/
def boxAndTabDocument : QDomNode :=
  .element "layout" [("type", "vertical")]
    (itemElement [] (viewElement "1" .null)
      (itemElement []
        (.element "layout" [("type", "tab")] (itemElement [] (viewElement "3" .null) .null)
          .null)
        .null))
    .null

/-! ## Notions used to state what the build makes -/

mutual
/-- No item with `multiple="true"` that `processLayoutElement` reaches from the `layout`
element gets a null view from `viewsFromXML`. -/
def viewsResolved (H : Hooks) : QDomNode → Bool
  | .element _ _ firstChild _ => itemViewsResolved H firstChild
  | _ => true
/-- The same for the items of the sibling chain that starts at a node: the content of an item
counts when the item is not `multiple` and the content is a `layout` element. -/
def itemViewsResolved (H : Hooks) : QDomNode → Bool
  | .null => true
  | .other next => itemViewsResolved H next
  | .element tag attrs firstChild next =>
    (if (QDomNode.element tag attrs firstChild next).attr "multiple" "false" = "true" then
        decide (none ∉ H.viewsFromXML firstChild.toElement)
      else if firstChild.toElement.tagName = "layout" then viewsResolved H firstChild
      else true) && itemViewsResolved H next
end

/-- No item with `multiple="true"` of the document gets a null view: the condition holds for
the root when it is a `layout`, and for the `layout` children of a root `viewports`. -/
def documentViewsResolved (H : Hooks) (root : QDomNode) : Prop :=
  if root.tagName = "viewports" then
    ∀ e ∈ root.firstChild.elementsFrom, e.tagName = "layout" → viewsResolved H e = true
  else viewsResolved H root = true

instance (H : Hooks) (root : QDomNode) : Decidable (documentViewsResolved H root) := by
  unfold documentViewsResolved
  infer_instance

/-- The tree `item` is as the build makes it between the allocation counter `lo` and the
state `s`: it is well formed, the widgets that the manager made in it are pairwise distinct,
were allocated from `lo` on and are owned, and its views are widgets of the application. -/
structure BuiltTree (lo : Nat) (s : ManagerState) (item : QLayoutItem) : Prop where
  wellFormed : item.wellFormed = true
  nodup : item.containers.Nodup
  created : ∀ p ∈ item.containers, ∃ n, p = QWidgetPtr.created n ∧ lo ≤ n ∧ n < s.allocated
  owned : ∀ p ∈ item.containers, p ∈ s.LayoutWidgets
  views : ∀ v ∈ item.views, ∃ n, v = QWidgetPtr.external n

/-- What the build engine does to the allocation counter and the owned widgets between `s`
and `s'`: the widgets it adds to the owned widgets are the ones it allocates. -/
structure BuildStep (s s' : ManagerState) : Prop where
  allocated : s.allocated ≤ s'.allocated
  kept : ∀ p ∈ s.LayoutWidgets, p ∈ s'.LayoutWidgets
  added : ∀ p ∈ s'.LayoutWidgets, p ∈ s.LayoutWidgets ∨
    ∃ n, p = QWidgetPtr.created n ∧ s.allocated ≤ n ∧ n < s'.allocated

/-- The widget is a registered viewport. -/
def ManagerState.isViewport (s : ManagerState) (w : QWidgetPtr) : Prop :=
  some w ∈ s.Viewports.map Prod.snd

/-- The layouts of the registered viewports are as the build makes them: the items of each
are those of a built tree, no widget that the manager made is in the layouts of two viewports,
and every owned widget was allocated by the manager. -/
structure TreesBuilt (s : ManagerState) : Prop where
  wellFormed : ∀ w, s.isViewport w → wellFormedItems (s.layoutItems w) = true
  nodup : ∀ w, s.isViewport w → (containersOfItems (s.layoutItems w)).Nodup
  created : ∀ w, s.isViewport w → ∀ p ∈ containersOfItems (s.layoutItems w),
    (∃ n, p = QWidgetPtr.created n ∧ n < s.allocated) ∧ p ∈ s.LayoutWidgets
  views : ∀ w, s.isViewport w → ∀ v ∈ viewsOfItems (s.layoutItems w),
    ∃ n, v = QWidgetPtr.external n
  disjoint : ∀ w w', s.isViewport w → s.isViewport w' → w ≠ w' →
    ∀ p ∈ containersOfItems (s.layoutItems w), p ∉ containersOfItems (s.layoutItems w')
  owned : ∀ p ∈ s.LayoutWidgets, ∃ n, p = QWidgetPtr.created n ∧ n < s.allocated

/-! ## Notions used to state where the views are -/

/-- The item is one of the four containers that `layoutFromXML` makes: the kinds to which
`addChildItemToLayout` adds a child. -/
def QLayoutItem.holdsChildren : QLayoutItem → Bool
  | .boxLayout _ _ _ _ => true
  | .gridLayout _ _ _ _ => true
  | .splitter _ _ _ _ => true
  | .tabWidget _ _ _ => true
  | _ => false

/-- Every view of the set `Views` is placed in the layout of a registered viewport, and a
registered viewport has a layout only when one of the names `names` is its name. -/
structure ViewsAttached (s : ManagerState) (names : List String) : Prop where
  attached : ∀ v ∈ s.Views, ∃ w, s.isViewport w ∧ v ∈ viewsOfItems (s.layoutItems w)
  used : ∀ w, s.isViewport w → s.layout w ≠ none → ∃ n ∈ names, s.viewport n = some w

/-- The set `Views` after a refresh with the document `document` that returned `r`, when the
set was `before`: with a null document the refresh completes, the set is as before and no
registered viewport holds an item; with any other document, when the refresh completes, the
members of the set are the views placed in the layouts of the registered viewports. -/
def ViewsAfterRefresh (document : QDomDocument) (before : List QWidgetPtr) (r : Result Unit) :
    Prop :=
  ((document.isNull = true ∨ document.documentElement.isNull = true) →
    r.isOk = true ∧ r.state.Views = before ∧ r.state.installedItems = []) ∧
  (¬ (document.isNull = true ∨ document.documentElement.isNull = true) →
    r.isOk = true → ∀ v, v ∈ r.state.Views ↔ v ∈ viewsOfItems r.state.installedItems)

/-- The document
`<viewports><layout name="a" type="tab"/><layout name="b" type="tab"/></viewports>`: a tab
widget for each of two viewports. -/
def twoTabsDocument : QDomNode :=
  .element "viewports" []
    (.element "layout" [("name", "a"), ("type", "tab")] .null
      (.element "layout" [("name", "b"), ("type", "tab")] .null .null))
    .null

/-! ## Notions used to state that no assertion is violated -/

mutual
/-- The assertions of the build engine hold on the element: it is a `layout` element (l.497,
l.554), each of its child elements is an `item` (l.587) with exactly one child node (l.588),
which is an element (l.481) or, in an item with `multiple="true"`, an element for which
`viewsFromXML` gives at least one view (l.688); and the same holds of every `layout` element
that is the content of an item without `multiple`.  The assertion of l.613 holds in every
run: no null item reaches `addChildItemToLayout`. -/
def assertionsHold (H : Hooks) : QDomNode → Bool
  | .element tag _ firstChild _ => decide (tag = "layout") && itemAssertionsHold H firstChild
  | _ => false
/-- The same for the items of the sibling chain that starts at a node. -/
def itemAssertionsHold (H : Hooks) : QDomNode → Bool
  | .null => true
  | .other next => itemAssertionsHold H next
  | .element tag attrs firstChild next =>
    decide (tag = "item") &&
    decide ((QDomNode.element tag attrs firstChild next).childCount = 1) &&
    (if (QDomNode.element tag attrs firstChild next).attr "multiple" "false" = "true" then
        decide ((H.viewsFromXML firstChild.toElement).length ≠ 0)
      else !firstChild.toElement.isNull &&
        (if firstChild.toElement.tagName = "layout" then assertionsHold H firstChild
          else true)) &&
    itemAssertionsHold H next
end

/-- The document
`<viewports><layout name="a" type="carousel"/><layout name="b"/></viewports>`: the content of
the first of two viewports has an unrecognized type. -/
def carouselFirstDocument : QDomNode :=
  .element "viewports" []
    (.element "layout" [("name", "a"), ("type", "carousel")] .null
      (.element "layout" [("name", "b")] .null .null))
    .null

/-- Every view placed in the layout of a registered viewport is in the set `Views`. -/
def ViewsRecorded (s : ManagerState) : Prop :=
  ∀ w, s.isViewport w → ∀ v ∈ viewsOfItems (s.layoutItems w), v ∈ s.Views

/-- Every widget that the manager owns is in the layout of the first of the viewports `vs`
that is not null. -/
def ManagerState.ownedInFirstOf (s : ManagerState) (vs : List (Option QWidgetPtr)) : Prop :=
  match vs.reduceOption with
  | [] => True
  | w :: _ => ∀ p ∈ s.LayoutWidgets, p ∈ containersOfItems (s.layoutItems w)

instance (s : ManagerState) (vs : List (Option QWidgetPtr)) : Decidable (s.ownedInFirstOf vs) := by
  unfold ManagerState.ownedInFirstOf
  split <;> infer_instance

/-- Every widget that the manager owns is in the layout of the first registered viewport, in
the order of the names, that is not null: the condition under which the owned widgets are
all forgotten when the loop of `clearLayout()` evaluates its assertion (l.289) for the first
time. -/
def ManagerState.ownedInFirstViewport (s : ManagerState) : Prop :=
  s.ownedInFirstOf (s.Viewports.map Prod.snd)

instance (s : ManagerState) : Decidable s.ownedInFirstViewport := by
  unfold ManagerState.ownedInFirstViewport
  infer_instance
/-! ## Lemmas on the build engine -/

theorem SameOutside.refl (s : ManagerState) : SameOutside s s :=
  ⟨rfl, rfl, rfl, rfl, rfl, rfl, rfl, rfl, rfl, rfl, rfl⟩

theorem SameOutside.trans {a b c : ManagerState} (h1 : SameOutside a b) (h2 : SameOutside b c) :
    SameOutside a c :=
  ⟨h2.1.trans h1.1, h2.2.trans h1.2, h2.3.trans h1.3, h2.4.trans h1.4, h2.5.trans h1.5,
    h2.6.trans h1.6, h2.7.trans h1.7, h2.8.trans h1.8, h2.9.trans h1.9, h2.10.trans h1.10,
    h2.11.trans h1.11⟩

theorem SameOutside.Q_ASSERT (s : ManagerState) (c : Bool) (line : Nat) :
    SameOutside s (s.Q_ASSERT c line) := by
  unfold ManagerState.Q_ASSERT
  split <;> exact ⟨rfl, rfl, rfl, rfl, rfl, rfl, rfl, rfl, rfl, rfl, rfl⟩

theorem SameOutside.newWidget (s : ManagerState) : SameOutside s s.newWidget.2 :=
  ⟨rfl, rfl, rfl, rfl, rfl, rfl, rfl, rfl, rfl, rfl, rfl⟩

theorem SameOutside.layoutFromXML (e : QDomNode) (s : ManagerState) :
    SameOutside s (layoutFromXML e s).2 := by
  unfold CTK.layoutFromXML
  simp only []
  have h1 := SameOutside.Q_ASSERT s (decide (e.tagName = "layout")) 554
  have h2 := h1.trans (SameOutside.newWidget _)
  split_ifs <;> assumption

theorem SameOutside.setupView (e : QDomNode) (v : Option QWidgetPtr) (s : ManagerState) :
    SameOutside s (setupView e v s) := by
  cases v <;> exact ⟨rfl, rfl, rfl, rfl, rfl, rfl, rfl, rfl, rfl, rfl, rfl⟩

theorem SameOutside.widgetItemFromXML (H : Hooks) (e : QDomNode) (s : ManagerState) :
    SameOutside s (widgetItemFromXML H e s).2 := by
  unfold CTK.widgetItemFromXML
  cases H.viewFromXML e <;> simp only [Option.map]
  · exact SameOutside.refl s
  · exact SameOutside.setupView _ _ _

theorem SameOutside.widgetItemsLoop (e : QDomNode) (views : List (Option QWidgetPtr)) :
    ∀ (res : List QLayoutItem) (s : ManagerState), SameOutside s (widgetItemsLoop e views res s).2 := by
  induction views with
  | nil => intro res s; exact SameOutside.refl s
  | cons v vs ih =>
    intro res s
    exact (SameOutside.setupView e v s).trans (ih _ _)

theorem SameOutside.widgetItemsFromXML (H : Hooks) (e : QDomNode) (s : ManagerState) :
    SameOutside s (widgetItemsFromXML H e s).2 :=
  (SameOutside.Q_ASSERT s _ 688).trans (SameOutside.widgetItemsLoop e _ _ _)

theorem SameOutside.pageWidget (c : QLayoutItem) (s : ManagerState) :
    SameOutside s (pageWidget c s).2 := by
  unfold CTK.pageWidget
  split
  · exact SameOutside.refl s
  · simp only []
    split <;> exact ⟨rfl, rfl, rfl, rfl, rfl, rfl, rfl, rfl, rfl, rfl, rfl⟩

theorem SameOutside.adopt (w : QWidgetPtr) (p : QLayoutItem) (s : ManagerState) :
    SameOutside s (adopt w p s) := by
  unfold CTK.adopt
  split <;> exact ⟨rfl, rfl, rfl, rfl, rfl, rfl, rfl, rfl, rfl, rfl, rfl⟩

theorem SameOutside.addChildItemToLayout (e : QDomNode) (c l : QLayoutItem) (s : ManagerState) :
    SameOutside s (addChildItemToLayout e c l s).2 := by
  unfold CTK.addChildItemToLayout
  cases l <;> simp only [] <;>
    first
      | exact SameOutside.refl s
      | exact (SameOutside.pageWidget c s).trans (SameOutside.adopt _ _ _)

theorem SameOutside.addChildItems (e : QDomNode) (items : List QLayoutItem) :
    ∀ (l : QLayoutItem) (s : ManagerState), SameOutside s (addChildItems e items l s).2 := by
  induction items with
  | nil => intro l s; exact SameOutside.refl s
  | cons c cs ih =>
    intro l s
    exact (SameOutside.addChildItemToLayout e c l s).trans (ih _ _)

theorem SameOutside.processItemElementWith (H : Hooks)
    (processInner : ManagerState → Result (Option QLayoutItem))
    (hinner : ∀ s, SameOutside s (processInner s).state)
    (e : QDomNode) (l : QLayoutItem) (s : ManagerState) :
    SameOutside s (processItemElementWith H processInner e l s).state := by
  unfold CTK.processItemElementWith
  simp only []
  have h0 : SameOutside s ((s.Q_ASSERT (decide (e.tagName = "item")) 587).Q_ASSERT
      (decide (e.childCount = 1)) 588) :=
    (SameOutside.Q_ASSERT _ _ _).trans (SameOutside.Q_ASSERT _ _ _)
  split
  · exact (h0.trans (SameOutside.widgetItemsFromXML _ _ _)).trans (SameOutside.addChildItems _ _ _ _)
  · have h1 := hinner ((s.Q_ASSERT (decide (e.tagName = "item")) 587).Q_ASSERT
      (decide (e.childCount = 1)) 588)
    split
    · rename_i h; rw [h] at h1; exact h0.trans h1
    · rename_i h; rw [h] at h1; exact h0.trans h1
    · rename_i h; rw [h] at h1
      exact (h0.trans h1).trans (SameOutside.addChildItems _ _ _ _)

theorem SameOutside.processElementWith (H : Hooks)
    (processLayout : QDomNode → ManagerState → Result QLayoutItem)
    (hlayout : ∀ e s, SameOutside s (processLayout e s).state)
    (e : QDomNode) (s : ManagerState) :
    SameOutside s (processElementWith H processLayout e s).state := by
  unfold CTK.processElementWith
  simp only []
  have h0 := SameOutside.Q_ASSERT s (!e.isNull) 481
  split
  · have h1 := hlayout e (s.Q_ASSERT (!e.isNull) 481)
    cases h : processLayout e (s.Q_ASSERT (!e.isNull) 481) <;> rw [h] at h1 <;> exact h0.trans h1
  · exact h0.trans (SameOutside.widgetItemFromXML _ _ _)


theorem processLayoutElement_eq (H : Hooks) (layoutElement : QDomNode) (s : ManagerState) :
    processLayoutElement H layoutElement s =
      match layoutFromXML layoutElement (s.Q_ASSERT (layoutElement.tagName = "layout") 497) with
      | (none, s) => .crash s
      | (some layoutItem, s) =>
        match processChildren H layoutElement.firstChild
            (if layoutItem.isLayout then (layoutItem.setContentsMargins 0).setSpacing s.Spacing
              else layoutItem) []
            (if layoutItem.isLayout then s
              else
                match layoutItem.widget? with
                | some widget => { s with LayoutWidgets := s.LayoutWidgets.insert widget }
                | none => s) with
        | .crash s => .crash s
        | .ok r s => .ok (applySplitSizes r.1 r.2) s := by
  cases layoutElement <;> rw [processLayoutElement] <;> simp only [QDomNode.firstChild] <;>
    split <;> simp_all [processChildren]
  rename_i li s1 _
  generalize processChildren H _ _ [] _ = r
  rcases r with ⟨⟨a, b⟩, s2⟩ | s2 <;> rfl

theorem processElementWith_toElement (H : Hooks) (fc : QDomNode) :
    processElementWith H (fun _ s => processLayoutElement H fc s) fc.toElement =
      processElement H fc.toElement := by
  funext s
  cases fc <;> rfl

theorem processChildren_null (H : Hooks) (l : QLayoutItem) (sizes : List Int)
    (s : ManagerState) : processChildren H .null l sizes s = .ok (l, sizes) s := by
  rw [processChildren]

theorem processChildren_other (H : Hooks) (next : QDomNode) (l : QLayoutItem)
    (sizes : List Int) (s : ManagerState) :
    processChildren H (.other next) l sizes s = processChildren H next l sizes s := by
  rw [processChildren]

theorem processChildren_element (H : Hooks) (tag : String) (attrs : List (String × String))
    (fc next : QDomNode) (l : QLayoutItem) (sizes : List Int) (s : ManagerState) :
    processChildren H (.element tag attrs fc next) l sizes s =
      match processItemElement H (.element tag attrs fc next) l s with
      | .crash s => .crash s
      | .ok l s =>
        processChildren H next l
          (sizes ++ [toInt ((QDomNode.element tag attrs fc next).attr "splitSize" "0")]) s := by
  rw [processChildren, processElementWith_toElement]
  rfl

theorem SameOutside.processLayoutElement_of (H : Hooks) (e : QDomNode)
    (hchildren : ∀ (l : QLayoutItem) (sizes : List Int) (s : ManagerState),
      SameOutside s (processChildren H e.firstChild l sizes s).state)
    (s : ManagerState) : SameOutside s (processLayoutElement H e s).state := by
  rw [processLayoutElement_eq]
  have h0 := (SameOutside.Q_ASSERT s (decide (e.tagName = "layout")) 497).trans
    (SameOutside.layoutFromXML e _)
  split
  · rename_i h; rw [h] at h0; exact h0
  · rename_i li s1 h
    rw [h] at h0
    simp only [] at h0
    have h1 : SameOutside s1 (if li.isLayout then s1
              else
                match li.widget? with
                | some widget => { s1 with LayoutWidgets := s1.LayoutWidgets.insert widget }
                | none => s1) := by
      split
      · exact SameOutside.refl _
      · split <;> exact ⟨rfl, rfl, rfl, rfl, rfl, rfl, rfl, rfl, rfl, rfl, rfl⟩
    have h2 := hchildren (if li.isLayout then (li.setContentsMargins 0).setSpacing s1.Spacing
              else li) [] (if li.isLayout then s1
              else
                match li.widget? with
                | some widget => { s1 with LayoutWidgets := s1.LayoutWidgets.insert widget }
                | none => s1)
    have h3 := (h0.trans h1).trans h2
    split <;> rename_i h4 <;> rw [h4] at h3 <;> exact h3

theorem SameOutside.processItemElement_of (H : Hooks) (e : QDomNode)
    (hinner : ∀ s, SameOutside s (processLayoutElement H e.firstChild.toElement s).state)
    (l : QLayoutItem) (s : ManagerState) :
    SameOutside s (processItemElement H e l s).state := by
  apply SameOutside.processItemElementWith
  intro s
  unfold processElement
  unfold CTK.processElementWith
  simp only []
  have h0 := SameOutside.Q_ASSERT s (!e.firstChild.toElement.isNull) 481
  split
  · have h1 := hinner (s.Q_ASSERT (!e.firstChild.toElement.isNull) 481)
    cases h : processLayoutElement H e.firstChild.toElement
      (s.Q_ASSERT (!e.firstChild.toElement.isNull) 481) <;> rw [h] at h1 <;> exact h0.trans h1
  · exact h0.trans (SameOutside.widgetItemFromXML _ _ _)

theorem SameOutside.process (n : QDomNode) :
    (∀ (H : Hooks) (s : ManagerState), SameOutside s (processLayoutElement H n s).state) ∧
    (∀ (H : Hooks) (l : QLayoutItem) (sizes : List Int) (s : ManagerState),
      SameOutside s (processChildren H n l sizes s).state) := by
  have hnull : ∀ (H : Hooks) (s : ManagerState),
      SameOutside s (processLayoutElement H .null s).state := by
    intro H s
    apply SameOutside.processLayoutElement_of
    intro l sizes s; exact SameOutside.refl s
  induction n with
  | null =>
    refine ⟨hnull, ?_⟩
    intro H l sizes s; rw [processChildren_null]; exact SameOutside.refl s
  | other next ih =>
    refine ⟨fun H s => SameOutside.processLayoutElement_of H _ ?_ s, ?_⟩
    · intro l sizes s; exact SameOutside.refl s
    · intro H l sizes s; rw [processChildren_other]; exact ih.2 H l sizes s
  | element tag attrs fc next ihc ihn =>
    refine ⟨fun H s => SameOutside.processLayoutElement_of H (.element tag attrs fc next) (ihc.2 H) s, ?_⟩
    intro H l sizes s
    rw [processChildren_element]
    have h1 := SameOutside.processItemElement_of H (.element tag attrs fc next)
      (by
        intro s
        cases fc with
        | element t a c n => exact ihc.1 H s
        | null => exact hnull H s
        | other n => exact hnull H s) l s
    split
    · rename_i h; rw [h] at h1; exact h1
    · rename_i h; rw [h] at h1; exact h1.trans (ihn.2 H _ _ _)

theorem SameOutside.processElement (H : Hooks) (e : QDomNode) (s : ManagerState) :
    SameOutside s (processElement H e s).state :=
  SameOutside.processElementWith H _ (fun e s => (SameOutside.process e).1 H s) e s


theorem Result.eq_crash_of_isOk_false {α : Type} {r : Result α} (h : r.isOk = false) :
    r = .crash r.state := by
  cases r
  · cases h
  · rfl

theorem QDomNode.toElement_of_tagName {e : QDomNode} {t : String} (h : e.tagName = t)
    (ht : t ≠ "") : e.toElement = e ∧ e.isNull = false := by
  cases e
  · exact absurd h.symm ht
  · exact absurd h.symm ht
  · exact ⟨rfl, rfl⟩

theorem layoutFromXML_unrecognized (layoutElement : QDomNode) (s : ManagerState)
    (h1 : layoutElement.attr "type" "horizontal" ≠ "vertical")
    (h2 : layoutElement.attr "type" "horizontal" ≠ "horizontal")
    (h3 : layoutElement.attr "type" "horizontal" ≠ "grid")
    (h4 : layoutElement.attr "type" "horizontal" ≠ "tab") :
    (layoutFromXML layoutElement s).1 = none := by
  simp [layoutFromXML, h1, h2, h3, h4]

theorem processLayoutElement_unrecognized (H : Hooks) (layoutElement : QDomNode)
    (s : ManagerState)
    (h1 : layoutElement.attr "type" "horizontal" ≠ "vertical")
    (h2 : layoutElement.attr "type" "horizontal" ≠ "horizontal")
    (h3 : layoutElement.attr "type" "horizontal" ≠ "grid")
    (h4 : layoutElement.attr "type" "horizontal" ≠ "tab") :
    (processLayoutElement H layoutElement s).isOk = false := by
  rw [processLayoutElement_eq]
  have h := layoutFromXML_unrecognized layoutElement
    (s.Q_ASSERT (decide (layoutElement.tagName = "layout")) 497) h1 h2 h3 h4
  split
  · rfl
  · rename_i h5; rw [h5] at h; cases h


theorem Result.isOk_map {α β : Type} (f : α → β) (r : Result α) : (r.map f).isOk = r.isOk := by
  cases r <;> rfl

theorem layoutFromXML_isSome (layoutElement : QDomNode) (s : ManagerState) :
    (layoutFromXML layoutElement s).1.isSome = recognizedType layoutElement := by
  unfold layoutFromXML recognizedType
  simp only []
  split_ifs <;> simp_all

theorem processItemElementWith_isOk (H : Hooks)
    (processInner : ManagerState → Result (Option QLayoutItem)) (b : Bool)
    (hinner : ∀ s, (processInner s).isOk = b)
    (e : QDomNode) (l : QLayoutItem) (s : ManagerState) :
    (processItemElementWith H processInner e l s).isOk =
      (if e.attr "multiple" "false" = "true" then true else b) := by
  unfold processItemElementWith
  simp only []
  split
  · rfl
  · rw [← hinner ((s.Q_ASSERT (decide (e.tagName = "item")) 587).Q_ASSERT
      (decide (e.childCount = 1)) 588)]
    split <;> rename_i h <;> rw [h] <;> rfl

theorem processElement_isOk (H : Hooks) (e : QDomNode) (b : Bool)
    (hlayout : ∀ s, (processLayoutElement H e s).isOk = b) (s : ManagerState) :
    (processElement H e s).isOk = (if e.tagName = "layout" then b else true) := by
  unfold processElement processElementWith
  simp only []
  split
  · rw [Result.isOk_map, hlayout]
  · rfl

theorem processLayoutElement_isOk_of (H : Hooks) (e : QDomNode) (b : Bool)
    (hchildren : ∀ l sizes s, (processChildren H e.firstChild l sizes s).isOk = b)
    (s : ManagerState) :
    (processLayoutElement H e s).isOk = (recognizedType e && b) := by
  rw [processLayoutElement_eq]
  have h := layoutFromXML_isSome e (s.Q_ASSERT (decide (e.tagName = "layout")) 497)
  split
  · rename_i h1; rw [h1] at h; simp only [Option.isSome] at h; rw [← h]; rfl
  · rename_i li s1 h1
    rw [h1] at h; simp only [Option.isSome] at h; rw [← h, Bool.true_and]
    have h3 := hchildren (if li.isLayout = true then (li.setContentsMargins 0).setSpacing s1.Spacing
        else li) []
      (if li.isLayout = true then s1
        else
          match li.widget? with
          | some widget => { s1 with LayoutWidgets := s1.LayoutWidgets.insert widget }
          | none => s1)
    rw [← h3]
    split <;> rename_i h2 <;> rw [h2] <;> rfl

theorem process_isOk (n : QDomNode) :
    (∀ (H : Hooks) (s : ManagerState), (processLayoutElement H n s).isOk = typesRecognized n) ∧
    (∀ (H : Hooks) (l : QLayoutItem) (sizes : List Int) (s : ManagerState),
      (processChildren H n l sizes s).isOk = itemsRecognized n) := by
  induction n with
  | null =>
    refine ⟨fun H s => ?_, fun H l sizes s => rfl⟩
    rw [processLayoutElement_isOk_of H .null true (fun _ _ _ => rfl)]
    rfl
  | other next ih =>
    refine ⟨fun H s => ?_, fun H l sizes s => ?_⟩
    · rw [processLayoutElement_isOk_of H (.other next) true (fun _ _ _ => rfl)]
      rfl
    · rw [processChildren_other, ih.2]; rfl
  | element tag attrs fc next ihc ihn =>
    refine ⟨fun H s => ?_, fun H l sizes s => ?_⟩
    · rw [processLayoutElement_isOk_of H (.element tag attrs fc next) _ (ihc.2 H),
        typesRecognized]
    · rw [processChildren_element, itemsRecognized]
      have h1 := processItemElementWith_isOk H
        (processElement H (QDomNode.element tag attrs fc next).firstChild.toElement)
        (if fc.toElement.tagName = "layout" then typesRecognized fc else true)
        (by
          intro s
          show (processElement H fc.toElement s).isOk = _
          cases fc with
          | element t a c n => exact processElement_isOk H _ _ (ihc.1 H) s
          | null => rfl
          | other n => rfl)
        (.element tag attrs fc next) l s
      change (processItemElement H _ l s).isOk = _ at h1
      cases h2 : processItemElement H (QDomNode.element tag attrs fc next) l s with
      | crash s2 =>
        rw [h2] at h1
        simp only [Result.isOk] at h1 ⊢
        rw [← h1]; rfl
      | ok l2 s2 =>
        rw [h2] at h1
        simp only [Result.isOk] at h1
        simp only []
        rw [ihn.2, ← h1, Bool.true_and]


theorem pageWidget_widget (c : QLayoutItem) (s : ManagerState) :
    (pageWidget c s).1.widget?.isSome = true := by
  unfold pageWidget
  split
  · rename_i h; simp [h]
  · simp only []; split <;> rfl

theorem addChildItemToLayout_sizes (e : QDomNode) (c l : QLayoutItem) (s : ManagerState) :
    (addChildItemToLayout e c l s).1.appliedSizes = l.appliedSizes ∧
    (addChildItemToLayout e c l s).1.isSplitter = l.isSplitter := by
  unfold addChildItemToLayout
  cases l <;> exact ⟨rfl, rfl⟩

theorem addChildItems_sizes (e : QDomNode) (items : List QLayoutItem) :
    ∀ (l : QLayoutItem) (s : ManagerState),
      (addChildItems e items l s).1.appliedSizes = l.appliedSizes ∧
      (addChildItems e items l s).1.isSplitter = l.isSplitter := by
  induction items with
  | nil => intro l s; exact ⟨rfl, rfl⟩
  | cons c cs ih =>
    intro l s
    have h1 := addChildItemToLayout_sizes e c l s
    have h2 := ih (addChildItemToLayout e c l s).1 (addChildItemToLayout e c l s).2
    exact ⟨h2.1.trans h1.1, h2.2.trans h1.2⟩

theorem processItemElementWith_sizes (H : Hooks)
    (processInner : ManagerState → Result (Option QLayoutItem))
    (e : QDomNode) (l l' : QLayoutItem) (s s' : ManagerState)
    (h : processItemElementWith H processInner e l s = .ok l' s') :
    l'.appliedSizes = l.appliedSizes ∧ l'.isSplitter = l.isSplitter := by
  unfold processItemElementWith at h
  simp only [] at h
  split at h
  · cases h; exact addChildItems_sizes _ _ _ _
  · split at h
    · cases h
    · cases h; exact ⟨rfl, rfl⟩
    · cases h; exact addChildItems_sizes _ _ _ _

theorem processChildren_sizes (H : Hooks) (n : QDomNode) :
    ∀ (l : QLayoutItem) (sizes : List Int) (s : ManagerState) (r : QLayoutItem × List Int)
      (s' : ManagerState), processChildren H n l sizes s = .ok r s' →
      r.2 = sizes ++ n.elementsFrom.map (fun child => toInt (child.attr "splitSize" "0")) ∧
      r.1.appliedSizes = l.appliedSizes ∧ r.1.isSplitter = l.isSplitter := by
  induction n with
  | null =>
    intro l sizes s r s' h
    rw [processChildren_null] at h
    cases h
    simp [QDomNode.elementsFrom]
  | other next ih =>
    intro l sizes s r s' h
    rw [processChildren_other] at h
    exact ih l sizes s r s' h
  | element tag attrs fc next _ ihn =>
    intro l sizes s r s' h
    rw [processChildren_element] at h
    split at h
    · cases h
    · rename_i l2 s2 h2
      have h3 := processItemElementWith_sizes H _ _ _ _ _ _ h2
      have h4 := ihn _ _ _ _ _ h
      refine ⟨?_, h4.2.1.trans h3.1, h4.2.2.trans h3.2⟩
      rw [h4.1]
      simp [QDomNode.elementsFrom]

theorem applySplitSizes_appliedSizes (l : QLayoutItem) (sizes : List Int) :
    (applySplitSizes l sizes).appliedSizes =
      if l.isSplitter = true ∧ (∃ x ∈ sizes, 0 < x) then some sizes else l.appliedSizes := by
  by_cases hc : ∃ x ∈ sizes, 0 < x <;>
    cases l <;> simp [applySplitSizes, QLayoutItem.isSplitter, QLayoutItem.appliedSizes, hc]

theorem layoutFromXML_splitter (layoutElement : QDomNode) (s : ManagerState) :
    ((layoutFromXML layoutElement s).1.map QLayoutItem.isSplitter).getD false =
      decide ((layoutElement.attr "type" "horizontal" = "vertical" ∨
          layoutElement.attr "type" "horizontal" = "horizontal") ∧
        layoutElement.attr "split" "false" = "true") ∧
    ((layoutFromXML layoutElement s).1.bind QLayoutItem.appliedSizes) = none := by
  unfold layoutFromXML
  simp only []
  split_ifs <;> simp_all [QLayoutItem.isSplitter, QLayoutItem.appliedSizes]

/-- What `processLayoutElement` gives to `QSplitter::setSizes`, for a run that completes. -/
theorem processLayoutElement_appliedSizes (H : Hooks) (layoutElement : QDomNode)
    (s : ManagerState) (item : QLayoutItem) (s' : ManagerState)
    (h : processLayoutElement H layoutElement s = .ok item s') :
    item.appliedSizes =
      if ((layoutElement.attr "type" "horizontal" = "vertical" ∨
            layoutElement.attr "type" "horizontal" = "horizontal") ∧
          layoutElement.attr "split" "false" = "true") ∧
          (∃ x ∈ splitSizesOf layoutElement, 0 < x)
      then some (splitSizesOf layoutElement) else none := by
  rw [processLayoutElement_eq] at h
  have h0 := layoutFromXML_splitter layoutElement
    (s.Q_ASSERT (decide (layoutElement.tagName = "layout")) 497)
  split at h
  · cases h
  · rename_i li s1 h1
    rw [h1] at h0
    simp only [Option.map, Option.getD, Option.bind] at h0
    split at h
    · cases h
    · rename_i r s2 h2
      cases h
      have h3 := processChildren_sizes H _ _ _ _ _ _ h2
      rw [applySplitSizes_appliedSizes, h3.1, h3.2.1, h3.2.2]
      have h5 : (if li.isLayout = true then (li.setContentsMargins 0).setSpacing s1.Spacing
          else li).isSplitter = li.isSplitter := by
        cases li <;> rfl
      have h6 : (if li.isLayout = true then (li.setContentsMargins 0).setSpacing s1.Spacing
          else li).appliedSizes = li.appliedSizes := by
        cases li <;> rfl
      rw [h5, h6, h0.1, h0.2]
      simp only [List.nil_append, decide_eq_true_eq]
      rfl


theorem applySplitSizes_isSplitter (l : QLayoutItem) (sizes : List Int) :
    (applySplitSizes l sizes).isSplitter = l.isSplitter := by
  by_cases hc : (sizes.any fun i => decide (i > 0)) = true <;>
    cases l <;> simp [applySplitSizes, QLayoutItem.isSplitter, hc]

/-- Whether `processLayoutElement` returns a splitter, for a run that completes. -/
theorem processLayoutElement_isSplitter (H : Hooks) (layoutElement : QDomNode)
    (s : ManagerState) (item : QLayoutItem) (s' : ManagerState)
    (h : processLayoutElement H layoutElement s = .ok item s') :
    item.isSplitter =
      decide ((layoutElement.attr "type" "horizontal" = "vertical" ∨
          layoutElement.attr "type" "horizontal" = "horizontal") ∧
        layoutElement.attr "split" "false" = "true") := by
  rw [processLayoutElement_eq] at h
  have h0 := layoutFromXML_splitter layoutElement
    (s.Q_ASSERT (decide (layoutElement.tagName = "layout")) 497)
  split at h
  · cases h
  · rename_i li s1 h1
    rw [h1] at h0
    simp only [Option.map, Option.getD, Option.bind] at h0
    split at h
    · cases h
    · rename_i r s2 h2
      cases h
      have h3 := processChildren_sizes H _ _ _ _ _ _ h2
      rw [applySplitSizes_isSplitter, h3.2.2, ← h0.1]
      cases li <;> rfl


/-! ## Lemmas on `setupViewport` and `setupLayout` -/

theorem SameRegistry.registry_refl (s : ManagerState) : SameRegistry s s :=
  ⟨rfl, rfl, rfl, rfl, rfl, rfl⟩

theorem SameRegistry.registry_trans {a b c : ManagerState} (h1 : SameRegistry a b)
    (h2 : SameRegistry b c) : SameRegistry a c :=
  ⟨h2.1.trans h1.1, h2.2.trans h1.2, h2.3.trans h1.3, h2.4.trans h1.4, h2.5.trans h1.5,
    h2.6.trans h1.6⟩

theorem SameOutside.sameRegistry {s s' : ManagerState} (h : SameOutside s s') :
    SameRegistry s s' :=
  ⟨h.Spacing, h.Layout, h.Viewports, h.usedInLayout, h.viewportName, h.windowTitle⟩

theorem SameRegistry.viewport {s s' : ManagerState} (h : SameRegistry s s') (name : String) :
    s'.viewport name = s.viewport name := by
  unfold ManagerState.viewport
  rw [h.Viewports]

theorem SameRegistry.isViewportUsedInLayout {s s' : ManagerState} (h : SameRegistry s s')
    (name : String) : s'.isViewportUsedInLayout name = s.isViewportUsedInLayout name := by
  unfold ManagerState.isViewportUsedInLayout ManagerState.isViewportUsedInLayoutWidget
  rw [h.viewport, h.usedInLayout]

theorem ManagerState.setLayout_spec (s : ManagerState) (w : QWidgetPtr) (l : QLayoutItem) :
    SameRegistry s (s.setLayout w l) ∧ (s.setLayout w l).calls = s.calls ∧
    (s.setLayout w l).deleted = s.deleted ∧ (s.setLayout w l).warnings = s.warnings ∧
    (∀ w', w' ≠ w → (s.setLayout w l).layout w' = s.layout w') ∧
    (s.layout w = none → (s.setLayout w l).layout w = some l) := by
  unfold ManagerState.setLayout
  cases h : s.layout w with
  | some l0 =>
    exact ⟨SameRegistry.registry_refl s, rfl, rfl, rfl, fun _ _ => rfl, fun h' => by cases h'⟩
  | none =>
    refine ⟨⟨rfl, rfl, rfl, rfl, rfl, rfl⟩, rfl, rfl, rfl, fun w' hw => ?_, fun _ => ?_⟩
    · simp [Function.update, hw]
    · simp [Function.update]

theorem processElement_layout (H : Hooks) (e : QDomNode) (s : ManagerState)
    (htag : e.tagName = "layout") :
    processElement H e s = (processLayoutElement H e (s.Q_ASSERT (!e.isNull) 481)).map some := by
  unfold processElement processElementWith
  simp only [htag, if_true]

theorem setupViewport_unregistered (H : Hooks) (e : QDomNode) (name : String)
    (s : ManagerState) (hnull : e.isNull = false) (hvp : s.viewport name = none) :
    setupViewport H e name s = .ok () ((s.call (.setupViewport e name)).qWarning 379) := by
  have hv : (s.call (.setupViewport e name)).viewport name = none := hvp
  unfold setupViewport
  simp only [hnull, Bool.false_eq_true, if_false, hv, createViewport]

theorem setupViewport_registered (H : Hooks) (e : QDomNode) (name : String)
    (s : ManagerState) (vp : QWidgetPtr) (htag : e.tagName = "layout")
    (hvp : s.viewport name = some vp) :
    setupViewport H e name s =
      match processLayoutElement H e
          (((s.call (.setupViewport e name)).Q_ASSERT (s.layout vp).isNone 384).Q_ASSERT
            (!e.isNull) 481) with
      | .crash s => .crash s
      | .ok item s => .ok () ((s.Q_ASSERT true 386).setLayout vp (viewportLayout item)) := by
  have hv : (s.call (.setupViewport e name)).viewport name = some vp := hvp
  have hl : (s.call (.setupViewport e name)).layout vp = s.layout vp := rfl
  have hnull := (QDomNode.toElement_of_tagName htag (by decide)).2
  unfold setupViewport
  simp only [hnull, Bool.false_eq_true, if_false, hv, hl, processElement_layout H e _ htag]
  generalize processLayoutElement H e _ = r
  cases r <;> rfl

/-- What `setupViewport` does, for a `layout` element, to the members other than the widget
tree: it is tracked as one call, the registry is unchanged, only the named viewport can get
a layout, and the run completes unless the viewport is registered and a reached `layout`
element has an unrecognized type. -/
theorem setupViewport_spec (H : Hooks) (e : QDomNode) (name : String) (s : ManagerState)
    (htag : e.tagName = "layout") :
    SameRegistry s (setupViewport H e name s).state ∧
    (setupViewport H e name s).state.calls = s.calls ++ [.setupViewport e name] ∧
    (setupViewport H e name s).state.deleted = s.deleted ∧
    (∀ w, s.viewport name ≠ some w →
      (setupViewport H e name s).state.layout w = s.layout w) ∧
    (setupViewport H e name s).isOk = ((s.viewport name).isNone || typesRecognized e) := by
  have hnull := (QDomNode.toElement_of_tagName htag (by decide)).2
  cases hvp : s.viewport name with
  | none =>
    rw [setupViewport_unregistered H e name s hnull hvp]
    exact ⟨⟨rfl, rfl, rfl, rfl, rfl, rfl⟩, rfl, rfl, fun _ _ => rfl, rfl⟩
  | some vp =>
    rw [setupViewport_registered H e name s vp htag hvp]
    have h0 : SameOutside (s.call (.setupViewport e name))
        (((s.call (.setupViewport e name)).Q_ASSERT (s.layout vp).isNone 384).Q_ASSERT
          (!e.isNull) 481) :=
      (SameOutside.Q_ASSERT _ _ _).trans (SameOutside.Q_ASSERT _ _ _)
    have hc : SameRegistry s (s.call (.setupViewport e name)) :=
      ⟨rfl, rfl, rfl, rfl, rfl, rfl⟩
    have h1 := h0.trans ((SameOutside.process e).1 H _)
    have hok := (process_isOk e).1 H
      (((s.call (.setupViewport e name)).Q_ASSERT (s.layout vp).isNone 384).Q_ASSERT
        (!e.isNull) 481)
    cases hp : processLayoutElement H e
        (((s.call (.setupViewport e name)).Q_ASSERT (s.layout vp).isNone 384).Q_ASSERT
          (!e.isNull) 481) with
    | crash s1 =>
      rw [hp] at h1 hok
      exact ⟨hc.registry_trans h1.sameRegistry, h1.calls, h1.deleted,
        fun w _ => congrFun h1.layout w, hok⟩
    | ok item s1 =>
      rw [hp] at h1 hok
      have h3 := h1.trans (SameOutside.Q_ASSERT s1 true 386)
      have h4 := ManagerState.setLayout_spec (s1.Q_ASSERT true 386) vp (viewportLayout item)
      refine ⟨(hc.registry_trans h3.sameRegistry).registry_trans h4.1, ?_, ?_, fun w hw => ?_, hok⟩
      · exact h4.2.1.trans h3.calls
      · exact h4.2.2.1.trans h3.deleted
      · exact (h4.2.2.2.2.1 w (fun h => hw (by rw [h]))).trans (congrFun h3.layout w)


theorem viewportElements_null (names : List String) : viewportElements names .null = [] := rfl

theorem viewportElements_other (names : List String) (next : QDomNode) :
    viewportElements names (.other next) = viewportElements names next := rfl

theorem viewportElements_element (names : List String) (tag : String)
    (attrs : List (String × String)) (fc next : QDomNode) :
    viewportElements names (.element tag attrs fc next) =
      if tag = "layout" then
        if (QDomNode.element tag attrs fc next).attr "name" "" ∈ names then
          viewportElements names next
        else
          .element tag attrs fc next ::
            viewportElements (names ++ [(QDomNode.element tag attrs fc next).attr "name" ""]) next
      else viewportElements names next := by
  unfold viewportElements
  by_cases ht : tag = "layout"
  · simp only [QDomNode.elementsFrom, ht, if_true, QDomNode.tagName, decide_True, List.filter_cons_of_pos,
      firstPerName]
    by_cases hn : (QDomNode.element "layout" attrs fc next).attr "name" "" ∈ names
    · simp only [hn, if_true, List.filter_cons, not_true_eq_false, decide_False, Bool.false_eq_true,
        if_false, List.filter_filter]
      apply List.filter_congr
      intro y _
      by_cases hy : y.attr "name" "" ∈ names
      · simp [hy]
      · have : y.attr "name" "" ≠ (QDomNode.element "layout" attrs fc next).attr "name" "" :=
          fun h => hy (h ▸ hn)
        simp [hy, this]
    · simp only [hn, if_false, List.filter_cons, not_false_eq_true, decide_True, if_true,
        List.filter_filter]
      congr 1
      apply List.filter_congr
      intro y _
      simp [List.mem_append, not_or, and_comm]
  · simp [QDomNode.elementsFrom, ht, QDomNode.tagName]


theorem setupViewports_spec (H : Hooks) (child : QDomNode) :
    ∀ (names : List String) (s : ManagerState),
      SameRegistry s (setupViewports H child names s).state ∧
      (setupViewports H child names s).state.deleted = s.deleted ∧
      (∃ done rest, viewportElements names child = done ++ rest ∧
        (setupViewports H child names s).state.calls =
          s.calls ++ done.map (fun e => Call.setupViewport e (e.attr "name" "")) ∧
        (∀ names' s', setupViewports H child names s = .ok names' s' →
          rest = [] ∧
          names' = names ++ (viewportElements names child).map (fun e => e.attr "name" ""))) ∧
      (setupViewports H child names s).isOk =
        (viewportElements names child).all
          (fun e => (s.viewport (e.attr "name" "")).isNone || typesRecognized e) := by
  induction child with
  | null =>
    intro names s
    refine ⟨SameRegistry.registry_refl s, rfl, ⟨[], [], rfl, by simp [setupViewports, Result.state], ?_⟩, rfl⟩
    intro names' s' h
    simp only [setupViewports] at h
    cases h
    simp [viewportElements_null]
  | other next ih =>
    intro names s
    simp only [setupViewports, viewportElements_other]
    exact ih names s
  | element tag attrs fc next _ ih =>
    intro names s
    rw [viewportElements_element]
    by_cases ht : tag = "layout"
    · subst ht
      by_cases hn : (QDomNode.element "layout" attrs fc next).attr "name" "" ∈ names
      · simp only [setupViewports, QDomNode.tagName, ne_eq, not_true_eq_false, if_false, hn,
          if_true]
        obtain ⟨h1, h2, h3, h4⟩ := ih names (s.qWarning 324)
        exact ⟨(show SameRegistry s (s.qWarning 324) from ⟨rfl, rfl, rfl, rfl, rfl, rfl⟩).registry_trans
          h1, h2, h3, h4⟩
      · simp only [setupViewports, QDomNode.tagName, ne_eq, not_true_eq_false, if_false, hn,
          if_true]
        obtain ⟨g1, g2, g3, g4, g5⟩ := setupViewport_spec H (.element "layout" attrs fc next)
          ((QDomNode.element "layout" attrs fc next).attr "name" "") s rfl
        cases hp : setupViewport H (.element "layout" attrs fc next)
            ((QDomNode.element "layout" attrs fc next).attr "name" "") s with
        | crash s1 =>
          rw [hp] at g1 g2 g3 g5
          simp only [Result.state, Result.isOk] at g1 g2 g3 g5
          dsimp only
          refine ⟨g1, g3, ⟨[.element "layout" attrs fc next], _, rfl, by simpa using g2, ?_⟩, ?_⟩
          · intro names' s' h; cases h
          · rw [List.all_cons, ← g5, Bool.false_and]; rfl
        | ok u s1 =>
          rw [hp] at g1 g2 g3 g5
          simp only [Result.state, Result.isOk] at g1 g2 g3 g5
          dsimp only
          obtain ⟨h1, h2, ⟨done, rest, h3, h4, h5⟩, h6⟩ := ih
            (names ++ [(QDomNode.element "layout" attrs fc next).attr "name" ""]) s1
          refine ⟨g1.registry_trans h1, h2.trans g3, ⟨.element "layout" attrs fc next :: done, rest,
            by rw [h3]; rfl, ?_, ?_⟩, ?_⟩
          · rw [h4, g2]; simp
          · intro names' s' h
            obtain ⟨h7, h8⟩ := h5 names' s' h
            refine ⟨h7, ?_⟩
            rw [h8]; simp
          · rw [h6, List.all_cons, ← g5, Bool.true_and]
            congr 1
            funext e
            rw [g1.viewport]
    · simp only [setupViewports, QDomNode.tagName, ne_eq, ht, not_false_eq_true, if_true,
        if_false]
      obtain ⟨h1, h2, h3, h4⟩ := ih names (s.qWarning 318)
      exact ⟨(show SameRegistry s (s.qWarning 318) from ⟨rfl, rfl, rfl, rfl, rfl, rfl⟩).registry_trans
        h1, h2, h3, h4⟩


theorem SameButUsage.usage_refl (s : ManagerState) : SameButUsage s s :=
  ⟨rfl, rfl, rfl, rfl, rfl, rfl, rfl, rfl, rfl, rfl, rfl, rfl, rfl, rfl, rfl⟩

theorem SameButUsage.usage_trans {a b c : ManagerState} (h1 : SameButUsage a b)
    (h2 : SameButUsage b c) : SameButUsage a c :=
  ⟨h2.1.trans h1.1, h2.2.trans h1.2, h2.3.trans h1.3, h2.4.trans h1.4, h2.5.trans h1.5,
    h2.6.trans h1.6, h2.7.trans h1.7, h2.8.trans h1.8, h2.9.trans h1.9, h2.10.trans h1.10,
    h2.11.trans h1.11, h2.12.trans h1.12, h2.13.trans h1.13, h2.14.trans h1.14,
    h2.15.trans h1.15⟩

theorem SameButUsage.viewport_eq {s s' : ManagerState} (h : SameButUsage s s') (name : String) :
    s'.viewport name = s.viewport name := by
  unfold ManagerState.viewport
  rw [h.Viewports]

theorem SameButUsage.step (s : ManagerState) (vp : Option QWidgetPtr) (b : Bool) (c : Call) :
    SameButUsage s ((s.setViewportUsedInLayout vp b).call c) := by
  cases vp <;> exact ⟨rfl, rfl, rfl, rfl, rfl, rfl, rfl, rfl, rfl, rfl, rfl, rfl, rfl, rfl, rfl⟩

/-- The loop at the end of `setupLayout`, whatever the registry: only the property
`LayoutManagerUsedInLayout` and the tracked calls change, and every call added is a call of
`onViewportUsageChanged`. -/
theorem updateViewportUsage_frame (names : List String) (keys : List String) :
    ∀ s : ManagerState,
      SameButUsage s (updateViewportUsage names keys s) ∧
      ∃ changed : List String, (updateViewportUsage names keys s).calls =
        s.calls ++ changed.map Call.onViewportUsageChanged := by
  induction keys with
  | nil => intro s; exact ⟨SameButUsage.usage_refl s, [], by simp [updateViewportUsage]⟩
  | cons k rest ih =>
    intro s
    simp only [updateViewportUsage]
    split
    · exact ih s
    · obtain ⟨h1, changed, h2⟩ := ih ((s.setViewportUsedInLayout (s.viewport k)
        (decide (k ∈ names))).call (.onViewportUsageChanged k))
      refine ⟨(SameButUsage.step s _ _ _).usage_trans h1, k :: changed, ?_⟩
      rw [h2]
      cases s.viewport k <;> simp [ManagerState.call, ManagerState.setViewportUsedInLayout]

/-- The loop at the end of `setupLayout` over names whose viewports are not null and pairwise
distinct: `onViewportUsageChanged` is called, once, for exactly the names whose used-in-layout
state differs from the membership in `names`, and afterwards the state of every name is that
membership. -/
theorem updateViewportUsage_distinct (names : List String) (keys : List String) :
    ∀ s : ManagerState, keys.Nodup →
      (∀ n ∈ keys, (s.viewport n).isSome) →
      (∀ n ∈ keys, ∀ m ∈ keys, s.viewport n = s.viewport m → n = m) →
      (updateViewportUsage names keys s).calls =
        s.calls ++ (keys.filter
          (fun n => decide (s.isViewportUsedInLayout n ≠ decide (n ∈ names)))).map
            Call.onViewportUsageChanged ∧
      (∀ n ∈ keys, (updateViewportUsage names keys s).isViewportUsedInLayout n =
        decide (n ∈ names)) ∧
      (∀ w, (∀ n ∈ keys, s.viewport n ≠ some w) →
        (updateViewportUsage names keys s).usedInLayout w = s.usedInLayout w) := by
  induction keys with
  | nil =>
    intro s _ _ _
    exact ⟨by simp [updateViewportUsage], fun n hn => absurd hn (List.not_mem_nil n),
      fun _ _ => rfl⟩
  | cons k rest ih =>
    intro s hnd hsome hinj
    obtain ⟨hk, hnd'⟩ := List.nodup_cons.mp hnd
    obtain ⟨vk, hvk⟩ := Option.isSome_iff_exists.mp (hsome k (List.mem_cons_self _ _))
    have hflag : s.isViewportUsedInLayout k = s.isViewportUsedInLayoutWidget (s.viewport k) := by
      simp [ManagerState.isViewportUsedInLayout, hvk]
    simp only [updateViewportUsage]
    by_cases hsame : s.isViewportUsedInLayoutWidget (s.viewport k) = decide (k ∈ names)
    · rw [if_pos hsame]
      obtain ⟨h1, h2, h3⟩ := ih s hnd'
        (fun n hn => hsome n (List.mem_cons_of_mem _ hn))
        (fun n hn m hm => hinj n (List.mem_cons_of_mem _ hn) m (List.mem_cons_of_mem _ hm))
      refine ⟨?_, ?_, ?_⟩
      · rw [h1, List.filter_cons_of_neg]
        simp [hflag, hsame]
      · intro n hn
        rcases List.mem_cons.mp hn with rfl | hn
        · have : (updateViewportUsage names rest s).usedInLayout vk = s.usedInLayout vk := by
            apply h3
            intro m hm hmv
            exact hk ((hinj m (List.mem_cons_of_mem _ hm) n (List.mem_cons_self _ _)
              (hmv.trans hvk.symm)) ▸ hm)
          have hv' : (updateViewportUsage names rest s).viewport n = some vk := by
            rw [(updateViewportUsage_frame names rest s).1.viewport_eq, hvk]
          rw [← hsame]
          simp [ManagerState.isViewportUsedInLayout, ManagerState.isViewportUsedInLayoutWidget,
            hv', hvk, this]
        · exact h2 n hn
      · intro w hw
        exact h3 w (fun n hn => hw n (List.mem_cons_of_mem _ hn))
    · rw [if_neg hsame]
      have hv1 : ∀ n, ((s.setViewportUsedInLayout (s.viewport k) (decide (k ∈ names))).call
          (.onViewportUsageChanged k)).viewport n = s.viewport n :=
        fun n => (SameButUsage.step s _ _ _).viewport_eq n
      obtain ⟨h1, h2, h3⟩ := ih ((s.setViewportUsedInLayout (s.viewport k)
          (decide (k ∈ names))).call (.onViewportUsageChanged k)) hnd'
        (fun n hn => by rw [hv1]; exact hsome n (List.mem_cons_of_mem _ hn))
        (fun n hn m hm h => hinj n (List.mem_cons_of_mem _ hn) m (List.mem_cons_of_mem _ hm)
          (by rw [hv1, hv1] at h; exact h))
      have hother : ∀ w, w ≠ vk →
          ((s.setViewportUsedInLayout (s.viewport k) (decide (k ∈ names))).call
            (.onViewportUsageChanged k)).usedInLayout w = s.usedInLayout w := by
        intro w hw
        simp [hvk, ManagerState.setViewportUsedInLayout, ManagerState.call, Function.update, hw]
      have hflag' : ∀ n ∈ rest,
          ((s.setViewportUsedInLayout (s.viewport k) (decide (k ∈ names))).call
            (.onViewportUsageChanged k)).isViewportUsedInLayout n =
          s.isViewportUsedInLayout n := by
        intro n hn
        obtain ⟨vn, hvn⟩ := Option.isSome_iff_exists.mp (hsome n (List.mem_cons_of_mem _ hn))
        have hne : vn ≠ vk := by
          intro h
          exact hk ((hinj n (List.mem_cons_of_mem _ hn) k (List.mem_cons_self _ _)
            (by rw [hvn, hvk, h])) ▸ hn)
        simp only [ManagerState.isViewportUsedInLayout, hv1, hvn,
          ManagerState.isViewportUsedInLayoutWidget, hother vn hne]
      refine ⟨?_, ?_, ?_⟩
      · rw [h1, List.filter_cons_of_pos (by simp [hflag, hsame])]
        have : rest.filter (fun n => decide
            (((s.setViewportUsedInLayout (s.viewport k) (decide (k ∈ names))).call
              (.onViewportUsageChanged k)).isViewportUsedInLayout n ≠ decide (n ∈ names))) =
            rest.filter (fun n => decide (s.isViewportUsedInLayout n ≠ decide (n ∈ names))) := by
          apply List.filter_congr
          intro n hn
          rw [hflag' n hn]
        rw [this]
        simp [ManagerState.call, ManagerState.setViewportUsedInLayout, hvk]
      · intro n hn
        rcases List.mem_cons.mp hn with rfl | hn
        · have h4 := h3 vk (by
            intro m hm hmv
            rw [hv1] at hmv
            exact hk ((hinj m (List.mem_cons_of_mem _ hm) n (List.mem_cons_self _ _)
              (hmv.trans hvk.symm)) ▸ hm))
          have hv' : (updateViewportUsage names rest
              ((s.setViewportUsedInLayout (s.viewport n) (decide (n ∈ names))).call
                (.onViewportUsageChanged n))).viewport n = some vk := by
            rw [(updateViewportUsage_frame names rest _).1.viewport_eq, hv1, hvk]
          simp only [ManagerState.isViewportUsedInLayout, hv',
            ManagerState.isViewportUsedInLayoutWidget, h4]
          simp [hvk, ManagerState.setViewportUsedInLayout, ManagerState.call]
        · exact h2 n hn
      · intro w hw
        rw [h3 w (fun n hn => by rw [hv1]; exact hw n (List.mem_cons_of_mem _ hn))]
        exact hother w (fun h => hw k (List.mem_cons_self _ _) (by rw [hvk, h]))


/-! ## `firstPerName` keeps the first element of each name -/

theorem firstPerName_sublist (l : List QDomNode) : (firstPerName l).Sublist l := by
  induction l with
  | nil => exact List.Sublist.slnil
  | cons x xs ih => exact ((List.filter_sublist _).trans ih).cons₂ x

theorem firstPerName_names_nodup (l : List QDomNode) :
    ((firstPerName l).map (fun e => e.attr "name" "")).Nodup := by
  induction l with
  | nil => exact List.nodup_nil
  | cons x xs ih =>
    simp only [firstPerName, List.map_cons, List.nodup_cons]
    refine ⟨?_, ?_⟩
    · intro h
      obtain ⟨y, hy, hyx⟩ := List.mem_map.mp h
      have := (List.mem_filter.mp hy).2
      simp at this
      exact this hyx
    · exact ih.sublist ((List.filter_sublist _).map _)

theorem firstPerName_mem_of_first (before : List QDomNode) (e : QDomNode)
    (after : List QDomNode) (h : ∀ x ∈ before, x.attr "name" "" ≠ e.attr "name" "") :
    e ∈ firstPerName (before ++ e :: after) := by
  induction before with
  | nil => exact List.mem_cons_self _ _
  | cons p before ih =>
    simp only [List.cons_append, firstPerName]
    refine List.mem_cons_of_mem _ (List.mem_filter.mpr ⟨?_, ?_⟩)
    · exact ih (fun x hx => h x (List.mem_cons_of_mem _ hx))
    · have := h p (List.mem_cons_self _ _)
      simpa using fun h' => this h'.symm

theorem firstPerName_covers (l : List QDomNode) :
    ∀ e ∈ l, ∃ e' ∈ firstPerName l, e'.attr "name" "" = e.attr "name" "" := by
  induction l with
  | nil => intro e he; cases he
  | cons x xs ih =>
    intro e he
    rcases List.mem_cons.mp he with rfl | he
    · exact ⟨e, List.mem_cons_self _ _, rfl⟩
    · obtain ⟨e', he', hn⟩ := ih e he
      by_cases hx : e'.attr "name" "" = x.attr "name" ""
      · exact ⟨x, List.mem_cons_self _ _, hx.symm.trans hn⟩
      · exact ⟨e', List.mem_cons_of_mem _ (List.mem_filter.mpr ⟨he', by simpa using hx⟩), hn⟩

theorem viewportElements_nil_names (child : QDomNode) :
    viewportElements [] child =
      firstPerName (child.elementsFrom.filter (fun e => decide (e.tagName = "layout"))) := by
  unfold viewportElements
  simp

theorem setupViewportCalls_append (a b : List Call) :
    setupViewportCalls (a ++ b) = setupViewportCalls a ++ setupViewportCalls b := by
  simp [setupViewportCalls]

theorem setupViewportCalls_setupViewport (l : List QDomNode) :
    setupViewportCalls (l.map (fun e => Call.setupViewport e (e.attr "name" ""))) =
      l.map (fun e => (e, e.attr "name" "")) := by
  induction l with
  | nil => rfl
  | cons x xs ih => simp [setupViewportCalls] at ih ⊢; exact ih

theorem setupViewportCalls_usage (l : List String) :
    setupViewportCalls (l.map Call.onViewportUsageChanged) = [] := by
  induction l with
  | nil => rfl
  | cons x xs ih => simp [setupViewportCalls] at ih ⊢


theorem documentElement_not_null {s : ManagerState} {t : String}
    (hroot : s.Layout.documentElement.tagName = t) (ht : t ≠ "") :
    ¬ (s.Layout.isNull = true ∨ s.Layout.documentElement.isNull = true) := by
  have h1 := (QDomNode.toElement_of_tagName hroot ht).2
  intro h
  rcases h with h | h
  · simp only [QDomDocument.documentElement, h, if_true, QDomNode.isNull] at h1
    cases h1
  · rw [h1] at h; cases h

theorem setupLayout_viewports (H : Hooks) (s : ManagerState)
    (hroot : s.Layout.documentElement.tagName = "viewports") :
    setupLayout H s =
      match setupViewports H s.Layout.documentElement.firstChild []
          { s with Views := [], LayoutWidgets := [] } with
      | .crash s => .crash s
      | .ok names s => .ok () (updateViewportUsage names s.viewportNames s) := by
  unfold setupLayout setupDocument
  rw [if_neg (documentElement_not_null hroot (by decide))]
  simp only [hroot, if_true]

theorem setupLayout_layout (H : Hooks) (s : ManagerState)
    (hroot : s.Layout.documentElement.tagName = "layout") :
    setupLayout H s =
      match setupViewport H s.Layout.documentElement
          (s.Layout.documentElement.attr "name" "")
          { s with Views := [], LayoutWidgets := [] } with
      | .crash s1 => .crash s1
      | .ok _ s1 =>
        .ok ()
          (updateViewportUsage [s.Layout.documentElement.attr "name" ""] s1.viewportNames s1) := by
  unfold setupLayout setupDocument
  rw [if_neg (documentElement_not_null hroot (by decide))]
  simp only [hroot, if_true, show ("layout" = "viewports") = False by decide, if_false]
  generalize setupViewport H _ _ _ = r
  cases r <;> rfl


/-! ## Lemmas on the teardown engine -/

theorem SameOutsideTeardown.teardown_refl (s : ManagerState) : SameOutsideTeardown s s :=
  ⟨rfl, rfl, rfl, rfl, rfl, rfl, rfl, rfl, rfl, rfl, rfl⟩

theorem SameOutsideTeardown.teardown_trans {a b c : ManagerState} (h1 : SameOutsideTeardown a b)
    (h2 : SameOutsideTeardown b c) : SameOutsideTeardown a c :=
  ⟨h2.1.trans h1.1, h2.2.trans h1.2, h2.3.trans h1.3, h2.4.trans h1.4, h2.5.trans h1.5,
    h2.6.trans h1.6, h2.7.trans h1.7, h2.8.trans h1.8, h2.9.trans h1.9, h2.10.trans h1.10,
    h2.11.trans h1.11⟩

theorem SameOutsideTeardown.toRegistry {s s' : ManagerState}
    (h : SameOutsideTeardown s s') : SameRegistry s s' :=
  ⟨h.Spacing, h.Layout, h.Viewports, h.usedInLayout, h.viewportName, h.windowTitle⟩

theorem SameOutsideTeardown.clear (fuel : Nat) :
    (∀ node s s', clearWidget fuel node s = some s' → SameOutsideTeardown s s') ∧
    (∀ items s s', clearItems fuel items s = some s' → SameOutsideTeardown s s') ∧
    (∀ pages s s', clearPages fuel pages s = some s' → SameOutsideTeardown s s') := by
  induction fuel with
  | zero =>
    refine ⟨?_, ?_, ?_⟩ <;> intro x s s' h
    · simp [clearWidget] at h
    · simp [clearItems] at h
    · simp [clearPages] at h
  | succ fuel ih =>
    obtain ⟨ihw, ihi, ihp⟩ := ih
    refine ⟨?_, ?_, ?_⟩
    · intro node s s' h
      rw [clearWidget] at h
      split at h
      · cases h; exact SameOutsideTeardown.teardown_refl s
      · rename_i widget _
        split at h
        · cases h; exact ⟨rfl, rfl, rfl, rfl, rfl, rfl, rfl, rfl, rfl, rfl, rfl⟩
        · simp only [] at h
          split at h
          · cases h
          · rename_i s1 h1
            cases h
            have h2 : SameOutsideTeardown s s1 := by
              split at h1
              · exact ihi _ _ _ h1
              · exact ihp _ _ _ h1
              · exact (show SameOutsideTeardown s (s.setVisible widget false) from
                  ⟨rfl, rfl, rfl, rfl, rfl, rfl, rfl, rfl, rfl, rfl, rfl⟩).teardown_trans (ihp _ _ _ h1)
              · cases h1; exact SameOutsideTeardown.teardown_refl s
            exact h2.teardown_trans ⟨rfl, rfl, rfl, rfl, rfl, rfl, rfl, rfl, rfl, rfl, rfl⟩
    · intro items s s' h
      cases items with
      | nil => rw [clearItems] at h; cases h; exact SameOutsideTeardown.teardown_refl s
      | cons item rest =>
        rw [clearItems] at h
        split at h
        · split at h
          · cases h
          · rename_i s1 h1
            exact (ihw _ _ _ h1).teardown_trans (ihi _ _ _ h)
        · split at h
          · split at h
            · cases h
            · rename_i s1 h1
              exact (ihi _ _ _ h1).teardown_trans (ihi _ _ _ h)
          · exact ihi _ _ _ h
    · intro pages s s' h
      cases pages with
      | nil => rw [clearPages] at h; cases h; exact SameOutsideTeardown.teardown_refl s
      | cons page rest =>
        rw [clearPages] at h
        split at h
        · cases h
        · rename_i s1 h1
          exact (ihw _ _ _ h1).teardown_trans (ihp _ _ _ h)

theorem SameOutsideTeardown.clearLayoutOf (fuel : Nat) (owner : QWidgetPtr)
    (s s' : ManagerState) (h : clearLayoutOf fuel owner s = some s') :
    SameOutsideTeardown s s' := by
  unfold CTK.clearLayoutOf at h
  split at h
  · cases h; exact SameOutsideTeardown.teardown_refl s
  · split at h
    · cases h
    · rename_i s1 h1
      cases h
      exact ((SameOutsideTeardown.clear fuel).2.1 _ _ _ h1).teardown_trans
        ⟨rfl, rfl, rfl, rfl, rfl, rfl, rfl, rfl, rfl, rfl, rfl⟩

theorem SameOutsideTeardown.clearViewports (fuel : Nat) (viewports : List (Option QWidgetPtr)) :
    ∀ (s s' : ManagerState), clearViewports fuel viewports s = some s' →
      SameOutsideTeardown s s' := by
  induction viewports with
  | nil => intro s s' h; simp only [CTK.clearViewports] at h; cases h; exact SameOutsideTeardown.teardown_refl s
  | cons v rest ih =>
    intro s s' h
    cases v with
    | none => simp only [CTK.clearViewports] at h; exact ih s s' h
    | some viewport =>
      simp only [CTK.clearViewports] at h
      split at h
      · cases h
      · rename_i s1 h1
        have h2 : SameOutsideTeardown s1 (s1.Q_ASSERT (decide (s1.LayoutWidgets.length = 0)) 289) := by
          unfold ManagerState.Q_ASSERT
          split <;> exact ⟨rfl, rfl, rfl, rfl, rfl, rfl, rfl, rfl, rfl, rfl, rfl⟩
        exact ((SameOutsideTeardown.clearLayoutOf fuel viewport s s1 h1).teardown_trans h2).teardown_trans
          (ih _ _ h)

theorem SameOutsideTeardown.clearLayout (fuel : Nat) (s s' : ManagerState)
    (h : clearLayout fuel s = some s') : SameOutsideTeardown s s' :=
  SameOutsideTeardown.clearViewports fuel _ s s' h


/-! ## Lemmas on the viewport registry -/

theorem lookup_of_mem_keys (l : List (String × Option QWidgetPtr)) (n : String)
    (h : n ∈ l.map Prod.fst) : ∃ v, l.lookup n = some v ∧ (n, v) ∈ l := by
  induction l with
  | nil => cases h
  | cons p rest ih =>
    obtain ⟨k, v⟩ := p
    by_cases hk : n = k
    · subst hk
      exact ⟨v, by simp [List.lookup], List.mem_cons_self _ _⟩
    · have h' : n ∈ rest.map Prod.fst := by
        simp only [List.map_cons, List.mem_cons] at h
        rcases h with h | h
        · exact absurd h hk
        · exact h
      obtain ⟨v', h1, h2⟩ := ih h'
      refine ⟨v', ?_, List.mem_cons_of_mem _ h2⟩
      simp only [List.lookup]
      have : (n == k) = false := by simpa using hk
      rw [this]
      exact h1

theorem lookup_none_of_not_mem_keys (l : List (String × Option QWidgetPtr)) (n : String)
    (h : n ∉ l.map Prod.fst) : l.lookup n = none := by
  induction l with
  | nil => rfl
  | cons p rest ih =>
    obtain ⟨k, v⟩ := p
    simp only [List.map_cons, List.mem_cons, not_or] at h
    simp only [List.lookup]
    have : (n == k) = false := by simpa using h.1
    rw [this]
    exact ih h.2

theorem eq_of_mem_of_snd_nodup (l : List (String × Option QWidgetPtr))
    (hnd : (l.map Prod.snd).Nodup) (n m : String) (v : Option QWidgetPtr)
    (hn : (n, v) ∈ l) (hm : (m, v) ∈ l) : n = m := by
  induction l with
  | nil => cases hn
  | cons p rest ih =>
    simp only [List.map_cons, List.nodup_cons] at hnd
    rcases List.mem_cons.mp hn with hn1 | hn1 <;> rcases List.mem_cons.mp hm with hm1 | hm1
    · rw [← hn1] at hm1; exact (Prod.mk.inj hm1).1.symm
    · exfalso; apply hnd.1; subst hn1; exact List.mem_map.mpr ⟨(m, v), hm1, rfl⟩
    · exfalso; apply hnd.1; subst hm1; exact List.mem_map.mpr ⟨(n, v), hn1, rfl⟩
    · exact ih hnd.2 hn1 hm1

/-- In a registry whose viewports are not null and pairwise distinct, every registered name
has a viewport and two names with the same viewport are equal. -/
theorem ManagerState.viewportsDistinct.spec {s : ManagerState} (h : s.viewportsDistinct) :
    s.viewportNames.Nodup ∧
    (∀ n ∈ s.viewportNames, (s.viewport n).isSome) ∧
    (∀ n ∈ s.viewportNames, ∀ m ∈ s.viewportNames, s.viewport n = s.viewport m → n = m) ∧
    (∀ n, n ∉ s.viewportNames → s.viewport n = none) := by
  obtain ⟨h1, h2, h3⟩ := h
  have key : ∀ n ∈ s.viewportNames, ∃ w, s.viewport n = some w ∧ (n, some w) ∈ s.Viewports := by
    intro n hn
    obtain ⟨v, hv1, hv2⟩ := lookup_of_mem_keys s.Viewports n hn
    cases v with
    | none => exact absurd rfl (h2 _ hv2)
    | some w => exact ⟨w, by simp [ManagerState.viewport, hv1], hv2⟩
  refine ⟨h1, ?_, ?_, ?_⟩
  · intro n hn
    obtain ⟨w, hw, -⟩ := key n hn
    rw [hw]; rfl
  · intro n hn m hm hnm
    obtain ⟨w, hw, hw'⟩ := key n hn
    obtain ⟨w2, hw2, hw2'⟩ := key m hm
    rw [hw, hw2] at hnm
    cases hnm
    exact eq_of_mem_of_snd_nodup s.Viewports h3 n m (some w) hw' hw2'
  · intro n hn
    simp [ManagerState.viewport, lookup_none_of_not_mem_keys s.Viewports n hn]

theorem usageChangedCount_append (name : String) (a b : List Call) :
    usageChangedCount name (a ++ b) = usageChangedCount name a + usageChangedCount name b := by
  simp [usageChangedCount]

theorem usageChangedCount_setupViewport (name : String) (l : List QDomNode) :
    usageChangedCount name (l.map (fun e => Call.setupViewport e (e.attr "name" ""))) = 0 := by
  induction l with
  | nil => rfl
  | cons x xs ih =>
    simp only [usageChangedCount, List.map_cons] at ih ⊢
    rw [List.count_cons_of_ne (by simp), ih]

theorem usageChangedCount_usage (name : String) (l : List String) (hnd : l.Nodup) :
    usageChangedCount name (l.map Call.onViewportUsageChanged) = if name ∈ l then 1 else 0 := by
  induction l with
  | nil => rfl
  | cons x xs ih =>
    obtain ⟨hx, hnd'⟩ := List.nodup_cons.mp hnd
    simp only [usageChangedCount, List.map_cons] at ih ⊢
    by_cases h : name = x
    · subst h
      rw [List.count_cons_self, ih hnd', if_neg hx]
      simp
    · rw [List.count_cons_of_ne (by simpa using h), ih hnd']
      simp [h]


theorem setupDocument_spec (H : Hooks) (s : ManagerState) :
    SameRegistry s (setupDocument H s).state ∧
    (setupDocument H s).state.deleted = s.deleted ∧
    (∃ elems : List QDomNode, (setupDocument H s).state.calls =
      s.calls ++ elems.map (fun e => Call.setupViewport e (e.attr "name" ""))) ∧
    (∀ names s1, setupDocument H s = .ok names s1 →
      names = usedNames s.Layout.documentElement) := by
  unfold setupDocument usedNames
  simp only []
  by_cases h1 : s.Layout.documentElement.tagName = "viewports"
  · simp only [h1, if_true]
    obtain ⟨g1, g2, ⟨done, rest, -, g4, g5⟩, -⟩ :=
      setupViewports_spec H s.Layout.documentElement.firstChild [] s
    refine ⟨g1, g2, ⟨done, g4⟩, ?_⟩
    intro names s1 h
    simpa using (g5 names s1 h).2
  · simp only [h1, if_false]
    by_cases h2 : s.Layout.documentElement.tagName = "layout"
    · simp only [h2, if_true]
      obtain ⟨g1, g2, g3, -, -⟩ := setupViewport_spec H s.Layout.documentElement
        (s.Layout.documentElement.attr "name" "") s h2
      cases hp : setupViewport H s.Layout.documentElement
          (s.Layout.documentElement.attr "name" "") s with
      | crash s1 =>
        rw [hp] at g1 g2 g3
        refine ⟨g1, g3, ⟨[s.Layout.documentElement], by simpa using g2⟩, ?_⟩
        intro names s2 h; cases h
      | ok u s1 =>
        rw [hp] at g1 g2 g3
        refine ⟨g1, g3, ⟨[s.Layout.documentElement], by simpa using g2⟩, ?_⟩
        intro names s2 h; cases h; rfl
    · simp only [h2, if_false]
      refine ⟨⟨rfl, rfl, rfl, rfl, rfl, rfl⟩, rfl, ⟨[], by simp [Result.state, ManagerState.qWarning]⟩, ?_⟩
      intro names s2 h; cases h; rfl

/-- The usage notifications of `setupLayout` when the registered viewports are not null and
pairwise distinct: `onViewportUsageChanged(name)` is called once if the used-in-layout state
of `name` differs between before and after, and not at all otherwise; after a run that
completes on a document with a root, the used names are those that the document uses. -/
theorem setupLayout_usage_spec (H : Hooks) (s : ManagerState) (hd : s.viewportsDistinct) :
    SameRegistry { s with usedInLayout := (setupLayout H s).state.usedInLayout }
      (setupLayout H s).state ∧
    (∀ name, usageChangedCount name (setupLayout H s).state.calls =
      usageChangedCount name s.calls +
        if s.isViewportUsedInLayout name = (setupLayout H s).state.isViewportUsedInLayout name
        then 0 else 1) ∧
    ((setupLayout H s).isOk = true →
      ¬ (s.Layout.isNull = true ∨ s.Layout.documentElement.isNull = true) →
      ∀ name, (setupLayout H s).state.isViewportUsedInLayout name =
        decide (name ∈ s.viewportNames ∧ name ∈ usedNames s.Layout.documentElement)) ∧
    (((setupLayout H s).isOk = false ∨
        (s.Layout.isNull = true ∨ s.Layout.documentElement.isNull = true)) →
      SameRegistry s (setupLayout H s).state) := by
  unfold setupLayout
  by_cases hnull : s.Layout.isNull = true ∨ s.Layout.documentElement.isNull = true
  · rw [if_pos hnull]
    exact ⟨⟨rfl, rfl, rfl, rfl, rfl, rfl⟩, fun name => by simp [Result.state],
      fun _ h => absurd hnull h, fun _ => SameRegistry.registry_refl s⟩
  · rw [if_neg hnull]
    obtain ⟨g1, -, ⟨elems, g3⟩, g4⟩ := setupDocument_spec H
      { s with Views := [], LayoutWidgets := [] }
    have g0 : SameRegistry s { s with Views := [], LayoutWidgets := [] } :=
      ⟨rfl, rfl, rfl, rfl, rfl, rfl⟩
    cases hp : setupDocument H { s with Views := [], LayoutWidgets := [] } with
    | crash s1 =>
      rw [hp] at g1 g3
      simp only [Result.state] at g1 g3 ⊢
      have g1' := g0.registry_trans g1
      refine ⟨⟨g1'.Spacing, g1'.Layout, g1'.Viewports, rfl, g1'.viewportName,
        g1'.windowTitle⟩, ?_, fun h => absurd h (by simp [Result.isOk]), fun _ => g1'⟩
      intro name
      have hb := g1'.isViewportUsedInLayout name
      rw [g3, usageChangedCount_append, usageChangedCount_setupViewport]
      simp only [hb, if_true]
    | ok names s1 =>
      rw [hp] at g1 g3
      simp only [Result.state] at g1 g3 ⊢
      have g1' := g0.registry_trans g1
      have hn := g4 names s1 hp
      have hd1 : s1.viewportsDistinct := by
        unfold ManagerState.viewportsDistinct
        rw [g1'.Viewports]
        exact hd
      obtain ⟨k1, k2, k3, k4⟩ := hd1.spec
      obtain ⟨u1, u2, u3⟩ := updateViewportUsage_distinct names s1.viewportNames s1 k1 k2 k3
      obtain ⟨f1, -⟩ := updateViewportUsage_frame names s1.viewportNames s1
      have hkeys : s1.viewportNames = s.viewportNames := by
        unfold ManagerState.viewportNames
        rw [g1'.Viewports]
      have hflags : ∀ name, (updateViewportUsage names s1.viewportNames s1).isViewportUsedInLayout
          name = decide (name ∈ s1.viewportNames ∧ name ∈ names) := by
        intro name
        by_cases hk : name ∈ s1.viewportNames
        · rw [u2 name hk]; simp [hk]
        · have : (updateViewportUsage names s1.viewportNames s1).viewport name = none := by
            rw [f1.viewport_eq]; exact k4 name hk
          simp [ManagerState.isViewportUsedInLayout, this, hk]
      refine ⟨⟨f1.Spacing.trans g1'.Spacing, f1.Layout.trans g1'.Layout,
        f1.Viewports.trans g1'.Viewports, rfl, f1.viewportName.trans g1'.viewportName,
        f1.windowTitle.trans g1'.windowTitle⟩, ?_, ?_, ?_⟩
      · intro name
        have hb := g1'.isViewportUsedInLayout name
        rw [u1, g3, usageChangedCount_append, usageChangedCount_append,
          usageChangedCount_setupViewport, usageChangedCount_usage _ _ (k1.filter _)]
        simp only [hflags name, ← hb, Nat.add_zero, List.mem_filter, decide_eq_true_eq,
          Nat.add_left_cancel_iff]
        by_cases hk : name ∈ s1.viewportNames
        · simp only [hk, true_and]
          by_cases hc : s1.isViewportUsedInLayout name = decide (name ∈ names)
          · simp [hc]
          · simp [hc]
        · have : s1.isViewportUsedInLayout name = false := by
            simp [ManagerState.isViewportUsedInLayout, k4 name hk]
          simp [hk, this]
      · intro _ _ name
        show (updateViewportUsage names s1.viewportNames s1).isViewportUsedInLayout name = _
        rw [hflags name, hkeys, hn]
      · intro h
        rcases h with h | h
        · cases h
        · exact absurd h hnull

theorem disableUpdates_spec (viewports : List (Option QWidgetPtr)) :
    ∀ (saved : List (QWidgetPtr × Bool)) (s : ManagerState),
      SameRegistry s (disableUpdates viewports saved s).2 ∧
      (disableUpdates viewports saved s).2.calls = s.calls := by
  induction viewports with
  | nil => intro saved s; exact ⟨SameRegistry.registry_refl s, rfl⟩
  | cons v rest ih =>
    intro saved s
    cases v with
    | none => exact ih saved s
    | some viewport =>
      simp only [disableUpdates]
      obtain ⟨h1, h2⟩ := ih ((viewport, s.updatesEnabled viewport) :: saved)
        { s with updatesEnabled := Function.update s.updatesEnabled viewport false }
      have h0 : SameRegistry s
          { s with updatesEnabled := Function.update s.updatesEnabled viewport false } :=
        ⟨rfl, rfl, rfl, rfl, rfl, rfl⟩
      exact ⟨h0.registry_trans h1, h2⟩

theorem restoreUpdates_spec (saved : List (QWidgetPtr × Bool))
    (viewports : List (Option QWidgetPtr)) :
    ∀ s : ManagerState,
      SameRegistry s (restoreUpdates saved viewports s) ∧
      (restoreUpdates saved viewports s).calls = s.calls := by
  induction viewports with
  | nil => intro s; exact ⟨SameRegistry.registry_refl s, rfl⟩
  | cons v rest ih =>
    intro s
    cases v with
    | none => exact ih s
    | some viewport =>
      simp only [restoreUpdates]
      split
      · exact ih s
      · rename_i enabled _
        obtain ⟨h1, h2⟩ := ih
          { s with updatesEnabled := Function.update s.updatesEnabled viewport enabled }
        have h0 : SameRegistry s
            { s with updatesEnabled := Function.update s.updatesEnabled viewport enabled } :=
          ⟨rfl, rfl, rfl, rfl, rfl, rfl⟩
        exact ⟨h0.registry_trans h1, h2⟩

/-- A refresh that returns is a `setupLayout` run from a state with the same registry and the
same tracked calls, followed by steps that change neither. -/
theorem refresh_spec (fuel : Nat) (H : Hooks) (s : ManagerState) (r : Result Unit)
    (h : refresh fuel H s = some r) :
    ∃ sA, SameRegistry s sA ∧ sA.calls = s.calls ∧
      SameRegistry (setupLayout H sA).state r.state ∧
      r.state.calls = (setupLayout H sA).state.calls ∧
      r.isOk = (setupLayout H sA).isOk := by
  unfold refresh at h
  simp only [] at h
  obtain ⟨d1, d2⟩ := disableUpdates_spec (s.Viewports.map Prod.snd) [] s
  split at h
  · cases h
  · rename_i sA hA
    have t := SameOutsideTeardown.clearLayout fuel _ sA hA
    refine ⟨sA, d1.registry_trans t.toRegistry, t.calls.trans d2, ?_⟩
    split at h
    · rename_i sB hB
      cases h
      rw [hB]
      exact ⟨SameRegistry.registry_refl _, rfl, rfl⟩
    · rename_i u sB hB
      cases h
      rw [hB]
      obtain ⟨r1, r2⟩ := restoreUpdates_spec (disableUpdates (s.Viewports.map Prod.snd) [] s).1
        (sB.Viewports.map Prod.snd) sB
      exact ⟨r1, r2, rfl⟩


/-- For a registered viewport without layout and a `layout` element whose reached types are
recognized, `setupViewport` completes and installs on the viewport the layout made from the
item that `processLayoutElement` returns for the element. -/
theorem setupViewport_installs (H : Hooks) (e : QDomNode) (name : String) (s : ManagerState)
    (vp : QWidgetPtr) (htag : e.tagName = "layout") (hvp : s.viewport name = some vp)
    (hnone : s.layout vp = none) (hrec : typesRecognized e = true) :
    ∃ item s0 s1 s', processLayoutElement H e s0 = .ok item s1 ∧
      setupViewport H e name s = .ok () s' ∧
      s'.layout vp = some (viewportLayout item) := by
  rw [setupViewport_registered H e name s vp htag hvp]
  have hok := (process_isOk e).1 H
    (((s.call (.setupViewport e name)).Q_ASSERT (s.layout vp).isNone 384).Q_ASSERT
      (!e.isNull) 481)
  have hf := (SameOutside.process e).1 H
    (((s.call (.setupViewport e name)).Q_ASSERT (s.layout vp).isNone 384).Q_ASSERT
      (!e.isNull) 481)
  have h0 : SameOutside (s.call (.setupViewport e name))
      (((s.call (.setupViewport e name)).Q_ASSERT (s.layout vp).isNone 384).Q_ASSERT
        (!e.isNull) 481) :=
    (SameOutside.Q_ASSERT _ _ _).trans (SameOutside.Q_ASSERT _ _ _)
  cases hp : processLayoutElement H e
      (((s.call (.setupViewport e name)).Q_ASSERT (s.layout vp).isNone 384).Q_ASSERT
        (!e.isNull) 481) with
  | crash s1 => rw [hp, hrec] at hok; cases hok
  | ok item s1 =>
    rw [hp] at hf
    refine ⟨item, _, s1, _, hp, rfl, ?_⟩
    apply (ManagerState.setLayout_spec (s1.Q_ASSERT true 386) vp (viewportLayout item)).2.2.2.2.2
    have h1 := (h0.trans hf).trans (SameOutside.Q_ASSERT s1 true 386)
    rw [h1.layout]
    exact hnone


/-! ## An item without widget and without layout -/

/-- The loop of `clearLayout` makes no progress on an item that has neither a widget nor a
layout: `itemAt(0)` stays the same (l.176-190), whatever the fuel. -/
theorem clearItems_null_widgetItem (fuel : Nat) (rest : List QLayoutItem) (s : ManagerState) :
    clearItems fuel (.widgetItem none :: rest) s = none := by
  induction fuel with
  | zero => rfl
  | succ fuel ih =>
    rw [clearItems]
    exact ih

theorem clearLayoutOf_null_widgetItem (fuel : Nat) (owner : QWidgetPtr) (s : ManagerState)
    (layout : QLayoutItem) (rest : List QLayoutItem) (h : s.layout owner = some layout)
    (hitems : layout.items = .widgetItem none :: rest) :
    clearLayoutOf fuel owner s = none := by
  unfold clearLayoutOf
  rw [h]
  simp only [hitems, clearItems_null_widgetItem]


@[simp] theorem ManagerState.Q_ASSERT_allocated (s : ManagerState) (c : Bool) (l : Nat) :
    (s.Q_ASSERT c l).allocated = s.allocated := by
  unfold ManagerState.Q_ASSERT; split <;> rfl

@[simp] theorem ManagerState.Q_ASSERT_LayoutWidgets (s : ManagerState) (c : Bool) (l : Nat) :
    (s.Q_ASSERT c l).LayoutWidgets = s.LayoutWidgets := by
  unfold ManagerState.Q_ASSERT; split <;> rfl

@[simp] theorem ManagerState.Q_ASSERT_Views (s : ManagerState) (c : Bool) (l : Nat) :
    (s.Q_ASSERT c l).Views = s.Views := by
  unfold ManagerState.Q_ASSERT; split <;> rfl

/-- An item with `multiple="true"` whose element has no view, in the base class: the null
view, wrapped in a `QWidgetItem`, is given to `addChildItemToLayout`. -/
theorem processItemElement_multiple_null (viewFromXML : QDomNode → Option Nat)
    (itemElement : QDomNode) (layoutItem : QLayoutItem) (s : ManagerState)
    (hm : itemElement.attr "multiple" "false" = "true")
    (hnull : viewFromXML itemElement.firstChild.toElement = none) :
    processItemElement (Hooks.base viewFromXML) itemElement layoutItem s =
      .ok
        (addChildItemToLayout itemElement (.widgetItem none) layoutItem
          (((s.Q_ASSERT (itemElement.tagName = "item") 587).Q_ASSERT
            (itemElement.childCount = 1) 588).Q_ASSERT true 688)).1
        (addChildItemToLayout itemElement (.widgetItem none) layoutItem
          (((s.Q_ASSERT (itemElement.tagName = "item") 587).Q_ASSERT
            (itemElement.childCount = 1) 588).Q_ASSERT true 688)).2 := by
  have hviews : (Hooks.base viewFromXML).viewsFromXML itemElement.firstChild.toElement
      = [none] := by
    simp [Hooks.base, viewsFromXML, hnull]
  unfold processItemElement processItemElementWith widgetItemsFromXML
  simp only [hm, if_true, hviews]
  rfl


theorem disableUpdates_single (owner : QWidgetPtr) (s : ManagerState) :
    (disableUpdates [some owner] [] s).2.Viewports = s.Viewports ∧
    (disableUpdates [some owner] [] s).2.layout = s.layout :=
  ⟨rfl, rfl⟩

/-- A refresh does not return when the only viewport holds, first in its layout, an item
without widget and without layout. -/
theorem refresh_null_widgetItem (fuel : Nat) (H : Hooks) (s : ManagerState)
    (owner : QWidgetPtr) (layout : QLayoutItem) (rest : List QLayoutItem)
    (hv : s.Viewports.map Prod.snd = [some owner]) (hl : s.layout owner = some layout)
    (hitems : layout.items = .widgetItem none :: rest) :
    refresh fuel H s = none := by
  unfold refresh
  simp only [hv]
  have h1 : clearLayout fuel (disableUpdates [some owner] [] s).2 = none := by
    unfold clearLayout
    rw [(disableUpdates_single owner s).1, hv]
    simp only [clearViewports]
    rw [clearLayoutOf_null_widgetItem fuel owner _ layout rest
      (by rw [(disableUpdates_single owner s).2]; exact hl) hitems]
  rw [h1]

theorem clearLayout_null_widgetItem (fuel : Nat) (s : ManagerState)
    (owner : QWidgetPtr) (layout : QLayoutItem) (rest : List QLayoutItem)
    (hv : s.Viewports.map Prod.snd = [some owner]) (hl : s.layout owner = some layout)
    (hitems : layout.items = .widgetItem none :: rest) :
    clearLayout fuel s = none := by
  unfold clearLayout
  rw [hv]
  simp only [clearViewports]
  rw [clearLayoutOf_null_widgetItem fuel owner _ layout rest hl hitems]


/-! ## The teardown of a well-formed tree -/

theorem SameOutsideTeardown.viewportForWidget {s s' : ManagerState}
    (h : SameOutsideTeardown s s') (w : QWidgetPtr) :
    s'.viewportForWidget w = s.viewportForWidget w := by
  unfold ManagerState.viewportForWidget ManagerState.viewport ManagerState.viewportNameForWidget
  rw [h.Viewports, h.viewportName]

theorem TeardownStep.step_refl (s : ManagerState) : TeardownStep s s :=
  ⟨SameOutsideTeardown.teardown_refl s, fun _ h => h, fun _ => Or.inl rfl, fun _ h => h,
    fun _ h => Or.inl h⟩

theorem TeardownStep.step_trans {a b c : ManagerState} (h1 : TeardownStep a b)
    (h2 : TeardownStep b c) : TeardownStep a c := by
  refine ⟨h1.same.teardown_trans h2.same, fun w h => h2.visible w (h1.visible w h), ?_,
    fun w h => h1.owned w (h2.owned w h), ?_⟩
  · intro w
    rcases h2.parent w with h | h
    · rcases h1.parent w with g | g
      · exact Or.inl (h.trans g)
      · exact Or.inr (h.trans g)
    · exact Or.inr (h.trans (h1.same.viewportForWidget w))
  · intro w h
    rcases h2.deleted w h with g | g
    · exact h1.deleted w g
    · exact Or.inr (h1.owned w g)

theorem TeardownStep.of_clear (fuel : Nat) :
    (∀ node s s', clearWidget fuel node s = some s' → TeardownStep s s') ∧
    (∀ items s s', clearItems fuel items s = some s' → TeardownStep s s') ∧
    (∀ pages s s', clearPages fuel pages s = some s' → TeardownStep s s') := by
  induction fuel with
  | zero =>
    refine ⟨?_, ?_, ?_⟩ <;> intro x s s' h
    · simp [clearWidget] at h
    · simp [clearItems] at h
    · simp [clearPages] at h
  | succ fuel ih =>
    obtain ⟨ihw, ihi, ihp⟩ := ih
    refine ⟨?_, ?_, ?_⟩
    · intro node s s' h
      rw [clearWidget] at h
      split at h
      · cases h; exact TeardownStep.step_refl s
      · rename_i widget _
        split at h
        · cases h
          refine ⟨⟨rfl, rfl, rfl, rfl, rfl, rfl, rfl, rfl, rfl, rfl, rfl⟩, ?_, ?_,
            fun _ h => h, fun _ h => Or.inl h⟩
          · intro w hw
            show Function.update s.visible widget false w = false
            by_cases e : w = widget
            · rw [e, Function.update_same]
            · rw [Function.update_noteq e]; exact hw
          · intro w
            show Function.update s.parent widget (s.viewportForWidget widget) w = _ ∨
              Function.update s.parent widget (s.viewportForWidget widget) w = _
            by_cases e : w = widget
            · rw [e, Function.update_same]; exact Or.inr rfl
            · rw [Function.update_noteq e]; exact Or.inl rfl
        · rename_i hin
          simp only [] at h
          split at h
          · cases h
          · rename_i s1 h1
            cases h
            have hv : TeardownStep s (s.setVisible widget false) := by
              refine ⟨⟨rfl, rfl, rfl, rfl, rfl, rfl, rfl, rfl, rfl, rfl, rfl⟩, ?_,
                fun _ => Or.inl rfl, fun _ h => h, fun _ h => Or.inl h⟩
              intro w hw
              show Function.update s.visible widget false w = false
              by_cases e : w = widget
              · rw [e, Function.update_same]
              · rw [Function.update_noteq e]; exact hw
            have h2 : TeardownStep s s1 := by
              split at h1
              · exact ihi _ _ _ h1
              · exact ihp _ _ _ h1
              · exact hv.step_trans (ihp _ _ _ h1)
              · cases h1; exact TeardownStep.step_refl s
            refine ⟨h2.same.teardown_trans ⟨rfl, rfl, rfl, rfl, rfl, rfl, rfl, rfl, rfl, rfl, rfl⟩,
              h2.visible, h2.parent, ?_, ?_⟩
            · intro w hw
              exact h2.owned w (List.mem_of_mem_erase hw)
            · intro w hw
              have hw2 : w ∈ s1.deleted ++ [widget] := hw
              rw [List.mem_append, List.mem_singleton] at hw2
              rcases hw2 with g | g
              · exact h2.deleted w g
              · rw [g]
                exact Or.inr (Classical.not_not.mp hin)
    · intro items s s' h
      cases items with
      | nil => rw [clearItems] at h; cases h; exact TeardownStep.step_refl s
      | cons item rest =>
        rw [clearItems] at h
        split at h
        · split at h
          · cases h
          · rename_i s1 h1
            exact (ihw _ _ _ h1).step_trans (ihi _ _ _ h)
        · split at h
          · split at h
            · cases h
            · rename_i s1 h1
              exact (ihi _ _ _ h1).step_trans (ihi _ _ _ h)
          · exact ihi _ _ _ h
    · intro pages s s' h
      cases pages with
      | nil => rw [clearPages] at h; cases h; exact TeardownStep.step_refl s
      | cons page rest =>
        rw [clearPages] at h
        split at h
        · cases h
        · rename_i s1 h1
          exact (ihw _ _ _ h1).step_trans (ihp _ _ _ h)

theorem clear_layout (fuel : Nat) :
    (∀ node s s', clearWidget fuel node s = some s' → s'.layout = s.layout) ∧
    (∀ items s s', clearItems fuel items s = some s' → s'.layout = s.layout) ∧
    (∀ pages s s', clearPages fuel pages s = some s' → s'.layout = s.layout) := by
  induction fuel with
  | zero =>
    refine ⟨?_, ?_, ?_⟩ <;> intro x s s' h
    · simp [clearWidget] at h
    · simp [clearItems] at h
    · simp [clearPages] at h
  | succ fuel ih =>
    obtain ⟨ihw, ihi, ihp⟩ := ih
    refine ⟨?_, ?_, ?_⟩
    · intro node s s' h
      rw [clearWidget] at h
      split at h
      · cases h; rfl
      · rename_i widget _
        split at h
        · cases h; rfl
        · simp only [] at h
          split at h
          · cases h
          · rename_i s1 h1
            cases h
            have h2 : s1.layout = s.layout := by
              split at h1
              · exact ihi _ _ _ h1
              · exact ihp _ _ _ h1
              · exact (ihp _ _ _ h1).trans rfl
              · cases h1; rfl
            exact h2
    · intro items s s' h
      cases items with
      | nil => rw [clearItems] at h; cases h; rfl
      | cons item rest =>
        rw [clearItems] at h
        split at h
        · split at h
          · cases h
          · rename_i s1 h1
            exact (ihi _ _ _ h).trans (ihw _ _ _ h1)
        · split at h
          · split at h
            · cases h
            · rename_i s1 h1
              exact (ihi _ _ _ h).trans (ihi _ _ _ h1)
          · exact ihi _ _ _ h
    · intro pages s s' h
      cases pages with
      | nil => rw [clearPages] at h; cases h; rfl
      | cons page rest =>
        rw [clearPages] at h
        split at h
        · cases h
        · rename_i s1 h1
          exact (ihp _ _ _ h).trans (ihw _ _ _ h1)

theorem containersOfItems_append (a b : List QLayoutItem) :
    containersOfItems (a ++ b) = containersOfItems a ++ containersOfItems b := by
  induction a with
  | nil => simp [containersOfItems]
  | cons x xs ih => simp [containersOfItems, ih]

theorem viewsOfItems_append (a b : List QLayoutItem) :
    viewsOfItems (a ++ b) = viewsOfItems a ++ viewsOfItems b := by
  induction a with
  | nil => simp [viewsOfItems]
  | cons x xs ih => simp [viewsOfItems, ih]

theorem wellFormedItems_append (a b : List QLayoutItem) :
    wellFormedItems (a ++ b) = (wellFormedItems a && wellFormedItems b) := by
  induction a with
  | nil => simp [wellFormedItems]
  | cons x xs ih => simp [wellFormedItems, ih, Bool.and_assoc]

theorem clearCostOfItems_append (a b : List QLayoutItem) :
    clearCostOfItems (a ++ b) + 1 = clearCostOfItems a + clearCostOfItems b := by
  induction a with
  | nil => simp [clearCostOfItems]; omega
  | cons x xs ih => simp [clearCostOfItems]; omega

theorem QLayoutItem.clearCost_pos (node : QLayoutItem) : 1 ≤ node.clearCost := by
  cases node <;> simp [QLayoutItem.clearCost]

theorem clearCostOfItems_pos (items : List QLayoutItem) : 1 ≤ clearCostOfItems items := by
  cases items <;> simp [clearCostOfItems]; omega

theorem mem_viewsOfItems (v : QWidgetPtr) (items : List QLayoutItem) :
    v ∈ viewsOfItems items ↔ ∃ i ∈ items, v ∈ i.views := by
  induction items with
  | nil => simp [viewsOfItems]
  | cons x xs ih => simp [viewsOfItems, ih]

theorem mem_containersOfItems (p : QWidgetPtr) (items : List QLayoutItem) :
    p ∈ containersOfItems items ↔ ∃ i ∈ items, p ∈ i.containers := by
  induction items with
  | nil => simp [containersOfItems]
  | cons x xs ih => simp [containersOfItems, ih]

theorem containersOfItems_filter (f : QLayoutItem → Bool) (items : List QLayoutItem) :
    (containersOfItems (items.filter f)).Sublist (containersOfItems items) := by
  induction items with
  | nil => simp [containersOfItems]
  | cons x xs ih =>
    by_cases h : f x = true
    · rw [List.filter_cons_of_pos h]
      simp only [containersOfItems]
      exact List.Sublist.append (List.Sublist.refl _) ih
    · rw [List.filter_cons_of_neg h]
      simp only [containersOfItems]
      exact ih.trans (List.sublist_append_right _ _)

theorem wellFormedItems_filter (f : QLayoutItem → Bool) (items : List QLayoutItem)
    (h : wellFormedItems items = true) : wellFormedItems (items.filter f) = true := by
  induction items with
  | nil => simp [wellFormedItems]
  | cons x xs ih =>
    simp only [wellFormedItems, Bool.and_eq_true] at h
    by_cases g : f x = true
    · rw [List.filter_cons_of_pos g]
      simp only [wellFormedItems, Bool.and_eq_true]
      exact ⟨h.1, ih h.2⟩
    · rw [List.filter_cons_of_neg g]
      exact ih h.2

theorem clearCostOfItems_filter (f : QLayoutItem → Bool) (items : List QLayoutItem) :
    clearCostOfItems (items.filter f) ≤ clearCostOfItems items := by
  induction items with
  | nil => simp
  | cons x xs ih =>
    by_cases g : f x = true
    · rw [List.filter_cons_of_pos g]
      simp only [clearCostOfItems]
      omega
    · rw [List.filter_cons_of_neg g]
      simp only [clearCostOfItems]
      omega

theorem QLayoutItem.widget?_eq_some (i : QLayoutItem) (w : QWidgetPtr)
    (h : i.widget? = some w) : i = .widgetItem (some w) ∨ w ∈ i.containers := by
  cases i <;> simp [QLayoutItem.widget?] at h <;> simp [QLayoutItem.containers, h]

theorem QLayoutItem.containers_items (layout : QLayoutItem) (h : layout.isLayout = true) :
    containersOfItems layout.items = layout.containers := by
  cases layout <;> simp [QLayoutItem.isLayout] at h <;>
    simp [QLayoutItem.items, QLayoutItem.containers]

theorem QLayoutItem.views_items (layout : QLayoutItem) (h : layout.isLayout = true) :
    viewsOfItems layout.items = layout.views := by
  cases layout <;> simp [QLayoutItem.isLayout] at h <;>
    simp [QLayoutItem.items, QLayoutItem.views]

theorem QLayoutItem.wellFormed_items (layout : QLayoutItem) (h : layout.isLayout = true) :
    wellFormedItems layout.items = layout.wellFormed := by
  cases layout <;> simp [QLayoutItem.isLayout] at h <;>
    simp [QLayoutItem.items, QLayoutItem.wellFormed]

theorem QLayoutItem.clearCost_items (layout : QLayoutItem) :
    clearCostOfItems layout.items ≤ layout.clearCost := by
  cases layout <;> simp [QLayoutItem.items, QLayoutItem.clearCost, clearCostOfItems]

theorem ReadyToClear.head {s : ManagerState} {x : QLayoutItem} {rest : List QLayoutItem}
    (h : ReadyToClear s (x :: rest)) : ReadyToClear s [x] := by
  obtain ⟨h1, h2, h3, h4⟩ := h
  simp only [wellFormedItems, Bool.and_eq_true] at h1
  simp only [containersOfItems] at h2 h3
  simp only [viewsOfItems] at h4
  refine ⟨by simp [wellFormedItems, h1.1], ?_, ?_, ?_⟩
  · simpa [containersOfItems] using (List.nodup_append.mp h2).1
  · intro p hp
    simp only [containersOfItems, List.append_nil] at hp
    exact h3 p (List.mem_append_left _ hp)
  · intro v hv
    simp only [viewsOfItems, List.append_nil] at hv
    exact h4 v (List.mem_append_left _ hv)

theorem ReadyToClear.tail {s : ManagerState} {x : QLayoutItem} {rest : List QLayoutItem}
    (h : ReadyToClear s (x :: rest)) : ReadyToClear s rest := by
  obtain ⟨h1, h2, h3, h4⟩ := h
  simp only [wellFormedItems, Bool.and_eq_true] at h1
  simp only [containersOfItems] at h2 h3
  simp only [viewsOfItems] at h4
  exact ⟨h1.2, (List.nodup_append.mp h2).2.1, fun p hp => h3 p (List.mem_append_right _ hp),
    fun v hv => h4 v (List.mem_append_right _ hv)⟩

theorem TeardownStep.detached {s s' : ManagerState} (t : TeardownStep s s') (v : QWidgetPtr)
    (x : Option QWidgetPtr) (hx : s.viewportForWidget v = x)
    (h : s.visible v = false ∧ s.parent v = x) : s'.visible v = false ∧ s'.parent v = x := by
  refine ⟨t.visible v h.1, ?_⟩
  rcases t.parent v with g | g
  · exact g.trans h.2
  · exact g.trans hx

theorem ReadyToClear.after_head {s s1 : ManagerState} {x : QLayoutItem}
    {rest : List QLayoutItem} (f : QLayoutItem → Bool)
    (hr : ReadyToClear s (x :: rest)) (t1 : TeardownStep s s1)
    (d1 : ViewsDetached s s1 [x]) : ReadyToClear s1 (rest.filter f) := by
  have hn := hr.nodup
  simp only [containersOfItems] at hn
  have hsub := (containersOfItems_filter f rest).subset
  refine ⟨wellFormedItems_filter f rest hr.tail.wellFormed,
    hr.tail.nodup.sublist (containersOfItems_filter f rest), ?_, ?_⟩
  · intro p hp
    refine d1.kept p (hr.tail.owned p (hsub hp)) ?_
    simp only [containersOfItems, List.append_nil]
    intro hpx
    exact (List.nodup_append.mp hn).2.2 hpx (hsub hp)
  · intro v hv hin
    rw [mem_viewsOfItems] at hv
    obtain ⟨i, hi, hvi⟩ := hv
    exact hr.tail.views v ((mem_viewsOfItems v rest).mpr ⟨i, (List.mem_filter.mp hi).1, hvi⟩)
      (t1.owned v hin)

theorem ReadyToClear.filtered_views {s : ManagerState} {x : QLayoutItem}
    {rest : List QLayoutItem} {w : QWidgetPtr}
    (hr : ReadyToClear s (x :: rest)) (hw : x.widget? = some w) :
    ∀ i ∈ rest, i.widget? = some w → ∀ v ∈ i.views, v ∈ x.views := by
  have hn := hr.nodup
  simp only [containersOfItems] at hn
  intro i hi hiw v hvi
  have hv0 : v ∈ viewsOfItems rest := (mem_viewsOfItems v rest).mpr ⟨i, hi, hvi⟩
  rcases i.widget?_eq_some w hiw with hi1 | hi1
  · rw [hi1] at hvi
    have hvw : v = w := by simpa [QLayoutItem.views] using hvi
    rcases x.widget?_eq_some w hw with hx1 | hx1
    · rw [hx1, hvw]
      simp [QLayoutItem.views]
    · exfalso
      refine hr.views v ?_ (hr.owned v ?_)
      · simp only [viewsOfItems, List.mem_append]
        exact Or.inr hv0
      · simp only [containersOfItems, List.mem_append]
        exact Or.inl (hvw ▸ hx1)
  · have hwc : w ∈ containersOfItems rest :=
      (mem_containersOfItems w rest).mpr ⟨i, hi, hi1⟩
    exfalso
    rcases x.widget?_eq_some w hw with hx1 | hx1
    · refine hr.views w ?_ (hr.owned w ?_)
      · simp only [viewsOfItems, List.mem_append]
        exact Or.inl (by rw [hx1]; simp [QLayoutItem.views])
      · simp only [containersOfItems, List.mem_append]
        exact Or.inr hwc
    · exact (List.nodup_append.mp hn).2.2 hx1 hwc

theorem ViewsDetached.past_head {s s1 s' : ManagerState} {x : QLayoutItem}
    {rest : List QLayoutItem} (f : QLayoutItem → Bool)
    (hf : ∀ i ∈ rest, f i = false → ∀ v ∈ i.views, v ∈ x.views)
    (t1 : TeardownStep s s1) (d1 : ViewsDetached s s1 [x]) (t2 : TeardownStep s1 s')
    (d2 : ViewsDetached s1 s' (rest.filter f)) :
    ViewsDetached s s' (x :: rest) := by
  have hsub := (containersOfItems_filter f rest).subset
  have hhead : ∀ v ∈ x.views, s'.visible v = false ∧ s'.parent v = s.viewportForWidget v := by
    intro v hv
    exact t2.detached v _ (t1.same.viewportForWidget v)
      (d1.views v (by simpa [viewsOfItems] using hv))
  refine ⟨?_, ?_⟩
  · intro v hv
    simp only [viewsOfItems, List.mem_append] at hv
    rcases hv with hv | hv
    · exact hhead v hv
    · rw [mem_viewsOfItems] at hv
      obtain ⟨i, hi, hvi⟩ := hv
      by_cases hiw : f i = true
      · have hv2 : v ∈ viewsOfItems (rest.filter f) :=
          (mem_viewsOfItems v _).mpr ⟨i, List.mem_filter.mpr ⟨hi, hiw⟩, hvi⟩
        have := d2.views v hv2
        rw [t1.same.viewportForWidget v] at this
        exact this
      · exact hhead v (hf i hi (by simpa using hiw) v hvi)
  · intro p hp hnot
    simp only [containersOfItems, List.mem_append, not_or] at hnot
    refine d2.kept p (d1.kept p hp ?_) (fun h => hnot.2 (hsub h))
    simpa [containersOfItems] using hnot.1

theorem ReadyToClear.inside {s s0 : ManagerState} {node : QLayoutItem}
    {sub : List QLayoutItem} {p : QWidgetPtr} (hr : ReadyToClear s [node])
    (hs : s0.LayoutWidgets = s.LayoutWidgets)
    (hviews : viewsOfItems [node] = viewsOfItems sub)
    (hcont : containersOfItems [node] = p :: containersOfItems sub)
    (hwf : wellFormedItems sub = true) :
    p ∈ s.LayoutWidgets ∧ ReadyToClear s0 sub := by
  obtain ⟨-, h2, h3, h4⟩ := hr
  rw [hcont] at h2 h3
  rw [hviews] at h4
  refine ⟨h3 p (List.mem_cons_self _ _), hwf, (List.nodup_cons.mp h2).2, ?_, ?_⟩
  · intro q hq
    rw [hs]
    exact h3 q (List.mem_cons_of_mem _ hq)
  · intro v hv
    rw [hs]
    exact h4 v hv

theorem ViewsDetached.delete {s s0 s1 : ManagerState} {node : QLayoutItem}
    {sub : List QLayoutItem} {p : QWidgetPtr}
    (hs : s0.LayoutWidgets = s.LayoutWidgets)
    (hv : ∀ w, s0.viewportForWidget w = s.viewportForWidget w)
    (hviews : viewsOfItems [node] = viewsOfItems sub)
    (hcont : containersOfItems [node] = p :: containersOfItems sub)
    (d1 : ViewsDetached s0 s1 sub) :
    ViewsDetached s ({ s1 with LayoutWidgets := s1.LayoutWidgets.erase p }.deleteWidget p)
      [node] := by
  refine ⟨?_, ?_⟩
  · intro v hvv
    rw [hviews] at hvv
    have := d1.views v hvv
    rw [hv v] at this
    exact this
  · intro w hw hnot
    rw [hcont, List.mem_cons, not_or] at hnot
    have h1 : w ∈ s1.LayoutWidgets := d1.kept w (hs ▸ hw) hnot.2
    exact (List.mem_erase_of_ne hnot.1).mpr h1

theorem clear_returns (fuel : Nat) :
    (∀ node s, node.clearCost ≤ fuel → node.isLayout = false → ReadyToClear s [node] →
      ∃ s', clearWidget fuel node s = some s' ∧ ViewsDetached s s' [node]) ∧
    (∀ items s, clearCostOfItems items ≤ fuel → ReadyToClear s items →
      ∃ s', clearItems fuel items s = some s' ∧ ViewsDetached s s' items) ∧
    (∀ pages s, clearCostOfItems pages ≤ fuel →
      pages.all (fun i => !i.isLayout) = true → ReadyToClear s pages →
      ∃ s', clearPages fuel pages s = some s' ∧ ViewsDetached s s' pages) := by
  induction fuel with
  | zero =>
    refine ⟨?_, ?_, ?_⟩
    · intro node s h
      have := node.clearCost_pos
      omega
    · intro items s h
      have := clearCostOfItems_pos items
      omega
    · intro pages s h
      have := clearCostOfItems_pos pages
      omega
  | succ fuel ih =>
    obtain ⟨ihw, ihi, ihp⟩ := ih
    refine ⟨?_, ?_, ?_⟩
    · intro node s hc hl hr
      have hwf := hr.wellFormed
      simp only [wellFormedItems, Bool.and_true] at hwf
      cases node with
      | widgetItem wid =>
        cases wid with
        | none => simp [QLayoutItem.wellFormed] at hwf
        | some v =>
          have hv : v ∉ s.LayoutWidgets :=
            hr.views v (by simp [viewsOfItems, QLayoutItem.views])
          refine ⟨(s.setVisible v false).setParent v (s.viewportForWidget v), ?_, ?_, ?_⟩
          · rw [clearWidget]
            simp [QLayoutItem.widget?, hv]
          · intro u hu
            have : u = v := by simpa [viewsOfItems, QLayoutItem.views] using hu
            subst this
            exact ⟨by simp [ManagerState.setParent, ManagerState.setVisible],
              by simp [ManagerState.setParent]⟩
          · intro w hw _
            exact hw
      | boxLayout o m sp l => simp [QLayoutItem.isLayout] at hl
      | gridLayout m sp l c => simp [QLayoutItem.isLayout] at hl
      | splitter p o pages sizes =>
        simp only [QLayoutItem.wellFormed, Bool.and_eq_true] at hwf
        simp only [QLayoutItem.clearCost] at hc
        have hviews : viewsOfItems [QLayoutItem.splitter p o pages sizes] = viewsOfItems pages := by
          simp [viewsOfItems, QLayoutItem.views]
        have hcont : containersOfItems [QLayoutItem.splitter p o pages sizes] =
            p :: containersOfItems pages := by
          simp [containersOfItems, QLayoutItem.containers]
        obtain ⟨hp, hr1⟩ := ReadyToClear.inside hr
          (show (s.setVisible p false).LayoutWidgets = s.LayoutWidgets from rfl) hviews hcont hwf.1
        obtain ⟨s1, h1, d1⟩ := ihp pages (s.setVisible p false) (by omega) hwf.2 hr1
        refine ⟨_, ?_, ViewsDetached.delete
          (show (s.setVisible p false).LayoutWidgets = s.LayoutWidgets from rfl)
          (fun _ => rfl) hviews hcont d1⟩
        rw [clearWidget]
        simp [QLayoutItem.widget?, hp, h1]
      | tabWidget p pages labels =>
        simp only [QLayoutItem.wellFormed, Bool.and_eq_true] at hwf
        simp only [QLayoutItem.clearCost] at hc
        have hviews : viewsOfItems [QLayoutItem.tabWidget p pages labels] = viewsOfItems pages := by
          simp [viewsOfItems, QLayoutItem.views]
        have hcont : containersOfItems [QLayoutItem.tabWidget p pages labels] =
            p :: containersOfItems pages := by
          simp [containersOfItems, QLayoutItem.containers]
        obtain ⟨hp, hr1⟩ := ReadyToClear.inside hr
          (show s.LayoutWidgets = s.LayoutWidgets from rfl) hviews hcont hwf.1
        obtain ⟨s1, h1, d1⟩ := ihp pages s (by omega) hwf.2 hr1
        refine ⟨_, ?_, ViewsDetached.delete rfl (fun _ => rfl) hviews hcont d1⟩
        rw [clearWidget]
        simp [QLayoutItem.widget?, hp, h1]
      | widget p =>
        have hviews : viewsOfItems [QLayoutItem.widget p] = viewsOfItems [] := by
          simp [viewsOfItems, QLayoutItem.views]
        have hcont : containersOfItems [QLayoutItem.widget p] = p :: containersOfItems [] := by
          simp [containersOfItems, QLayoutItem.containers]
        obtain ⟨hp, -⟩ := ReadyToClear.inside hr
          (show s.LayoutWidgets = s.LayoutWidgets from rfl) hviews hcont (by simp [wellFormedItems])
        have d1 : ViewsDetached s s [] := ⟨by simp [viewsOfItems], fun w hw _ => hw⟩
        refine ⟨_, ?_, ViewsDetached.delete rfl (fun _ => rfl) hviews hcont d1⟩
        rw [clearWidget]
        simp [QLayoutItem.widget?, hp]
      | widgetWithLayout p layout =>
        simp only [QLayoutItem.wellFormed, Bool.and_eq_true] at hwf
        simp only [QLayoutItem.clearCost] at hc
        have hviews : viewsOfItems [QLayoutItem.widgetWithLayout p layout] =
            viewsOfItems layout.items := by
          rw [layout.views_items hwf.1]
          simp [viewsOfItems, QLayoutItem.views]
        have hcont : containersOfItems [QLayoutItem.widgetWithLayout p layout] =
            p :: containersOfItems layout.items := by
          rw [layout.containers_items hwf.1]
          simp [containersOfItems, QLayoutItem.containers]
        obtain ⟨hp, hr1⟩ := ReadyToClear.inside hr
          (show s.LayoutWidgets = s.LayoutWidgets from rfl) hviews hcont
          (by rw [layout.wellFormed_items hwf.1]; exact hwf.2)
        have hc1 := layout.clearCost_items
        obtain ⟨s1, h1, d1⟩ := ihi layout.items s (by omega) hr1
        refine ⟨_, ?_, ViewsDetached.delete rfl (fun _ => rfl) hviews hcont d1⟩
        rw [clearWidget]
        simp [QLayoutItem.widget?, hp, h1]
    · intro items s hc hr
      cases items with
      | nil =>
        exact ⟨s, by rw [clearItems], ⟨by simp [viewsOfItems], fun w hw _ => hw⟩⟩
      | cons x rest =>
        simp only [clearCostOfItems] at hc
        cases hxw : x.widget? with
        | some w =>
          have hxl : x.isLayout = false := by
            cases x <;> simp [QLayoutItem.widget?] at hxw <;> rfl
          obtain ⟨s1, h1, d1⟩ := ihw x s (by omega) hxl hr.head
          have t1 := (TeardownStep.of_clear fuel).1 _ _ _ h1
          have hF := ReadyToClear.after_head (fun i => decide (i.widget? ≠ some w)) hr t1 d1
          have hcF := clearCostOfItems_filter (fun i => decide (i.widget? ≠ some w)) rest
          obtain ⟨s', h2, d2⟩ := ihi _ s1 (by omega) hF
          have t2 := (TeardownStep.of_clear fuel).2.1 _ _ _ h2
          refine ⟨s', ?_, ViewsDetached.past_head _ ?_ t1 d1 t2 d2⟩
          · rw [clearItems]
            simp only [hxw, h1]
            rw [List.filter_cons_of_neg (by simp [hxw])]
            exact h2
          · intro i hi hfi
            exact hr.filtered_views hxw i hi (by simpa using hfi)
        | none =>
          have hwf := hr.head.wellFormed
          simp only [wellFormedItems, Bool.and_true] at hwf
          by_cases hxl : x.isLayout = true
          · have hr1 : ReadyToClear s x.items := by
              refine ⟨?_, ?_, ?_, ?_⟩
              · rw [x.wellFormed_items hxl]
                exact hwf
              · rw [x.containers_items hxl]
                simpa [containersOfItems] using hr.head.nodup
              · intro p hp
                rw [x.containers_items hxl] at hp
                exact hr.head.owned p (by simpa [containersOfItems] using hp)
              · intro v hv
                rw [x.views_items hxl] at hv
                exact hr.head.views v (by simpa [viewsOfItems] using hv)
            have hc1 := x.clearCost_items
            obtain ⟨s1, h1, d0⟩ := ihi x.items s (by omega) hr1
            have d1 : ViewsDetached s s1 [x] := by
              refine ⟨?_, ?_⟩
              · intro v hv
                exact d0.views v (by rw [x.views_items hxl]; simpa [viewsOfItems] using hv)
              · intro w hw hnot
                exact d0.kept w hw
                  (by rw [x.containers_items hxl]; simpa [containersOfItems] using hnot)
            have t1 := (TeardownStep.of_clear fuel).2.1 _ _ _ h1
            have hF := ReadyToClear.after_head (fun _ => true) hr t1 d1
            rw [List.filter_true] at hF
            obtain ⟨s', h2, d2⟩ := ihi rest s1 (by omega) hF
            have t2 := (TeardownStep.of_clear fuel).2.1 _ _ _ h2
            refine ⟨s', ?_, ViewsDetached.past_head (fun _ => true)
              (fun i hi h => by cases h) t1 d1 t2 (by rw [List.filter_true]; exact d2)⟩
            rw [clearItems]
            simp only [hxw, hxl, h1]
            exact h2
          · exfalso
            cases x <;>
              simp [QLayoutItem.widget?, QLayoutItem.isLayout, QLayoutItem.wellFormed]
                at hxw hxl hwf
            rw [hxw] at hwf
            simp at hwf
    · intro pages s hc hall hr
      cases pages with
      | nil =>
        exact ⟨s, by rw [clearPages], ⟨by simp [viewsOfItems], fun w hw _ => hw⟩⟩
      | cons page rest =>
        simp only [clearCostOfItems] at hc
        simp only [List.all_cons, Bool.and_eq_true, Bool.not_eq_true'] at hall
        have hwf := hr.head.wellFormed
        simp only [wellFormedItems, Bool.and_true] at hwf
        have hxw : ∃ w, page.widget? = some w := by
          cases hq : page.widget? with
          | some w => exact ⟨w, rfl⟩
          | none =>
            exfalso
            have hl := hall.1
            cases page <;>
              simp [QLayoutItem.widget?, QLayoutItem.isLayout, QLayoutItem.wellFormed]
                at hq hl hwf
            rw [hq] at hwf
            simp at hwf
        obtain ⟨w, hxw⟩ := hxw
        obtain ⟨s1, h1, d1⟩ := ihw page s (by omega) hall.1 hr.head
        have t1 := (TeardownStep.of_clear fuel).1 _ _ _ h1
        have hF := ReadyToClear.after_head (fun i => decide (i.widget? ≠ some w)) hr t1 d1
        have hcF := clearCostOfItems_filter (fun i => decide (i.widget? ≠ some w)) rest
        have hallF : (rest.filter (fun i => decide (i.widget? ≠ some w))).all
            (fun i => !i.isLayout) = true := by
          rw [List.all_eq_true]
          intro i hi
          exact (List.all_eq_true.mp hall.2) i (List.mem_filter.mp hi).1
        obtain ⟨s', h2, d2⟩ := ihp _ s1 (by omega) hallF hF
        have t2 := (TeardownStep.of_clear fuel).2.2 _ _ _ h2
        refine ⟨s', ?_, ViewsDetached.past_head _ ?_ t1 d1 t2 d2⟩
        · rw [clearPages]
          simp only [h1, hxw]
          rw [List.filter_cons_of_neg (by simp [hxw])]
          exact h2
        · intro i hi hfi
          exact hr.filtered_views hxw i hi (by simpa using hfi)

theorem containersOfItems_sublist {a b : List QLayoutItem} (h : a.Sublist b) :
    (containersOfItems a).Sublist (containersOfItems b) := by
  induction h with
  | slnil => exact List.Sublist.refl _
  | cons x _ ih =>
    simp only [containersOfItems]
    exact ih.trans (List.sublist_append_right _ _)
  | cons₂ x _ ih =>
    simp only [containersOfItems]
    exact List.Sublist.append (List.Sublist.refl _) ih

theorem wellFormedItems_sublist {a b : List QLayoutItem} (h : a.Sublist b)
    (hb : wellFormedItems b = true) : wellFormedItems a = true := by
  induction h with
  | slnil => exact hb
  | cons x _ ih =>
    simp only [wellFormedItems, Bool.and_eq_true] at hb
    exact ih hb.2
  | cons₂ x _ ih =>
    simp only [wellFormedItems, Bool.and_eq_true] at hb ⊢
    exact ⟨hb.1, ih hb.2⟩

theorem clearCostOfItems_sublist {a b : List QLayoutItem} (h : a.Sublist b) :
    clearCostOfItems a ≤ clearCostOfItems b := by
  induction h with
  | slnil => exact Nat.le_refl _
  | cons x _ ih =>
    simp only [clearCostOfItems]
    omega
  | cons₂ x _ ih =>
    simp only [clearCostOfItems]
    omega

theorem ReadyToClear.left {s : ManagerState} {a b : List QLayoutItem}
    (h : ReadyToClear s (a ++ b)) : ReadyToClear s a := by
  obtain ⟨h1, h2, h3, h4⟩ := h
  rw [wellFormedItems_append, Bool.and_eq_true] at h1
  rw [containersOfItems_append] at h2 h3
  rw [viewsOfItems_append] at h4
  exact ⟨h1.1, (List.nodup_append.mp h2).1, fun p hp => h3 p (List.mem_append_left _ hp),
    fun v hv => h4 v (List.mem_append_left _ hv)⟩

theorem ReadyToClear.after_append {s s1 : ManagerState} {a b c : List QLayoutItem}
    (hsub : c.Sublist b) (hr : ReadyToClear s (a ++ b)) (t1 : TeardownStep s s1)
    (d1 : ViewsDetached s s1 a) : ReadyToClear s1 c := by
  obtain ⟨h1, h2, h3, h4⟩ := hr
  rw [wellFormedItems_append, Bool.and_eq_true] at h1
  rw [containersOfItems_append] at h2 h3
  rw [viewsOfItems_append] at h4
  have hcs := (containersOfItems_sublist hsub).subset
  refine ⟨wellFormedItems_sublist hsub h1.2,
    (List.nodup_append.mp h2).2.1.sublist (containersOfItems_sublist hsub), ?_, ?_⟩
  · intro p hp
    refine d1.kept p (h3 p (List.mem_append_right _ (hcs hp))) ?_
    intro hpa
    exact (List.nodup_append.mp h2).2.2 hpa (hcs hp)
  · intro v hv hin
    rw [mem_viewsOfItems] at hv
    obtain ⟨i, hi, hvi⟩ := hv
    exact h4 v (List.mem_append_right _ ((mem_viewsOfItems v b).mpr ⟨i, hsub.subset hi, hvi⟩))
      (t1.owned v hin)

theorem ViewsDetached.past_append {s s1 s' : ManagerState} {a b c : List QLayoutItem}
    (hsub : c.Sublist b) (hf : ∀ i ∈ b, i ∈ c ∨ i ∈ a)
    (t1 : TeardownStep s s1) (d1 : ViewsDetached s s1 a) (t2 : TeardownStep s1 s')
    (d2 : ViewsDetached s1 s' c) : ViewsDetached s s' (a ++ b) := by
  have hcs := (containersOfItems_sublist hsub).subset
  have hhead : ∀ v ∈ viewsOfItems a,
      s'.visible v = false ∧ s'.parent v = s.viewportForWidget v := by
    intro v hv
    exact t2.detached v _ (t1.same.viewportForWidget v) (d1.views v hv)
  refine ⟨?_, ?_⟩
  · intro v hv
    rw [viewsOfItems_append, List.mem_append] at hv
    rcases hv with hv | hv
    · exact hhead v hv
    · rw [mem_viewsOfItems] at hv
      obtain ⟨i, hi, hvi⟩ := hv
      rcases hf i hi with g | g
      · have := d2.views v ((mem_viewsOfItems v c).mpr ⟨i, g, hvi⟩)
        rw [t1.same.viewportForWidget v] at this
        exact this
      · exact hhead v ((mem_viewsOfItems v a).mpr ⟨i, g, hvi⟩)
  · intro p hp hnot
    rw [containersOfItems_append, List.mem_append, not_or] at hnot
    exact d2.kept p (d1.kept p hp hnot.1) (fun h => hnot.2 (hcs h))

theorem ManagerState.itemsOf_update_sublist (s s3 : ManagerState) (vp : QWidgetPtr)
    (h : s3.layout = Function.update s.layout vp none) (vs : List (Option QWidgetPtr)) :
    (s3.itemsOf vs).Sublist (s.itemsOf vs) ∧
      ∀ i ∈ s.itemsOf vs, i ∈ s3.itemsOf vs ∨ i ∈ s.layoutItems vp := by
  induction vs with
  | nil => exact ⟨List.Sublist.refl _, fun i hi => Or.inl hi⟩
  | cons v rest ih =>
    cases v with
    | none => exact ih
    | some q =>
      simp only [ManagerState.itemsOf]
      by_cases hq : q = vp
      · have h3 : s3.layoutItems q = [] := by
          unfold ManagerState.layoutItems
          rw [h, hq, Function.update_same]
        rw [h3, List.nil_append]
        refine ⟨ih.1.trans (List.sublist_append_right _ _), ?_⟩
        intro i hi
        rw [List.mem_append] at hi
        rcases hi with g | g
        · exact Or.inr (hq ▸ g)
        · exact ih.2 i g
      · have h3 : s3.layoutItems q = s.layoutItems q := by
          unfold ManagerState.layoutItems
          rw [h, Function.update_noteq hq]
        rw [h3]
        refine ⟨List.Sublist.append (List.Sublist.refl _) ih.1, ?_⟩
        intro i hi
        rw [List.mem_append] at hi ⊢
        rcases hi with g | g
        · exact Or.inl (Or.inl g)
        · rcases ih.2 i g with g2 | g2
          · exact Or.inl (Or.inr g2)
          · exact Or.inr g2

theorem clearLayoutOf_returns (fuel : Nat) (vp : QWidgetPtr) (s : ManagerState)
    (hc : clearCostOfItems (s.layoutItems vp) ≤ fuel)
    (hr : ReadyToClear s (s.layoutItems vp)) :
    ∃ s2, clearLayoutOf fuel vp s = some s2 ∧ ViewsDetached s s2 (s.layoutItems vp) ∧
      TeardownStep s s2 ∧ s2.layout = Function.update s.layout vp none := by
  unfold ManagerState.layoutItems at hc hr
  unfold ManagerState.layoutItems CTK.clearLayoutOf
  cases hl : s.layout vp with
  | none =>
    refine ⟨s, rfl, ⟨by simp [viewsOfItems], fun w hw _ => hw⟩, TeardownStep.step_refl s, ?_⟩
    rw [← hl, Function.update_eq_self]
  | some layout =>
    rw [hl] at hc hr
    simp only [] at hc hr ⊢
    obtain ⟨s1, h1, d1⟩ := (clear_returns fuel).2.1 layout.items s hc hr
    have t1 := (TeardownStep.of_clear fuel).2.1 _ _ _ h1
    have l1 := (clear_layout fuel).2.1 _ _ _ h1
    refine ⟨{ s1 with layout := Function.update s1.layout vp none }, ?_, ⟨d1.views, d1.kept⟩,
      ⟨t1.same.teardown_trans ⟨rfl, rfl, rfl, rfl, rfl, rfl, rfl, rfl, rfl, rfl, rfl⟩,
        t1.visible, t1.parent, t1.owned, t1.deleted⟩, ?_⟩
    · rw [h1]
    · show Function.update s1.layout vp none = _
      rw [l1]

theorem TeardownStep.assert (s : ManagerState) (cond : Bool) (line : Nat) :
    TeardownStep s (s.Q_ASSERT cond line) := by
  unfold ManagerState.Q_ASSERT
  split
  · exact TeardownStep.step_refl s
  · exact ⟨⟨rfl, rfl, rfl, rfl, rfl, rfl, rfl, rfl, rfl, rfl, rfl⟩, fun _ h => h,
      fun _ => Or.inl rfl, fun _ h => h, fun _ h => Or.inl h⟩

theorem ManagerState.Q_ASSERT_layout (s : ManagerState) (cond : Bool) (line : Nat) :
    (s.Q_ASSERT cond line).layout = s.layout := by
  unfold ManagerState.Q_ASSERT
  split <;> rfl

theorem ManagerState.Q_ASSERT_visible (s : ManagerState) (cond : Bool) (line : Nat) :
    (s.Q_ASSERT cond line).visible = s.visible := by
  unfold ManagerState.Q_ASSERT
  split <;> rfl

theorem ManagerState.Q_ASSERT_parent (s : ManagerState) (cond : Bool) (line : Nat) :
    (s.Q_ASSERT cond line).parent = s.parent := by
  unfold ManagerState.Q_ASSERT
  split <;> rfl

theorem clearViewports_returns (fuel : Nat) (vs : List (Option QWidgetPtr)) :
    ∀ s : ManagerState, clearCostOfItems (s.itemsOf vs) ≤ fuel → ReadyToClear s (s.itemsOf vs) →
      ∃ s', clearViewports fuel vs s = some s' ∧ ViewsDetached s s' (s.itemsOf vs) ∧
        TeardownStep s s' ∧ (∀ vp, some vp ∈ vs → s'.layout vp = none) ∧
        (∀ w, s'.layout w = s.layout w ∨ s'.layout w = none) := by
  induction vs with
  | nil =>
    intro s _ _
    exact ⟨s, rfl, ⟨by simp [ManagerState.itemsOf, viewsOfItems], fun w hw _ => hw⟩,
      TeardownStep.step_refl s, fun vp h => absurd h (List.not_mem_nil _), fun _ => Or.inl rfl⟩
  | cons v rest ih =>
    intro s hc hr
    cases v with
    | none =>
      obtain ⟨s', h1, d1, t1, l1, m1⟩ := ih s hc hr
      refine ⟨s', h1, d1, t1, ?_, m1⟩
      intro vp hvp
      rcases List.mem_cons.mp hvp with g | g
      · cases g
      · exact l1 vp g
    | some vp =>
      simp only [ManagerState.itemsOf] at hc hr ⊢
      have hca := clearCostOfItems_append (s.layoutItems vp) (s.itemsOf rest)
      have hpos := clearCostOfItems_pos (s.itemsOf rest)
      have hposL := clearCostOfItems_pos (s.layoutItems vp)
      obtain ⟨s2, h2, d2, t2, l2⟩ := clearLayoutOf_returns fuel vp s (by omega) hr.left
      have l3 : (s2.Q_ASSERT (decide (s2.LayoutWidgets.length = 0)) 289).layout =
          Function.update s.layout vp none := by
        rw [ManagerState.Q_ASSERT_layout, l2]
      have ta := TeardownStep.assert s2 (decide (s2.LayoutWidgets.length = 0)) 289
      have t3 := t2.step_trans ta
      have d3 : ViewsDetached s (s2.Q_ASSERT (decide (s2.LayoutWidgets.length = 0)) 289)
          (s.layoutItems vp) := by
        refine ⟨?_, ?_⟩
        · intro u hu
          rw [ManagerState.Q_ASSERT_visible, ManagerState.Q_ASSERT_parent]
          exact d2.views u hu
        · intro w hw hnot
          rw [ManagerState.Q_ASSERT_LayoutWidgets]
          exact d2.kept w hw hnot
      obtain ⟨hsub, hcover⟩ := ManagerState.itemsOf_update_sublist s _ vp l3 rest
      have hcs := clearCostOfItems_sublist hsub
      obtain ⟨s', h4, d4, t4, l4, m4⟩ := ih _ (by omega) (ReadyToClear.after_append hsub hr t3 d3)
      refine ⟨s', ?_, ViewsDetached.past_append hsub hcover t3 d3 t4 d4, t3.step_trans t4, ?_, ?_⟩
      · simp only [CTK.clearViewports, h2]
        exact h4
      · intro q hq
        rcases List.mem_cons.mp hq with g | g
        · cases g
          rcases m4 vp with e | e
          · rw [e, l3, Function.update_same]
          · exact e
        · exact l4 q g
      · intro w
        rcases m4 w with e | e
        · rw [e, l3]
          by_cases hw : w = vp
          · rw [hw, Function.update_same]; exact Or.inr rfl
          · rw [Function.update_noteq hw]; exact Or.inl rfl
        · exact Or.inr e

/-! ## What the build makes -/

theorem BuildStep.build_refl (s : ManagerState) : BuildStep s s :=
  ⟨Nat.le_refl _, fun _ h => h, fun _ h => Or.inl h⟩

theorem BuildStep.build_trans {a b c : ManagerState} (h1 : BuildStep a b)
    (h2 : BuildStep b c) : BuildStep a c := by
  refine ⟨Nat.le_trans h1.allocated h2.allocated, fun p h => h2.kept p (h1.kept p h), ?_⟩
  intro p hp
  rcases h2.added p hp with g | ⟨n, hn, h3, h4⟩
  · rcases h1.added p g with g1 | ⟨n, hn, h3, h4⟩
    · exact Or.inl g1
    · exact Or.inr ⟨n, hn, h3, Nat.lt_of_lt_of_le h4 h2.allocated⟩
  · exact Or.inr ⟨n, hn, Nat.le_trans h1.allocated h3, h4⟩

theorem buildStep_of_eq {s s' : ManagerState} (ha : s'.allocated = s.allocated)
    (hl : s'.LayoutWidgets = s.LayoutWidgets) : BuildStep s s' :=
  ⟨by rw [ha], fun p h => by rw [hl]; exact h, fun p h => Or.inl (by rw [← hl]; exact h)⟩

theorem buildStep_Q_ASSERT (s : ManagerState) (c : Bool) (line : Nat) :
    BuildStep s (s.Q_ASSERT c line) :=
  buildStep_of_eq (ManagerState.Q_ASSERT_allocated s c line)
    (ManagerState.Q_ASSERT_LayoutWidgets s c line)

theorem buildStep_newWidget (s : ManagerState) : BuildStep s s.newWidget.2 :=
  ⟨Nat.le_succ _, fun _ h => h, fun _ h => Or.inl h⟩

theorem buildStep_setupView (e : QDomNode) (v : Option QWidgetPtr) (s : ManagerState) :
    BuildStep s (setupView e v s) := by
  cases v <;> exact buildStep_of_eq rfl rfl

theorem buildStep_widgetItemsLoop (e : QDomNode) (views : List (Option QWidgetPtr)) :
    ∀ (res : List QLayoutItem) (s : ManagerState),
      BuildStep s (widgetItemsLoop e views res s).2 := by
  induction views with
  | nil => intro res s; exact BuildStep.build_refl s
  | cons v vs ih =>
    intro res s
    exact (buildStep_setupView e v s).build_trans (ih _ _)

theorem buildStep_adopt (w : QWidgetPtr) (p : QLayoutItem) (s : ManagerState) :
    BuildStep s (adopt w p s) := by
  unfold CTK.adopt
  split <;> exact buildStep_of_eq rfl rfl

theorem BuiltTree.later {lo : Nat} {s s' : ManagerState} {item : QLayoutItem}
    (h : BuiltTree lo s item) (t : BuildStep s s') : BuiltTree lo s' item := by
  refine ⟨h.wellFormed, h.nodup, ?_, fun p hp => t.kept p (h.owned p hp), h.views⟩
  intro p hp
  obtain ⟨n, hn, h1, h2⟩ := h.created p hp
  exact ⟨n, hn, h1, Nat.lt_of_lt_of_le h2 t.allocated⟩

theorem BuiltTree.lower {lo lo' : Nat} {s : ManagerState} {item : QLayoutItem}
    (h : BuiltTree lo s item) (hlo : lo' ≤ lo) : BuiltTree lo' s item := by
  refine ⟨h.wellFormed, h.nodup, ?_, h.owned, h.views⟩
  intro p hp
  obtain ⟨n, hn, h1, h2⟩ := h.created p hp
  exact ⟨n, hn, Nat.le_trans hlo h1, h2⟩

theorem builtTree_view (lo : Nat) (s : ManagerState) (n : Nat) :
    BuiltTree lo s (.widgetItem (some (.external n))) :=
  ⟨rfl, by simp [QLayoutItem.containers], by simp [QLayoutItem.containers],
    by simp [QLayoutItem.containers], by simp [QLayoutItem.views]⟩

theorem pageWidget_built {mid : Nat} {s : ManagerState} {child : QLayoutItem}
    (hchild : BuiltTree mid s child) (hmid : mid ≤ s.allocated) :
    BuiltTree mid (pageWidget child s).2 (pageWidget child s).1 ∧
      BuildStep s (pageWidget child s).2 ∧ (pageWidget child s).1.isLayout = false := by
  unfold pageWidget
  cases hw : child.widget? with
  | some w =>
    refine ⟨hchild, BuildStep.build_refl s, ?_⟩
    cases child <;> simp [QLayoutItem.widget?] at hw <;> rfl
  | none =>
    simp only []
    by_cases hl : child.isLayout = true
    · simp only [hl, if_true]
      have hfresh : QWidgetPtr.created s.allocated ∉ child.containers := by
        intro h
        obtain ⟨n, hn, -, h2⟩ := hchild.created _ h
        cases hn
        exact Nat.lt_irrefl _ h2
      refine ⟨⟨?_, ?_, ?_, ?_, ?_⟩, ⟨Nat.le_succ _, ?_, ?_⟩, rfl⟩
      · simp [QLayoutItem.wellFormed, hl, hchild.wellFormed]
      · simp only [QLayoutItem.containers, ManagerState.newWidget]
        exact List.nodup_cons.mpr ⟨hfresh, hchild.nodup⟩
      · intro p hp
        simp only [QLayoutItem.containers, ManagerState.newWidget, List.mem_cons] at hp
        rcases hp with g | g
        · exact ⟨s.allocated, g, hmid, Nat.lt_succ_self _⟩
        · obtain ⟨n, hn, h1, h2⟩ := hchild.created p g
          exact ⟨n, hn, h1, Nat.lt_succ_of_lt h2⟩
      · intro p hp
        simp only [QLayoutItem.containers, ManagerState.newWidget, List.mem_cons] at hp
        show p ∈ List.insert _ s.LayoutWidgets
        rw [List.mem_insert_iff]
        rcases hp with g | g
        · exact Or.inl g
        · exact Or.inr (hchild.owned p g)
      · intro v hv
        exact hchild.views v (by simpa [QLayoutItem.views] using hv)
      · intro p hp
        show p ∈ List.insert _ s.LayoutWidgets
        exact List.mem_insert_iff.mpr (Or.inr hp)
      · intro p hp
        have hp2 : p ∈ List.insert (QWidgetPtr.created s.allocated) s.LayoutWidgets := hp
        rw [List.mem_insert_iff] at hp2
        rcases hp2 with g | g
        · exact Or.inr ⟨s.allocated, g, Nat.le_refl _, Nat.lt_succ_self _⟩
        · exact Or.inl g
    · exfalso
      have hwf := hchild.wellFormed
      cases child <;>
        simp [QLayoutItem.widget?, QLayoutItem.isLayout, QLayoutItem.wellFormed] at hw hl hwf
      rw [hw] at hwf
      simp at hwf

theorem built_append {lo mid : Nat} {s : ManagerState} {items : List QLayoutItem}
    {child : QLayoutItem} (hw : wellFormedItems items = true)
    (hn : (containersOfItems items).Nodup)
    (hcr : ∀ p ∈ containersOfItems items, ∃ n, p = QWidgetPtr.created n ∧ lo ≤ n ∧ n < mid)
    (hch : BuiltTree mid s child) :
    wellFormedItems (items ++ [child]) = true ∧
      (containersOfItems (items ++ [child])).Nodup ∧
      containersOfItems (items ++ [child]) = containersOfItems items ++ child.containers ∧
      viewsOfItems (items ++ [child]) = viewsOfItems items ++ child.views := by
  have hc : containersOfItems (items ++ [child]) = containersOfItems items ++ child.containers := by
    rw [containersOfItems_append]
    simp [containersOfItems]
  refine ⟨?_, ?_, hc, ?_⟩
  · rw [wellFormedItems_append]
    simp [wellFormedItems, hw, hch.wellFormed]
  · rw [hc]
    refine List.nodup_append.mpr ⟨hn, hch.nodup, ?_⟩
    intro p hp hq
    obtain ⟨n, hn1, -, h2⟩ := hcr p hp
    obtain ⟨m, hm1, h3, -⟩ := hch.created p hq
    rw [hn1] at hm1
    cases hm1
    omega
  · rw [viewsOfItems_append]
    simp [viewsOfItems]

theorem builtTree_congr {lo : Nat} {s : ManagerState} {a b : QLayoutItem}
    (h1 : b.wellFormed = a.wellFormed) (h2 : b.containers = a.containers)
    (h3 : b.views = a.views) (h : BuiltTree lo s a) : BuiltTree lo s b :=
  ⟨h1 ▸ h.wellFormed, h2 ▸ h.nodup, h2 ▸ h.created, h2 ▸ h.owned, h3 ▸ h.views⟩

theorem builtTree_box_append {lo : Nat} {s0 s : ManagerState} {o : Orientation}
    {m sp : Option Int} {items : List QLayoutItem} {child : QLayoutItem}
    (hc : BuiltTree lo s0 (.boxLayout o m sp items)) (t : BuildStep s0 s)
    (hchild : BuiltTree s0.allocated s child) (hlo : lo ≤ s0.allocated) :
    BuiltTree lo s (.boxLayout o m sp (items ++ [child])) := by
  obtain ⟨c1, c2, c3, c4, c5⟩ := hc
  simp only [QLayoutItem.wellFormed, QLayoutItem.containers, QLayoutItem.views] at c1 c2 c3 c4 c5
  obtain ⟨a1, a2, a3, a4⟩ := built_append c1 c2 c3 hchild
  refine ⟨?_, ?_, ?_, ?_, ?_⟩ <;>
    simp only [QLayoutItem.wellFormed, QLayoutItem.containers, QLayoutItem.views]
  · exact a1
  · exact a2
  · intro p hp
    rw [a3, List.mem_append] at hp
    rcases hp with g | g
    · obtain ⟨n, hn, h1, h2⟩ := c3 p g
      exact ⟨n, hn, h1, Nat.lt_of_lt_of_le h2 t.allocated⟩
    · obtain ⟨n, hn, h1, h2⟩ := hchild.created p g
      exact ⟨n, hn, Nat.le_trans hlo h1, h2⟩
  · intro p hp
    rw [a3, List.mem_append] at hp
    rcases hp with g | g
    · exact t.kept p (c4 p g)
    · exact hchild.owned p g
  · intro v hv
    rw [a4, List.mem_append] at hv
    rcases hv with g | g
    · exact c5 v g
    · exact hchild.views v g

theorem builtTree_pages_append {lo : Nat} {s0 s : ManagerState} {c c' : QLayoutItem}
    {p : QWidgetPtr} {pages : List QLayoutItem} {page : QLayoutItem}
    (hw : c.wellFormed = (wellFormedItems pages && pages.all (fun i => !i.isLayout)))
    (hcn : c.containers = p :: containersOfItems pages) (hv : c.views = viewsOfItems pages)
    (hw' : c'.wellFormed =
      (wellFormedItems (pages ++ [page]) && (pages ++ [page]).all (fun i => !i.isLayout)))
    (hcn' : c'.containers = p :: containersOfItems (pages ++ [page]))
    (hv' : c'.views = viewsOfItems (pages ++ [page]))
    (hc : BuiltTree lo s0 c) (t : BuildStep s0 s)
    (hpage : BuiltTree s0.allocated s page) (hnl : page.isLayout = false)
    (hlo : lo ≤ s0.allocated) : BuiltTree lo s c' := by
  obtain ⟨c1, c2, c3, c4, c5⟩ := hc
  rw [hw, Bool.and_eq_true] at c1
  rw [hcn] at c2 c3 c4
  rw [hv] at c5
  have hbox : BuiltTree lo s0 (.boxLayout .Horizontal none none pages) := by
    refine ⟨?_, ?_, ?_, ?_, ?_⟩ <;>
      simp only [QLayoutItem.wellFormed, QLayoutItem.containers, QLayoutItem.views]
    · exact c1.1
    · exact (List.nodup_cons.mp c2).2
    · exact fun q hq => c3 q (List.mem_cons_of_mem _ hq)
    · exact fun q hq => c4 q (List.mem_cons_of_mem _ hq)
    · exact c5
  obtain ⟨b1, b2, b3, b4, b5⟩ := builtTree_box_append hbox t hpage hlo
  simp only [QLayoutItem.wellFormed, QLayoutItem.containers, QLayoutItem.views] at b1 b2 b3 b4 b5
  obtain ⟨-, -, a3, -⟩ := built_append c1.1 (List.nodup_cons.mp c2).2
    (fun q hq => c3 q (List.mem_cons_of_mem _ hq)) hpage
  obtain ⟨n, hn, h1, h2⟩ := c3 p (List.mem_cons_self _ _)
  refine ⟨?_, ?_, ?_, ?_, ?_⟩
  · rw [hw', b1, Bool.true_and, List.all_append, c1.2, Bool.true_and]
    simp [hnl]
  · rw [hcn']
    refine List.nodup_cons.mpr ⟨?_, b2⟩
    rw [a3, List.mem_append]
    rintro (g | g)
    · exact (List.nodup_cons.mp c2).1 g
    · obtain ⟨k, hk, h3, -⟩ := hpage.created p g
      rw [hn] at hk
      cases hk
      omega
  · intro q hq
    rw [hcn', List.mem_cons] at hq
    rcases hq with g | g
    · exact ⟨n, g.trans hn, h1, Nat.lt_of_lt_of_le h2 t.allocated⟩
    · exact b3 q g
  · intro q hq
    rw [hcn', List.mem_cons] at hq
    rcases hq with g | g
    · rw [g]
      exact t.kept p (c4 p (List.mem_cons_self _ _))
    · exact b4 q g
  · rw [hv']
    exact b5

theorem addChildItemToLayout_built (e : QDomNode) {lo : Nat} {s0 s : ManagerState}
    {child container : QLayoutItem} (hc : BuiltTree lo s0 container) (t : BuildStep s0 s)
    (hchild : BuiltTree s0.allocated s child) (hlo : lo ≤ s0.allocated) :
    BuiltTree lo (addChildItemToLayout e child container s).2
        (addChildItemToLayout e child container s).1 ∧
      BuildStep s (addChildItemToLayout e child container s).2 := by
  have hpg := pageWidget_built hchild t.allocated
  unfold addChildItemToLayout
  cases container with
  | widgetItem wid => exact ⟨hc.later t, BuildStep.build_refl s⟩
  | widget p => exact ⟨hc.later t, BuildStep.build_refl s⟩
  | widgetWithLayout p layout => exact ⟨hc.later t, BuildStep.build_refl s⟩
  | boxLayout o m sp items =>
    exact ⟨builtTree_box_append hc t hchild hlo, BuildStep.build_refl s⟩
  | gridLayout m sp items cells =>
    refine ⟨?_, BuildStep.build_refl s⟩
    have hb : BuiltTree lo s0 (.boxLayout .Horizontal m sp items) :=
      @builtTree_congr lo s0 (.gridLayout m sp items cells) (.boxLayout .Horizontal m sp items)
        (by simp [QLayoutItem.wellFormed]) (by simp [QLayoutItem.containers])
        (by simp [QLayoutItem.views]) hc
    exact @builtTree_congr lo s (.boxLayout .Horizontal m sp (items ++ [child]))
      (.gridLayout m sp (items ++ [child]) _)
      (by simp [QLayoutItem.wellFormed]) (by simp [QLayoutItem.containers])
      (by simp [QLayoutItem.views]) (builtTree_box_append hb t hchild hlo)
  | tabWidget p pages labels =>
    simp only []
    have ta := buildStep_adopt p (pageWidget child s).1 (pageWidget child s).2
    refine ⟨?_, hpg.2.1.build_trans ta⟩
    exact (@builtTree_pages_append lo s0 (pageWidget child s).2 (.tabWidget p pages labels)
      (.tabWidget p (pages ++ [(pageWidget child s).1]) _) p pages (pageWidget child s).1
      (by simp [QLayoutItem.wellFormed])
      (by simp [QLayoutItem.containers]) (by simp [QLayoutItem.views])
      (by simp [QLayoutItem.wellFormed]) (by simp [QLayoutItem.containers])
      (by simp [QLayoutItem.views]) hc (t.build_trans hpg.2.1) hpg.1 hpg.2.2 hlo).later ta
  | splitter p o pages sizes =>
    simp only []
    have ta := buildStep_adopt p (pageWidget child s).1 (pageWidget child s).2
    refine ⟨?_, hpg.2.1.build_trans ta⟩
    exact (@builtTree_pages_append lo s0 (pageWidget child s).2 (.splitter p o pages sizes)
      (.splitter p o (pages ++ [(pageWidget child s).1]) sizes) p pages (pageWidget child s).1
      (by simp [QLayoutItem.wellFormed])
      (by simp [QLayoutItem.containers]) (by simp [QLayoutItem.views])
      (by simp [QLayoutItem.wellFormed]) (by simp [QLayoutItem.containers])
      (by simp [QLayoutItem.views]) hc (t.build_trans hpg.2.1) hpg.1 hpg.2.2 hlo).later ta

theorem addChildItems_leaves (e : QDomNode) (items : List QLayoutItem)
    (hitems : ∀ i ∈ items, ∀ m s', BuiltTree m s' i) :
    ∀ {lo : Nat} {s : ManagerState} {container : QLayoutItem},
      BuiltTree lo s container → lo ≤ s.allocated →
      BuiltTree lo (addChildItems e items container s).2 (addChildItems e items container s).1 ∧
        BuildStep s (addChildItems e items container s).2 := by
  induction items with
  | nil =>
    intro lo s container hc _
    exact ⟨hc, BuildStep.build_refl s⟩
  | cons x xs ih =>
    intro lo s container hc hlo
    have h1 := addChildItemToLayout_built e hc (BuildStep.build_refl s)
      (hitems x (List.mem_cons_self _ _) _ _) hlo
    have h2 := ih (fun i hi => hitems i (List.mem_cons_of_mem _ hi)) h1.1
      (Nat.le_trans hlo h1.2.allocated)
    exact ⟨h2.1, h1.2.build_trans h2.2⟩

theorem widgetItemsLoop_items (e : QDomNode) (views : List (Option QWidgetPtr)) :
    ∀ (res : List QLayoutItem) (s : ManagerState),
      (widgetItemsLoop e views res s).1 = res ++ views.map QLayoutItem.widgetItem := by
  induction views with
  | nil => intro res s; simp [widgetItemsLoop]
  | cons v vs ih =>
    intro res s
    simp [widgetItemsLoop, ih]

theorem widgetItemsFromXML_built (H : Hooks) (e : QDomNode) (s : ManagerState)
    (hres : none ∉ H.viewsFromXML e) :
    (∀ i ∈ (widgetItemsFromXML H e s).1, ∀ m s', BuiltTree m s' i) ∧
      BuildStep s (widgetItemsFromXML H e s).2 := by
  unfold widgetItemsFromXML
  simp only []
  refine ⟨?_, (buildStep_Q_ASSERT s _ 688).build_trans (buildStep_widgetItemsLoop e _ _ _)⟩
  intro i hi m s'
  rw [widgetItemsLoop_items, List.nil_append, List.mem_map] at hi
  obtain ⟨v, hv, rfl⟩ := hi
  rw [List.mem_map] at hv
  obtain ⟨o, ho, rfl⟩ := hv
  cases o with
  | none => exact absurd ho hres
  | some n => exact builtTree_view m s' n

theorem widgetItemFromXML_built (H : Hooks) (e : QDomNode) (s : ManagerState) :
    (∀ item, (widgetItemFromXML H e s).1 = some item → ∀ m s', BuiltTree m s' item) ∧
      BuildStep s (widgetItemFromXML H e s).2 := by
  unfold widgetItemFromXML
  cases H.viewFromXML e with
  | none =>
    simp only [Option.map]
    exact ⟨fun item h => (by cases h), BuildStep.build_refl s⟩
  | some n =>
    simp only [Option.map]
    refine ⟨?_, buildStep_setupView _ _ _⟩
    intro item h m s'
    cases h
    exact builtTree_view m s' n

theorem processItemElementWith_built (H : Hooks)
    (processInner : ManagerState → Result (Option QLayoutItem))
    (e : QDomNode)
    (hinner : e.attr "multiple" "false" ≠ "true" → ∀ s item s1,
      processInner s = .ok item s1 →
        BuildStep s s1 ∧ ∀ i, item = some i → BuiltTree s.allocated s1 i)
    (hres : e.attr "multiple" "false" = "true" → none ∉ H.viewsFromXML e.firstChild.toElement)
    {lo : Nat} {s : ManagerState} {container : QLayoutItem}
    (hc : BuiltTree lo s container) (hlo : lo ≤ s.allocated)
    (c' : QLayoutItem) (s' : ManagerState)
    (h : processItemElementWith H processInner e container s = .ok c' s') :
    BuiltTree lo s' c' ∧ BuildStep s s' := by
  unfold processItemElementWith at h
  simp only [] at h
  have t0 : BuildStep s ((s.Q_ASSERT (decide (e.tagName = "item")) 587).Q_ASSERT
      (decide (e.childCount = 1)) 588) :=
    (buildStep_Q_ASSERT _ _ _).build_trans (buildStep_Q_ASSERT _ _ _)
  split at h
  · rename_i hm
    have hm' : e.attr "multiple" "false" = "true" := by simpa using hm
    have h1 := widgetItemsFromXML_built H e.firstChild.toElement
      ((s.Q_ASSERT (decide (e.tagName = "item")) 587).Q_ASSERT
        (decide (e.childCount = 1)) 588) (hres hm')
    have h2 := addChildItems_leaves e _ h1.1 (hc.later (t0.build_trans h1.2))
      (Nat.le_trans hlo (t0.build_trans h1.2).allocated)
    cases h
    exact ⟨h2.1, (t0.build_trans h1.2).build_trans h2.2⟩
  · rename_i hm
    have hm' : e.attr "multiple" "false" ≠ "true" := by simpa using hm
    split at h
    · cases h
    · rename_i s1 hp
      cases h
      have h1 := hinner hm' _ _ _ hp
      exact ⟨hc.later (t0.build_trans h1.1), t0.build_trans h1.1⟩
    · rename_i item s1 hp
      cases h
      have h1 := hinner hm' _ _ _ hp
      have h2 := addChildItemToLayout_built e (hc.later t0) h1.1 (h1.2 item rfl)
        (Nat.le_trans hlo t0.allocated)
      exact ⟨h2.1, (t0.build_trans h1.1).build_trans h2.2⟩

theorem processElementWith_built (H : Hooks)
    (processLayout : QDomNode → ManagerState → Result QLayoutItem) (e : QDomNode)
    (hlayout : e.tagName = "layout" → ∀ s item s1, processLayout e s = .ok item s1 →
      BuildStep s s1 ∧ BuiltTree s.allocated s1 item)
    (s : ManagerState) (item : Option QLayoutItem) (s1 : ManagerState)
    (h : processElementWith H processLayout e s = .ok item s1) :
    BuildStep s s1 ∧ ∀ i, item = some i → BuiltTree s.allocated s1 i := by
  unfold processElementWith at h
  simp only [] at h
  have t0 := buildStep_Q_ASSERT s (!e.isNull) 481
  split at h
  · rename_i ht
    cases hp : processLayout e (s.Q_ASSERT (!e.isNull) 481) with
    | crash s2 => rw [hp] at h; cases h
    | ok li s2 =>
      rw [hp] at h
      cases h
      have h1 := hlayout ht _ _ _ hp
      rw [ManagerState.Q_ASSERT_allocated] at h1
      refine ⟨t0.build_trans h1.1, ?_⟩
      intro i hi
      cases hi
      exact h1.2
  · cases h
    have h1 := widgetItemFromXML_built H e (s.Q_ASSERT (!e.isNull) 481)
    refine ⟨t0.build_trans h1.2, ?_⟩
    intro i hi
    exact h1.1 i hi _ _

theorem layoutFromXML_built (e : QDomNode) (s : ManagerState) (li : QLayoutItem)
    (s1 : ManagerState) (h : layoutFromXML e s = (some li, s1)) :
    BuildStep s (if li.isLayout then s1
        else
          match li.widget? with
          | some widget => { s1 with LayoutWidgets := s1.LayoutWidgets.insert widget }
          | none => s1) ∧
      BuiltTree s.allocated (if li.isLayout then s1
        else
          match li.widget? with
          | some widget => { s1 with LayoutWidgets := s1.LayoutWidgets.insert widget }
          | none => s1)
        (if li.isLayout then (li.setContentsMargins 0).setSpacing s1.Spacing else li) := by
  have t0 := buildStep_Q_ASSERT s (decide (e.tagName = "layout")) 554
  have ha := ManagerState.Q_ASSERT_allocated s (decide (e.tagName = "layout")) 554
  have hbox : ∀ o, BuildStep s (s.Q_ASSERT (decide (e.tagName = "layout")) 554) ∧
      BuiltTree s.allocated (s.Q_ASSERT (decide (e.tagName = "layout")) 554)
        (.boxLayout o (some 0)
          (some (s.Q_ASSERT (decide (e.tagName = "layout")) 554).Spacing) []) := by
    intro o
    refine ⟨t0, ⟨?_, ?_, ?_, ?_, ?_⟩⟩ <;>
      simp [QLayoutItem.wellFormed, QLayoutItem.containers, QLayoutItem.views,
        wellFormedItems, containersOfItems, viewsOfItems]
  have hnew : BuildStep s
      { (s.Q_ASSERT (decide (e.tagName = "layout")) 554).newWidget.2 with
        LayoutWidgets :=
          (s.Q_ASSERT (decide (e.tagName = "layout")) 554).newWidget.2.LayoutWidgets.insert
            (s.Q_ASSERT (decide (e.tagName = "layout")) 554).newWidget.1 } := by
    refine t0.build_trans ⟨Nat.le_succ _, ?_, ?_⟩
    · intro p hp
      exact List.mem_insert_iff.mpr (Or.inr hp)
    · intro p hp
      rcases List.mem_insert_iff.mp hp with g | g
      · exact Or.inr ⟨_, g, Nat.le_refl _, Nat.lt_succ_self _⟩
      · exact Or.inl g
  have hfields : ∀ c : QLayoutItem,
      c.wellFormed = true →
      c.containers = [(s.Q_ASSERT (decide (e.tagName = "layout")) 554).newWidget.1] →
      c.views = [] →
      BuiltTree s.allocated
        { (s.Q_ASSERT (decide (e.tagName = "layout")) 554).newWidget.2 with
          LayoutWidgets :=
            (s.Q_ASSERT (decide (e.tagName = "layout")) 554).newWidget.2.LayoutWidgets.insert
              (s.Q_ASSERT (decide (e.tagName = "layout")) 554).newWidget.1 } c := by
    intro c h1 h2 h3
    refine ⟨h1, ?_, ?_, ?_, ?_⟩
    · rw [h2]; exact List.nodup_singleton _
    · intro p hp
      rw [h2, List.mem_singleton] at hp
      refine ⟨s.allocated, ?_, Nat.le_refl _, ?_⟩
      · rw [hp]
        show QWidgetPtr.created _ = _
        rw [ha]
      · show s.allocated < (s.Q_ASSERT (decide (e.tagName = "layout")) 554).allocated + 1
        rw [ha]
        exact Nat.lt_succ_self _
    · intro p hp
      rw [h2, List.mem_singleton] at hp
      rw [hp]
      exact List.mem_insert_iff.mpr (Or.inl rfl)
    · intro v hv
      rw [h3] at hv
      cases hv
  unfold CTK.layoutFromXML at h
  simp only [] at h
  split_ifs at h <;> cases h
  · exact ⟨hnew, hfields _ (by simp [QLayoutItem.wellFormed, wellFormedItems])
      (by simp [QLayoutItem.containers, containersOfItems])
      (by simp [QLayoutItem.views, viewsOfItems])⟩
  · exact hbox _
  · exact ⟨hnew, hfields _ (by simp [QLayoutItem.wellFormed, wellFormedItems])
      (by simp [QLayoutItem.containers, containersOfItems])
      (by simp [QLayoutItem.views, viewsOfItems])⟩
  · exact hbox _
  · refine ⟨t0, ⟨?_, ?_, ?_, ?_, ?_⟩⟩ <;>
      simp [QLayoutItem.wellFormed, QLayoutItem.containers, QLayoutItem.views,
        wellFormedItems, containersOfItems, viewsOfItems, QLayoutItem.isLayout,
        QLayoutItem.setContentsMargins, QLayoutItem.setSpacing]
  · exact ⟨hnew, hfields _ (by simp [QLayoutItem.wellFormed, wellFormedItems])
      (by simp [QLayoutItem.containers, containersOfItems])
      (by simp [QLayoutItem.views, viewsOfItems])⟩

theorem applySplitSizes_built {lo : Nat} {s : ManagerState} {item : QLayoutItem}
    (sizes : List Int) (h : BuiltTree lo s item) : BuiltTree lo s (applySplitSizes item sizes) := by
  unfold applySplitSizes
  cases item with
  | splitter p o pages sz =>
    simp only []
    split
    · exact @builtTree_congr lo s (.splitter p o pages sz) (.splitter p o pages (some sizes))
        (by simp [QLayoutItem.wellFormed]) (by simp [QLayoutItem.containers])
        (by simp [QLayoutItem.views]) h
    · exact h
  | _ => exact h

theorem processLayoutElement_built_of (H : Hooks) (e : QDomNode)
    (hchildren : ∀ (lo : Nat) (container : QLayoutItem) (sizes : List Int) (s : ManagerState)
      (r : QLayoutItem × List Int) (s1 : ManagerState),
      BuiltTree lo s container → lo ≤ s.allocated →
      processChildren H e.firstChild container sizes s = .ok r s1 →
      BuildStep s s1 ∧ BuiltTree lo s1 r.1)
    (s : ManagerState) (item : QLayoutItem) (s1 : ManagerState)
    (h : processLayoutElement H e s = .ok item s1) :
    BuildStep s s1 ∧ BuiltTree s.allocated s1 item := by
  rw [processLayoutElement_eq] at h
  have t0 := buildStep_Q_ASSERT s (decide (e.tagName = "layout")) 497
  have ha := ManagerState.Q_ASSERT_allocated s (decide (e.tagName = "layout")) 497
  split at h
  · cases h
  · rename_i li s2 hl
    have h1 := layoutFromXML_built e _ li s2 hl
    rw [ha] at h1
    split at h
    · cases h
    · rename_i r s3 hp
      cases h
      have h2 := hchildren _ _ _ _ _ _ h1.2 (t0.build_trans h1.1).allocated hp
      exact ⟨(t0.build_trans h1.1).build_trans h2.1, applySplitSizes_built _ h2.2⟩

theorem process_built (n : QDomNode) :
    (∀ (H : Hooks) (s : ManagerState) (item : QLayoutItem) (s1 : ManagerState),
      viewsResolved H n = true → processLayoutElement H n s = .ok item s1 →
      BuildStep s s1 ∧ BuiltTree s.allocated s1 item) ∧
    (∀ (H : Hooks) (lo : Nat) (container : QLayoutItem) (sizes : List Int) (s : ManagerState)
      (r : QLayoutItem × List Int) (s1 : ManagerState),
      itemViewsResolved H n = true → BuiltTree lo s container → lo ≤ s.allocated →
      processChildren H n container sizes s = .ok r s1 →
      BuildStep s s1 ∧ BuiltTree lo s1 r.1) := by
  induction n with
  | null =>
    refine ⟨fun H s item s1 _ h => ?_, fun H lo c sizes s r s1 _ hc _ h => ?_⟩
    · refine processLayoutElement_built_of H .null ?_ s item s1 h
      intro lo c sizes s r s1 hc _ h
      rw [show QDomNode.null.firstChild = .null from rfl, processChildren_null] at h
      cases h
      exact ⟨BuildStep.build_refl _, hc⟩
    · rw [processChildren_null] at h
      cases h
      exact ⟨BuildStep.build_refl _, hc⟩
  | other next ih =>
    refine ⟨fun H s item s1 _ h => ?_, fun H lo c sizes s r s1 hr hc hlo h => ?_⟩
    · refine processLayoutElement_built_of H (.other next) ?_ s item s1 h
      intro lo c sizes s r s1 hc _ h
      rw [show (QDomNode.other next).firstChild = .null from rfl, processChildren_null] at h
      cases h
      exact ⟨BuildStep.build_refl _, hc⟩
    · rw [processChildren_other] at h
      rw [itemViewsResolved] at hr
      exact ih.2 H lo c sizes s r s1 hr hc hlo h
  | element tag attrs fc next ihc ihn =>
    refine ⟨fun H s item s1 hr h => ?_, fun H lo c sizes s r s1 hr hc hlo h => ?_⟩
    · rw [viewsResolved] at hr
      refine processLayoutElement_built_of H (.element tag attrs fc next) ?_ s item s1 h
      intro lo c sizes s r s1 hc hlo h
      exact ihc.2 H lo c sizes s r s1 hr hc hlo h
    · rw [processChildren_element] at h
      rw [itemViewsResolved, Bool.and_eq_true] at hr
      cases hp : processItemElement H (.element tag attrs fc next) c s with
      | crash s2 => rw [hp] at h; cases h
      | ok c2 s2 =>
        rw [hp] at h
        simp only [] at h
        have h1 : BuiltTree lo s2 c2 ∧ BuildStep s s2 := by
          refine processItemElementWith_built H _ (.element tag attrs fc next) ?_ ?_ hc hlo
            c2 s2 hp
          · intro hm s item s1 hq
            have hr1 := hr.1
            rw [if_neg hm] at hr1
            refine processElementWith_built H (processLayoutElement H) _ ?_ s item s1 hq
            intro ht s item s1 hq
            have ht' : fc.toElement.tagName = "layout" := ht
            rw [if_pos ht'] at hr1
            cases fc with
            | element t a c n => exact ihc.1 H s item s1 hr1 hq
            | null => simp [QDomNode.toElement, QDomNode.tagName] at ht'
            | other n => simp [QDomNode.toElement, QDomNode.tagName] at ht'
          · intro hm
            have hr1 := hr.1
            rw [if_pos hm] at hr1
            simpa using hr1
        have h2 := ihn.2 H lo c2 _ s2 r s1 hr.2 h1.1 (Nat.le_trans hlo h1.2.allocated) h
        exact ⟨h1.2.build_trans h2.1, h2.2⟩

theorem treesBuilt_later {s s' : ManagerState} (h : TreesBuilt s) (t : BuildStep s s')
    (hl : s'.layout = s.layout) (hv : s'.Viewports = s.Viewports) : TreesBuilt s' := by
  have hi : ∀ w, s'.layoutItems w = s.layoutItems w := by
    intro w
    unfold ManagerState.layoutItems
    rw [hl]
  have hvp : ∀ w, s'.isViewport w → s.isViewport w := by
    intro w hw
    unfold ManagerState.isViewport at hw ⊢
    rw [← hv]
    exact hw
  refine ⟨?_, ?_, ?_, ?_, ?_, ?_⟩
  · intro w hw
    rw [hi]
    exact h.wellFormed w (hvp w hw)
  · intro w hw
    rw [hi]
    exact h.nodup w (hvp w hw)
  · intro w hw p hp
    rw [hi] at hp
    obtain ⟨⟨n, hn, h1⟩, h2⟩ := h.created w (hvp w hw) p hp
    exact ⟨⟨n, hn, Nat.lt_of_lt_of_le h1 t.allocated⟩, t.kept p h2⟩
  · intro w hw v hvw
    rw [hi] at hvw
    exact h.views w (hvp w hw) v hvw
  · intro w w' hw hw' hne p hp
    rw [hi] at hp ⊢
    exact h.disjoint w w' (hvp w hw) (hvp w' hw') hne p hp
  · intro p hp
    rcases t.added p hp with g | ⟨n, hn, -, h2⟩
    · obtain ⟨n, hn, h1⟩ := h.owned p g
      exact ⟨n, hn, Nat.lt_of_lt_of_le h1 t.allocated⟩
    · exact ⟨n, hn, h2⟩

theorem viewportLayout_items (item : QLayoutItem) :
    wellFormedItems (viewportLayout item).items = item.wellFormed ∧
      containersOfItems (viewportLayout item).items = item.containers ∧
      viewsOfItems (viewportLayout item).items = item.views := by
  unfold viewportLayout
  by_cases h : item.isLayout = true
  · rw [if_pos h]
    exact ⟨item.wellFormed_items h, item.containers_items h, item.views_items h⟩
  · rw [if_neg h]
    simp [QLayoutItem.items, wellFormedItems, containersOfItems, viewsOfItems]

theorem treesBuilt_setLayout {s0 s : ManagerState} {item : QLayoutItem} (vp : QWidgetPtr)
    (h : TreesBuilt s0) (t : BuildStep s0 s) (hl : s.layout = s0.layout)
    (hv : s.Viewports = s0.Viewports) (hb : BuiltTree s0.allocated s item) :
    TreesBuilt (s.setLayout vp (viewportLayout item)) := by
  have h1 := treesBuilt_later h t hl hv
  unfold ManagerState.setLayout
  cases hvp : s.layout vp with
  | some l => exact h1
  | none =>
    simp only []
    obtain ⟨e1, e2, e3⟩ := viewportLayout_items item
    have hnew : ∀ w, w = vp →
        ManagerState.layoutItems { s with
          layout := Function.update s.layout vp (some (viewportLayout item))
          parent := fun x => if x ∈ (viewportLayout item).childWidgets then some vp
            else s.parent x } w = (viewportLayout item).items := by
      intro w hw
      unfold ManagerState.layoutItems
      show (match Function.update s.layout vp (some (viewportLayout item)) w with
        | none => []
        | some layout => layout.items) = _
      rw [hw, Function.update_same]
    have hold : ∀ w, w ≠ vp →
        ManagerState.layoutItems { s with
          layout := Function.update s.layout vp (some (viewportLayout item))
          parent := fun x => if x ∈ (viewportLayout item).childWidgets then some vp
            else s.parent x } w = s.layoutItems w := by
      intro w hw
      unfold ManagerState.layoutItems
      show (match Function.update s.layout vp (some (viewportLayout item)) w with
        | none => []
        | some layout => layout.items) = _
      rw [Function.update_noteq hw]
    have hfresh : ∀ w, s.isViewport w → ∀ p ∈ containersOfItems (s.layoutItems w),
        p ∉ item.containers := by
      intro w hw p hp hq
      have hi : s.layoutItems w = s0.layoutItems w := by
        unfold ManagerState.layoutItems
        rw [hl]
      rw [hi] at hp
      have hw0 : s0.isViewport w := by
        unfold ManagerState.isViewport at hw ⊢
        rw [← hv]
        exact hw
      obtain ⟨⟨n, hn, h2⟩, -⟩ := h.created w hw0 p hp
      obtain ⟨m, hm, h3, -⟩ := hb.created p hq
      rw [hn] at hm
      cases hm
      omega
    refine ⟨?_, ?_, ?_, ?_, ?_, h1.owned⟩
    · intro w hw
      by_cases e : w = vp
      · rw [hnew w e, e1]
        exact hb.wellFormed
      · rw [hold w e]
        exact h1.wellFormed w hw
    · intro w hw
      by_cases e : w = vp
      · rw [hnew w e, e2]
        exact hb.nodup
      · rw [hold w e]
        exact h1.nodup w hw
    · intro w hw p hp
      by_cases e : w = vp
      · rw [hnew w e, e2] at hp
        obtain ⟨n, hn, -, h3⟩ := hb.created p hp
        exact ⟨⟨n, hn, h3⟩, hb.owned p hp⟩
      · rw [hold w e] at hp
        exact h1.created w hw p hp
    · intro w hw v hvw
      by_cases e : w = vp
      · rw [hnew w e, e3] at hvw
        exact hb.views v hvw
      · rw [hold w e] at hvw
        exact h1.views w hw v hvw
    · intro w w' hw hw' hne p hp
      by_cases e : w = vp
      · have e' : w' ≠ vp := fun g => hne (e.trans g.symm)
        rw [hnew w e, e2] at hp
        rw [hold w' e']
        intro hq
        exact hfresh w' hw' p hq hp
      · rw [hold w e] at hp
        by_cases e' : w' = vp
        · rw [hnew w' e', e2]
          exact hfresh w hw p hp
        · rw [hold w' e']
          exact h1.disjoint w w' hw hw' hne p hp

theorem setupViewport_built (H : Hooks) (e : QDomNode) (name : String) (s s' : ManagerState)
    (htag : e.tagName = "layout") (hres : viewsResolved H e = true) (h : TreesBuilt s)
    (hok : setupViewport H e name s = .ok () s') :
    TreesBuilt s' ∧ s'.Viewports = s.Viewports := by
  have hnull := (QDomNode.toElement_of_tagName htag (by decide)).2
  cases hvp : s.viewport name with
  | none =>
    rw [setupViewport_unregistered H e name s hnull hvp] at hok
    cases hok
    exact ⟨treesBuilt_later h (buildStep_of_eq rfl rfl) rfl rfl, rfl⟩
  | some vp =>
    rw [setupViewport_registered H e name s vp htag hvp] at hok
    have f0 : SameOutside (s.call (.setupViewport e name))
        (((s.call (.setupViewport e name)).Q_ASSERT (s.layout vp).isNone 384).Q_ASSERT
          (!e.isNull) 481) :=
      (SameOutside.Q_ASSERT _ _ _).trans (SameOutside.Q_ASSERT _ _ _)
    have t0 : BuildStep s
        (((s.call (.setupViewport e name)).Q_ASSERT (s.layout vp).isNone 384).Q_ASSERT
          (!e.isNull) 481) :=
      (show BuildStep s (s.call (.setupViewport e name)) from buildStep_of_eq rfl rfl).build_trans
        ((buildStep_Q_ASSERT _ _ _).build_trans (buildStep_Q_ASSERT _ _ _))
    have hA := treesBuilt_later h t0 f0.layout f0.Viewports
    have f1 := (SameOutside.process e).1 H
      (((s.call (.setupViewport e name)).Q_ASSERT (s.layout vp).isNone 384).Q_ASSERT
        (!e.isNull) 481)
    cases hp : processLayoutElement H e
        (((s.call (.setupViewport e name)).Q_ASSERT (s.layout vp).isNone 384).Q_ASSERT
          (!e.isNull) 481) with
    | crash s1 => rw [hp] at hok; cases hok
    | ok item s1 =>
      rw [hp] at hok f1
      cases hok
      have b := (process_built e).1 H _ item s1 hres hp
      have f2 := f1.trans (SameOutside.Q_ASSERT s1 true 386)
      have t2 := b.1.build_trans (buildStep_Q_ASSERT s1 true 386)
      refine ⟨treesBuilt_setLayout vp hA t2 f2.layout f2.Viewports
        (b.2.later (buildStep_Q_ASSERT s1 true 386)), ?_⟩
      have g := (ManagerState.setLayout_spec (s1.Q_ASSERT true 386) vp
        (viewportLayout item)).1.Viewports
      rw [g, f2.Viewports, f0.Viewports]
      rfl

theorem setupViewports_built (H : Hooks) (child : QDomNode) :
    ∀ (names : List String) (s : ManagerState) (names' : List String) (s' : ManagerState),
      (∀ e ∈ child.elementsFrom, e.tagName = "layout" → viewsResolved H e = true) →
      TreesBuilt s → setupViewports H child names s = .ok names' s' →
      TreesBuilt s' ∧ s'.Viewports = s.Viewports := by
  induction child with
  | null =>
    intro names s names' s' _ h hok
    simp only [setupViewports] at hok
    cases hok
    exact ⟨h, rfl⟩
  | other next ih =>
    intro names s names' s' hres h hok
    simp only [setupViewports] at hok
    exact ih names s names' s' hres h hok
  | element tag attrs fc next _ ih =>
    intro names s names' s' hres h hok
    have hres' : ∀ e ∈ next.elementsFrom, e.tagName = "layout" → viewsResolved H e = true :=
      fun e he => hres e (List.mem_cons_of_mem _ he)
    rw [setupViewports] at hok
    simp only [] at hok
    split at hok
    · have h1 := ih names (s.qWarning 318) names' s' hres'
        (treesBuilt_later h (buildStep_of_eq rfl rfl) rfl rfl) hok
      exact ⟨h1.1, h1.2⟩
    · rename_i ht
      have ht' : (QDomNode.element tag attrs fc next).tagName = "layout" := by
        simpa using ht
      split at hok
      · have h1 := ih names (s.qWarning 324) names' s' hres'
          (treesBuilt_later h (buildStep_of_eq rfl rfl) rfl rfl) hok
        exact ⟨h1.1, h1.2⟩
      · split at hok
        · cases hok
        · rename_i u s1 hp
          have h1 := setupViewport_built H _ _ s s1 ht'
            (hres _ (List.mem_cons_self _ _) ht') h hp
          have h2 := ih _ s1 names' s' hres' h1.1 hok
          exact ⟨h2.1, h2.2.trans h1.2⟩

theorem setupDocument_built (H : Hooks) (s : ManagerState) (names : List String)
    (s1 : ManagerState) (hres : documentViewsResolved H s.Layout.documentElement)
    (h : TreesBuilt s) (hok : setupDocument H s = .ok names s1) :
    TreesBuilt s1 ∧ s1.Viewports = s.Viewports := by
  unfold setupDocument at hok
  unfold documentViewsResolved at hres
  simp only [] at hok
  by_cases h1 : s.Layout.documentElement.tagName = "viewports"
  · rw [if_pos h1] at hok hres
    exact setupViewports_built H _ [] s names s1 hres h hok
  · rw [if_neg h1] at hok hres
    by_cases h2 : s.Layout.documentElement.tagName = "layout"
    · rw [if_pos h2] at hok
      split at hok
      · cases hok
      · rename_i u s2 hp
        cases hok
        exact setupViewport_built H _ _ s s1 h2 hres h hp
    · rw [if_neg h2] at hok
      cases hok
      exact ⟨treesBuilt_later h (buildStep_of_eq rfl rfl) rfl rfl, rfl⟩

theorem setupLayout_built (H : Hooks) (s0 s : ManagerState)
    (hlay : ∀ w, s0.isViewport w → s0.layout w = none)
    (hres : documentViewsResolved H s0.Layout.documentElement)
    (hok : setupLayout H s0 = .ok () s) :
    s.Viewports = s0.Viewports ∧ ((∀ w, s.isViewport w → s.layout w = none) ∨ TreesBuilt s) := by
  unfold setupLayout at hok
  split at hok
  · cases hok
    exact ⟨rfl, Or.inl hlay⟩
  · have hI : TreesBuilt { s0 with Views := [], LayoutWidgets := [] } := by
      have hi : ∀ w, s0.isViewport w →
          ManagerState.layoutItems { s0 with Views := [], LayoutWidgets := [] } w = [] := by
        intro w hw
        unfold ManagerState.layoutItems
        show (match s0.layout w with
          | none => []
          | some layout => layout.items) = []
        rw [hlay w hw]
      refine ⟨?_, ?_, ?_, ?_, ?_, ?_⟩
      · intro w hw
        rw [hi w hw]
        rfl
      · intro w hw
        rw [hi w hw]
        exact List.nodup_nil
      · intro w hw p hp
        rw [hi w hw] at hp
        cases hp
      · intro w hw v hv
        rw [hi w hw] at hv
        cases hv
      · intro w w' hw _ _ p hp
        rw [hi w hw] at hp
        cases hp
      · intro p hp
        cases hp
    split at hok
    · cases hok
    · rename_i names s1 hp
      cases hok
      have h1 := setupDocument_built H { s0 with Views := [], LayoutWidgets := [] } names s1
        hres hI hp
      have f := (updateViewportUsage_frame names s1.viewportNames s1).1
      exact ⟨f.Viewports.trans h1.2,
        Or.inr (treesBuilt_later h1.1 (buildStep_of_eq f.allocated f.LayoutWidgets)
          f.layout f.Viewports)⟩

theorem ManagerState.itemsOf_nil (s : ManagerState) (vs : List (Option QWidgetPtr))
    (h : ∀ w, some w ∈ vs → s.layout w = none) : s.itemsOf vs = [] := by
  induction vs with
  | nil => rfl
  | cons v rest ih =>
    cases v with
    | none => exact ih (fun w hw => h w (List.mem_cons_of_mem _ hw))
    | some w =>
      simp only [ManagerState.itemsOf, ManagerState.layoutItems, h w (List.mem_cons_self _ _)]
      exact ih (fun w hw => h w (List.mem_cons_of_mem _ hw))

theorem ManagerState.mem_itemsOf (s : ManagerState) (vs : List (Option QWidgetPtr))
    (i : QLayoutItem) (h : i ∈ s.itemsOf vs) : ∃ w, some w ∈ vs ∧ i ∈ s.layoutItems w := by
  induction vs with
  | nil => cases h
  | cons v rest ih =>
    cases v with
    | none =>
      obtain ⟨w, hw, hi⟩ := ih h
      exact ⟨w, List.mem_cons_of_mem _ hw, hi⟩
    | some w =>
      simp only [ManagerState.itemsOf, List.mem_append] at h
      rcases h with g | g
      · exact ⟨w, List.mem_cons_self _ _, g⟩
      · obtain ⟨w', hw, hi⟩ := ih g
        exact ⟨w', List.mem_cons_of_mem _ hw, hi⟩

theorem readyToClear_itemsOf (s : ManagerState) (h : TreesBuilt s)
    (vs : List (Option QWidgetPtr)) (hvs : ∀ w, some w ∈ vs → s.isViewport w)
    (hd : vs.reduceOption.Nodup) : ReadyToClear s (s.itemsOf vs) := by
  have hmemc : ∀ (l : List (Option QWidgetPtr)) p, p ∈ containersOfItems (s.itemsOf l) →
      ∃ w, some w ∈ l ∧ p ∈ containersOfItems (s.layoutItems w) := by
    intro l p hp
    rw [mem_containersOfItems] at hp
    obtain ⟨i, hi, hpi⟩ := hp
    obtain ⟨w, hw, hiw⟩ := s.mem_itemsOf l i hi
    exact ⟨w, hw, (mem_containersOfItems p _).mpr ⟨i, hiw, hpi⟩⟩
  refine ⟨?_, ?_, ?_, ?_⟩
  · clear hd
    induction vs with
    | nil => rfl
    | cons v rest ih =>
      cases v with
      | none => exact ih (fun w hw => hvs w (List.mem_cons_of_mem _ hw))
      | some w =>
        simp only [ManagerState.itemsOf]
        rw [wellFormedItems_append, h.wellFormed w (hvs w (List.mem_cons_self _ _)),
          ih (fun w hw => hvs w (List.mem_cons_of_mem _ hw))]
        rfl
  · induction vs with
    | nil => exact List.nodup_nil
    | cons v rest ih =>
      cases v with
      | none =>
        rw [List.reduceOption_cons_of_none] at hd
        exact ih (fun w hw => hvs w (List.mem_cons_of_mem _ hw)) hd
      | some w =>
        rw [List.reduceOption_cons_of_some, List.nodup_cons] at hd
        simp only [ManagerState.itemsOf]
        rw [containersOfItems_append]
        refine List.nodup_append.mpr ⟨h.nodup w (hvs w (List.mem_cons_self _ _)),
          ih (fun w hw => hvs w (List.mem_cons_of_mem _ hw)) hd.2, ?_⟩
        intro p hp hq
        obtain ⟨w', hw', hpw⟩ := hmemc rest p hq
        have hne : w ≠ w' := by
          intro e
          rw [← e] at hw'
          exact hd.1 (List.reduceOption_mem_iff.mpr hw')
        exact h.disjoint w w' (hvs w (List.mem_cons_self _ _))
          (hvs w' (List.mem_cons_of_mem _ hw')) hne p hp hpw
  · intro p hp
    obtain ⟨w, hw, hpw⟩ := hmemc vs p hp
    exact (h.created w (hvs w hw) p hpw).2
  · intro v hv hin
    rw [mem_viewsOfItems] at hv
    obtain ⟨i, hi, hvi⟩ := hv
    obtain ⟨w, hw, hiw⟩ := s.mem_itemsOf vs i hi
    obtain ⟨n, hn⟩ := h.views w (hvs w hw) v ((mem_viewsOfItems v _).mpr ⟨i, hiw, hvi⟩)
    obtain ⟨m, hm, -⟩ := h.owned v hin
    rw [hn] at hm
    cases hm

theorem setupLayout_ready (H : Hooks) (s0 s : ManagerState)
    (hlay : ∀ w, s0.isViewport w → s0.layout w = none)
    (hdist : (s0.Viewports.map Prod.snd).reduceOption.Nodup)
    (hres : documentViewsResolved H s0.Layout.documentElement)
    (hok : setupLayout H s0 = .ok () s) : ReadyToClear s s.installedItems := by
  obtain ⟨hv, h | h⟩ := setupLayout_built H s0 s hlay hres hok
  · unfold ManagerState.installedItems
    rw [s.itemsOf_nil _ (fun w hw => h w hw)]
    exact ⟨rfl, List.nodup_nil, fun p hp => (by cases hp), fun v hv => (by cases hv)⟩
  · unfold ManagerState.installedItems
    refine readyToClear_itemsOf s h _ (fun w hw => hw) ?_
    rw [hv]
    exact hdist

theorem Result.eq_ok_of_isOk (r : Result Unit) (h : r.isOk = true) : r = .ok () r.state := by
  cases r with
  | ok u s => rfl
  | crash s => cases h

theorem clearLayout_detaches_views (s : ManagerState) (fuel : Nat)
    (hready : ReadyToClear s s.installedItems)
    (hfuel : clearCostOfItems s.installedItems ≤ fuel) :
    ∃ s', clearLayout fuel s = some s' ∧
      (∀ w, s.isViewport w → s'.layout w = none) ∧
      (∀ w, s'.viewportForWidget w = s.viewportForWidget w) ∧
      ∀ v ∈ viewsOfItems s.installedItems,
        s'.visible v = false ∧ (v ∈ s'.deleted → v ∈ s.deleted) ∧
          s'.parent v = s.viewportForWidget v := by
  obtain ⟨s', h1, d1, t1, l1, -⟩ :=
    clearViewports_returns fuel (s.Viewports.map Prod.snd) s hfuel hready
  refine ⟨s', h1, fun w hw => l1 w hw, t1.same.viewportForWidget, ?_⟩
  intro v hv
  refine ⟨(d1.views v hv).1, ?_, (d1.views v hv).2⟩
  intro hd
  rcases t1.deleted v hd with g | g
  · exact g
  · exact absurd g (hready.views v hv)

/-! ## Where the views are after a build -/

theorem setupView_views (e : QDomNode) (view : Option QWidgetPtr) (s : ManagerState) :
    ∀ v ∈ (setupView e view s).Views, v ∈ s.Views ∨ view = some v := by
  intro v hv
  cases view with
  | none => exact Or.inl hv
  | some w =>
    have hv2 : v ∈ List.insert w s.Views := hv
    rcases List.mem_insert_iff.mp hv2 with g | g
    · exact Or.inr (by rw [g])
    · exact Or.inl g

theorem widgetItemFromXML_views (H : Hooks) (e : QDomNode) (s : ManagerState) :
    ∀ v ∈ (widgetItemFromXML H e s).2.Views,
      v ∈ s.Views ∨ ∃ i, (widgetItemFromXML H e s).1 = some i ∧ v ∈ i.views := by
  unfold widgetItemFromXML
  cases H.viewFromXML e with
  | none =>
    simp only [Option.map]
    exact fun v hv => Or.inl hv
  | some n =>
    simp only [Option.map]
    intro v hv
    rcases setupView_views e (some (.external n)) s v hv with g | g
    · exact Or.inl g
    · refine Or.inr ⟨_, rfl, ?_⟩
      cases g
      simp [QLayoutItem.views]

theorem widgetItemsLoop_views (e : QDomNode) (views : List (Option QWidgetPtr)) :
    ∀ (res : List QLayoutItem) (s : ManagerState),
      ∀ v ∈ (widgetItemsLoop e views res s).2.Views, v ∈ s.Views ∨ some v ∈ views := by
  induction views with
  | nil => intro res s v hv; exact Or.inl hv
  | cons x xs ih =>
    intro res s v hv
    rcases ih _ _ v hv with g | g
    · rcases setupView_views e x s v g with g1 | g1
      · exact Or.inl g1
      · exact Or.inr (by rw [g1]; exact List.mem_cons_self _ _)
    · exact Or.inr (List.mem_cons_of_mem _ g)

theorem widgetItemsFromXML_views (H : Hooks) (e : QDomNode) (s : ManagerState) :
    ∀ v ∈ (widgetItemsFromXML H e s).2.Views,
      v ∈ s.Views ∨ v ∈ viewsOfItems (widgetItemsFromXML H e s).1 := by
  unfold widgetItemsFromXML
  simp only []
  intro v hv
  rcases widgetItemsLoop_views e _ _ _ v hv with g | g
  · rw [ManagerState.Q_ASSERT_Views] at g
    exact Or.inl g
  · refine Or.inr ?_
    rw [widgetItemsLoop_items, List.nil_append, mem_viewsOfItems]
    exact ⟨.widgetItem (some v), List.mem_map.mpr ⟨some v, g, rfl⟩, by simp [QLayoutItem.views]⟩

theorem pageWidget_views (child : QLayoutItem) (s : ManagerState) :
    (pageWidget child s).2.Views = s.Views ∧
      ∀ v ∈ child.views, v ∈ (pageWidget child s).1.views := by
  unfold pageWidget
  cases hw : child.widget? with
  | some w => exact ⟨rfl, fun v hv => hv⟩
  | none =>
    simp only []
    by_cases hl : child.isLayout = true
    · rw [if_pos hl]
      exact ⟨rfl, fun v hv => by simpa [QLayoutItem.views] using hv⟩
    · rw [if_neg hl]
      refine ⟨rfl, ?_⟩
      intro v hv
      exfalso
      cases child <;>
        simp [QLayoutItem.widget?, QLayoutItem.isLayout, QLayoutItem.views] at hw hl hv
      rw [hw] at hv
      simp at hv

theorem adopt_views (w : QWidgetPtr) (p : QLayoutItem) (s : ManagerState) :
    (adopt w p s).Views = s.Views := by
  unfold CTK.adopt
  split <;> rfl

theorem viewsOfItems_snoc (items : List QLayoutItem) (child : QLayoutItem) :
    viewsOfItems (items ++ [child]) = viewsOfItems items ++ child.views := by
  rw [viewsOfItems_append]
  simp [viewsOfItems]

theorem addChildItemToLayout_views (e : QDomNode) (child container : QLayoutItem)
    (s : ManagerState) (hk : container.holdsChildren = true) :
    (addChildItemToLayout e child container s).2.Views = s.Views ∧
      (addChildItemToLayout e child container s).1.holdsChildren = true ∧
      (∀ v ∈ container.views, v ∈ (addChildItemToLayout e child container s).1.views) ∧
      ∀ v ∈ child.views, v ∈ (addChildItemToLayout e child container s).1.views := by
  have hp := pageWidget_views child s
  unfold addChildItemToLayout
  cases container with
  | widgetItem wid => cases hk
  | widget p => cases hk
  | widgetWithLayout p layout => cases hk
  | boxLayout o m sp items =>
    refine ⟨rfl, rfl, ?_, ?_⟩ <;> intro v hv <;>
      simp only [QLayoutItem.views, viewsOfItems_snoc, List.mem_append] at hv ⊢
    · exact Or.inl hv
    · exact Or.inr hv
  | gridLayout m sp items cells =>
    refine ⟨rfl, rfl, ?_, ?_⟩ <;> intro v hv <;>
      simp only [QLayoutItem.views, viewsOfItems_snoc, List.mem_append] at hv ⊢
    · exact Or.inl hv
    · exact Or.inr hv
  | tabWidget p pages labels =>
    simp only []
    refine ⟨(adopt_views _ _ _).trans hp.1, rfl, ?_, ?_⟩ <;> intro v hv <;>
      simp only [QLayoutItem.views, viewsOfItems_snoc, List.mem_append] at hv ⊢
    · exact Or.inl hv
    · exact Or.inr (hp.2 v hv)
  | splitter p o pages sizes =>
    simp only []
    refine ⟨(adopt_views _ _ _).trans hp.1, rfl, ?_, ?_⟩ <;> intro v hv <;>
      simp only [QLayoutItem.views, viewsOfItems_snoc, List.mem_append] at hv ⊢
    · exact Or.inl hv
    · exact Or.inr (hp.2 v hv)

theorem addChildItems_views (e : QDomNode) (items : List QLayoutItem) :
    ∀ (container : QLayoutItem) (s : ManagerState), container.holdsChildren = true →
      (addChildItems e items container s).2.Views = s.Views ∧
      (addChildItems e items container s).1.holdsChildren = true ∧
      (∀ v ∈ container.views, v ∈ (addChildItems e items container s).1.views) ∧
      ∀ v ∈ viewsOfItems items, v ∈ (addChildItems e items container s).1.views := by
  induction items with
  | nil =>
    intro container s hk
    exact ⟨rfl, hk, fun v hv => hv, fun v hv => by cases hv⟩
  | cons x xs ih =>
    intro container s hk
    obtain ⟨a1, a2, a3, a4⟩ := addChildItemToLayout_views e x container s hk
    obtain ⟨b1, b2, b3, b4⟩ := ih (addChildItemToLayout e x container s).1
      (addChildItemToLayout e x container s).2 a2
    refine ⟨b1.trans a1, b2, fun v hv => b3 v (a3 v hv), ?_⟩
    intro v hv
    simp only [viewsOfItems, List.mem_append] at hv
    rcases hv with g | g
    · exact b3 v (a4 v g)
    · exact b4 v g

theorem processItemElementWith_views (H : Hooks)
    (processInner : ManagerState → Result (Option QLayoutItem)) (e : QDomNode)
    (hinner : ∀ s item s1, processInner s = .ok item s1 →
      ∀ v ∈ s1.Views, v ∈ s.Views ∨ ∃ i, item = some i ∧ v ∈ i.views)
    (container : QLayoutItem) (s : ManagerState) (hk : container.holdsChildren = true)
    (c' : QLayoutItem) (s' : ManagerState)
    (h : processItemElementWith H processInner e container s = .ok c' s') :
    c'.holdsChildren = true ∧ (∀ v ∈ container.views, v ∈ c'.views) ∧
      ∀ v ∈ s'.Views, v ∈ s.Views ∨ v ∈ c'.views := by
  unfold processItemElementWith at h
  simp only [] at h
  split at h
  · cases h
    obtain ⟨a1, a2, a3, a4⟩ := addChildItems_views e
      (widgetItemsFromXML H e.firstChild.toElement
        ((s.Q_ASSERT (decide (e.tagName = "item")) 587).Q_ASSERT
          (decide (e.childCount = 1)) 588)).1 container
      (widgetItemsFromXML H e.firstChild.toElement
        ((s.Q_ASSERT (decide (e.tagName = "item")) 587).Q_ASSERT
          (decide (e.childCount = 1)) 588)).2 hk
    refine ⟨a2, a3, ?_⟩
    intro v hv
    rw [a1] at hv
    rcases widgetItemsFromXML_views H _ _ v hv with g | g
    · simp only [ManagerState.Q_ASSERT_Views] at g
      exact Or.inl g
    · exact Or.inr (a4 v g)
  · split at h
    · cases h
    · rename_i s1 hp
      cases h
      refine ⟨hk, fun v hv => hv, ?_⟩
      intro v hv
      rcases hinner _ _ _ hp v hv with g | ⟨i, hi, -⟩
      · simp only [ManagerState.Q_ASSERT_Views] at g
        exact Or.inl g
      · cases hi
    · rename_i item s1 hp
      cases h
      obtain ⟨a1, a2, a3, a4⟩ := addChildItemToLayout_views e item container s1 hk
      refine ⟨a2, a3, ?_⟩
      intro v hv
      have hv1 : v ∈ s1.Views := by
        have : (addChildItems e ([] ++ [item]) container s1).2.Views = s1.Views := a1
        rw [this] at hv
        exact hv
      rcases hinner _ _ _ hp v hv1 with g | ⟨i, hi, hvi⟩
      · simp only [ManagerState.Q_ASSERT_Views] at g
        exact Or.inl g
      · cases hi
        exact Or.inr (a4 v hvi)

theorem processElementWith_views (H : Hooks)
    (processLayout : QDomNode → ManagerState → Result QLayoutItem) (e : QDomNode)
    (hlayout : e.tagName = "layout" → ∀ s item s1, processLayout e s = .ok item s1 →
      ∀ v ∈ s1.Views, v ∈ s.Views ∨ v ∈ item.views)
    (s : ManagerState) (item : Option QLayoutItem) (s1 : ManagerState)
    (h : processElementWith H processLayout e s = .ok item s1) :
    ∀ v ∈ s1.Views, v ∈ s.Views ∨ ∃ i, item = some i ∧ v ∈ i.views := by
  unfold processElementWith at h
  simp only [] at h
  split at h
  · rename_i ht
    cases hp : processLayout e (s.Q_ASSERT (!e.isNull) 481) with
    | crash s2 => rw [hp] at h; cases h
    | ok li s2 =>
      rw [hp] at h
      cases h
      intro v hv
      rcases hlayout ht _ _ _ hp v hv with g | g
      · rw [ManagerState.Q_ASSERT_Views] at g
        exact Or.inl g
      · exact Or.inr ⟨li, rfl, g⟩
  · cases h
    intro v hv
    rcases widgetItemFromXML_views H e _ v hv with g | g
    · rw [ManagerState.Q_ASSERT_Views] at g
      exact Or.inl g
    · exact Or.inr g

theorem layoutFromXML_views (e : QDomNode) (s : ManagerState) (li : QLayoutItem)
    (s1 : ManagerState) (h : layoutFromXML e s = (some li, s1)) :
    (if li.isLayout then s1
      else
        match li.widget? with
        | some widget => { s1 with LayoutWidgets := s1.LayoutWidgets.insert widget }
        | none => s1).Views = s.Views ∧
      (if li.isLayout then (li.setContentsMargins 0).setSpacing s1.Spacing
        else li).holdsChildren = true ∧
      (if li.isLayout then (li.setContentsMargins 0).setSpacing s1.Spacing
        else li).views = [] := by
  have hv := ManagerState.Q_ASSERT_Views s (decide (e.tagName = "layout")) 554
  unfold CTK.layoutFromXML at h
  simp only [] at h
  split_ifs at h <;> cases h <;>
    refine ⟨?_, ?_, ?_⟩ <;>
    first
      | exact hv
      | rfl

theorem applySplitSizes_views (item : QLayoutItem) (sizes : List Int) :
    (applySplitSizes item sizes).views = item.views := by
  unfold applySplitSizes
  cases item with
  | splitter p o pages sz =>
    simp only []
    split <;> simp [QLayoutItem.views]
  | _ => rfl

theorem processLayoutElement_views_of (H : Hooks) (e : QDomNode)
    (hchildren : ∀ (container : QLayoutItem) (sizes : List Int) (s : ManagerState)
      (r : QLayoutItem × List Int) (s1 : ManagerState), container.holdsChildren = true →
      processChildren H e.firstChild container sizes s = .ok r s1 →
      ∀ v ∈ s1.Views, v ∈ s.Views ∨ v ∈ r.1.views)
    (s : ManagerState) (item : QLayoutItem) (s1 : ManagerState)
    (h : processLayoutElement H e s = .ok item s1) :
    ∀ v ∈ s1.Views, v ∈ s.Views ∨ v ∈ item.views := by
  rw [processLayoutElement_eq] at h
  split at h
  · cases h
  · rename_i li s2 hl
    obtain ⟨a1, a2, -⟩ := layoutFromXML_views e _ li s2 hl
    rw [ManagerState.Q_ASSERT_Views] at a1
    split at h
    · cases h
    · rename_i r s3 hp
      cases h
      intro v hv
      rcases hchildren _ _ _ _ _ a2 hp v hv with g | g
      · rw [a1] at g
        exact Or.inl g
      · exact Or.inr (by rw [applySplitSizes_views]; exact g)

theorem process_views (n : QDomNode) :
    (∀ (H : Hooks) (s : ManagerState) (item : QLayoutItem) (s1 : ManagerState),
      processLayoutElement H n s = .ok item s1 →
      ∀ v ∈ s1.Views, v ∈ s.Views ∨ v ∈ item.views) ∧
    (∀ (H : Hooks) (container : QLayoutItem) (sizes : List Int) (s : ManagerState)
      (r : QLayoutItem × List Int) (s1 : ManagerState), container.holdsChildren = true →
      processChildren H n container sizes s = .ok r s1 →
      (∀ v ∈ container.views, v ∈ r.1.views) ∧
        ∀ v ∈ s1.Views, v ∈ s.Views ∨ v ∈ r.1.views) := by
  induction n with
  | null =>
    refine ⟨fun H s item s1 h => ?_, fun H c sizes s r s1 _ h => ?_⟩
    · refine processLayoutElement_views_of H .null ?_ s item s1 h
      intro c sizes s r s1 _ h
      rw [show QDomNode.null.firstChild = .null from rfl, processChildren_null] at h
      cases h
      exact fun v hv => Or.inl hv
    · rw [processChildren_null] at h
      cases h
      exact ⟨fun v hv => hv, fun v hv => Or.inl hv⟩
  | other next ih =>
    refine ⟨fun H s item s1 h => ?_, fun H c sizes s r s1 hk h => ?_⟩
    · refine processLayoutElement_views_of H (.other next) ?_ s item s1 h
      intro c sizes s r s1 _ h
      rw [show (QDomNode.other next).firstChild = .null from rfl, processChildren_null] at h
      cases h
      exact fun v hv => Or.inl hv
    · rw [processChildren_other] at h
      exact ih.2 H c sizes s r s1 hk h
  | element tag attrs fc next ihc ihn =>
    refine ⟨fun H s item s1 h => ?_, fun H c sizes s r s1 hk h => ?_⟩
    · refine processLayoutElement_views_of H (.element tag attrs fc next) ?_ s item s1 h
      intro c sizes s r s1 hk h
      exact (ihc.2 H c sizes s r s1 hk h).2
    · rw [processChildren_element] at h
      cases hp : processItemElement H (.element tag attrs fc next) c s with
      | crash s2 => rw [hp] at h; cases h
      | ok c2 s2 =>
        rw [hp] at h
        simp only [] at h
        obtain ⟨a1, a2, a3⟩ := processItemElementWith_views H _ (.element tag attrs fc next)
          (by
            intro s item s1 hq
            refine processElementWith_views H (processLayoutElement H) _ ?_ s item s1 hq
            intro ht s item s1 hq
            have ht' : fc.toElement.tagName = "layout" := ht
            cases fc with
            | element t a c n => exact ihc.1 H s item s1 hq
            | null => simp [QDomNode.toElement, QDomNode.tagName] at ht'
            | other n => simp [QDomNode.toElement, QDomNode.tagName] at ht')
          c s hk c2 s2 hp
        obtain ⟨b1, b2⟩ := ihn.2 H c2 _ s2 r s1 a1 h
        refine ⟨fun v hv => b1 v (a2 v hv), ?_⟩
        intro v hv
        rcases b2 v hv with g | g
        · rcases a3 v g with g1 | g1
          · exact Or.inl g1
          · exact Or.inr (b1 v g1)
        · exact Or.inr g

theorem mem_of_lookup (l : List (String × Option QWidgetPtr)) (n : String)
    (v : Option QWidgetPtr) (h : l.lookup n = some v) : (n, v) ∈ l := by
  induction l with
  | nil => cases h
  | cons p rest ih =>
    obtain ⟨k, x⟩ := p
    by_cases hk : n = k
    · subst hk
      simp only [List.lookup, beq_self_eq_true] at h
      cases h
      exact List.mem_cons_self _ _
    · have hb : (n == k) = false := by simpa using hk
      simp only [List.lookup, hb] at h
      exact List.mem_cons_of_mem _ (ih h)

theorem ManagerState.mem_of_viewport (s : ManagerState) (n : String) (w : QWidgetPtr)
    (h : s.viewport n = some w) : (n, some w) ∈ s.Viewports := by
  unfold ManagerState.viewport at h
  cases hl : s.Viewports.lookup n with
  | none => rw [hl] at h; cases h
  | some v =>
    rw [hl] at h
    simp only [] at h
    rw [h] at hl
    exact mem_of_lookup _ _ _ hl

theorem ManagerState.isViewport_of_viewport (s : ManagerState) (n : String) (w : QWidgetPtr)
    (h : s.viewport n = some w) : s.isViewport w :=
  List.mem_map.mpr ⟨(n, some w), s.mem_of_viewport n w h, rfl⟩

theorem eq_of_mem_of_widgets_nodup (l : List (String × Option QWidgetPtr))
    (hnd : (l.map Prod.snd).reduceOption.Nodup) (n m : String) (w : QWidgetPtr)
    (hn : (n, some w) ∈ l) (hm : (m, some w) ∈ l) : n = m := by
  induction l with
  | nil => cases hn
  | cons p rest ih =>
    obtain ⟨k, x⟩ := p
    have hmem : ∀ a, (a, some w) ∈ rest → w ∈ (rest.map Prod.snd).reduceOption :=
      fun a ha => List.reduceOption_mem_iff.mpr (List.mem_map.mpr ⟨(a, some w), ha, rfl⟩)
    cases x with
    | none =>
      simp only [List.map_cons, List.reduceOption_cons_of_none] at hnd
      rcases List.mem_cons.mp hn with hn1 | hn1
      · cases hn1
      · rcases List.mem_cons.mp hm with hm1 | hm1
        · cases hm1
        · exact ih hnd hn1 hm1
    | some u =>
      simp only [List.map_cons, List.reduceOption_cons_of_some, List.nodup_cons] at hnd
      rcases List.mem_cons.mp hn with hn1 | hn1 <;>
        rcases List.mem_cons.mp hm with hm1 | hm1
      · cases hn1; cases hm1; rfl
      · cases hn1
        exact absurd (hmem m hm1) hnd.1
      · cases hm1
        exact absurd (hmem n hn1) hnd.1
      · exact ih hnd.2 hn1 hm1

theorem ManagerState.viewport_inj (s : ManagerState)
    (hnd : (s.Viewports.map Prod.snd).reduceOption.Nodup) (n m : String) (w : QWidgetPtr)
    (hn : s.viewport n = some w) (hm : s.viewport m = some w) : n = m :=
  eq_of_mem_of_widgets_nodup s.Viewports hnd n m w (s.mem_of_viewport n w hn)
    (s.mem_of_viewport m w hm)

theorem ManagerState.mem_itemsOf_of_mem (s : ManagerState) (vs : List (Option QWidgetPtr))
    (w : QWidgetPtr) (i : QLayoutItem) (hw : some w ∈ vs) (hi : i ∈ s.layoutItems w) :
    i ∈ s.itemsOf vs := by
  induction vs with
  | nil => cases hw
  | cons v rest ih =>
    cases v with
    | none =>
      rcases List.mem_cons.mp hw with g | g
      · cases g
      · exact ih g
    | some u =>
      simp only [ManagerState.itemsOf, List.mem_append]
      rcases List.mem_cons.mp hw with g | g
      · cases g
        exact Or.inl hi
      · exact Or.inr (ih g)

theorem ViewsAttached.installed {s : ManagerState} {names : List String}
    (h : ViewsAttached s names) : ∀ v ∈ s.Views, v ∈ viewsOfItems s.installedItems := by
  intro v hv
  obtain ⟨w, hw, hvw⟩ := h.attached v hv
  rw [mem_viewsOfItems] at hvw ⊢
  obtain ⟨i, hi, hvi⟩ := hvw
  exact ⟨i, s.mem_itemsOf_of_mem _ w i hw hi, hvi⟩

theorem ManagerState.setLayout_installs (s : ManagerState) (w : QWidgetPtr) (l : QLayoutItem)
    (h : s.layout w = none) :
    (s.setLayout w l).layout = Function.update s.layout w (some l) ∧
      (s.setLayout w l).Views = s.Views ∧ (s.setLayout w l).Viewports = s.Viewports := by
  unfold ManagerState.setLayout
  rw [h]
  exact ⟨rfl, rfl, rfl⟩

theorem viewsAttached_of_eq {s s' : ManagerState} {names names' : List String}
    (h : ViewsAttached s names) (hv : s'.Views = s.Views) (hl : s'.layout = s.layout)
    (hp : s'.Viewports = s.Viewports) (hn : ∀ n ∈ names, n ∈ names') :
    ViewsAttached s' names' := by
  have e1 : ∀ w, s'.isViewport w ↔ s.isViewport w := by
    intro w
    unfold ManagerState.isViewport
    rw [hp]
  have e2 : ∀ w, s'.layoutItems w = s.layoutItems w := by
    intro w
    unfold ManagerState.layoutItems
    rw [hl]
  have e3 : ∀ n, s'.viewport n = s.viewport n := by
    intro n
    unfold ManagerState.viewport
    rw [hp]
  refine ⟨?_, ?_⟩
  · intro v hvv
    rw [hv] at hvv
    obtain ⟨w, hw, hvw⟩ := h.attached v hvv
    exact ⟨w, (e1 w).mpr hw, by rw [e2]; exact hvw⟩
  · intro w hw hlw
    rw [hl] at hlw
    obtain ⟨n, hn1, hn2⟩ := h.used w ((e1 w).mp hw) hlw
    exact ⟨n, hn n hn1, by rw [e3]; exact hn2⟩

theorem setupViewport_attached (H : Hooks) (e : QDomNode) (name : String)
    (s s' : ManagerState) (names : List String) (htag : e.tagName = "layout")
    (hnd : (s.Viewports.map Prod.snd).reduceOption.Nodup) (hname : name ∉ names)
    (h : ViewsAttached s names) (hok : setupViewport H e name s = .ok () s') :
    ViewsAttached s' (names ++ [name]) ∧ s'.Viewports = s.Viewports := by
  have hnull := (QDomNode.toElement_of_tagName htag (by decide)).2
  cases hvp : s.viewport name with
  | none =>
    rw [setupViewport_unregistered H e name s hnull hvp] at hok
    cases hok
    exact ⟨viewsAttached_of_eq h rfl rfl rfl (fun n hn => List.mem_append_left _ hn), rfl⟩
  | some vp =>
    have hnone : s.layout vp = none := by
      cases hl : s.layout vp with
      | none => rfl
      | some l =>
        exfalso
        obtain ⟨n, hn1, hn2⟩ := h.used vp (s.isViewport_of_viewport name vp hvp)
          (by rw [hl]; exact fun g => by cases g)
        have := s.viewport_inj hnd n name vp hn2 hvp
        rw [this] at hn1
        exact hname hn1
    rw [setupViewport_registered H e name s vp htag hvp] at hok
    have f0 : SameOutside (s.call (.setupViewport e name))
        (((s.call (.setupViewport e name)).Q_ASSERT (s.layout vp).isNone 384).Q_ASSERT
          (!e.isNull) 481) :=
      (SameOutside.Q_ASSERT _ _ _).trans (SameOutside.Q_ASSERT _ _ _)
    have f1 := (SameOutside.process e).1 H
      (((s.call (.setupViewport e name)).Q_ASSERT (s.layout vp).isNone 384).Q_ASSERT
        (!e.isNull) 481)
    cases hp : processLayoutElement H e
        (((s.call (.setupViewport e name)).Q_ASSERT (s.layout vp).isNone 384).Q_ASSERT
          (!e.isNull) 481) with
    | crash s1 => rw [hp] at hok; cases hok
    | ok item s1 =>
      rw [hp] at hok f1
      cases hok
      have f2 := (f0.trans f1).trans (SameOutside.Q_ASSERT s1 true 386)
      have hl2 : (s1.Q_ASSERT true 386).layout = s.layout := f2.layout
      have hp2 : (s1.Q_ASSERT true 386).Viewports = s.Viewports := f2.Viewports
      have hviews := (process_views e).1 H _ item s1 hp
      simp only [ManagerState.Q_ASSERT_Views] at hviews
      obtain ⟨i1, i2, i3⟩ := ManagerState.setLayout_installs (s1.Q_ASSERT true 386) vp
        (viewportLayout item) (by rw [hl2]; exact hnone)
      rw [hl2] at i1
      rw [ManagerState.Q_ASSERT_Views] at i2
      rw [hp2] at i3
      have e1 : ∀ w, ((s1.Q_ASSERT true 386).setLayout vp (viewportLayout item)).isViewport w ↔
          s.isViewport w := by
        intro w
        unfold ManagerState.isViewport
        rw [i3]
      have e3 : ∀ n, ((s1.Q_ASSERT true 386).setLayout vp (viewportLayout item)).viewport n =
          s.viewport n := by
        intro n
        unfold ManagerState.viewport
        rw [i3]
      have enew : ((s1.Q_ASSERT true 386).setLayout vp (viewportLayout item)).layoutItems vp =
          (viewportLayout item).items := by
        unfold ManagerState.layoutItems
        rw [i1, Function.update_same]
      have eold : ∀ w, w ≠ vp →
          ((s1.Q_ASSERT true 386).setLayout vp (viewportLayout item)).layoutItems w =
            s.layoutItems w := by
        intro w hw
        unfold ManagerState.layoutItems
        rw [i1, Function.update_noteq hw]
      have hempty : s.layoutItems vp = [] := by
        unfold ManagerState.layoutItems
        rw [hnone]
      refine ⟨⟨?_, ?_⟩, i3⟩
      · intro v hv
        rw [i2] at hv
        rcases hviews v hv with g | g
        · obtain ⟨w, hw, hvw⟩ := h.attached v g
          have hne : w ≠ vp := by
            intro e
            rw [e, hempty] at hvw
            cases hvw
          exact ⟨w, (e1 w).mpr hw, by rw [eold w hne]; exact hvw⟩
        · refine ⟨vp, (e1 vp).mpr (s.isViewport_of_viewport name vp hvp), ?_⟩
          rw [enew, (viewportLayout_items item).2.2]
          exact g
      · intro w hw hlw
        by_cases e : w = vp
        · exact ⟨name, List.mem_append_right _ (List.mem_singleton.mpr rfl),
            by rw [e3, e]; exact hvp⟩
        · rw [i1, Function.update_noteq e] at hlw
          obtain ⟨n, hn1, hn2⟩ := h.used w ((e1 w).mp hw) hlw
          exact ⟨n, List.mem_append_left _ hn1, by rw [e3]; exact hn2⟩

theorem setupViewports_attached (H : Hooks) (child : QDomNode) :
    ∀ (names : List String) (s : ManagerState) (names' : List String) (s' : ManagerState),
      (s.Viewports.map Prod.snd).reduceOption.Nodup → ViewsAttached s names →
      setupViewports H child names s = .ok names' s' →
      ViewsAttached s' names' ∧ s'.Viewports = s.Viewports := by
  induction child with
  | null =>
    intro names s names' s' _ h hok
    simp only [setupViewports] at hok
    cases hok
    exact ⟨h, rfl⟩
  | other next ih =>
    intro names s names' s' hnd h hok
    simp only [setupViewports] at hok
    exact ih names s names' s' hnd h hok
  | element tag attrs fc next _ ih =>
    intro names s names' s' hnd h hok
    rw [setupViewports] at hok
    simp only [] at hok
    split at hok
    · exact ih names (s.qWarning 318) names' s' hnd
        (viewsAttached_of_eq h rfl rfl rfl (fun n hn => hn)) hok
    · rename_i ht
      have ht' : (QDomNode.element tag attrs fc next).tagName = "layout" := by
        simpa using ht
      split at hok
      · exact ih names (s.qWarning 324) names' s' hnd
          (viewsAttached_of_eq h rfl rfl rfl (fun n hn => hn)) hok
      · rename_i hname
        split at hok
        · cases hok
        · rename_i u s1 hp
          have h1 := setupViewport_attached H _ _ s s1 names ht' hnd hname h hp
          have h2 := ih _ s1 names' s' (by rw [h1.2]; exact hnd) h1.1 hok
          exact ⟨h2.1, h2.2.trans h1.2⟩

theorem setupDocument_attached (H : Hooks) (s : ManagerState) (names : List String)
    (s1 : ManagerState) (hnd : (s.Viewports.map Prod.snd).reduceOption.Nodup)
    (h : ViewsAttached s []) (hok : setupDocument H s = .ok names s1) :
    ViewsAttached s1 names ∧ s1.Viewports = s.Viewports := by
  unfold setupDocument at hok
  simp only [] at hok
  by_cases h1 : s.Layout.documentElement.tagName = "viewports"
  · rw [if_pos h1] at hok
    exact setupViewports_attached H _ [] s names s1 hnd h hok
  · rw [if_neg h1] at hok
    by_cases h2 : s.Layout.documentElement.tagName = "layout"
    · rw [if_pos h2] at hok
      split at hok
      · cases hok
      · rename_i u s2 hp
        cases hok
        exact setupViewport_attached H _ _ s s1 [] h2 hnd (List.not_mem_nil _) h hp
    · rw [if_neg h2] at hok
      cases hok
      exact ⟨viewsAttached_of_eq h rfl rfl rfl (fun n hn => hn), rfl⟩

theorem setupLayout_attached (H : Hooks) (s0 s : ManagerState)
    (hlay : ∀ w, s0.isViewport w → s0.layout w = none)
    (hnd : (s0.Viewports.map Prod.snd).reduceOption.Nodup)
    (hdoc : ¬ (s0.Layout.isNull = true ∨ s0.Layout.documentElement.isNull = true))
    (hok : setupLayout H s0 = .ok () s) :
    (∀ v ∈ s.Views, v ∈ viewsOfItems s.installedItems) ∧ s.Viewports = s0.Viewports := by
  unfold setupLayout at hok
  rw [if_neg hdoc] at hok
  have hI : ViewsAttached { s0 with Views := [], LayoutWidgets := [] } [] :=
    ⟨fun v hv => (by cases hv), fun w hw hl => absurd (hlay w hw) hl⟩
  split at hok
  · cases hok
  · rename_i names s1 hp
    cases hok
    have h1 := setupDocument_attached H { s0 with Views := [], LayoutWidgets := [] } names s1
      hnd hI hp
    have f := (updateViewportUsage_frame names s1.viewportNames s1).1
    have h2 : ViewsAttached (updateViewportUsage names s1.viewportNames s1) names :=
      viewsAttached_of_eq h1.1 f.Views f.layout f.Viewports (fun n hn => hn)
    exact ⟨h2.installed, f.Viewports.trans h1.2⟩

theorem disableUpdates_frame (viewports : List (Option QWidgetPtr)) :
    ∀ (saved : List (QWidgetPtr × Bool)) (s : ManagerState),
      (disableUpdates viewports saved s).2.Views = s.Views ∧
      (disableUpdates viewports saved s).2.layout = s.layout ∧
      (disableUpdates viewports saved s).2.LayoutWidgets = s.LayoutWidgets ∧
      (disableUpdates viewports saved s).2.failedAsserts = s.failedAsserts := by
  induction viewports with
  | nil => intro saved s; exact ⟨rfl, rfl, rfl, rfl⟩
  | cons v rest ih =>
    intro saved s
    cases v with
    | none => exact ih saved s
    | some viewport =>
      simp only [disableUpdates]
      exact ih _ _

theorem restoreUpdates_frame (saved : List (QWidgetPtr × Bool))
    (viewports : List (Option QWidgetPtr)) :
    ∀ s : ManagerState,
      (restoreUpdates saved viewports s).Views = s.Views ∧
      (restoreUpdates saved viewports s).layout = s.layout ∧
      (restoreUpdates saved viewports s).LayoutWidgets = s.LayoutWidgets ∧
      (restoreUpdates saved viewports s).failedAsserts = s.failedAsserts := by
  induction viewports with
  | nil => intro s; exact ⟨rfl, rfl, rfl, rfl⟩
  | cons v rest ih =>
    intro s
    cases v with
    | none => exact ih s
    | some viewport =>
      simp only [restoreUpdates]
      split
      · exact ih s
      · exact ih _

theorem clearLayoutOf_layout (fuel : Nat) (vp : QWidgetPtr) (s s' : ManagerState)
    (h : clearLayoutOf fuel vp s = some s') :
    s'.layout = Function.update s.layout vp none := by
  unfold CTK.clearLayoutOf at h
  cases hl : s.layout vp with
  | none =>
    rw [hl] at h
    cases h
    rw [← hl, Function.update_eq_self]
  | some layout =>
    rw [hl] at h
    simp only [] at h
    split at h
    · cases h
    · rename_i s1 h1
      cases h
      show Function.update s1.layout vp none = _
      rw [(clear_layout fuel).2.1 _ _ _ h1]

theorem clearViewports_layout (fuel : Nat) (vs : List (Option QWidgetPtr)) :
    ∀ (s s' : ManagerState), clearViewports fuel vs s = some s' →
      (∀ vp, some vp ∈ vs → s'.layout vp = none) ∧
      (∀ w, s'.layout w = s.layout w ∨ s'.layout w = none) := by
  induction vs with
  | nil =>
    intro s s' h
    simp only [CTK.clearViewports] at h
    cases h
    exact ⟨fun vp hvp => absurd hvp (List.not_mem_nil _), fun _ => Or.inl rfl⟩
  | cons v rest ih =>
    intro s s' h
    cases v with
    | none =>
      simp only [CTK.clearViewports] at h
      obtain ⟨h1, h2⟩ := ih s s' h
      refine ⟨?_, h2⟩
      intro vp hvp
      rcases List.mem_cons.mp hvp with g | g
      · cases g
      · exact h1 vp g
    | some vp =>
      simp only [CTK.clearViewports] at h
      split at h
      · cases h
      · rename_i s1 hc
        have l1 := clearLayoutOf_layout fuel vp s s1 hc
        obtain ⟨h1, h2⟩ := ih _ s' h
        rw [ManagerState.Q_ASSERT_layout, l1] at h2
        refine ⟨?_, ?_⟩
        · intro q hq
          rcases List.mem_cons.mp hq with g | g
          · cases g
            rcases h2 vp with e | e
            · rw [e, Function.update_same]
            · exact e
          · exact h1 q g
        · intro w
          rcases h2 w with e | e
          · rw [e]
            by_cases hw : w = vp
            · rw [hw, Function.update_same]; exact Or.inr rfl
            · rw [Function.update_noteq hw]; exact Or.inl rfl
          · exact Or.inr e

theorem clearLayout_detached (fuel : Nat) (s s' : ManagerState)
    (h : clearLayout fuel s = some s') :
    s'.Views = s.Views ∧ s'.Viewports = s.Viewports ∧ s'.Layout = s.Layout ∧
      (∀ w, s'.isViewport w → s'.layout w = none) ∧ s'.installedItems = [] := by
  have t := SameOutsideTeardown.clearLayout fuel s s' h
  have l := (clearViewports_layout fuel _ s s' h).1
  have hl : ∀ w, s'.isViewport w → s'.layout w = none := by
    intro w hw
    unfold ManagerState.isViewport at hw
    rw [t.Viewports] at hw
    exact l w hw
  refine ⟨t.Views, t.Viewports, t.Layout, hl, ?_⟩
  unfold ManagerState.installedItems
  exact s'.itemsOf_nil _ (fun w hw => hl w hw)

theorem ManagerState.installedItems_congr {s s' : ManagerState} (hl : s'.layout = s.layout)
    (hp : s'.Viewports = s.Viewports) : s'.installedItems = s.installedItems := by
  unfold ManagerState.installedItems
  rw [hp]
  generalize s.Viewports.map Prod.snd = vs
  induction vs with
  | nil => rfl
  | cons v rest ih =>
    cases v with
    | none => exact ih
    | some w =>
      simp only [ManagerState.itemsOf, ManagerState.layoutItems]
      rw [hl]
      exact congrArg _ ih

theorem refresh_views (fuel : Nat) (H : Hooks) (s0 : ManagerState) (r : Result Unit)
    (hnd : (s0.Viewports.map Prod.snd).reduceOption.Nodup)
    (h : refresh fuel H s0 = some r) :
    ((s0.Layout.isNull = true ∨ s0.Layout.documentElement.isNull = true) →
      r.isOk = true ∧ r.state.Views = s0.Views ∧ r.state.installedItems = []) ∧
    (¬ (s0.Layout.isNull = true ∨ s0.Layout.documentElement.isNull = true) →
      r.isOk = true → ∀ v ∈ r.state.Views, v ∈ viewsOfItems r.state.installedItems) := by
  unfold refresh at h
  simp only [] at h
  obtain ⟨d1, -⟩ := disableUpdates_spec (s0.Viewports.map Prod.snd) [] s0
  obtain ⟨d3, -, -, -⟩ := disableUpdates_frame (s0.Viewports.map Prod.snd) [] s0
  split at h
  · cases h
  · rename_i sA hA
    obtain ⟨c1, c2, c3, c4, c5⟩ := clearLayout_detached fuel _ sA hA
    have hLayout : sA.Layout = s0.Layout := c3.trans d1.Layout
    have hViewports : sA.Viewports = s0.Viewports := c2.trans d1.Viewports
    refine ⟨?_, ?_⟩
    · intro hdoc
      have hs : setupLayout H sA = .ok () sA := by
        unfold setupLayout
        rw [if_pos (by rw [hLayout]; exact hdoc)]
      rw [hs] at h
      simp only [] at h
      cases h
      obtain ⟨r1, r2, -, -⟩ := restoreUpdates_frame
        (disableUpdates (s0.Viewports.map Prod.snd) [] s0).1 (sA.Viewports.map Prod.snd) sA
      have r3 := (restoreUpdates_spec
        (disableUpdates (s0.Viewports.map Prod.snd) [] s0).1 (sA.Viewports.map Prod.snd)
        sA).1.Viewports
      refine ⟨rfl, ?_, ?_⟩
      · exact r1.trans (c1.trans d3)
      · exact (ManagerState.installedItems_congr r2 r3).trans c5
    · intro hdoc hok
      cases hs : setupLayout H sA with
      | crash s1 =>
        rw [hs] at h
        simp only [] at h
        cases h
        cases hok
      | ok u s1 =>
        rw [hs] at h
        simp only [] at h
        cases h
        obtain ⟨a1, a2⟩ := setupLayout_attached H sA s1 c4 (by rw [hViewports]; exact hnd)
          (by rw [hLayout]; exact hdoc) hs
        obtain ⟨r1, r2, -, -⟩ := restoreUpdates_frame
          (disableUpdates (s0.Viewports.map Prod.snd) [] s0).1 (s1.Viewports.map Prod.snd) s1
        have r3 := (restoreUpdates_spec
          (disableUpdates (s0.Viewports.map Prod.snd) [] s0).1 (s1.Viewports.map Prod.snd)
          s1).1.Viewports
        intro v hv
        have hv1 : v ∈ s1.Views := by
          have : (Result.ok () (restoreUpdates
            (disableUpdates (s0.Viewports.map Prod.snd) [] s0).1
            (s1.Viewports.map Prod.snd) s1)).state.Views = s1.Views := r1
          rw [this] at hv
          exact hv
        have hi : (Result.ok () (restoreUpdates
            (disableUpdates (s0.Viewports.map Prod.snd) [] s0).1
            (s1.Viewports.map Prod.snd) s1)).state.installedItems = s1.installedItems :=
          ManagerState.installedItems_congr r2 r3
        rw [hi]
        exact a1 v hv1

theorem readyToClear_congr {s s' : ManagerState} {items : List QLayoutItem}
    (hl : s'.LayoutWidgets = s.LayoutWidgets) (h : ReadyToClear s items) :
    ReadyToClear s' items :=
  ⟨h.wellFormed, h.nodup, fun p hp => by rw [hl]; exact h.owned p hp,
    fun v hv => by rw [hl]; exact h.views v hv⟩

theorem refresh_returns (fuel : Nat) (H : Hooks) (s0 : ManagerState)
    (hready : ReadyToClear s0 s0.installedItems)
    (hfuel : clearCostOfItems s0.installedItems ≤ fuel) :
    ∃ r, refresh fuel H s0 = some r := by
  obtain ⟨d1, -⟩ := disableUpdates_spec (s0.Viewports.map Prod.snd) [] s0
  obtain ⟨-, d4, d5, -⟩ := disableUpdates_frame (s0.Viewports.map Prod.snd) [] s0
  have hi := ManagerState.installedItems_congr d4 d1.Viewports
  obtain ⟨sA, hA, -⟩ := clearLayout_detaches_views
    (disableUpdates (s0.Viewports.map Prod.snd) [] s0).2 fuel
    (by rw [hi]; exact readyToClear_congr d5 hready) (by rw [hi]; exact hfuel)
  unfold refresh
  simp only [hA]
  cases setupLayout H sA with
  | crash s1 => exact ⟨_, rfl⟩
  | ok u s1 => exact ⟨_, rfl⟩

theorem detachViews_frame (old : QWidgetPtr) (views : List QWidgetPtr) :
    ∀ s : ManagerState,
      (detachViews old views s).Views = s.Views ∧
      (detachViews old views s).Layout = s.Layout ∧
      (detachViews old views s).Viewports = s.Viewports := by
  induction views with
  | nil => intro s; exact ⟨rfl, rfl, rfl⟩
  | cons v rest ih =>
    intro s
    simp only [detachViews]
    split
    · exact ih _
    · exact ih s

theorem setViewport_views (fuel : Nat) (H : Hooks) (viewport : Option QWidgetPtr)
    (name : String) (s0 : ManagerState) (r : Result Unit)
    (hne : viewport ≠ s0.viewport name)
    (hnd : ((insertViewport name viewport s0.Viewports).map Prod.snd).reduceOption.Nodup)
    (h : setViewport fuel H viewport name s0 = some r) :
    ((s0.Layout.isNull = true ∨ s0.Layout.documentElement.isNull = true) →
      r.isOk = true ∧ r.state.Views = s0.Views ∧ r.state.installedItems = []) ∧
    (¬ (s0.Layout.isNull = true ∨ s0.Layout.documentElement.isNull = true) →
      r.isOk = true → ∀ v ∈ r.state.Views, v ∈ viewsOfItems r.state.installedItems) := by
  unfold setViewport at h
  simp only [] at h
  rw [if_neg hne] at h
  have key : ∀ s1 : ManagerState, s1.Views = s0.Views → s1.Layout = s0.Layout →
      s1.Viewports = s0.Viewports →
      refresh fuel H
        ({ s1 with Viewports := insertViewport name viewport s1.Viewports }.call
          .onViewportChanged) = some r →
      ((s0.Layout.isNull = true ∨ s0.Layout.documentElement.isNull = true) →
        r.isOk = true ∧ r.state.Views = s0.Views ∧ r.state.installedItems = []) ∧
      (¬ (s0.Layout.isNull = true ∨ s0.Layout.documentElement.isNull = true) →
        r.isOk = true → ∀ v ∈ r.state.Views, v ∈ viewsOfItems r.state.installedItems) := by
    intro s1 e1 e2 e3 hr
    have g := refresh_views fuel H _ r
      (show ((({ s1 with Viewports := insertViewport name viewport s1.Viewports }.call
          .onViewportChanged).Viewports).map Prod.snd).reduceOption.Nodup by
        show ((insertViewport name viewport s1.Viewports).map Prod.snd).reduceOption.Nodup
        rw [e3]
        exact hnd) hr
    have eL : ({ s1 with Viewports := insertViewport name viewport s1.Viewports }.call
        .onViewportChanged).Layout = s0.Layout := e2
    have eV : ({ s1 with Viewports := insertViewport name viewport s1.Viewports }.call
        .onViewportChanged).Views = s0.Views := e1
    rw [eL, eV] at g
    exact g
  cases ho : s0.viewport name with
  | none =>
    rw [ho] at h
    exact key s0 rfl rfl rfl h
  | some old =>
    rw [ho] at h
    simp only [] at h
    cases hc : clearLayoutOf fuel old s0 with
    | none => rw [hc] at h; cases h
    | some s1 =>
      rw [hc] at h
      simp only [] at h
      have t := SameOutsideTeardown.clearLayoutOf fuel old s0 s1 hc
      obtain ⟨f1, f2, f3⟩ := detachViews_frame old s1.Views s1
      exact key _ (f1.trans t.Views) (f2.trans t.Layout) (f3.trans t.Viewports) h

/-! ## The assertion of `clearLayout()` -/

theorem clear_failedAsserts (fuel : Nat) :
    (∀ node s s', clearWidget fuel node s = some s' → s'.failedAsserts = s.failedAsserts) ∧
    (∀ items s s', clearItems fuel items s = some s' → s'.failedAsserts = s.failedAsserts) ∧
    (∀ pages s s', clearPages fuel pages s = some s' → s'.failedAsserts = s.failedAsserts) := by
  induction fuel with
  | zero =>
    refine ⟨?_, ?_, ?_⟩ <;> intro x s s' h
    · simp [clearWidget] at h
    · simp [clearItems] at h
    · simp [clearPages] at h
  | succ fuel ih =>
    obtain ⟨ihw, ihi, ihp⟩ := ih
    refine ⟨?_, ?_, ?_⟩
    · intro node s s' h
      rw [clearWidget] at h
      split at h
      · cases h; rfl
      · rename_i widget _
        split at h
        · cases h; rfl
        · simp only [] at h
          split at h
          · cases h
          · rename_i s1 h1
            cases h
            have h2 : s1.failedAsserts = s.failedAsserts := by
              split at h1
              · exact ihi _ _ _ h1
              · exact ihp _ _ _ h1
              · exact (ihp _ _ _ h1).trans rfl
              · cases h1; rfl
            exact h2
    · intro items s s' h
      cases items with
      | nil => rw [clearItems] at h; cases h; rfl
      | cons item rest =>
        rw [clearItems] at h
        split at h
        · split at h
          · cases h
          · rename_i s1 h1
            exact (ihi _ _ _ h).trans (ihw _ _ _ h1)
        · split at h
          · split at h
            · cases h
            · rename_i s1 h1
              exact (ihi _ _ _ h).trans (ihi _ _ _ h1)
          · exact ihi _ _ _ h
    · intro pages s s' h
      cases pages with
      | nil => rw [clearPages] at h; cases h; rfl
      | cons page rest =>
        rw [clearPages] at h
        split at h
        · cases h
        · rename_i s1 h1
          exact (ihp _ _ _ h).trans (ihw _ _ _ h1)

theorem clearLayoutOf_failedAsserts (fuel : Nat) (vp : QWidgetPtr) (s s' : ManagerState)
    (h : clearLayoutOf fuel vp s = some s') : s'.failedAsserts = s.failedAsserts := by
  unfold CTK.clearLayoutOf at h
  split at h
  · cases h; rfl
  · split at h
    · cases h
    · rename_i s1 h1
      cases h
      exact (clear_failedAsserts fuel).2.1 _ s s1 h1

theorem ManagerState.Q_ASSERT_failedAsserts (s : ManagerState) (cond : Bool) (line : Nat) :
    (s.Q_ASSERT cond line).failedAsserts =
      if cond then s.failedAsserts else s.failedAsserts ++ [line] := by
  unfold ManagerState.Q_ASSERT
  split <;> rfl

theorem clearViewports_failedAsserts (fuel : Nat) (vs : List (Option QWidgetPtr)) :
    ∀ (s s' : ManagerState), clearViewports fuel vs s = some s' →
      ∀ line ∈ s.failedAsserts, line ∈ s'.failedAsserts := by
  induction vs with
  | nil =>
    intro s s' h
    simp only [CTK.clearViewports] at h
    cases h
    exact fun _ hl => hl
  | cons v rest ih =>
    intro s s' h
    cases v with
    | none =>
      simp only [CTK.clearViewports] at h
      exact ih s s' h
    | some vp =>
      simp only [CTK.clearViewports] at h
      split at h
      · cases h
      · rename_i s1 hc
        intro line hl
        refine ih _ s' h line ?_
        rw [ManagerState.Q_ASSERT_failedAsserts, clearLayoutOf_failedAsserts fuel vp s s1 hc]
        split
        · exact hl
        · exact List.mem_append_left _ hl

theorem clearViewports_assert_first (fuel : Nat) (vp : QWidgetPtr)
    (rest : List (Option QWidgetPtr)) (s s' : ManagerState) (w p : QWidgetPtr)
    (hready : ReadyToClear s (s.itemsOf (some vp :: rest)))
    (hfuel : clearCostOfItems (s.itemsOf (some vp :: rest)) ≤ fuel)
    (hw : some w ∈ rest) (hp : p ∈ containersOfItems (s.layoutItems w))
    (h : clearViewports fuel (some vp :: rest) s = some s') :
    289 ∈ s'.failedAsserts := by
  have hprest : p ∈ containersOfItems (s.itemsOf rest) := by
    rw [mem_containersOfItems] at hp ⊢
    obtain ⟨i, hi, hpi⟩ := hp
    exact ⟨i, s.mem_itemsOf_of_mem rest w i hw hi, hpi⟩
  simp only [ManagerState.itemsOf] at hready hfuel
  have hca := clearCostOfItems_append (s.layoutItems vp) (s.itemsOf rest)
  have hpos := clearCostOfItems_pos (s.itemsOf rest)
  obtain ⟨s2, h2, d2, -, -⟩ := clearLayoutOf_returns fuel vp s (by omega) hready.left
  simp only [CTK.clearViewports, h2] at h
  have hn := hready.nodup
  rw [containersOfItems_append] at hn
  have hin : p ∈ s2.LayoutWidgets := by
    refine d2.kept p (hready.owned p ?_) ?_
    · rw [containersOfItems_append]
      exact List.mem_append_right _ hprest
    · intro hq
      exact (List.nodup_append.mp hn).2.2 hq hprest
  refine clearViewports_failedAsserts fuel rest _ s' h 289 ?_
  rw [ManagerState.Q_ASSERT_failedAsserts]
  have hlen : decide (s2.LayoutWidgets.length = 0) = false := by
    rw [decide_eq_false_iff_not]
    intro h0
    rw [List.length_eq_zero] at h0
    rw [h0] at hin
    cases hin
  rw [hlen]
  exact List.mem_append_right _ (List.mem_singleton.mpr rfl)

theorem clearViewports_assert (fuel : Nat) (vp w p : QWidgetPtr)
    (rest : List (Option QWidgetPtr)) (hw : some w ∈ rest) (pre : List (Option QWidgetPtr)) :
    ∀ (s s' : ManagerState),
      ReadyToClear s (s.itemsOf (pre ++ some vp :: rest)) →
      clearCostOfItems (s.itemsOf (pre ++ some vp :: rest)) ≤ fuel →
      p ∈ containersOfItems (s.layoutItems w) →
      clearViewports fuel (pre ++ some vp :: rest) s = some s' →
      289 ∈ s'.failedAsserts := by
  induction pre with
  | nil =>
    intro s s' hready hfuel hp h
    exact clearViewports_assert_first fuel vp rest s s' w p hready hfuel hw hp h
  | cons q pre ih =>
    intro s s' hready hfuel hp h
    cases q with
    | none =>
      simp only [List.cons_append, CTK.clearViewports, List.append_eq] at h
      exact ih s s' hready hfuel hp h
    | some q =>
      simp only [List.cons_append, ManagerState.itemsOf, List.append_eq] at hready hfuel
      simp only [List.cons_append, CTK.clearViewports, List.append_eq] at h
      have hca := clearCostOfItems_append (s.layoutItems q)
        (s.itemsOf (pre ++ some vp :: rest))
      have hpos := clearCostOfItems_pos (s.itemsOf (pre ++ some vp :: rest))
      have hposL := clearCostOfItems_pos (s.layoutItems q)
      obtain ⟨s2, h2, d2, t2, l2⟩ := clearLayoutOf_returns fuel q s (by omega) hready.left
      rw [h2] at h
      simp only [] at h
      have l3 : (s2.Q_ASSERT (decide (s2.LayoutWidgets.length = 0)) 289).layout =
          Function.update s.layout q none := by
        rw [ManagerState.Q_ASSERT_layout, l2]
      have ta := TeardownStep.assert s2 (decide (s2.LayoutWidgets.length = 0)) 289
      have t3 := t2.step_trans ta
      have d3 : ViewsDetached s (s2.Q_ASSERT (decide (s2.LayoutWidgets.length = 0)) 289)
          (s.layoutItems q) := by
        refine ⟨?_, ?_⟩
        · intro u hu
          rw [ManagerState.Q_ASSERT_visible, ManagerState.Q_ASSERT_parent]
          exact d2.views u hu
        · intro x hx hnot
          rw [ManagerState.Q_ASSERT_LayoutWidgets]
          exact d2.kept x hx hnot
      obtain ⟨hsub, -⟩ := ManagerState.itemsOf_update_sublist s _ q l3 (pre ++ some vp :: rest)
      have hcs := clearCostOfItems_sublist hsub
      have hne : w ≠ q := by
        intro e
        have hn := hready.nodup
        rw [containersOfItems_append] at hn
        have hp2 : p ∈ containersOfItems (s.itemsOf (pre ++ some vp :: rest)) := by
          rw [mem_containersOfItems] at hp ⊢
          obtain ⟨i, hi, hpi⟩ := hp
          exact ⟨i, s.mem_itemsOf_of_mem _ w i
            (List.mem_append_right _ (List.mem_cons_of_mem _ hw)) hi, hpi⟩
        exact (List.nodup_append.mp hn).2.2 (e ▸ hp) hp2
      have hp3 : p ∈ containersOfItems
          ((s2.Q_ASSERT (decide (s2.LayoutWidgets.length = 0)) 289).layoutItems w) := by
        unfold ManagerState.layoutItems
        rw [l3, Function.update_noteq hne]
        exact hp
      exact ih _ s' (ReadyToClear.after_append hsub hready t3 d3) (by omega) hp3 h

/-! ## The assertions of the build -/

theorem ManagerState.Q_ASSERT_true (s : ManagerState) (line : Nat) :
    s.Q_ASSERT true line = s := rfl

theorem setupView_failedAsserts (e : QDomNode) (view : Option QWidgetPtr) (s : ManagerState) :
    (setupView e view s).failedAsserts = s.failedAsserts := by
  cases view <;> rfl

theorem widgetItemFromXML_failedAsserts (H : Hooks) (e : QDomNode) (s : ManagerState) :
    (widgetItemFromXML H e s).2.failedAsserts = s.failedAsserts := by
  unfold widgetItemFromXML
  cases H.viewFromXML e <;> rfl

theorem widgetItemsLoop_failedAsserts (e : QDomNode) (views : List (Option QWidgetPtr)) :
    ∀ (res : List QLayoutItem) (s : ManagerState),
      (widgetItemsLoop e views res s).2.failedAsserts = s.failedAsserts := by
  induction views with
  | nil => intro res s; rfl
  | cons v vs ih =>
    intro res s
    exact (ih _ _).trans (setupView_failedAsserts e v s)

theorem widgetItemsFromXML_failedAsserts (H : Hooks) (e : QDomNode) (s : ManagerState)
    (h : (H.viewsFromXML e).length ≠ 0) :
    (widgetItemsFromXML H e s).2.failedAsserts = s.failedAsserts := by
  unfold widgetItemsFromXML
  simp only []
  rw [widgetItemsLoop_failedAsserts, ManagerState.Q_ASSERT_failedAsserts, if_pos]
  simpa using h

theorem pageWidget_failedAsserts (child : QLayoutItem) (s : ManagerState) :
    (pageWidget child s).2.failedAsserts = s.failedAsserts := by
  unfold pageWidget
  split
  · rfl
  · simp only []
    split <;> rfl

theorem adopt_failedAsserts (w : QWidgetPtr) (p : QLayoutItem) (s : ManagerState) :
    (adopt w p s).failedAsserts = s.failedAsserts := by
  unfold CTK.adopt
  split <;> rfl

theorem addChildItemToLayout_failedAsserts (e : QDomNode) (child container : QLayoutItem)
    (s : ManagerState) :
    (addChildItemToLayout e child container s).2.failedAsserts = s.failedAsserts := by
  unfold addChildItemToLayout
  cases container <;> simp only [] <;>
    first
      | rfl
      | exact (adopt_failedAsserts _ _ _).trans (pageWidget_failedAsserts _ _)

theorem addChildItems_failedAsserts (e : QDomNode) (items : List QLayoutItem) :
    ∀ (container : QLayoutItem) (s : ManagerState),
      (addChildItems e items container s).2.failedAsserts = s.failedAsserts := by
  induction items with
  | nil => intro container s; rfl
  | cons x xs ih =>
    intro container s
    exact (ih _ _).trans (addChildItemToLayout_failedAsserts e x container s)

theorem Result.state_map {α β : Type} (f : α → β) (r : Result α) :
    (r.map f).state = r.state := by
  cases r <;> rfl

theorem processItemElementWith_failedAsserts (H : Hooks)
    (processInner : ManagerState → Result (Option QLayoutItem)) (e : QDomNode)
    (htag : e.tagName = "item") (hcount : e.childCount = 1)
    (hmult : e.attr "multiple" "false" = "true" →
      (H.viewsFromXML e.firstChild.toElement).length ≠ 0)
    (hinner : e.attr "multiple" "false" ≠ "true" →
      ∀ s, (processInner s).state.failedAsserts = s.failedAsserts)
    (container : QLayoutItem) (s : ManagerState) :
    (processItemElementWith H processInner e container s).state.failedAsserts
      = s.failedAsserts := by
  unfold processItemElementWith
  simp only [htag, hcount, decide_True, ManagerState.Q_ASSERT_true]
  split
  · rename_i hm
    exact (addChildItems_failedAsserts e _ _ _).trans
      (widgetItemsFromXML_failedAsserts H _ s (hmult (by simpa using hm)))
  · rename_i hm
    have h1 := hinner (by simpa using hm) s
    split <;> rename_i hp <;> rw [hp] at h1
    · exact h1
    · exact h1
    · exact (addChildItems_failedAsserts e _ _ _).trans h1

theorem processElementWith_failedAsserts (H : Hooks)
    (processLayout : QDomNode → ManagerState → Result QLayoutItem) (e : QDomNode)
    (hnn : e.isNull = false)
    (hlayout : e.tagName = "layout" →
      ∀ s, (processLayout e s).state.failedAsserts = s.failedAsserts)
    (s : ManagerState) :
    (processElementWith H processLayout e s).state.failedAsserts = s.failedAsserts := by
  unfold processElementWith
  simp only [hnn, Bool.not_false, ManagerState.Q_ASSERT_true]
  split
  · rename_i ht
    rw [Result.state_map]
    exact hlayout ht s
  · exact widgetItemFromXML_failedAsserts H e s

theorem layoutFromXML_failedAsserts (e : QDomNode) (s : ManagerState)
    (htag : e.tagName = "layout") :
    (layoutFromXML e s).2.failedAsserts = s.failedAsserts := by
  unfold CTK.layoutFromXML
  simp only [htag, decide_True, ManagerState.Q_ASSERT_true]
  split_ifs <;> rfl

theorem processLayoutElement_failedAsserts_of (H : Hooks) (e : QDomNode)
    (htag : e.tagName = "layout")
    (hchildren : ∀ (container : QLayoutItem) (sizes : List Int) (s : ManagerState),
      (processChildren H e.firstChild container sizes s).state.failedAsserts
        = s.failedAsserts)
    (s : ManagerState) :
    (processLayoutElement H e s).state.failedAsserts = s.failedAsserts := by
  rw [processLayoutElement_eq]
  simp only [htag, decide_True, ManagerState.Q_ASSERT_true]
  have h0 := layoutFromXML_failedAsserts e s htag
  split
  · rename_i s1 h
    rw [h] at h0
    exact h0
  · rename_i li s1 h
    rw [h] at h0
    simp only [] at h0
    have h1 : (if li.isLayout then s1
              else
                match li.widget? with
                | some widget => { s1 with LayoutWidgets := s1.LayoutWidgets.insert widget }
                | none => s1).failedAsserts = s1.failedAsserts := by
      split
      · rfl
      · split <;> rfl
    have h2 := hchildren (if li.isLayout then (li.setContentsMargins 0).setSpacing s1.Spacing
              else li) [] (if li.isLayout then s1
              else
                match li.widget? with
                | some widget => { s1 with LayoutWidgets := s1.LayoutWidgets.insert widget }
                | none => s1)
    have h3 := (h2.trans h1).trans h0
    split <;> rename_i h4 <;> rw [h4] at h3 <;> exact h3

theorem process_asserts (n : QDomNode) :
    (∀ (H : Hooks) (s : ManagerState), assertionsHold H n = true →
      (processLayoutElement H n s).state.failedAsserts = s.failedAsserts) ∧
    (∀ (H : Hooks) (container : QLayoutItem) (sizes : List Int) (s : ManagerState),
      itemAssertionsHold H n = true →
      (processChildren H n container sizes s).state.failedAsserts = s.failedAsserts) := by
  induction n with
  | null =>
    refine ⟨fun H s h => ?_, fun H c sizes s _ => ?_⟩
    · simp [assertionsHold] at h
    · rw [processChildren_null]
      rfl
  | other next ih =>
    refine ⟨fun H s h => ?_, fun H c sizes s h => ?_⟩
    · simp [assertionsHold] at h
    · rw [processChildren_other]
      rw [itemAssertionsHold] at h
      exact ih.2 H c sizes s h
  | element tag attrs fc next ihc ihn =>
    refine ⟨fun H s h => ?_, fun H c sizes s h => ?_⟩
    · rw [assertionsHold, Bool.and_eq_true] at h
      exact processLayoutElement_failedAsserts_of H (.element tag attrs fc next)
        (by simpa using h.1) (fun c sizes s => ihc.2 H c sizes s h.2) s
    · rw [processChildren_element]
      rw [itemAssertionsHold] at h
      simp only [Bool.and_eq_true, decide_eq_true_eq] at h
      obtain ⟨⟨⟨htag, hcount⟩, hcontent⟩, hnext⟩ := h
      have h1 : (processItemElement H (.element tag attrs fc next) c s).state.failedAsserts
          = s.failedAsserts := by
        refine processItemElementWith_failedAsserts H _ (.element tag attrs fc next)
          (by rw [← htag]; rfl) hcount ?_ ?_ c s
        · intro hm
          rw [if_pos hm] at hcontent
          simpa using hcontent
        · intro hm s
          rw [if_neg hm] at hcontent
          simp only [Bool.and_eq_true, Bool.not_eq_true'] at hcontent
          refine processElementWith_failedAsserts H (processLayoutElement H) _ hcontent.1 ?_ s
          intro ht s
          have ht' : fc.toElement.tagName = "layout" := ht
          have h2 := hcontent.2
          rw [if_pos ht'] at h2
          cases fc with
          | element t a c n => exact ihc.1 H s h2
          | null => simp [QDomNode.toElement, QDomNode.tagName] at ht'
          | other n => simp [QDomNode.toElement, QDomNode.tagName] at ht'
      cases hp : processItemElement H (.element tag attrs fc next) c s with
      | crash s2 =>
        rw [hp] at h1
        exact h1
      | ok c2 s2 =>
        rw [hp] at h1
        simp only []
        exact (ihn.2 H c2 _ s2 hnext).trans h1

theorem ManagerState.setLayout_failedAsserts (s : ManagerState) (w : QWidgetPtr)
    (l : QLayoutItem) : (s.setLayout w l).failedAsserts = s.failedAsserts := by
  unfold ManagerState.setLayout
  split <;> rfl

theorem setupViewport_failedAsserts (H : Hooks) (e : QDomNode) (name : String)
    (s : ManagerState) (htag : e.tagName = "layout")
    (hlay : ∀ vp, s.viewport name = some vp → s.layout vp = none)
    (hassert : ∀ vp, s.viewport name = some vp → assertionsHold H e = true) :
    (setupViewport H e name s).state.failedAsserts = s.failedAsserts := by
  have hnull := (QDomNode.toElement_of_tagName htag (by decide)).2
  cases hvp : s.viewport name with
  | none =>
    rw [setupViewport_unregistered H e name s hnull hvp]
    rfl
  | some vp =>
    rw [setupViewport_registered H e name s vp htag hvp]
    have h1 := (process_asserts e).1 H
      (((s.call (.setupViewport e name)).Q_ASSERT (s.layout vp).isNone 384).Q_ASSERT
        (!e.isNull) 481) (hassert vp hvp)
    have h0 : (((s.call (.setupViewport e name)).Q_ASSERT (s.layout vp).isNone 384).Q_ASSERT
        (!e.isNull) 481).failedAsserts = s.failedAsserts := by
      rw [hlay vp hvp, hnull]
      rfl
    cases hp : processLayoutElement H e
        (((s.call (.setupViewport e name)).Q_ASSERT (s.layout vp).isNone 384).Q_ASSERT
          (!e.isNull) 481) with
    | crash s1 =>
      rw [hp] at h1
      exact h1.trans h0
    | ok item s1 =>
      rw [hp] at h1
      exact (ManagerState.setLayout_failedAsserts _ _ _).trans (h1.trans h0)

theorem setupLayout_layout_failedAsserts (H : Hooks) (s : ManagerState)
    (hroot : s.Layout.documentElement.tagName = "layout")
    (hlay : ∀ vp, s.viewport (s.Layout.documentElement.attr "name" "") = some vp →
      s.layout vp = none)
    (hassert : ∀ vp, s.viewport (s.Layout.documentElement.attr "name" "") = some vp →
      assertionsHold H s.Layout.documentElement = true) :
    (setupLayout H s).state.failedAsserts = s.failedAsserts := by
  rw [setupLayout_layout H s hroot]
  have h1 := setupViewport_failedAsserts H s.Layout.documentElement
    (s.Layout.documentElement.attr "name" "") { s with Views := [], LayoutWidgets := [] } hroot
    hlay hassert
  cases hp : setupViewport H s.Layout.documentElement
      (s.Layout.documentElement.attr "name" "")
      { s with Views := [], LayoutWidgets := [] } with
  | crash s1 =>
    rw [hp] at h1
    exact h1
  | ok u s1 =>
    rw [hp] at h1
    obtain ⟨f1, -⟩ := updateViewportUsage_frame
      [s.Layout.documentElement.attr "name" ""] s1.viewportNames s1
    exact f1.failedAsserts.trans h1

theorem setupLayout_layout_isOk (H : Hooks) (s : ManagerState)
    (hroot : s.Layout.documentElement.tagName = "layout") :
    (setupLayout H s).isOk =
      ((s.viewport (s.Layout.documentElement.attr "name" "")).isNone ||
        typesRecognized s.Layout.documentElement) := by
  rw [setupLayout_layout H s hroot]
  obtain ⟨-, -, -, -, g5⟩ := setupViewport_spec H s.Layout.documentElement
    (s.Layout.documentElement.attr "name" "") { s with Views := [], LayoutWidgets := [] } hroot
  cases hp : setupViewport H s.Layout.documentElement
      (s.Layout.documentElement.attr "name" "")
      { s with Views := [], LayoutWidgets := [] } <;> rw [hp] at g5 <;> exact g5

/-! ## Every view that a build places is in the set `Views` -/

theorem setupView_recorded (e : QDomNode) (view : Option QWidgetPtr) (s : ManagerState) :
    (∀ v ∈ s.Views, v ∈ (setupView e view s).Views) ∧
      ∀ v, view = some v → v ∈ (setupView e view s).Views := by
  cases view with
  | none => exact ⟨fun v hv => hv, fun v hv => by cases hv⟩
  | some w =>
    refine ⟨fun v hv => ?_, fun v hv => ?_⟩
    · show v ∈ List.insert w s.Views
      exact List.mem_insert_iff.mpr (Or.inr hv)
    · have hvw : w = v := Option.some.inj hv
      show v ∈ List.insert w s.Views
      exact List.mem_insert_iff.mpr (Or.inl hvw.symm)

theorem widgetItemFromXML_recorded (H : Hooks) (e : QDomNode) (s : ManagerState) :
    (∀ v ∈ s.Views, v ∈ (widgetItemFromXML H e s).2.Views) ∧
      ∀ i, (widgetItemFromXML H e s).1 = some i →
        ∀ v ∈ i.views, v ∈ (widgetItemFromXML H e s).2.Views := by
  unfold widgetItemFromXML
  cases H.viewFromXML e with
  | none =>
    simp only [Option.map]
    exact ⟨fun v hv => hv, fun i hi => by cases hi⟩
  | some n =>
    simp only [Option.map]
    obtain ⟨a1, a2⟩ := setupView_recorded e (some (.external n)) s
    refine ⟨a1, ?_⟩
    intro i hi v hv
    cases hi
    have : v = .external n := by simpa [QLayoutItem.views] using hv
    exact a2 v (by rw [this])

theorem widgetItemsLoop_recorded (e : QDomNode) (views : List (Option QWidgetPtr)) :
    ∀ (res : List QLayoutItem) (s : ManagerState),
      (∀ v ∈ s.Views, v ∈ (widgetItemsLoop e views res s).2.Views) ∧
        ∀ v, some v ∈ views → v ∈ (widgetItemsLoop e views res s).2.Views := by
  induction views with
  | nil => intro res s; exact ⟨fun v hv => hv, fun v hv => by cases hv⟩
  | cons x xs ih =>
    intro res s
    obtain ⟨a1, a2⟩ := setupView_recorded e x s
    obtain ⟨b1, b2⟩ := ih (res ++ [.widgetItem x]) (setupView e x s)
    refine ⟨fun v hv => b1 v (a1 v hv), ?_⟩
    intro v hv
    rcases List.mem_cons.mp hv with g | g
    · exact b1 v (a2 v g.symm)
    · exact b2 v g

theorem widgetItemsFromXML_recorded (H : Hooks) (e : QDomNode) (s : ManagerState) :
    (∀ v ∈ s.Views, v ∈ (widgetItemsFromXML H e s).2.Views) ∧
      ∀ v ∈ viewsOfItems (widgetItemsFromXML H e s).1, v ∈ (widgetItemsFromXML H e s).2.Views := by
  unfold widgetItemsFromXML
  simp only []
  obtain ⟨a1, a2⟩ := widgetItemsLoop_recorded e
    ((H.viewsFromXML e).map (Option.map QWidgetPtr.external)) []
    (s.Q_ASSERT (decide (((H.viewsFromXML e).map (Option.map QWidgetPtr.external)).length ≠ 0))
      688)
  refine ⟨fun v hv => a1 v (by rw [ManagerState.Q_ASSERT_Views]; exact hv), ?_⟩
  intro v hv
  rw [widgetItemsLoop_items, List.nil_append, mem_viewsOfItems] at hv
  obtain ⟨i, hi, hvi⟩ := hv
  obtain ⟨x, hx, rfl⟩ := List.mem_map.mp hi
  cases x with
  | none => simp [QLayoutItem.views] at hvi
  | some w =>
    have : v = w := by simpa [QLayoutItem.views] using hvi
    rw [this]
    exact a2 w hx

theorem pageWidget_recorded (child : QLayoutItem) (s : ManagerState) :
    (pageWidget child s).2.Views = s.Views ∧
      ∀ v ∈ (pageWidget child s).1.views, v ∈ child.views := by
  unfold pageWidget
  cases hw : child.widget? with
  | some w => exact ⟨rfl, fun v hv => hv⟩
  | none =>
    simp only []
    by_cases hl : child.isLayout = true
    · rw [if_pos hl]
      exact ⟨rfl, fun v hv => by simpa [QLayoutItem.views] using hv⟩
    · rw [if_neg hl]
      exact ⟨rfl, fun v hv => by simp [QLayoutItem.views] at hv⟩

theorem addChildItemToLayout_recorded (e : QDomNode) (child container : QLayoutItem)
    (s : ManagerState) :
    (addChildItemToLayout e child container s).2.Views = s.Views ∧
      ∀ v ∈ (addChildItemToLayout e child container s).1.views,
        v ∈ container.views ∨ v ∈ child.views := by
  have hp := pageWidget_recorded child s
  unfold addChildItemToLayout
  cases container with
  | widgetItem wid => exact ⟨rfl, fun v hv => Or.inl hv⟩
  | widget p => exact ⟨rfl, fun v hv => Or.inl hv⟩
  | widgetWithLayout p layout => exact ⟨rfl, fun v hv => Or.inl hv⟩
  | boxLayout o m sp items =>
    refine ⟨rfl, ?_⟩
    intro v hv
    simp only [QLayoutItem.views, viewsOfItems_snoc, List.mem_append] at hv ⊢
    exact hv
  | gridLayout m sp items cells =>
    refine ⟨rfl, ?_⟩
    intro v hv
    simp only [QLayoutItem.views, viewsOfItems_snoc, List.mem_append] at hv ⊢
    exact hv
  | tabWidget p pages labels =>
    simp only []
    refine ⟨(adopt_views _ _ _).trans hp.1, ?_⟩
    intro v hv
    simp only [QLayoutItem.views, viewsOfItems_snoc, List.mem_append] at hv ⊢
    exact hv.imp id (hp.2 v)
  | splitter p o pages sizes =>
    simp only []
    refine ⟨(adopt_views _ _ _).trans hp.1, ?_⟩
    intro v hv
    simp only [QLayoutItem.views, viewsOfItems_snoc, List.mem_append] at hv ⊢
    exact hv.imp id (hp.2 v)

theorem addChildItems_recorded (e : QDomNode) (items : List QLayoutItem) :
    ∀ (container : QLayoutItem) (s : ManagerState),
      (addChildItems e items container s).2.Views = s.Views ∧
      ∀ v ∈ (addChildItems e items container s).1.views,
        v ∈ container.views ∨ v ∈ viewsOfItems items := by
  induction items with
  | nil =>
    intro container s
    exact ⟨rfl, fun v hv => Or.inl hv⟩
  | cons x xs ih =>
    intro container s
    obtain ⟨a1, a2⟩ := addChildItemToLayout_recorded e x container s
    obtain ⟨b1, b2⟩ := ih (addChildItemToLayout e x container s).1
      (addChildItemToLayout e x container s).2
    refine ⟨b1.trans a1, ?_⟩
    intro v hv
    simp only [viewsOfItems, List.mem_append]
    rcases b2 v hv with g | g
    · rcases a2 v g with g1 | g1
      · exact Or.inl g1
      · exact Or.inr (Or.inl g1)
    · exact Or.inr (Or.inr g)

theorem processItemElementWith_recorded (H : Hooks)
    (processInner : ManagerState → Result (Option QLayoutItem)) (e : QDomNode)
    (hinner : ∀ s item s1, processInner s = .ok item s1 →
      (∀ v ∈ s.Views, v ∈ s1.Views) ∧ ∀ i, item = some i → ∀ v ∈ i.views, v ∈ s1.Views)
    (container : QLayoutItem) (s : ManagerState)
    (hc : ∀ v ∈ container.views, v ∈ s.Views)
    (c' : QLayoutItem) (s' : ManagerState)
    (h : processItemElementWith H processInner e container s = .ok c' s') :
    (∀ v ∈ s.Views, v ∈ s'.Views) ∧ ∀ v ∈ c'.views, v ∈ s'.Views := by
  unfold processItemElementWith at h
  simp only [] at h
  split at h
  · cases h
    obtain ⟨a1, a2⟩ := widgetItemsFromXML_recorded H e.firstChild.toElement
      ((s.Q_ASSERT (decide (e.tagName = "item")) 587).Q_ASSERT
        (decide (e.childCount = 1)) 588)
    obtain ⟨b1, b2⟩ := addChildItems_recorded e
      (widgetItemsFromXML H e.firstChild.toElement
        ((s.Q_ASSERT (decide (e.tagName = "item")) 587).Q_ASSERT
          (decide (e.childCount = 1)) 588)).1 container
      (widgetItemsFromXML H e.firstChild.toElement
        ((s.Q_ASSERT (decide (e.tagName = "item")) 587).Q_ASSERT
          (decide (e.childCount = 1)) 588)).2
    simp only [ManagerState.Q_ASSERT_Views] at a1
    refine ⟨fun v hv => ?_, fun v hv => ?_⟩
    · rw [b1]
      exact a1 v hv
    · rw [b1]
      rcases b2 v hv with g | g
      · exact a1 v (hc v g)
      · exact a2 v g
  · split at h
    · cases h
    · rename_i s1 hp
      cases h
      obtain ⟨a1, -⟩ := hinner _ _ _ hp
      simp only [ManagerState.Q_ASSERT_Views] at a1
      exact ⟨a1, fun v hv => a1 v (hc v hv)⟩
    · rename_i item s1 hp
      cases h
      obtain ⟨a1, a2⟩ := hinner _ _ _ hp
      simp only [ManagerState.Q_ASSERT_Views] at a1
      obtain ⟨b1, b2⟩ := addChildItems_recorded e ([] ++ [item]) container s1
      refine ⟨fun v hv => ?_, fun v hv => ?_⟩
      · rw [b1]
        exact a1 v hv
      · rw [b1]
        rcases b2 v hv with g | g
        · exact a1 v (hc v g)
        · have g' : v ∈ item.views := by simpa [viewsOfItems] using g
          exact a2 item rfl v g'

theorem processElementWith_recorded (H : Hooks)
    (processLayout : QDomNode → ManagerState → Result QLayoutItem) (e : QDomNode)
    (hlayout : e.tagName = "layout" → ∀ s item s1, processLayout e s = .ok item s1 →
      (∀ v ∈ s.Views, v ∈ s1.Views) ∧ ∀ v ∈ item.views, v ∈ s1.Views)
    (s : ManagerState) (item : Option QLayoutItem) (s1 : ManagerState)
    (h : processElementWith H processLayout e s = .ok item s1) :
    (∀ v ∈ s.Views, v ∈ s1.Views) ∧ ∀ i, item = some i → ∀ v ∈ i.views, v ∈ s1.Views := by
  unfold processElementWith at h
  simp only [] at h
  split at h
  · rename_i ht
    cases hp : processLayout e (s.Q_ASSERT (!e.isNull) 481) with
    | crash s2 => rw [hp] at h; cases h
    | ok li s2 =>
      rw [hp] at h
      cases h
      obtain ⟨a1, a2⟩ := hlayout ht _ _ _ hp
      rw [ManagerState.Q_ASSERT_Views] at a1
      refine ⟨a1, ?_⟩
      intro i hi
      cases hi
      exact a2
  · cases h
    obtain ⟨a1, a2⟩ := widgetItemFromXML_recorded H e (s.Q_ASSERT (!e.isNull) 481)
    rw [ManagerState.Q_ASSERT_Views] at a1
    exact ⟨a1, a2⟩

theorem processLayoutElement_recorded_of (H : Hooks) (e : QDomNode)
    (hchildren : ∀ (container : QLayoutItem) (sizes : List Int) (s : ManagerState)
      (r : QLayoutItem × List Int) (s1 : ManagerState),
      (∀ v ∈ container.views, v ∈ s.Views) →
      processChildren H e.firstChild container sizes s = .ok r s1 →
      (∀ v ∈ s.Views, v ∈ s1.Views) ∧ ∀ v ∈ r.1.views, v ∈ s1.Views)
    (s : ManagerState) (item : QLayoutItem) (s1 : ManagerState)
    (h : processLayoutElement H e s = .ok item s1) :
    (∀ v ∈ s.Views, v ∈ s1.Views) ∧ ∀ v ∈ item.views, v ∈ s1.Views := by
  rw [processLayoutElement_eq] at h
  split at h
  · cases h
  · rename_i li s2 hl
    obtain ⟨a1, -, a3⟩ := layoutFromXML_views e _ li s2 hl
    rw [ManagerState.Q_ASSERT_Views] at a1
    split at h
    · cases h
    · rename_i r s3 hp
      cases h
      obtain ⟨b1, b2⟩ := hchildren _ _ _ _ _ (by rw [a3]; exact fun v hv => by cases hv) hp
      rw [a1] at b1
      exact ⟨b1, fun v hv => b2 v (by rw [applySplitSizes_views] at hv; exact hv)⟩

theorem process_recorded (n : QDomNode) :
    (∀ (H : Hooks) (s : ManagerState) (item : QLayoutItem) (s1 : ManagerState),
      processLayoutElement H n s = .ok item s1 →
      (∀ v ∈ s.Views, v ∈ s1.Views) ∧ ∀ v ∈ item.views, v ∈ s1.Views) ∧
    (∀ (H : Hooks) (container : QLayoutItem) (sizes : List Int) (s : ManagerState)
      (r : QLayoutItem × List Int) (s1 : ManagerState),
      (∀ v ∈ container.views, v ∈ s.Views) →
      processChildren H n container sizes s = .ok r s1 →
      (∀ v ∈ s.Views, v ∈ s1.Views) ∧ ∀ v ∈ r.1.views, v ∈ s1.Views) := by
  induction n with
  | null =>
    refine ⟨fun H s item s1 h => ?_, fun H c sizes s r s1 hc h => ?_⟩
    · refine processLayoutElement_recorded_of H .null ?_ s item s1 h
      intro c sizes s r s1 hc h
      rw [show QDomNode.null.firstChild = .null from rfl, processChildren_null] at h
      cases h
      exact ⟨fun v hv => hv, hc⟩
    · rw [processChildren_null] at h
      cases h
      exact ⟨fun v hv => hv, hc⟩
  | other next ih =>
    refine ⟨fun H s item s1 h => ?_, fun H c sizes s r s1 hc h => ?_⟩
    · refine processLayoutElement_recorded_of H (.other next) ?_ s item s1 h
      intro c sizes s r s1 hc h
      rw [show (QDomNode.other next).firstChild = .null from rfl, processChildren_null] at h
      cases h
      exact ⟨fun v hv => hv, hc⟩
    · rw [processChildren_other] at h
      exact ih.2 H c sizes s r s1 hc h
  | element tag attrs fc next ihc ihn =>
    refine ⟨fun H s item s1 h => ?_, fun H c sizes s r s1 hc h => ?_⟩
    · refine processLayoutElement_recorded_of H (.element tag attrs fc next) ?_ s item s1 h
      intro c sizes s r s1 hc h
      exact ihc.2 H c sizes s r s1 hc h
    · rw [processChildren_element] at h
      cases hp : processItemElement H (.element tag attrs fc next) c s with
      | crash s2 => rw [hp] at h; cases h
      | ok c2 s2 =>
        rw [hp] at h
        simp only [] at h
        obtain ⟨a1, a2⟩ := processItemElementWith_recorded H _ (.element tag attrs fc next)
          (by
            intro s item s1 hq
            refine processElementWith_recorded H (processLayoutElement H) _ ?_ s item s1 hq
            intro ht s item s1 hq
            have ht' : fc.toElement.tagName = "layout" := ht
            cases fc with
            | element t a c n => exact ihc.1 H s item s1 hq
            | null => simp [QDomNode.toElement, QDomNode.tagName] at ht'
            | other n => simp [QDomNode.toElement, QDomNode.tagName] at ht')
          c s hc c2 s2 hp
        obtain ⟨b1, b2⟩ := ihn.2 H c2 _ s2 r s1 a2 h
        exact ⟨fun v hv => b1 v (a1 v hv), b2⟩

theorem ManagerState.setLayout_layoutItems (s : ManagerState) (w : QWidgetPtr)
    (l : QLayoutItem) :
    (s.setLayout w l).Views = s.Views ∧ (s.setLayout w l).Viewports = s.Viewports ∧
      ∀ w', (s.setLayout w l).layoutItems w' = s.layoutItems w' ∨
        (s.setLayout w l).layoutItems w' = l.items := by
  unfold ManagerState.setLayout
  cases h : s.layout w with
  | some l0 => exact ⟨rfl, rfl, fun _ => Or.inl rfl⟩
  | none =>
    refine ⟨rfl, rfl, ?_⟩
    intro w'
    by_cases hw : w' = w
    · right
      subst hw
      simp [ManagerState.layoutItems]
    · left
      simp [ManagerState.layoutItems, Function.update_noteq hw]

theorem viewsRecorded_of_eq {s s' : ManagerState} (h : ViewsRecorded s)
    (hv : ∀ v ∈ s.Views, v ∈ s'.Views) (hl : s'.layout = s.layout)
    (hp : s'.Viewports = s.Viewports) : ViewsRecorded s' := by
  intro w hw v hvw
  unfold ManagerState.isViewport at hw
  unfold ManagerState.layoutItems at hvw
  rw [hp] at hw
  rw [hl] at hvw
  exact hv v (h w hw v hvw)

theorem setupViewport_recorded (H : Hooks) (e : QDomNode) (name : String)
    (s s' : ManagerState) (htag : e.tagName = "layout")
    (h : ViewsRecorded s) (hok : setupViewport H e name s = .ok () s') :
    ViewsRecorded s' := by
  have hnull := (QDomNode.toElement_of_tagName htag (by decide)).2
  cases hvp : s.viewport name with
  | none =>
    rw [setupViewport_unregistered H e name s hnull hvp] at hok
    cases hok
    exact viewsRecorded_of_eq h (fun v hv => hv) rfl rfl
  | some vp =>
    rw [setupViewport_registered H e name s vp htag hvp] at hok
    have f0 : SameOutside (s.call (.setupViewport e name))
        (((s.call (.setupViewport e name)).Q_ASSERT (s.layout vp).isNone 384).Q_ASSERT
          (!e.isNull) 481) :=
      (SameOutside.Q_ASSERT _ _ _).trans (SameOutside.Q_ASSERT _ _ _)
    have f1 := (SameOutside.process e).1 H
      (((s.call (.setupViewport e name)).Q_ASSERT (s.layout vp).isNone 384).Q_ASSERT
        (!e.isNull) 481)
    cases hp : processLayoutElement H e
        (((s.call (.setupViewport e name)).Q_ASSERT (s.layout vp).isNone 384).Q_ASSERT
          (!e.isNull) 481) with
    | crash s1 => rw [hp] at hok; cases hok
    | ok item s1 =>
      rw [hp] at hok f1
      cases hok
      have f2 := (f0.trans f1).trans (SameOutside.Q_ASSERT s1 true 386)
      have hl2 : (s1.Q_ASSERT true 386).layout = s.layout := f2.layout
      have hp2 : (s1.Q_ASSERT true 386).Viewports = s.Viewports := f2.Viewports
      obtain ⟨a1, a2⟩ := (process_recorded e).1 H _ item s1 hp
      simp only [ManagerState.Q_ASSERT_Views] at a1
      have hmono : ∀ v ∈ s.Views, v ∈ s1.Views := fun v hv => a1 v hv
      have h1 : ViewsRecorded (s1.Q_ASSERT true 386) :=
        viewsRecorded_of_eq h hmono hl2 hp2
      obtain ⟨i1, i2, i3⟩ := ManagerState.setLayout_layoutItems (s1.Q_ASSERT true 386) vp
        (viewportLayout item)
      intro w hw v hv
      rw [i1]
      unfold ManagerState.isViewport at hw
      rw [i2] at hw
      rcases i3 w with g | g
      · rw [g] at hv
        exact h1 w hw v hv
      · rw [g, (viewportLayout_items item).2.2] at hv
        exact a2 v hv

theorem setupViewports_recorded (H : Hooks) (child : QDomNode) :
    ∀ (names : List String) (s : ManagerState) (names' : List String) (s' : ManagerState),
      ViewsRecorded s → setupViewports H child names s = .ok names' s' →
      ViewsRecorded s' := by
  induction child with
  | null =>
    intro names s names' s' h hok
    simp only [setupViewports] at hok
    cases hok
    exact h
  | other next ih =>
    intro names s names' s' h hok
    simp only [setupViewports] at hok
    exact ih names s names' s' h hok
  | element tag attrs fc next _ ih =>
    intro names s names' s' h hok
    rw [setupViewports] at hok
    simp only [] at hok
    split at hok
    · exact ih names (s.qWarning 318) names' s'
        (viewsRecorded_of_eq h (fun v hv => hv) rfl rfl) hok
    · rename_i ht
      have ht' : (QDomNode.element tag attrs fc next).tagName = "layout" := by
        simpa using ht
      split at hok
      · exact ih names (s.qWarning 324) names' s'
          (viewsRecorded_of_eq h (fun v hv => hv) rfl rfl) hok
      · split at hok
        · cases hok
        · rename_i u s1 hp
          exact ih _ s1 names' s' (setupViewport_recorded H _ _ s s1 ht' h hp) hok

theorem setupDocument_recorded (H : Hooks) (s : ManagerState) (names : List String)
    (s1 : ManagerState) (h : ViewsRecorded s) (hok : setupDocument H s = .ok names s1) :
    ViewsRecorded s1 := by
  unfold setupDocument at hok
  simp only [] at hok
  by_cases h1 : s.Layout.documentElement.tagName = "viewports"
  · rw [if_pos h1] at hok
    exact setupViewports_recorded H _ [] s names s1 h hok
  · rw [if_neg h1] at hok
    by_cases h2 : s.Layout.documentElement.tagName = "layout"
    · rw [if_pos h2] at hok
      split at hok
      · cases hok
      · rename_i u s2 hp
        cases hok
        exact setupViewport_recorded H _ _ s s1 h2 h hp
    · rw [if_neg h2] at hok
      cases hok
      exact viewsRecorded_of_eq h (fun v hv => hv) rfl rfl

theorem viewsRecorded_installed {s : ManagerState} (h : ViewsRecorded s) :
    ∀ v ∈ viewsOfItems s.installedItems, v ∈ s.Views := by
  intro v hv
  rw [mem_viewsOfItems] at hv
  obtain ⟨i, hi, hvi⟩ := hv
  obtain ⟨w, hw, hiw⟩ := s.mem_itemsOf _ i hi
  exact h w hw v ((mem_viewsOfItems v _).mpr ⟨i, hiw, hvi⟩)

theorem setupLayout_recorded (H : Hooks) (s0 s : ManagerState)
    (hlay : ∀ w, s0.isViewport w → s0.layout w = none)
    (hdoc : ¬ (s0.Layout.isNull = true ∨ s0.Layout.documentElement.isNull = true))
    (hok : setupLayout H s0 = .ok () s) :
    ∀ v ∈ viewsOfItems s.installedItems, v ∈ s.Views := by
  unfold setupLayout at hok
  rw [if_neg hdoc] at hok
  have hI : ViewsRecorded { s0 with Views := [], LayoutWidgets := [] } := by
    intro w hw v hv
    have hl : ManagerState.layoutItems { s0 with Views := [], LayoutWidgets := [] } w = [] := by
      unfold ManagerState.layoutItems
      rw [show ManagerState.layout { s0 with Views := [], LayoutWidgets := [] } w = none from
        hlay w hw]
    rw [hl] at hv
    cases hv
  split at hok
  · cases hok
  · rename_i names s1 hp
    cases hok
    have h1 := setupDocument_recorded H { s0 with Views := [], LayoutWidgets := [] } names s1
      hI hp
    have f := (updateViewportUsage_frame names s1.viewportNames s1).1
    exact viewsRecorded_installed (viewsRecorded_of_eq h1
      (fun v hv => by rw [f.Views]; exact hv) f.layout f.Viewports)

theorem refresh_recorded (fuel : Nat) (H : Hooks) (s0 : ManagerState) (r : Result Unit)
    (h : refresh fuel H s0 = some r)
    (hdoc : ¬ (s0.Layout.isNull = true ∨ s0.Layout.documentElement.isNull = true))
    (hok : r.isOk = true) :
    ∀ v ∈ viewsOfItems r.state.installedItems, v ∈ r.state.Views := by
  unfold refresh at h
  simp only [] at h
  obtain ⟨d1, -⟩ := disableUpdates_spec (s0.Viewports.map Prod.snd) [] s0
  split at h
  · cases h
  · rename_i sA hA
    obtain ⟨-, -, c3, c4, -⟩ := clearLayout_detached fuel _ sA hA
    have hLayout : sA.Layout = s0.Layout := c3.trans d1.Layout
    cases hs : setupLayout H sA with
    | crash s1 =>
      rw [hs] at h
      simp only [] at h
      cases h
      cases hok
    | ok u s1 =>
      rw [hs] at h
      simp only [] at h
      cases h
      have a1 := setupLayout_recorded H sA s1 c4 (by rw [hLayout]; exact hdoc) hs
      obtain ⟨r1, r2, -, -⟩ := restoreUpdates_frame
        (disableUpdates (s0.Viewports.map Prod.snd) [] s0).1 (s1.Viewports.map Prod.snd) s1
      have r3 := (restoreUpdates_spec
        (disableUpdates (s0.Viewports.map Prod.snd) [] s0).1 (s1.Viewports.map Prod.snd)
        s1).1.Viewports
      intro v hv
      have hi : (Result.ok () (restoreUpdates
          (disableUpdates (s0.Viewports.map Prod.snd) [] s0).1
          (s1.Viewports.map Prod.snd) s1)).state.installedItems = s1.installedItems :=
        ManagerState.installedItems_congr r2 r3
      rw [hi] at hv
      have hV : (Result.ok () (restoreUpdates
          (disableUpdates (s0.Viewports.map Prod.snd) [] s0).1
          (s1.Viewports.map Prod.snd) s1)).state.Views = s1.Views := r1
      rw [hV]
      exact a1 v hv

theorem setViewport_recorded (fuel : Nat) (H : Hooks) (viewport : Option QWidgetPtr)
    (name : String) (s0 : ManagerState) (r : Result Unit)
    (hne : viewport ≠ s0.viewport name)
    (h : setViewport fuel H viewport name s0 = some r)
    (hdoc : ¬ (s0.Layout.isNull = true ∨ s0.Layout.documentElement.isNull = true))
    (hok : r.isOk = true) :
    ∀ v ∈ viewsOfItems r.state.installedItems, v ∈ r.state.Views := by
  unfold setViewport at h
  simp only [] at h
  rw [if_neg hne] at h
  have key : ∀ s1 : ManagerState, s1.Layout = s0.Layout →
      refresh fuel H
        ({ s1 with Viewports := insertViewport name viewport s1.Viewports }.call
          .onViewportChanged) = some r →
      ∀ v ∈ viewsOfItems r.state.installedItems, v ∈ r.state.Views := by
    intro s1 e2 hr
    refine refresh_recorded fuel H _ r hr ?_ hok
    have eL : ({ s1 with Viewports := insertViewport name viewport s1.Viewports }.call
        .onViewportChanged).Layout = s0.Layout := e2
    rw [eL]
    exact hdoc
  cases ho : s0.viewport name with
  | none =>
    rw [ho] at h
    exact key s0 rfl h
  | some old =>
    rw [ho] at h
    simp only [] at h
    cases hc : clearLayoutOf fuel old s0 with
    | none => rw [hc] at h; cases h
    | some s1 =>
      rw [hc] at h
      simp only [] at h
      have t := SameOutsideTeardown.clearLayoutOf fuel old s0 s1 hc
      obtain ⟨-, f2, -⟩ := detachViews_frame old s1.Views s1
      exact key _ (f2.trans t.Layout) h

/-! ## The teardown forgets the widgets that the manager made -/

theorem ReadyToClear.filtered_containers {s : ManagerState} {x : QLayoutItem}
    {rest : List QLayoutItem} {w : QWidgetPtr}
    (hr : ReadyToClear s (x :: rest)) (hw : x.widget? = some w) :
    ∀ i ∈ rest, i.widget? = some w → i.containers = [] := by
  have hn := hr.nodup
  simp only [containersOfItems] at hn
  intro i hi hiw
  rcases i.widget?_eq_some w hiw with hi1 | hi1
  · rw [hi1]
    rfl
  · exfalso
    have hwc : w ∈ containersOfItems rest :=
      (mem_containersOfItems w rest).mpr ⟨i, hi, hi1⟩
    rcases x.widget?_eq_some w hw with hx1 | hx1
    · refine hr.views w ?_ (hr.owned w ?_)
      · simp only [viewsOfItems, List.mem_append]
        exact Or.inl (by rw [hx1]; simp [QLayoutItem.views])
      · simp only [containersOfItems, List.mem_append]
        exact Or.inr hwc
    · exact (List.nodup_append.mp hn).2.2 hx1 hwc

theorem removed_past_head {s1 s' : ManagerState} {x : QLayoutItem}
    {rest : List QLayoutItem} (f : QLayoutItem → Bool)
    (hf : ∀ i ∈ rest, f i = false → i.containers = [])
    (t2 : TeardownStep s1 s')
    (r1 : ∀ p ∈ containersOfItems [x], p ∉ s1.LayoutWidgets)
    (r2 : ∀ p ∈ containersOfItems (rest.filter f), p ∉ s'.LayoutWidgets) :
    ∀ p ∈ containersOfItems (x :: rest), p ∉ s'.LayoutWidgets := by
  intro p hp
  simp only [containersOfItems, List.mem_append] at hp
  rcases hp with g | g
  · exact fun h => r1 p (by simpa [containersOfItems] using g) (t2.owned p h)
  · rw [mem_containersOfItems] at g
    obtain ⟨i, hi, hpi⟩ := g
    by_cases hfi : f i = true
    · exact r2 p ((mem_containersOfItems p _).mpr ⟨i, List.mem_filter.mpr ⟨hi, hfi⟩, hpi⟩)
    · rw [hf i hi (by simpa using hfi)] at hpi
      cases hpi

theorem removed_delete {s1 : ManagerState} {node : QLayoutItem} {sub : List QLayoutItem}
    {p : QWidgetPtr} (hcont : containersOfItems [node] = p :: containersOfItems sub)
    (hn : s1.LayoutWidgets.Nodup)
    (r1 : ∀ q ∈ containersOfItems sub, q ∉ s1.LayoutWidgets) :
    ({ s1 with LayoutWidgets := s1.LayoutWidgets.erase p }.deleteWidget p).LayoutWidgets.Nodup ∧
      ∀ q ∈ containersOfItems [node],
        q ∉ ({ s1 with LayoutWidgets := s1.LayoutWidgets.erase p }.deleteWidget
          p).LayoutWidgets := by
  refine ⟨hn.erase p, ?_⟩
  intro q hq hin
  have hin' : q ∈ s1.LayoutWidgets.erase p := hin
  rw [hcont] at hq
  rcases List.mem_cons.mp hq with g | g
  · rw [g] at hin'
    exact (hn.mem_erase_iff.mp hin').1 rfl
  · exact r1 q g (List.mem_of_mem_erase hin')

theorem clear_removes (fuel : Nat) :
    (∀ node s s', node.clearCost ≤ fuel → node.isLayout = false → ReadyToClear s [node] →
      s.LayoutWidgets.Nodup → clearWidget fuel node s = some s' →
      s'.LayoutWidgets.Nodup ∧ ∀ p ∈ containersOfItems [node], p ∉ s'.LayoutWidgets) ∧
    (∀ items s s', clearCostOfItems items ≤ fuel → ReadyToClear s items →
      s.LayoutWidgets.Nodup → clearItems fuel items s = some s' →
      s'.LayoutWidgets.Nodup ∧ ∀ p ∈ containersOfItems items, p ∉ s'.LayoutWidgets) ∧
    (∀ pages s s', clearCostOfItems pages ≤ fuel →
      pages.all (fun i => !i.isLayout) = true → ReadyToClear s pages →
      s.LayoutWidgets.Nodup → clearPages fuel pages s = some s' →
      s'.LayoutWidgets.Nodup ∧ ∀ p ∈ containersOfItems pages, p ∉ s'.LayoutWidgets) := by
  induction fuel with
  | zero =>
    refine ⟨?_, ?_, ?_⟩
    · intro node s s' h
      have := node.clearCost_pos
      omega
    · intro items s s' h
      have := clearCostOfItems_pos items
      omega
    · intro pages s s' h
      have := clearCostOfItems_pos pages
      omega
  | succ fuel ih =>
    obtain ⟨ihw, ihi, ihp⟩ := ih
    obtain ⟨retw, reti, retp⟩ := clear_returns fuel
    refine ⟨?_, ?_, ?_⟩
    · intro node s s' hc hl hr hnd h
      have hwf := hr.wellFormed
      simp only [wellFormedItems, Bool.and_true] at hwf
      cases node with
      | widgetItem wid =>
        cases wid with
        | none => simp [QLayoutItem.wellFormed] at hwf
        | some v =>
          have hv : v ∉ s.LayoutWidgets :=
            hr.views v (by simp [viewsOfItems, QLayoutItem.views])
          have e : clearWidget (fuel + 1) (.widgetItem (some v)) s =
              some ((s.setVisible v false).setParent v (s.viewportForWidget v)) := by
            rw [clearWidget]
            simp [QLayoutItem.widget?, hv]
          have hs := Option.some.inj (e.symm.trans h)
          rw [← hs]
          exact ⟨hnd, fun p hp => by simp [containersOfItems, QLayoutItem.containers] at hp⟩
      | boxLayout o m sp l => simp [QLayoutItem.isLayout] at hl
      | gridLayout m sp l c => simp [QLayoutItem.isLayout] at hl
      | splitter p o pages sizes =>
        simp only [QLayoutItem.wellFormed, Bool.and_eq_true] at hwf
        simp only [QLayoutItem.clearCost] at hc
        have hviews : viewsOfItems [QLayoutItem.splitter p o pages sizes] = viewsOfItems pages := by
          simp [viewsOfItems, QLayoutItem.views]
        have hcont : containersOfItems [QLayoutItem.splitter p o pages sizes] =
            p :: containersOfItems pages := by
          simp [containersOfItems, QLayoutItem.containers]
        obtain ⟨hp, hr1⟩ := ReadyToClear.inside hr
          (show (s.setVisible p false).LayoutWidgets = s.LayoutWidgets from rfl) hviews hcont hwf.1
        obtain ⟨s1, h1, -⟩ := retp pages (s.setVisible p false) (by omega) hwf.2 hr1
        obtain ⟨n1, r1⟩ := ihp pages (s.setVisible p false) s1 (by omega) hwf.2 hr1 hnd h1
        have e : clearWidget (fuel + 1) (.splitter p o pages sizes) s =
            some ({ s1 with LayoutWidgets := s1.LayoutWidgets.erase p }.deleteWidget p) := by
          rw [clearWidget]
          simp [QLayoutItem.widget?, hp, h1]
        have hs := Option.some.inj (e.symm.trans h)
        rw [← hs]
        exact removed_delete hcont n1 r1
      | tabWidget p pages labels =>
        simp only [QLayoutItem.wellFormed, Bool.and_eq_true] at hwf
        simp only [QLayoutItem.clearCost] at hc
        have hviews : viewsOfItems [QLayoutItem.tabWidget p pages labels] = viewsOfItems pages := by
          simp [viewsOfItems, QLayoutItem.views]
        have hcont : containersOfItems [QLayoutItem.tabWidget p pages labels] =
            p :: containersOfItems pages := by
          simp [containersOfItems, QLayoutItem.containers]
        obtain ⟨hp, hr1⟩ := ReadyToClear.inside hr
          (show s.LayoutWidgets = s.LayoutWidgets from rfl) hviews hcont hwf.1
        obtain ⟨s1, h1, -⟩ := retp pages s (by omega) hwf.2 hr1
        obtain ⟨n1, r1⟩ := ihp pages s s1 (by omega) hwf.2 hr1 hnd h1
        have e : clearWidget (fuel + 1) (.tabWidget p pages labels) s =
            some ({ s1 with LayoutWidgets := s1.LayoutWidgets.erase p }.deleteWidget p) := by
          rw [clearWidget]
          simp [QLayoutItem.widget?, hp, h1]
        have hs := Option.some.inj (e.symm.trans h)
        rw [← hs]
        exact removed_delete hcont n1 r1
      | widget p =>
        have hviews : viewsOfItems [QLayoutItem.widget p] = viewsOfItems [] := by
          simp [viewsOfItems, QLayoutItem.views]
        have hcont : containersOfItems [QLayoutItem.widget p] = p :: containersOfItems [] := by
          simp [containersOfItems, QLayoutItem.containers]
        obtain ⟨hp, -⟩ := ReadyToClear.inside hr
          (show s.LayoutWidgets = s.LayoutWidgets from rfl) hviews hcont (by simp [wellFormedItems])
        have e : clearWidget (fuel + 1) (.widget p) s =
            some ({ s with LayoutWidgets := s.LayoutWidgets.erase p }.deleteWidget p) := by
          rw [clearWidget]
          simp [QLayoutItem.widget?, hp]
        have hs := Option.some.inj (e.symm.trans h)
        rw [← hs]
        exact removed_delete hcont hnd (fun q hq => by cases hq)
      | widgetWithLayout p layout =>
        simp only [QLayoutItem.wellFormed, Bool.and_eq_true] at hwf
        simp only [QLayoutItem.clearCost] at hc
        have hviews : viewsOfItems [QLayoutItem.widgetWithLayout p layout] =
            viewsOfItems layout.items := by
          rw [layout.views_items hwf.1]
          simp [viewsOfItems, QLayoutItem.views]
        have hcont : containersOfItems [QLayoutItem.widgetWithLayout p layout] =
            p :: containersOfItems layout.items := by
          rw [layout.containers_items hwf.1]
          simp [containersOfItems, QLayoutItem.containers]
        obtain ⟨hp, hr1⟩ := ReadyToClear.inside hr
          (show s.LayoutWidgets = s.LayoutWidgets from rfl) hviews hcont
          (by rw [layout.wellFormed_items hwf.1]; exact hwf.2)
        have hc1 := layout.clearCost_items
        obtain ⟨s1, h1, -⟩ := reti layout.items s (by omega) hr1
        obtain ⟨n1, r1⟩ := ihi layout.items s s1 (by omega) hr1 hnd h1
        have e : clearWidget (fuel + 1) (.widgetWithLayout p layout) s =
            some ({ s1 with LayoutWidgets := s1.LayoutWidgets.erase p }.deleteWidget p) := by
          rw [clearWidget]
          simp [QLayoutItem.widget?, hp, h1]
        have hs := Option.some.inj (e.symm.trans h)
        rw [← hs]
        exact removed_delete hcont n1 r1
    · intro items s s' hc hr hnd h
      cases items with
      | nil =>
        rw [clearItems] at h
        cases h
        exact ⟨hnd, fun p hp => by cases hp⟩
      | cons x rest =>
        simp only [clearCostOfItems] at hc
        cases hxw : x.widget? with
        | some w =>
          have hxl : x.isLayout = false := by
            cases x <;> simp [QLayoutItem.widget?] at hxw <;> rfl
          obtain ⟨s1, h1, d1⟩ := retw x s (by omega) hxl hr.head
          obtain ⟨n1, r1⟩ := ihw x s s1 (by omega) hxl hr.head hnd h1
          have t1 := (TeardownStep.of_clear fuel).1 _ _ _ h1
          have hF := ReadyToClear.after_head (fun i => decide (i.widget? ≠ some w)) hr t1 d1
          have hcF := clearCostOfItems_filter (fun i => decide (i.widget? ≠ some w)) rest
          have h2 : clearItems fuel (rest.filter (fun i => decide (i.widget? ≠ some w))) s1
              = some s' := by
            rw [clearItems] at h
            simp only [hxw, h1] at h
            rw [List.filter_cons_of_neg (by simp [hxw])] at h
            exact h
          obtain ⟨n2, r2⟩ := ihi _ s1 s' (by omega) hF n1 h2
          have t2 := (TeardownStep.of_clear fuel).2.1 _ _ _ h2
          refine ⟨n2, removed_past_head _ ?_ t2 r1 r2⟩
          intro i hi hfi
          exact hr.filtered_containers hxw i hi (by simpa using hfi)
        | none =>
          have hwf := hr.head.wellFormed
          simp only [wellFormedItems, Bool.and_true] at hwf
          by_cases hxl : x.isLayout = true
          · have hr1 : ReadyToClear s x.items := by
              refine ⟨?_, ?_, ?_, ?_⟩
              · rw [x.wellFormed_items hxl]
                exact hwf
              · rw [x.containers_items hxl]
                simpa [containersOfItems] using hr.head.nodup
              · intro p hp
                rw [x.containers_items hxl] at hp
                exact hr.head.owned p (by simpa [containersOfItems] using hp)
              · intro v hv
                rw [x.views_items hxl] at hv
                exact hr.head.views v (by simpa [viewsOfItems] using hv)
            have hc1 := x.clearCost_items
            obtain ⟨s1, h1, d0⟩ := reti x.items s (by omega) hr1
            obtain ⟨n1, r0⟩ := ihi x.items s s1 (by omega) hr1 hnd h1
            have d1 : ViewsDetached s s1 [x] := by
              refine ⟨?_, ?_⟩
              · intro v hv
                exact d0.views v (by rw [x.views_items hxl]; simpa [viewsOfItems] using hv)
              · intro w hw hnot
                exact d0.kept w hw
                  (by rw [x.containers_items hxl]; simpa [containersOfItems] using hnot)
            have r1 : ∀ p ∈ containersOfItems [x], p ∉ s1.LayoutWidgets := by
              intro p hp
              exact r0 p (by rw [x.containers_items hxl]; simpa [containersOfItems] using hp)
            have t1 := (TeardownStep.of_clear fuel).2.1 _ _ _ h1
            have hF := ReadyToClear.after_head (fun _ => true) hr t1 d1
            rw [List.filter_true] at hF
            have h2 : clearItems fuel rest s1 = some s' := by
              rw [clearItems] at h
              simp only [hxw, hxl, h1] at h
              exact h
            obtain ⟨n2, r2⟩ := ihi rest s1 s' (by omega) hF n1 h2
            have t2 := (TeardownStep.of_clear fuel).2.1 _ _ _ h2
            exact ⟨n2, removed_past_head (fun _ => true) (fun i hi hfi => by cases hfi) t2 r1
              (by rw [List.filter_true]; exact r2)⟩
          · exfalso
            cases x <;>
              simp [QLayoutItem.widget?, QLayoutItem.isLayout, QLayoutItem.wellFormed]
                at hxw hxl hwf
            rw [hxw] at hwf
            simp at hwf
    · intro pages s s' hc hall hr hnd h
      cases pages with
      | nil =>
        rw [clearPages] at h
        cases h
        exact ⟨hnd, fun p hp => by cases hp⟩
      | cons page rest =>
        simp only [clearCostOfItems] at hc
        simp only [List.all_cons, Bool.and_eq_true, Bool.not_eq_true'] at hall
        have hwf := hr.head.wellFormed
        simp only [wellFormedItems, Bool.and_true] at hwf
        have hxw : ∃ w, page.widget? = some w := by
          cases hq : page.widget? with
          | some w => exact ⟨w, rfl⟩
          | none =>
            exfalso
            have hl := hall.1
            cases page <;>
              simp [QLayoutItem.widget?, QLayoutItem.isLayout, QLayoutItem.wellFormed]
                at hq hl hwf
            rw [hq] at hwf
            simp at hwf
        obtain ⟨w, hxw⟩ := hxw
        obtain ⟨s1, h1, d1⟩ := retw page s (by omega) hall.1 hr.head
        obtain ⟨n1, r1⟩ := ihw page s s1 (by omega) hall.1 hr.head hnd h1
        have t1 := (TeardownStep.of_clear fuel).1 _ _ _ h1
        have hF := ReadyToClear.after_head (fun i => decide (i.widget? ≠ some w)) hr t1 d1
        have hcF := clearCostOfItems_filter (fun i => decide (i.widget? ≠ some w)) rest
        have hallF : (rest.filter (fun i => decide (i.widget? ≠ some w))).all
            (fun i => !i.isLayout) = true := by
          rw [List.all_eq_true]
          intro i hi
          exact (List.all_eq_true.mp hall.2) i (List.mem_filter.mp hi).1
        have h2 : clearPages fuel (rest.filter (fun i => decide (i.widget? ≠ some w))) s1
            = some s' := by
          rw [clearPages] at h
          simp only [h1, hxw] at h
          rw [List.filter_cons_of_neg (by simp [hxw])] at h
          exact h
        obtain ⟨n2, r2⟩ := ihp _ s1 s' (by omega) hallF hF n1 h2
        have t2 := (TeardownStep.of_clear fuel).2.2 _ _ _ h2
        refine ⟨n2, removed_past_head _ ?_ t2 r1 r2⟩
        intro i hi hfi
        exact hr.filtered_containers hxw i hi (by simpa using hfi)

theorem clearLayoutOf_removes (fuel : Nat) (vp : QWidgetPtr) (s s' : ManagerState)
    (hc : clearCostOfItems (s.layoutItems vp) ≤ fuel)
    (hr : ReadyToClear s (s.layoutItems vp)) (hnd : s.LayoutWidgets.Nodup)
    (h : clearLayoutOf fuel vp s = some s') :
    s'.LayoutWidgets.Nodup ∧
      ∀ p ∈ containersOfItems (s.layoutItems vp), p ∉ s'.LayoutWidgets := by
  unfold ManagerState.layoutItems at hc hr ⊢
  unfold CTK.clearLayoutOf at h
  cases hl : s.layout vp with
  | none =>
    rw [hl] at h
    cases h
    exact ⟨hnd, fun p hp => by cases hp⟩
  | some layout =>
    rw [hl] at hc hr h
    simp only [] at hc hr h ⊢
    cases h1 : clearItems fuel layout.items s with
    | none => rw [h1] at h; cases h
    | some s1 =>
      rw [h1] at h
      cases h
      exact (clear_removes fuel).2.1 layout.items s s1 hc hr hnd h1

/-! ## The owned widgets are pairwise distinct -/

theorem layoutFromXML_LayoutWidgets (e : QDomNode) (s : ManagerState) :
    (layoutFromXML e s).2.LayoutWidgets = s.LayoutWidgets := by
  have hv := ManagerState.Q_ASSERT_LayoutWidgets s (decide (e.tagName = "layout")) 554
  unfold CTK.layoutFromXML
  simp only []
  split_ifs <;> exact hv

theorem setupView_LayoutWidgets (e : QDomNode) (view : Option QWidgetPtr) (s : ManagerState) :
    (setupView e view s).LayoutWidgets = s.LayoutWidgets := by
  cases view <;> rfl

theorem widgetItemFromXML_LayoutWidgets (H : Hooks) (e : QDomNode) (s : ManagerState) :
    (widgetItemFromXML H e s).2.LayoutWidgets = s.LayoutWidgets := by
  unfold widgetItemFromXML
  cases H.viewFromXML e <;> rfl

theorem widgetItemsLoop_LayoutWidgets (e : QDomNode) (views : List (Option QWidgetPtr)) :
    ∀ (res : List QLayoutItem) (s : ManagerState),
      (widgetItemsLoop e views res s).2.LayoutWidgets = s.LayoutWidgets := by
  induction views with
  | nil => intro res s; rfl
  | cons v vs ih =>
    intro res s
    exact (ih _ _).trans (setupView_LayoutWidgets e v s)

theorem widgetItemsFromXML_LayoutWidgets (H : Hooks) (e : QDomNode) (s : ManagerState) :
    (widgetItemsFromXML H e s).2.LayoutWidgets = s.LayoutWidgets := by
  unfold widgetItemsFromXML
  simp only []
  rw [widgetItemsLoop_LayoutWidgets, ManagerState.Q_ASSERT_LayoutWidgets]

theorem pageWidget_nodup (child : QLayoutItem) (s : ManagerState)
    (h : s.LayoutWidgets.Nodup) : (pageWidget child s).2.LayoutWidgets.Nodup := by
  unfold pageWidget
  split
  · exact h
  · simp only []
    split
    · exact h.insert
    · exact h.insert

theorem adopt_LayoutWidgets (w : QWidgetPtr) (p : QLayoutItem) (s : ManagerState) :
    (adopt w p s).LayoutWidgets = s.LayoutWidgets := by
  unfold CTK.adopt
  split <;> rfl

theorem addChildItemToLayout_nodup (e : QDomNode) (child container : QLayoutItem)
    (s : ManagerState) (h : s.LayoutWidgets.Nodup) :
    (addChildItemToLayout e child container s).2.LayoutWidgets.Nodup := by
  have hp := pageWidget_nodup child s h
  unfold addChildItemToLayout
  cases container <;> simp only [] <;>
    first
      | exact h
      | (rw [adopt_LayoutWidgets]; exact hp)

theorem addChildItems_nodup (e : QDomNode) (items : List QLayoutItem) :
    ∀ (container : QLayoutItem) (s : ManagerState), s.LayoutWidgets.Nodup →
      (addChildItems e items container s).2.LayoutWidgets.Nodup := by
  induction items with
  | nil => intro container s h; exact h
  | cons x xs ih =>
    intro container s h
    exact ih _ _ (addChildItemToLayout_nodup e x container s h)

theorem processItemElementWith_nodup (H : Hooks)
    (processInner : ManagerState → Result (Option QLayoutItem)) (e : QDomNode)
    (hinner : ∀ s, s.LayoutWidgets.Nodup → (processInner s).state.LayoutWidgets.Nodup)
    (container : QLayoutItem) (s : ManagerState) (h : s.LayoutWidgets.Nodup) :
    (processItemElementWith H processInner e container s).state.LayoutWidgets.Nodup := by
  unfold processItemElementWith
  simp only []
  have h0 : ((s.Q_ASSERT (decide (e.tagName = "item")) 587).Q_ASSERT
      (decide (e.childCount = 1)) 588).LayoutWidgets.Nodup := by
    simp only [ManagerState.Q_ASSERT_LayoutWidgets]
    exact h
  split
  · refine addChildItems_nodup e _ _ _ ?_
    rw [widgetItemsFromXML_LayoutWidgets]
    exact h0
  · have h1 := hinner _ h0
    split <;> rename_i hp <;> rw [hp] at h1
    · exact h1
    · exact h1
    · exact addChildItems_nodup e _ _ _ h1

theorem processElementWith_nodup (H : Hooks)
    (processLayout : QDomNode → ManagerState → Result QLayoutItem) (e : QDomNode)
    (hlayout : ∀ s, s.LayoutWidgets.Nodup → (processLayout e s).state.LayoutWidgets.Nodup)
    (s : ManagerState) (h : s.LayoutWidgets.Nodup) :
    (processElementWith H processLayout e s).state.LayoutWidgets.Nodup := by
  unfold processElementWith
  simp only []
  have h0 : (s.Q_ASSERT (!e.isNull) 481).LayoutWidgets.Nodup := by
    rw [ManagerState.Q_ASSERT_LayoutWidgets]
    exact h
  split
  · rw [Result.state_map]
    exact hlayout _ h0
  · show (widgetItemFromXML H e _).2.LayoutWidgets.Nodup
    rw [widgetItemFromXML_LayoutWidgets]
    exact h0

theorem processLayoutElement_nodup_of (H : Hooks) (e : QDomNode)
    (hchildren : ∀ (container : QLayoutItem) (sizes : List Int) (s : ManagerState),
      s.LayoutWidgets.Nodup →
      (processChildren H e.firstChild container sizes s).state.LayoutWidgets.Nodup)
    (s : ManagerState) (h : s.LayoutWidgets.Nodup) :
    (processLayoutElement H e s).state.LayoutWidgets.Nodup := by
  rw [processLayoutElement_eq]
  have h0 : (layoutFromXML e (s.Q_ASSERT (decide (e.tagName = "layout")) 497)).2.LayoutWidgets.Nodup
      := by
    rw [layoutFromXML_LayoutWidgets, ManagerState.Q_ASSERT_LayoutWidgets]
    exact h
  split
  · rename_i s1 hl
    rw [hl] at h0
    exact h0
  · rename_i li s1 hl
    rw [hl] at h0
    simp only [] at h0
    have h1 : (if li.isLayout then s1
              else
                match li.widget? with
                | some widget => { s1 with LayoutWidgets := s1.LayoutWidgets.insert widget }
                | none => s1).LayoutWidgets.Nodup := by
      split
      · exact h0
      · split
        · exact h0.insert
        · exact h0
    have h2 := hchildren (if li.isLayout then (li.setContentsMargins 0).setSpacing s1.Spacing
              else li) [] _ h1
    split <;> rename_i h4 <;> rw [h4] at h2 <;> exact h2

theorem process_nodup (n : QDomNode) :
    (∀ (H : Hooks) (s : ManagerState), s.LayoutWidgets.Nodup →
      (processLayoutElement H n s).state.LayoutWidgets.Nodup) ∧
    (∀ (H : Hooks) (container : QLayoutItem) (sizes : List Int) (s : ManagerState),
      s.LayoutWidgets.Nodup →
      (processChildren H n container sizes s).state.LayoutWidgets.Nodup) := by
  have hnull : ∀ (H : Hooks) (s : ManagerState), s.LayoutWidgets.Nodup →
      (processLayoutElement H .null s).state.LayoutWidgets.Nodup := by
    intro H s h
    refine processLayoutElement_nodup_of H .null ?_ s h
    intro c sizes s h
    exact h
  induction n with
  | null =>
    refine ⟨hnull, ?_⟩
    intro H c sizes s h
    rw [processChildren_null]
    exact h
  | other next ih =>
    refine ⟨fun H s h => processLayoutElement_nodup_of H _ ?_ s h, ?_⟩
    · intro c sizes s h
      exact h
    · intro H c sizes s h
      rw [processChildren_other]
      exact ih.2 H c sizes s h
  | element tag attrs fc next ihc ihn =>
    refine ⟨fun H s h =>
      processLayoutElement_nodup_of H (.element tag attrs fc next) (ihc.2 H) s h, ?_⟩
    intro H c sizes s h
    rw [processChildren_element]
    have h1 : (processItemElement H (.element tag attrs fc next) c s).state.LayoutWidgets.Nodup := by
      refine processItemElementWith_nodup H _ (.element tag attrs fc next) ?_ c s h
      intro s h
      refine processElementWith_nodup H (processLayoutElement H) _ ?_ s h
      intro s h
      show (processLayoutElement H fc.toElement s).state.LayoutWidgets.Nodup
      cases fc with
      | element t a c n => exact ihc.1 H s h
      | null => exact hnull H s h
      | other n => exact hnull H s h
    split
    · rename_i hp
      rw [hp] at h1
      exact h1
    · rename_i hp
      rw [hp] at h1
      exact ihn.2 H _ _ _ h1

theorem ManagerState.setLayout_LayoutWidgets (s : ManagerState) (w : QWidgetPtr)
    (l : QLayoutItem) : (s.setLayout w l).LayoutWidgets = s.LayoutWidgets := by
  unfold ManagerState.setLayout
  split <;> rfl

theorem setupViewport_nodup (H : Hooks) (e : QDomNode) (name : String) (s : ManagerState)
    (htag : e.tagName = "layout") (h : s.LayoutWidgets.Nodup) :
    (setupViewport H e name s).state.LayoutWidgets.Nodup := by
  have hnull := (QDomNode.toElement_of_tagName htag (by decide)).2
  cases hvp : s.viewport name with
  | none =>
    rw [setupViewport_unregistered H e name s hnull hvp]
    exact h
  | some vp =>
    rw [setupViewport_registered H e name s vp htag hvp]
    have h1 := (process_nodup e).1 H
      (((s.call (.setupViewport e name)).Q_ASSERT (s.layout vp).isNone 384).Q_ASSERT
        (!e.isNull) 481)
      (by
        simp only [ManagerState.Q_ASSERT_LayoutWidgets]
        exact h)
    cases hp : processLayoutElement H e
        (((s.call (.setupViewport e name)).Q_ASSERT (s.layout vp).isNone 384).Q_ASSERT
          (!e.isNull) 481) with
    | crash s1 =>
      rw [hp] at h1
      exact h1
    | ok item s1 =>
      rw [hp] at h1
      show ((s1.Q_ASSERT true 386).setLayout vp (viewportLayout item)).LayoutWidgets.Nodup
      rw [ManagerState.setLayout_LayoutWidgets]
      exact h1

theorem setupViewports_nodup (H : Hooks) (child : QDomNode) :
    ∀ (names : List String) (s : ManagerState), s.LayoutWidgets.Nodup →
      (setupViewports H child names s).state.LayoutWidgets.Nodup := by
  induction child with
  | null =>
    intro names s h
    simp only [setupViewports]
    exact h
  | other next ih =>
    intro names s h
    simp only [setupViewports]
    exact ih names s h
  | element tag attrs fc next _ ih =>
    intro names s h
    rw [setupViewports]
    simp only []
    split
    · exact ih names (s.qWarning 318) h
    · rename_i ht
      have ht' : (QDomNode.element tag attrs fc next).tagName = "layout" := by
        simpa using ht
      split
      · exact ih names (s.qWarning 324) h
      · have h1 := setupViewport_nodup H (.element tag attrs fc next)
          ((QDomNode.element tag attrs fc next).attr "name" "") s ht' h
        split
        · rename_i s1 hp
          rw [hp] at h1
          exact h1
        · rename_i u s1 hp
          rw [hp] at h1
          exact ih _ s1 h1

theorem setupDocument_nodup (H : Hooks) (s : ManagerState) (h : s.LayoutWidgets.Nodup) :
    (setupDocument H s).state.LayoutWidgets.Nodup := by
  unfold setupDocument
  simp only []
  by_cases h1 : s.Layout.documentElement.tagName = "viewports"
  · rw [if_pos h1]
    exact setupViewports_nodup H _ [] s h
  · rw [if_neg h1]
    by_cases h2 : s.Layout.documentElement.tagName = "layout"
    · rw [if_pos h2]
      have h3 := setupViewport_nodup H s.Layout.documentElement
        (s.Layout.documentElement.attr "name" "") s h2 h
      split
      · rename_i s1 hp
        rw [hp] at h3
        exact h3
      · rename_i u s1 hp
        rw [hp] at h3
        exact h3
    · rw [if_neg h2]
      exact h

theorem setupLayout_nodup (H : Hooks) (s : ManagerState)
    (hdoc : ¬ (s.Layout.isNull = true ∨ s.Layout.documentElement.isNull = true)) :
    (setupLayout H s).state.LayoutWidgets.Nodup := by
  unfold setupLayout
  rw [if_neg hdoc]
  have h1 := setupDocument_nodup H { s with Views := [], LayoutWidgets := [] } List.nodup_nil
  split
  · rename_i s1 hp
    rw [hp] at h1
    exact h1
  · rename_i names s1 hp
    rw [hp] at h1
    have f := (updateViewportUsage_frame names s1.viewportNames s1).1
    show (updateViewportUsage names s1.viewportNames s1).LayoutWidgets.Nodup
    rw [f.LayoutWidgets]
    exact h1

/-! ## When the assertion of `clearLayout()` holds -/

theorem clearLayoutOf_owned (fuel : Nat) (vp : QWidgetPtr) (s s' : ManagerState)
    (h : clearLayoutOf fuel vp s = some s') :
    ∀ p ∈ s'.LayoutWidgets, p ∈ s.LayoutWidgets := by
  unfold CTK.clearLayoutOf at h
  split at h
  · cases h
    exact fun p hp => hp
  · split at h
    · cases h
    · rename_i s1 h1
      cases h
      exact fun p hp => ((TeardownStep.of_clear fuel).2.1 _ _ _ h1).owned p hp

theorem clearViewports_nothing_owned (fuel : Nat) (vs : List (Option QWidgetPtr)) :
    ∀ (s s' : ManagerState), s.LayoutWidgets = [] → clearViewports fuel vs s = some s' →
      s'.failedAsserts = s.failedAsserts := by
  induction vs with
  | nil =>
    intro s s' _ h
    simp only [CTK.clearViewports] at h
    cases h
    rfl
  | cons v rest ih =>
    intro s s' he h
    cases v with
    | none =>
      simp only [CTK.clearViewports] at h
      exact ih s s' he h
    | some vp =>
      simp only [CTK.clearViewports] at h
      split at h
      · cases h
      · rename_i s1 hc
        have h1 : s1.LayoutWidgets = [] := by
          apply List.eq_nil_iff_forall_not_mem.mpr
          intro p hp
          have := clearLayoutOf_owned fuel vp s s1 hc p hp
          rw [he] at this
          cases this
        have h2 : s1.Q_ASSERT (decide (s1.LayoutWidgets.length = 0)) 289 = s1 := by
          rw [h1]
          rfl
        rw [h2] at h
        exact (ih s1 s' h1 h).trans (clearLayoutOf_failedAsserts fuel vp s s1 hc)

theorem clearViewports_assertion_holds (fuel : Nat) (vs : List (Option QWidgetPtr)) :
    ∀ (s s' : ManagerState), clearCostOfItems (s.itemsOf vs) ≤ fuel →
      ReadyToClear s (s.itemsOf vs) → (vs.reduceOption ≠ [] → s.LayoutWidgets.Nodup) →
      s.ownedInFirstOf vs →
      clearViewports fuel vs s = some s' → s'.failedAsserts = s.failedAsserts := by
  induction vs with
  | nil =>
    intro s s' _ _ _ _ h
    simp only [CTK.clearViewports] at h
    cases h
    rfl
  | cons v rest ih =>
    intro s s' hc hr hnd hfirst h
    cases v with
    | none =>
      simp only [CTK.clearViewports] at h
      exact ih s s' hc hr hnd hfirst h
    | some vp =>
      simp only [CTK.clearViewports] at h
      simp only [ManagerState.itemsOf] at hc hr
      have hfirst' : ∀ p ∈ s.LayoutWidgets, p ∈ containersOfItems (s.layoutItems vp) := by
        unfold ManagerState.ownedInFirstOf at hfirst
        rw [List.reduceOption_cons_of_some] at hfirst
        exact hfirst
      have hca := clearCostOfItems_append (s.layoutItems vp) (s.itemsOf rest)
      have hpos := clearCostOfItems_pos (s.itemsOf rest)
      split at h
      · cases h
      · rename_i s1 hc1
        obtain ⟨-, r1⟩ := clearLayoutOf_removes fuel vp s s1 (by omega) hr.left
          (hnd (by rw [List.reduceOption_cons_of_some]; exact List.cons_ne_nil _ _)) hc1
        have h1 : s1.LayoutWidgets = [] := by
          apply List.eq_nil_iff_forall_not_mem.mpr
          intro p hp
          exact r1 p (hfirst' p (clearLayoutOf_owned fuel vp s s1 hc1 p hp)) hp
        have h2 : s1.Q_ASSERT (decide (s1.LayoutWidgets.length = 0)) 289 = s1 := by
          rw [h1]
          rfl
        rw [h2] at h
        exact (clearViewports_nothing_owned fuel rest s1 s' h1 h).trans
          (clearLayoutOf_failedAsserts fuel vp s s1 hc1)

theorem setupLayout_owned_nodup (H : Hooks) (s0 s : ManagerState)
    (hlay : ∀ w, s0.isViewport w → s0.layout w = none)
    (hbuild : setupLayout H s0 = .ok () s) (hfirst : s.ownedInFirstViewport) :
    (s.Viewports.map Prod.snd).reduceOption ≠ [] → s.LayoutWidgets.Nodup := by
  intro hne
  by_cases hdoc : s0.Layout.isNull = true ∨ s0.Layout.documentElement.isNull = true
  · have hs : s = s0 := by
      unfold setupLayout at hbuild
      rw [if_pos hdoc] at hbuild
      cases hbuild
      rfl
    unfold ManagerState.ownedInFirstViewport ManagerState.ownedInFirstOf at hfirst
    cases hv : (s.Viewports.map Prod.snd).reduceOption with
    | nil => exact absurd hv hne
    | cons w rest =>
      rw [hv] at hfirst
      simp only [] at hfirst
      have hw : s0.isViewport w := by
        unfold ManagerState.isViewport
        rw [← hs, ← List.reduceOption_mem_iff, hv]
        exact List.mem_cons_self _ _
      have hl : s.layoutItems w = [] := by
        unfold ManagerState.layoutItems
        rw [hs, hlay w hw]
      rw [hl] at hfirst
      have he : s.LayoutWidgets = [] := by
        apply List.eq_nil_iff_forall_not_mem.mpr
        intro p hp
        have := hfirst p hp
        cases this
      rw [he]
      exact List.nodup_nil
  · have h1 := setupLayout_nodup H s0 hdoc
    rw [hbuild] at h1
    exact h1

theorem clearLayout_assertion_holds (fuel : Nat) (s s' : ManagerState)
    (hready : ReadyToClear s s.installedItems)
    (hfuel : clearCostOfItems s.installedItems ≤ fuel)
    (hnd : (s.Viewports.map Prod.snd).reduceOption ≠ [] → s.LayoutWidgets.Nodup)
    (hfirst : s.ownedInFirstViewport) (h : clearLayout fuel s = some s') :
    s'.failedAsserts = s.failedAsserts :=
  clearViewports_assertion_holds fuel (s.Viewports.map Prod.snd) s s' hfuel hready hnd hfirst h
/-! ## The claims -/

/-- C1: `layoutFromXML` selects the container from the `type` attribute (default
`horizontal`) and the `split` attribute (default `false`) alone: horizontal without split is a
horizontal box, horizontal with split a horizontal splitter, vertical without split a vertical
box, vertical with split a vertical splitter, `grid` a grid and `tab` a tab widget whatever
the split flag, and any other type gives a null item. -/
theorem layoutFromXML_selects_container (layoutElement : QDomNode) (s : ManagerState) :
    (layoutElement.attr "type" "horizontal" = "horizontal" →
      layoutElement.attr "split" "false" ≠ "true" →
      (layoutFromXML layoutElement s).1 = some (.boxLayout .Horizontal none none [])) ∧
    (layoutElement.attr "type" "horizontal" = "horizontal" →
      layoutElement.attr "split" "false" = "true" →
      (layoutFromXML layoutElement s).1 =
        some (.splitter (.created s.allocated) .Horizontal [] none)) ∧
    (layoutElement.attr "type" "horizontal" = "vertical" →
      layoutElement.attr "split" "false" ≠ "true" →
      (layoutFromXML layoutElement s).1 = some (.boxLayout .Vertical none none [])) ∧
    (layoutElement.attr "type" "horizontal" = "vertical" →
      layoutElement.attr "split" "false" = "true" →
      (layoutFromXML layoutElement s).1 =
        some (.splitter (.created s.allocated) .Vertical [] none)) ∧
    (layoutElement.attr "type" "horizontal" = "grid" →
      (layoutFromXML layoutElement s).1 = some (.gridLayout none none [] [])) ∧
    (layoutElement.attr "type" "horizontal" = "tab" →
      (layoutFromXML layoutElement s).1 = some (.tabWidget (.created s.allocated) [] [])) ∧
    (layoutElement.attr "type" "horizontal" ≠ "horizontal" →
      layoutElement.attr "type" "horizontal" ≠ "vertical" →
      layoutElement.attr "type" "horizontal" ≠ "grid" →
      layoutElement.attr "type" "horizontal" ≠ "tab" →
      (layoutFromXML layoutElement s).1 = none) ∧
    (∀ tag attrs firstChild next, attrs.lookup "type" = none → attrs.lookup "split" = none →
      (layoutFromXML (.element tag attrs firstChild next) s).1 =
        some (.boxLayout .Horizontal none none [])) := by
  refine ⟨?_, ?_, ?_, ?_, ?_, ?_, ?_, ?_⟩
  · intro h1 h2
    simp [layoutFromXML, h1, h2]
  · intro h1 h2
    simp [layoutFromXML, h1, h2, ManagerState.newWidget, ManagerState.Q_ASSERT]
    split <;> rfl
  · intro h1 h2
    simp [layoutFromXML, h1, h2]
  · intro h1 h2
    simp [layoutFromXML, h1, h2, ManagerState.newWidget, ManagerState.Q_ASSERT]
    split <;> rfl
  · intro h1
    simp [layoutFromXML, h1]
  · intro h1
    simp [layoutFromXML, h1, ManagerState.newWidget, ManagerState.Q_ASSERT]
    split <;> rfl
  · intro h1 h2 h3 h4
    simp [layoutFromXML, h1, h2, h3, h4]
  · intro tag attrs fc next h1 h2
    simp [layoutFromXML, QDomNode.attr, h1, h2]

/-- C1 at `<layout type="vertical" split="true"/>`, `<layout type="tab" split="true"/>` and
`<layout type="stack"/>` in a new manager. -/
theorem layoutFromXML_selects_container_witness :
    (layoutFromXML (.element "layout" [("type", "vertical"), ("split", "true")] .null .null)
        ManagerState.initial).1 = some (.splitter (.created 0) .Vertical [] none) ∧
    (layoutFromXML (.element "layout" [("type", "tab"), ("split", "true")] .null .null)
        ManagerState.initial).1 = some (.tabWidget (.created 0) [] []) ∧
    (layoutFromXML (.element "layout" [("type", "stack")] .null .null)
        ManagerState.initial).1 = none :=
  ⟨(layoutFromXML_selects_container _ _).2.2.2.1 (by decide) (by decide),
    (layoutFromXML_selects_container _ _).2.2.2.2.2.1 (by decide),
    (layoutFromXML_selects_container _ _).2.2.2.2.2.2.1 (by decide) (by decide) (by decide)
      (by decide)⟩

/-- C2 (the code does otherwise): for a `layout` element of unrecognized type the build does
not complete.  `processLayoutElement` dereferences the null item that `layoutFromXML`
returned (l.500), so `processLayoutElement`, `processElement` and, for a registered viewport,
`setupViewport` end there; when the element is the content of an item, the loop over the
items of the enclosing container ends there too and the items after it are not
interpreted. -/
theorem unrecognized_type_ends_build (H : Hooks) (layoutElement : QDomNode) (s : ManagerState)
    (htag : layoutElement.tagName = "layout")
    (h1 : layoutElement.attr "type" "horizontal" ≠ "vertical")
    (h2 : layoutElement.attr "type" "horizontal" ≠ "horizontal")
    (h3 : layoutElement.attr "type" "horizontal" ≠ "grid")
    (h4 : layoutElement.attr "type" "horizontal" ≠ "tab") :
    (processLayoutElement H layoutElement s).isOk = false ∧
    (processElement H layoutElement s).isOk = false ∧
    (∀ viewportName, (s.viewport viewportName).isSome →
      (setupViewport H layoutElement viewportName s).isOk = false) ∧
    (∀ tag attrs next container sizes,
      (QDomNode.element tag attrs layoutElement next).attr "multiple" "false" ≠ "true" →
      (processChildren H (.element tag attrs layoutElement next) container sizes s).isOk
        = false) := by
  have hp : ∀ s, (processElement H layoutElement s).isOk = false := by
    intro s
    unfold processElement processElementWith
    simp only [htag, if_true]
    rw [Result.eq_crash_of_isOk_false (processLayoutElement_unrecognized H layoutElement
      (s.Q_ASSERT (!layoutElement.isNull) 481) h1 h2 h3 h4)]
    rfl
  obtain ⟨helem, hnn⟩ := QDomNode.toElement_of_tagName htag (by decide)
  refine ⟨processLayoutElement_unrecognized H layoutElement s h1 h2 h3 h4, hp s, ?_, ?_⟩
  · intro viewportName hv
    unfold setupViewport
    simp only [hnn, Bool.false_eq_true, if_false]
    have hsame : (s.call (Call.setupViewport layoutElement viewportName)).viewport viewportName
        = s.viewport viewportName := rfl
    obtain ⟨vp, hvp⟩ := Option.isSome_iff_exists.mp hv
    rw [hsame, hvp]
    simp only []
    rw [Result.eq_crash_of_isOk_false (hp _)]
    rfl
  · intro tag attrs next container sizes hm
    rw [processChildren_element]
    unfold processItemElement processItemElementWith
    simp only [hm, if_false, QDomNode.firstChild, helem]
    rw [Result.eq_crash_of_isOk_false (hp _)]
    rfl

/-- C2 at `<layout type="carousel"/>`: as the content of the default viewport, and as the
content of the first of two items of a horizontal box. -/
theorem unrecognized_type_ends_build_witness :
    (setupViewport noViews (.element "layout" [("type", "carousel")] .null .null) ""
      (ManagerState.withDocument (.element "layout" [("type", "carousel")] .null .null))).isOk
      = false ∧
    (processChildren viewsById
      (itemElement [] (.element "layout" [("type", "carousel")] .null .null)
        (itemElement [] (viewElement "5" .null) .null))
      (.boxLayout .Horizontal none none []) [] ManagerState.initial).isOk = false :=
  ⟨(unrecognized_type_ends_build noViews _ _ (by decide) (by decide) (by decide) (by decide)
      (by decide)).2.2.1 "" (by decide),
    (unrecognized_type_ends_build viewsById _ _ (by decide) (by decide) (by decide) (by decide)
      (by decide)).2.2.2 "item" [] _ _ _ (by decide)⟩

/-- C3 (as stated, refuted): the horizontal split layout with the single item
`<item splitSize="-5">` collects the sizes `[-5]`, one of which is not zero, and
`processLayoutElement` completes without giving any sizes to the splitter. -/
theorem split_sizes_nonzero_not_applied :
    ∃ item s',
      processLayoutElement viewsById
        (.element "layout" [("type", "horizontal"), ("split", "true")]
          (itemElement [("splitSize", "-5")] (viewElement "5" .null) .null) .null)
        ManagerState.initial = .ok item s' ∧
      item.isSplitter = true ∧
      item.appliedSizes = none ∧
      splitSizesOf (.element "layout" [("type", "horizontal"), ("split", "true")]
          (itemElement [("splitSize", "-5")] (viewElement "5" .null) .null) .null) = [-5] ∧
      ∃ x ∈ splitSizesOf (.element "layout" [("type", "horizontal"), ("split", "true")]
          (itemElement [("splitSize", "-5")] (viewElement "5" .null) .null) .null), x ≠ 0 :=
  ⟨_, _, rfl, rfl, rfl, by decide, by decide⟩

/-- C3 (amended): let a split-type layout element (`type` horizontal or vertical, `split`
true) be such that every `layout` element reached in it has a recognized type and the
assertions of the build hold on it (`assertionsHold`: it is a `layout` element, its child
elements are `item`s with exactly one child node, an element, and an item with
`multiple="true"` resolves to at least one view; the same in the nested layouts).  Then
`processLayoutElement` completes without violating an assertion and gives to the splitter
the full list of the `splitSize` values of its child elements, in document order, if and
only if one of the values is positive (greater than 0); when none is positive no sizes are
given.  When a reached layout type is not recognized the run does not complete (it ends at
the null dereference of l.500 and returns no container); a container that is not a splitter
is never given sizes.  The list has one entry per child element, 0 for a child without the
attribute. -/
theorem split_sizes_applied_iff_positive (H : Hooks) (layoutElement : QDomNode)
    (s : ManagerState) :
    ((layoutElement.attr "type" "horizontal" = "vertical" ∨
          layoutElement.attr "type" "horizontal" = "horizontal") →
        layoutElement.attr "split" "false" = "true" →
        typesRecognized layoutElement = true →
        assertionsHold H layoutElement = true →
        ∃ item s', processLayoutElement H layoutElement s = .ok item s' ∧
          s'.failedAsserts = s.failedAsserts ∧
          item.isSplitter = true ∧
          (item.appliedSizes = some (splitSizesOf layoutElement) ↔
            ∃ x ∈ splitSizesOf layoutElement, 0 < x) ∧
          ((∀ x ∈ splitSizesOf layoutElement, x ≤ 0) → item.appliedSizes = none)) ∧
    (typesRecognized layoutElement = false →
      (processLayoutElement H layoutElement s).isOk = false) ∧
    (¬ ((layoutElement.attr "type" "horizontal" = "vertical" ∨
          layoutElement.attr "type" "horizontal" = "horizontal") ∧
        layoutElement.attr "split" "false" = "true") →
      ∀ item s', processLayoutElement H layoutElement s = .ok item s' →
        item.appliedSizes = none) ∧
    (splitSizesOf layoutElement).length = layoutElement.childElements.length ∧
    (∀ tag attrs firstChild next, attrs.lookup "splitSize" = none →
      toInt ((QDomNode.element tag attrs firstChild next).attr "splitSize" "0") = 0) := by
  refine ⟨?_, fun h => ((process_isOk layoutElement).1 H s).trans h, ?_, ?_, ?_⟩
  · intro htype hsplit hrec hassert
    have hok : (processLayoutElement H layoutElement s).isOk = true := by
      rw [(process_isOk layoutElement).1 H s, hrec]
    have hfa := (process_asserts layoutElement).1 H s hassert
    cases h : processLayoutElement H layoutElement s with
    | crash s1 => rw [h] at hok; cases hok
    | ok item s' =>
      rw [h] at hfa
      have h1 := processLayoutElement_appliedSizes H layoutElement s item s' h
      refine ⟨item, s', rfl, hfa, ?_, ?_, ?_⟩
      · rw [processLayoutElement_isSplitter H layoutElement s item s' h]
        exact decide_eq_true ⟨htype, hsplit⟩
      · rw [h1]
        constructor
        · intro h2
          by_contra hn
          rw [if_neg (fun hc => hn hc.2)] at h2
          cases h2
        · intro h2
          rw [if_pos ⟨⟨htype, hsplit⟩, h2⟩]
      · intro h2
        rw [h1, if_neg]
        rintro ⟨_, x, hx, hpos⟩
        exact absurd hpos (not_lt.mpr (h2 x hx))
  · intro hns item s' h
    rw [processLayoutElement_appliedSizes H layoutElement s item s' h, if_neg]
    exact fun hc => hns hc.1
  · simp [splitSizesOf]
  · intro tag attrs firstChild next h
    simp only [QDomNode.attr, h, Option.getD]
    decide

/-- C3 (amended) at the horizontal split layout with the items `<item splitSize="30">` and
`<item splitSize="70">`, each holding one view: the run completes, no assertion is violated
and the splitter is given the sizes `[30, 70]`. -/
theorem split_sizes_applied_iff_positive_witness :
    ∃ item s',
      processLayoutElement viewsById
        (.element "layout" [("type", "horizontal"), ("split", "true")]
          (itemElement [("splitSize", "30")] (viewElement "5" .null)
            (itemElement [("splitSize", "70")] (viewElement "6" .null) .null)) .null)
        ManagerState.initial = .ok item s' ∧
      s'.failedAsserts = [] ∧
      item.appliedSizes = some [30, 70] :=
  match (split_sizes_applied_iff_positive viewsById
      (.element "layout" [("type", "horizontal"), ("split", "true")]
        (itemElement [("splitSize", "30")] (viewElement "5" .null)
          (itemElement [("splitSize", "70")] (viewElement "6" .null) .null)) .null)
      ManagerState.initial).1 (by decide) (by decide) (by decide) (by decide) with
  | ⟨item, s', h, hfa, _, hiff, _⟩ => ⟨item, s', h, hfa, hiff.mpr (by decide)⟩

/-- C4 (the code does otherwise): in the document `carouselFirstDocument` the root is
`viewports` and its `layout` children carry the names `a` and `b`, both registered viewports,
so that each name is the first of its kind.  The content of the child `a` has an unrecognized
type: `setupViewport` is called for it and the build ends at the null dereference of l.500,
inside the first pass of the loop of `setupLayout` (l.307-329).  The child `b`, whose name is
another one, is never passed to `setupViewport`, and the viewport `b` gets no layout. -/
theorem later_viewport_never_processed :
    carouselFirstDocument.tagName = "viewports" ∧
    (layoutChildren carouselFirstDocument).map (fun e => e.attr "name" "") = ["a", "b"] ∧
    (firstPerName (layoutChildren carouselFirstDocument)).map (fun e => e.attr "name" "")
      = ["a", "b"] ∧
    (ManagerState.withTwoViewports carouselFirstDocument).viewport "a" = some (.external 0) ∧
    (ManagerState.withTwoViewports carouselFirstDocument).viewport "b" = some (.external 1) ∧
    (setupLayout noViews (ManagerState.withTwoViewports carouselFirstDocument)).isOk = false ∧
    (setupViewportCalls
      (setupLayout noViews (ManagerState.withTwoViewports carouselFirstDocument)).state.calls).map
      Prod.snd = ["a"] ∧
    ((setupLayout noViews (ManagerState.withTwoViewports carouselFirstDocument)).state.layout
      (.external 1)).isSome = false ∧
    (setupLayout noViews
      (ManagerState.withTwoViewports carouselFirstDocument)).state.failedAsserts = [] := by
  refine ⟨by decide, by decide, by decide, by decide, by decide, by decide, by decide,
    by decide, by decide⟩

/-- What holds of the loop over the children of a root `viewports` in general: the calls of
`setupViewport` are, in document order, an initial part of the list of the `layout` children
that are the first to carry their name (`firstPerName`: at most one element per name, the
one before which no `layout` child has the same name, and every name of a `layout` child is
among them), and the whole list when `setupLayout` completes, which it does unless a
registered viewport is given an unrecognized layout type. -/
theorem setupLayout_viewports_once_per_name (H : Hooks) (s : ManagerState)
    (hroot : s.Layout.documentElement.tagName = "viewports") :
    (∃ added notCalled,
      (setupLayout H s).state.calls = s.calls ++ added ∧
      setupViewportCalls added ++ notCalled =
        (firstPerName (layoutChildren s.Layout.documentElement)).map
          (fun e => (e, e.attr "name" "")) ∧
      ((setupLayout H s).isOk = true → notCalled = [])) ∧
    (setupLayout H s).isOk =
      (firstPerName (layoutChildren s.Layout.documentElement)).all
        (fun e => (s.viewport (e.attr "name" "")).isNone || typesRecognized e) ∧
    ((firstPerName (layoutChildren s.Layout.documentElement)).map
      (fun e => e.attr "name" "")).Nodup ∧
    (firstPerName (layoutChildren s.Layout.documentElement)).Sublist
      (layoutChildren s.Layout.documentElement) ∧
    (∀ before e after, layoutChildren s.Layout.documentElement = before ++ e :: after →
      (∀ x ∈ before, x.attr "name" "" ≠ e.attr "name" "") →
      e ∈ firstPerName (layoutChildren s.Layout.documentElement)) ∧
    (∀ e ∈ layoutChildren s.Layout.documentElement,
      ∃ e' ∈ firstPerName (layoutChildren s.Layout.documentElement),
        e'.attr "name" "" = e.attr "name" "") := by
  refine ⟨?_, ?_, firstPerName_names_nodup _, firstPerName_sublist _, ?_, firstPerName_covers _⟩
  · rw [setupLayout_viewports H s hroot]
    obtain ⟨-, -, ⟨done, rest, h1, h2, h3⟩, -⟩ := setupViewports_spec H
      s.Layout.documentElement.firstChild [] { s with Views := [], LayoutWidgets := [] }
    rw [viewportElements_nil_names] at h1
    cases hp : setupViewports H s.Layout.documentElement.firstChild []
        { s with Views := [], LayoutWidgets := [] } with
    | crash s1 =>
      rw [hp] at h2
      refine ⟨done.map (fun e => Call.setupViewport e (e.attr "name" "")),
        rest.map (fun e => (e, e.attr "name" "")), h2, ?_, fun h => by cases h⟩
      rw [setupViewportCalls_setupViewport, ← List.map_append, ← h1]
      rfl
    | ok names s1 =>
      rw [hp] at h2
      simp only [Result.state] at h2
      obtain ⟨h4, -⟩ := h3 names s1 hp
      obtain ⟨-, changed, h5⟩ := updateViewportUsage_frame names s1.viewportNames s1
      refine ⟨done.map (fun e => Call.setupViewport e (e.attr "name" "")) ++
        changed.map Call.onViewportUsageChanged, [], ?_, ?_, fun _ => rfl⟩
      · show (updateViewportUsage names s1.viewportNames s1).calls = _
        rw [h5, h2, List.append_assoc]
      · rw [setupViewportCalls_append, setupViewportCalls_setupViewport,
          setupViewportCalls_usage, List.append_nil, List.append_nil]
        rw [h4, List.append_nil] at h1
        rw [← h1]
        rfl
  · rw [setupLayout_viewports H s hroot]
    obtain ⟨-, -, -, h4⟩ := setupViewports_spec H
      s.Layout.documentElement.firstChild [] { s with Views := [], LayoutWidgets := [] }
    rw [viewportElements_nil_names] at h4
    cases hp : setupViewports H s.Layout.documentElement.firstChild []
        { s with Views := [], LayoutWidgets := [] } <;> rw [hp] at h4 <;> exact h4
  · intro before e after h1 h2
    rw [h1]
    exact firstPerName_mem_of_first before e after h2

/-- The loop at `duplicateNameDocument`, whose layout types are recognized, with the viewports
`a` and `b` registered: `setupViewport` is called for the first `layout` named `a` and for
the `layout` named `b`, not for the second `layout` named `a`. -/
theorem setupLayout_viewports_once_per_name_witness :
    (ManagerState.withTwoViewports duplicateNameDocument).Layout.documentElement.tagName
      = "viewports" ∧
    setupViewportCalls
      (setupLayout noViews (ManagerState.withTwoViewports duplicateNameDocument)).state.calls =
      [(.element "layout" [("name", "a")] .null
          (.element "layout" [("name", "b"), ("type", "tab")] .null
            (.element "layout" [("name", "a"), ("type", "grid")] .null .null)), "a"),
        (.element "layout" [("name", "b"), ("type", "tab")] .null
            (.element "layout" [("name", "a"), ("type", "grid")] .null .null), "b")] := by
  refine ⟨by decide, ?_⟩
  obtain ⟨⟨added, notCalled, h1, h2, h3⟩, h4, -⟩ :=
    setupLayout_viewports_once_per_name noViews
      (ManagerState.withTwoViewports duplicateNameDocument) (by decide)
  have h5 : notCalled = [] := h3 (h4.trans (by decide))
  rw [h5, List.append_nil] at h2
  rw [h1, setupViewportCalls_append, h2]
  decide

/-- C5 (as stated, refuted).  Replacing the viewport of the name `x` by a null pointer
(`setViewport(0, "x")`) leaves `x` registered with a null viewport.  In such a state, with the
document `<layout name="x"/>`, a refresh calls `onViewportUsageChanged("x")` once although
`isViewportUsedInLayout("x")` is false before and after it, and a second refresh calls it
once more.  Likewise, with one widget registered under the names `a` and `b` and the document
`<layout name="a"/>`, a refresh calls `onViewportUsageChanged` once for `a` and once for `b`
although `isViewportUsedInLayout` is false for both before and after. -/
theorem usage_notification_without_change :
    ((setViewport 1 noViews none "x" ManagerState.withViewportX).map fun r =>
        r.state.Viewports) = some ManagerState.withNullViewport.Viewports ∧
    ManagerState.withNullViewport.viewportNames = ["x"] ∧
    ((refresh 1 noViews ManagerState.withNullViewport).map fun r =>
        ([r.isOk, ManagerState.withNullViewport.isViewportUsedInLayout "x",
            r.state.isViewportUsedInLayout "x"],
          usageChangedCount "x" r.state.calls)) = some ([true, false, false], 1) ∧
    ((refresh 1 noViews ManagerState.withNullViewport).bind fun r =>
      (refresh 1 noViews r.state).map fun r2 =>
        ([r2.isOk, r2.state.isViewportUsedInLayout "x"],
          usageChangedCount "x" r2.state.calls)) = some ([true, false], 2) ∧
    ((refresh 1 noViews ManagerState.withSharedViewport).map fun r =>
        ([r.isOk, ManagerState.withSharedViewport.isViewportUsedInLayout "a",
            r.state.isViewportUsedInLayout "a",
            ManagerState.withSharedViewport.isViewportUsedInLayout "b",
            r.state.isViewportUsedInLayout "b"],
          [usageChangedCount "a" r.state.calls, usageChangedCount "b" r.state.calls])) =
      some ([true, false, false, false, false], [1, 1]) := by
  refine ⟨by decide, by decide, by decide, by decide, by decide⟩

/-- C5 (amended): in a manager state whose registered viewports are not null and pairwise
distinct (each registered name has its own widget), for every viewport name, `setupLayout`,
and so a refresh, calls `onViewportUsageChanged(name)` exactly once if
`isViewportUsedInLayout(name)` differs between before and after, and not at all if it is
unchanged; a second refresh after a refresh that completed calls it for no name. -/
theorem usage_notification_once_per_change (H : Hooks) (s : ManagerState)
    (hd : s.viewportsDistinct) :
    (∀ name, usageChangedCount name (setupLayout H s).state.calls =
      usageChangedCount name s.calls +
        if s.isViewportUsedInLayout name = (setupLayout H s).state.isViewportUsedInLayout name
        then 0 else 1) ∧
    (∀ fuel r name, refresh fuel H s = some r →
      usageChangedCount name r.state.calls =
        usageChangedCount name s.calls +
          if s.isViewportUsedInLayout name = r.state.isViewportUsedInLayout name
          then 0 else 1) ∧
    (∀ fuel s1 fuel2 r2 name, refresh fuel H s = some (.ok () s1) →
      refresh fuel2 H s1 = some r2 →
      usageChangedCount name r2.state.calls = usageChangedCount name s1.calls) := by
  have distinct_of : ∀ s' : ManagerState, SameRegistry s s' → s'.viewportsDistinct := by
    intro s' h
    unfold ManagerState.viewportsDistinct
    rw [h.Viewports]
    exact hd
  refine ⟨(setupLayout_usage_spec H s hd).2.1, ?_, ?_⟩
  · intro fuel r name h
    obtain ⟨sA, a1, a2, a3, a4, -⟩ := refresh_spec fuel H s r h
    have hA := (setupLayout_usage_spec H sA (distinct_of sA a1)).2.1 name
    have e1 := a1.isViewportUsedInLayout name
    have e2 := a3.isViewportUsedInLayout name
    rw [a4, hA, a2]
    simp only [e1, e2]
  · intro fuel s1 fuel2 r2 name h1 h2
    obtain ⟨sA, a1, -, a3, -, a5⟩ := refresh_spec fuel H s _ h1
    obtain ⟨sB, b1, b2, b3, b4, -⟩ := refresh_spec fuel2 H s1 r2 h2
    have a3' : SameRegistry (setupLayout H sA).state s1 := a3
    have a5' : (setupLayout H sA).isOk = true := a5.symm
    obtain ⟨p1, -, p3, -⟩ := setupLayout_usage_spec H sA (distinct_of sA a1)
    -- the registry of `sB` is that of `sA`, with the used-in-layout state left by the
    -- first refresh
    have hAB : SameRegistry { sA with usedInLayout := (setupLayout H sA).state.usedInLayout }
        sB := (p1.registry_trans a3').registry_trans b1
    have hdB : sB.viewportsDistinct := by
      unfold ManagerState.viewportsDistinct
      rw [hAB.Viewports]
      exact distinct_of sA a1
    obtain ⟨-, q2, q3, q4⟩ := setupLayout_usage_spec H sB hdB
    have hflag : sB.isViewportUsedInLayout name =
        (setupLayout H sB).state.isViewportUsedInLayout name := by
      by_cases hnull : sB.Layout.isNull = true ∨ sB.Layout.documentElement.isNull = true
      · exact ((q4 (Or.inr hnull)).isViewportUsedInLayout name).symm
      · cases hok : (setupLayout H sB).isOk with
        | false => exact ((q4 (Or.inl hok)).isViewportUsedInLayout name).symm
        | true =>
          have hLayout : sB.Layout = sA.Layout := hAB.Layout
          have hnullA : ¬ (sA.Layout.isNull = true ∨ sA.Layout.documentElement.isNull = true) := by
            rw [← hLayout]; exact hnull
          have hnames : sB.viewportNames = sA.viewportNames := by
            unfold ManagerState.viewportNames
            rw [hAB.Viewports]
          rw [q3 hok hnull name, hLayout, hnames, ← p3 a5' hnullA name]
          exact ((a3'.registry_trans b1).isViewportUsedInLayout name)
    rw [b4, q2 name, b2, if_pos hflag]
    rfl

/-- C5 (amended) at the manager with the viewports `a` and `b` and the document
`duplicateNameDocument`, for the name `a`. -/
theorem usage_notification_once_per_change_witness :
    (ManagerState.withTwoViewports duplicateNameDocument).viewportsDistinct ∧
    usageChangedCount "a"
        (setupLayout noViews (ManagerState.withTwoViewports duplicateNameDocument)).state.calls =
      usageChangedCount "a" (ManagerState.withTwoViewports duplicateNameDocument).calls +
        if (ManagerState.withTwoViewports duplicateNameDocument).isViewportUsedInLayout "a" =
            (setupLayout noViews
              (ManagerState.withTwoViewports duplicateNameDocument)).state.isViewportUsedInLayout
              "a"
        then 0 else 1 :=
  ⟨by decide,
    (usage_notification_once_per_change noViews
      (ManagerState.withTwoViewports duplicateNameDocument) (by decide)).1 "a"⟩

/-- C9 (the code does otherwise for `multiple="true"`).  Without `multiple`, an item whose
element is no `layout` and resolves to no view leaves the container and the view set
unchanged and the run completes.  With `multiple="true"` and the `viewsFromXML` of the base
class, `widgetItemsFromXML` wraps the null view in a `QWidgetItem` (l.692) and the item is
placed: a box or grid gets an item without widget, a tab widget or splitter gets a new empty
`QWidget` as page or pane, which joins the owned widgets. -/
theorem null_view_item_placed (viewFromXML : QDomNode → Option Nat) (tag : String)
    (attrs : List (String × String)) (viewElement next : QDomNode) (s : ManagerState)
    (hnull : viewFromXML viewElement.toElement = none)
    (hview : viewElement.toElement.tagName ≠ "layout") :
    ((QDomNode.element tag attrs viewElement next).attr "multiple" "false" ≠ "true" →
      ∀ layoutItem, ∃ s',
        processItemElement (Hooks.base viewFromXML) (.element tag attrs viewElement next)
          layoutItem s = .ok layoutItem s' ∧ s'.Views = s.Views ∧
          s'.LayoutWidgets = s.LayoutWidgets) ∧
    ((QDomNode.element tag attrs viewElement next).attr "multiple" "false" = "true" →
      (∀ o m sp items, ∃ s',
        processItemElement (Hooks.base viewFromXML) (.element tag attrs viewElement next)
          (.boxLayout o m sp items) s = .ok (.boxLayout o m sp (items ++ [.widgetItem none])) s' ∧
          s'.Views = s.Views) ∧
      (∀ m sp items cells, ∃ s' cell,
        processItemElement (Hooks.base viewFromXML) (.element tag attrs viewElement next)
          (.gridLayout m sp items cells) s =
            .ok (.gridLayout m sp (items ++ [.widgetItem none]) (cells ++ [cell])) s' ∧
          s'.Views = s.Views) ∧
      (∀ p pages labels, ∃ s' label,
        processItemElement (Hooks.base viewFromXML) (.element tag attrs viewElement next)
          (.tabWidget p pages labels) s =
            .ok (.tabWidget p (pages ++ [.widget (.created s.allocated)]) (labels ++ [label]))
              s' ∧
          s'.LayoutWidgets = s.LayoutWidgets.insert (.created s.allocated)) ∧
      (∀ p o pages sizes, ∃ s',
        processItemElement (Hooks.base viewFromXML) (.element tag attrs viewElement next)
          (.splitter p o pages sizes) s =
            .ok (.splitter p o (pages ++ [.widget (.created s.allocated)]) sizes) s' ∧
          s'.LayoutWidgets = s.LayoutWidgets.insert (.created s.allocated))) := by
  constructor
  · intro hm layoutItem
    unfold processItemElement processItemElementWith processElement processElementWith
      widgetItemFromXML
    simp only [hm, if_false, QDomNode.firstChild, hview, Hooks.base, hnull, Option.map]
    exact ⟨_, rfl, by unfold ManagerState.Q_ASSERT; split_ifs <;> rfl,
      by unfold ManagerState.Q_ASSERT; split_ifs <;> rfl⟩
  · intro hm
    have key := fun layoutItem => processItemElement_multiple_null viewFromXML
      (.element tag attrs viewElement next) layoutItem s hm hnull
    refine ⟨?_, ?_, ?_, ?_⟩
    · intro o m sp items
      exact ⟨_, key _, by simp [addChildItemToLayout]⟩
    · intro m sp items cells
      exact ⟨_, _, key _, by simp [addChildItemToLayout]⟩
    · intro p pages labels
      refine ⟨(addChildItemToLayout (.element tag attrs viewElement next) (.widgetItem none)
          (.tabWidget p pages labels)
          (((s.Q_ASSERT ((QDomNode.element tag attrs viewElement next).tagName = "item")
            587).Q_ASSERT ((QDomNode.element tag attrs viewElement next).childCount = 1)
            588).Q_ASSERT true 688)).2,
        (QDomNode.element tag attrs viewElement next).attr "name" "", ?_, ?_⟩
      · rw [key]
        simp [addChildItemToLayout, pageWidget, QLayoutItem.widget?, QLayoutItem.isLayout,
          ManagerState.newWidget]
      · simp [addChildItemToLayout, pageWidget, QLayoutItem.widget?, QLayoutItem.isLayout,
          adopt, ManagerState.newWidget, ManagerState.setParent]
    · intro p o pages sizes
      refine ⟨(addChildItemToLayout (.element tag attrs viewElement next) (.widgetItem none)
          (.splitter p o pages sizes)
          (((s.Q_ASSERT ((QDomNode.element tag attrs viewElement next).tagName = "item")
            587).Q_ASSERT ((QDomNode.element tag attrs viewElement next).childCount = 1)
            588).Q_ASSERT true 688)).2, ?_, ?_⟩
      · rw [key]
        simp [addChildItemToLayout, pageWidget, QLayoutItem.widget?, QLayoutItem.isLayout,
          ManagerState.newWidget]
      · simp [addChildItemToLayout, pageWidget, QLayoutItem.widget?, QLayoutItem.isLayout,
          adopt, ManagerState.newWidget, ManagerState.setParent]

/-- C9 at `<item multiple="true"><view/></item>` in an empty horizontal box, with a resolver
that has no view: the box gets an item without widget. -/
theorem null_view_item_placed_witness :
    ∃ s',
      processItemElement noViews
        (itemElement [("multiple", "true")] (.element "view" [] .null .null) .null)
        (.boxLayout .Horizontal (some 0) (some 0) []) ManagerState.initial =
        .ok (.boxLayout .Horizontal (some 0) (some 0) ([] ++ [.widgetItem none])) s' ∧
      s'.Views = ManagerState.initial.Views :=
  ((null_view_item_placed (fun _ => none) "item" [("multiple", "true")]
      (.element "view" [] .null .null) .null ManagerState.initial rfl (by decide)).2
    (by decide)).1 .Horizontal (some 0) (some 0) []

/-- C6 (the code does otherwise): `setupLayout` completes on the document `nullViewDocument`
with a resolver that has no view, and leaves the tab widget `created 0` in `LayoutWidgets`;
in the state reached `clearLayout()` does not return, whatever the fuel: the loop of the
private `clearLayout` (l.176-190) stays on the item without widget that the box holds first,
`LayoutWidgets` is never emptied and the tab widget is never deleted. -/
theorem clearLayout_never_returns :
    (setupLayout noViews (ManagerState.withDocument nullViewDocument)).isOk = true ∧
    (setupLayout noViews (ManagerState.withDocument nullViewDocument)).state.LayoutWidgets
      = [.created 0] ∧
    (setupLayout noViews (ManagerState.withDocument nullViewDocument)).state.deleted = [] ∧
    ∀ fuel,
      clearLayout fuel (setupLayout noViews (ManagerState.withDocument nullViewDocument)).state
        = none := by
  refine ⟨by decide, by decide, by decide, fun fuel => ?_⟩
  exact clearLayout_null_widgetItem fuel _ (.external 0)
    (.boxLayout .Horizontal (some 0) (some 0) [.widgetItem none, .tabWidget (.created 0) [] []])
    [.tabWidget (.created 0) [] []] (by decide) rfl rfl

/-- C8 (the code does otherwise): with the document `nullViewDocument` and a resolver that
has no view, a first `refresh()` completes, whatever the fuel, and a second `refresh()` in
the state reached does not return, whatever the fuel: its teardown stays on the item without
widget that the first refresh placed. -/
theorem second_refresh_never_returns (fuel fuel2 : Nat) :
    (refresh fuel noViews (ManagerState.withDocument nullViewDocument)).map Result.isOk
      = some true ∧
    ((refresh fuel noViews (ManagerState.withDocument nullViewDocument)).bind fun r =>
      refresh fuel2 noViews r.state) = none := by
  have h0 : refresh fuel noViews (ManagerState.withDocument nullViewDocument) =
      refresh 0 noViews (ManagerState.withDocument nullViewDocument) := rfl
  rw [h0]
  refine ⟨by decide, ?_⟩
  have hv : (refresh 0 noViews (ManagerState.withDocument nullViewDocument)).map
      (fun r => r.state.Viewports.map Prod.snd) = some [some (.external 0)] := by decide
  have hl : (refresh 0 noViews (ManagerState.withDocument nullViewDocument)).map
      (fun r => r.state.layout (.external 0)) =
      some (some (.boxLayout .Horizontal (some 0) (some 0)
        [.widgetItem none, .tabWidget (.created 0) [] []])) := rfl
  cases h : refresh 0 noViews (ManagerState.withDocument nullViewDocument) with
  | none => rfl
  | some r =>
    rw [h] at hv hl
    simp only [Option.map, Option.some.injEq] at hv hl
    exact refresh_null_widgetItem fuel2 noViews r.state (.external 0) _
      [.tabWidget (.created 0) [] []] hv hl rfl


/-- C12 (the code does otherwise): `LayoutWidgets` holds the widgets that the manager made
for all the viewports, and the assertion at l.289 is inside the loop over the viewports.
When the layouts of the registered viewports are ready for the teardown and a registered
viewport that is not null is followed, in the order of the names, by a viewport `w` whose
layout holds a widget `p` that the manager made, `clearLayout()` returns, for every fuel from
`clearCostOfItems` on, with the assertion violated: after the teardown of the first of the
two viewports `LayoutWidgets` still holds `p`. -/
theorem clearLayout_assertion_fails (s : ManagerState) (fuel : Nat)
    (pre rest : List (Option QWidgetPtr)) (vp w p : QWidgetPtr)
    (hvs : s.Viewports.map Prod.snd = pre ++ some vp :: rest)
    (hw : some w ∈ rest) (hp : p ∈ containersOfItems (s.layoutItems w))
    (hready : ReadyToClear s s.installedItems)
    (hfuel : clearCostOfItems s.installedItems ≤ fuel) :
    ∃ s', clearLayout fuel s = some s' ∧ 289 ∈ s'.failedAsserts := by
  obtain ⟨s', h, -⟩ := clearLayout_detaches_views s fuel hready hfuel
  refine ⟨s', h, ?_⟩
  unfold ManagerState.installedItems at hready hfuel
  unfold clearLayout at h
  rw [hvs] at hready hfuel h
  exact clearViewports_assert fuel vp w p rest hw pre s s' hready hfuel hp h

/-- C12 at the document `twoTabsDocument` built into the viewports `a` and `b`: the build
violates no assertion and leaves the two tab widgets in `LayoutWidgets`; the state is ready
for the teardown, and `clearLayout()` returns with the assertion at l.289 violated, once,
after the teardown of the viewport `a`. -/
theorem clearLayout_assertion_fails_witness :
    (setupLayout noViews (ManagerState.withTwoViewports twoTabsDocument)).isOk = true ∧
    (setupLayout noViews (ManagerState.withTwoViewports twoTabsDocument)).state.failedAsserts
      = [] ∧
    (setupLayout noViews (ManagerState.withTwoViewports twoTabsDocument)).state.LayoutWidgets
      = [.created 1, .created 0] ∧
    (clearLayout 7
        (setupLayout noViews (ManagerState.withTwoViewports twoTabsDocument)).state).map
      (fun s => s.failedAsserts) = some [289] ∧
    ∃ s', clearLayout 7
        (setupLayout noViews (ManagerState.withTwoViewports twoTabsDocument)).state = some s' ∧
      289 ∈ s'.failedAsserts :=
  ⟨by decide, by decide, by decide, by decide,
    clearLayout_assertion_fails
      (setupLayout noViews (ManagerState.withTwoViewports twoTabsDocument)).state 7
      [] [some (.external 1)] (.external 0) (.external 1) (.created 1) (by decide) (by decide)
      (by decide)
      (setupLayout_ready noViews (ManagerState.withTwoViewports twoTabsDocument) _
        (fun _ _ => rfl) (by decide) (by decide) (Result.eq_ok_of_isOk _ (by decide)))
      (by decide)⟩
end CTK
